import Mathlib

/-! # TQ2 savegame serializer: a shallow embedding of `serializer.js`

The reader (`UReader`) and the writer (`UWriter`) of the repository are embedded as
state-passing functions.

* a read buffer is a `List Nat` of bytes, the read cursor is an `Int` (the source adds
  sizes read from the file to `this.offset` without any check, so the cursor can leave
  the buffer and even become negative);
* a JavaScript string is the list of its UTF-16 code units;
* a thrown JavaScript exception is a `Fault`; the reader keeps the cursor reached at the
  point of the throw, because the `catch` blocks of the source depend on it;
* recursion of the decoder is bounded by a fuel argument.
-/

namespace TQ2

/-! ## Strings -/

/-- A JavaScript string: its UTF-16 code units. -/
abbrev JSString := List Nat

/-- The code units of a Lean string literal (used for the ASCII literals of the source). -/
def js (s : String) : JSString := s.data.map Char.toNat

/-- The constant `EMPTY_STR_AS_NULL_CHAR` of the source. -/
def EMPTY_STR_AS_NULL_CHAR : JSString := js "<empty>"

/-- The constant `WRITE_BUF_SIZE` of the source. -/
def WRITE_BUF_SIZE : Nat := 100000

/-- Decimal digits of `n` in front of `acc`, most significant first (`fuel` bounds the number
of digits). -/
def digitsCore : Nat → Nat → JSString → JSString
  | 0, _, acc => acc
  | fuel + 1, n, acc =>
    if n / 10 = 0 then (48 + n % 10) :: acc
    else digitsCore fuel (n / 10) ((48 + n % 10) :: acc)

/-- Decimal digits of a natural number, as code units (`String(n)` for `n ≥ 0`). -/
def natToJS (n : Nat) : JSString := digitsCore (n + 1) n []

/-- The value of `String(i)` for an integer number. -/
def intToJS (i : Int) : JSString :=
  if i < 0 then 45 :: natToJS (-i).toNat else natToJS i.toNat

/-! ## Faults -/

/-- What a JavaScript `throw` (or a process exit) carries in this embedding. -/
inductive Fault where
  /-- A `RangeError` raised by a `Buffer` read or write. -/
  | rangeError
  /-- A `TypeError` (calling or dereferencing `undefined`, a BigInt mix-up). -/
  | typeError
  /-- The `Error` thrown by `UBuffer.seek`. -/
  | seekError
  /-- The statement `throw 1`. -/
  | thrown1
  /-- The statement `throw "Bad offset"`. -/
  | badOffset
  /-- The statement `throw 'cascade'` (fail-fast without a `process` object). -/
  | cascade
  /-- The call `process.exit(1)`: no `catch` block sees it. -/
  | exit
  /-- Behaviour of the source that lies outside this embedding (fractional or `NaN`
  cursor arithmetic, prototype keys, values of a shape the reader never produces). -/
  | unmodelled
  /-- The fuel of the embedding ran out (not a behaviour of the source). -/
  | outOfFuel
  deriving DecidableEq, Repr

/-- Faults that a JavaScript `catch` block can observe. -/
def Fault.catchable : Fault → Bool
  | .exit => false
  | .unmodelled => false
  | .outOfFuel => false
  | _ => true

/-! ## Byte-level helpers (Node.js `Buffer`) -/

/-- Little-endian value of a byte list. -/
def leNat : List Nat → Nat
  | [] => 0
  | x :: xs => x + 256 * leNat xs

/-- The `n` little-endian bytes of a natural number. -/
def leBytes : Nat → Nat → List Nat
  | 0, _ => []
  | n + 1, v => v % 256 :: leBytes n (v / 256)

/-- Two's complement reading of a `bits`-bit pattern. -/
def toSigned (bits : Nat) (v : Nat) : Int :=
  if v < 2 ^ (bits - 1) then (v : Int) else (v : Int) - 2 ^ bits

/-- Two's complement pattern of an integer on `bits` bits. -/
def toUnsigned (bits : Nat) (i : Int) : Nat := (i % 2 ^ bits).toNat

/-- The bytes `[s, s + n)` of a buffer, for an in-range natural start. -/
def sliceNat (b : List Nat) (s n : Nat) : List Nat := (b.drop s).take n

/-- The helper `adjustOffset` of `Buffer.prototype.slice`: negative indices count from the
end, everything is clamped to `[0, length]`. -/
def adjustOffset (o : Int) (len : Nat) : Nat :=
  if o < 0 then (if 0 < o + len then (o + len).toNat else 0)
  else if o < len then o.toNat else len

/-- The method `buffer.slice(start, end)`. -/
def bufSlice (b : List Nat) (s e : Int) : List Nat :=
  let s' := adjustOffset s b.length
  let e' := adjustOffset e b.length
  sliceNat b s' (e' - s')

/-- The byte range that `buffer.toString(enc, start, end)` decodes: a start below 0 is 0,
a start at or beyond the length or an end at or before the start give the empty range, an end
beyond the length is the length. -/
def toStringRange (b : List Nat) (s e : Int) : List Nat :=
  let s' : Int := if s ≤ 0 then 0 else s
  if (b.length : Int) ≤ s' then []
  else
    let e' : Int := if (b.length : Int) < e then b.length else e
    if e' ≤ s' then [] else sliceNat b s'.toNat (e' - s').toNat

/-- State of the UTF-8 decoder between two bytes: bytes still needed, code point so far and
the admissible range of the next continuation byte. -/
structure Utf8State where
  needed : Nat
  cp : Nat
  lower : Nat
  upper : Nat

/-- UTF-16 code units of a Unicode scalar value. -/
def utf16Units (cp : Nat) : List Nat :=
  if cp < 65536 then [cp]
  else [55296 + (cp - 65536) / 1024, 56320 + (cp - 65536) % 1024]

/-- First byte of a UTF-8 sequence: the emitted code units and the pending state. -/
def utf8Lead (byte : Nat) : List Nat × Option Utf8State :=
  if byte < 128 then ([byte], none)
  else if 194 ≤ byte ∧ byte ≤ 223 then ([], some ⟨1, byte % 32, 128, 191⟩)
  else if 224 ≤ byte ∧ byte ≤ 239 then
    ([], some ⟨2, byte % 16, if byte = 224 then 160 else 128, if byte = 237 then 159 else 191⟩)
  else if 240 ≤ byte ∧ byte ≤ 244 then
    ([], some ⟨3, byte % 8, if byte = 240 then 144 else 128, if byte = 244 then 143 else 191⟩)
  else ([65533], none)

/-- One step of the UTF-8 decoder (ill-formed input gives U+FFFD per maximal subpart). -/
def utf8Step (st : Option Utf8State) (byte : Nat) : List Nat × Option Utf8State :=
  match st with
  | none => utf8Lead byte
  | some s =>
    if s.lower ≤ byte ∧ byte ≤ s.upper then
      let cp := s.cp * 64 + byte % 64
      if s.needed ≤ 1 then (utf16Units cp, none)
      else ([], some ⟨s.needed - 1, cp, 128, 191⟩)
    else
      let r := utf8Lead byte
      (65533 :: r.1, r.2)

/-- Decoder loop of `utf8Decode`. -/
def utf8Go : Option Utf8State → List Nat → List Nat
  | none, [] => []
  | some _, [] => [65533]
  | st, x :: xs => (utf8Step st x).1 ++ utf8Go (utf8Step st x).2 xs

/-- What `buffer.toString('utf8', ..)` makes of a byte range (library behaviour, not part of
the repository: ASCII bytes are code units, ill-formed sequences become U+FFFD). -/
def utf8Decode (bs : List Nat) : JSString := utf8Go none bs

/-- What `buffer.toString('utf16le', ..)` makes of a byte range. -/
def utf16leDecode : List Nat → JSString
  | lo :: hi :: rest => (lo + 256 * hi) :: utf16leDecode rest
  | _ => []

/-! ## The read cursor -/

/-- The fields `buffer` and `offset` of a `UReader`. -/
structure UReader where
  buffer : List Nat
  offset : Int
  deriving DecidableEq

/-- Outcome of an operation on a state `σ`: a value or a fault, and the state as it is at the
return or at the throw. -/
structure Res (σ α : Type) where
  out : Except Fault α
  st : σ

/-- An operation on a state `σ` that returns or throws. -/
def M (σ α : Type) : Type := σ → Res σ α

/-- Sequencing: a fault stops the sequence and keeps the state reached. -/
def M.bind {σ α β : Type} (m : M σ α) (f : α → M σ β) : M σ β := fun s =>
  match m s with
  | ⟨.ok a, s1⟩ => f a s1
  | ⟨.error e, s1⟩ => ⟨.error e, s1⟩

instance {σ : Type} : Monad (M σ) where
  pure a := fun s => ⟨.ok a, s⟩
  bind := M.bind

/-- The statement `throw`. -/
def M.fail {σ α : Type} (e : Fault) : M σ α := fun s => ⟨.error e, s⟩

/-- A `try { m } catch (err) { h }` block: only catchable faults reach the handler. -/
def M.tryCatch {σ α : Type} (m : M σ α) (h : Fault → M σ α) : M σ α := fun s =>
  match m s with
  | ⟨.ok a, s1⟩ => ⟨.ok a, s1⟩
  | ⟨.error e, s1⟩ => if e.catchable then h e s1 else ⟨.error e, s1⟩

/-- Outcome of a counted loop: the results of the completed iterations, the fault that
stopped it (if any) and the state reached. -/
structure LoopRes (σ α : Type) where
  done : List α
  fault : Option Fault
  st : σ

/-- A loop `for (let i = 0; i < n; i++) result[i] = m()`. -/
def loopM {σ α : Type} (m : M σ α) : Nat → σ → LoopRes σ α
  | 0, s => ⟨[], none, s⟩
  | n + 1, s =>
    match m s with
    | ⟨.ok a, s1⟩ =>
      let r := loopM m n s1
      ⟨a :: r.done, r.fault, r.st⟩
    | ⟨.error e, s1⟩ => ⟨[], some e, s1⟩

/-- A counted loop whose fault is rethrown. -/
def repeatM {σ α : Type} (m : M σ α) (n : Nat) : M σ (List α) := fun s =>
  match loopM m n s with
  | ⟨xs, none, s1⟩ => ⟨.ok xs, s1⟩
  | ⟨_, some e, s1⟩ => ⟨.error e, s1⟩

/-- A reader operation. -/
abbrev RM (α : Type) : Type := M UReader α

/-- The current value of `this.offset`. -/
def getOffset : RM Int := fun r => ⟨.ok r.offset, r⟩

/-- The statement `this.offset += n`. -/
def advance (n : Int) : RM Unit := fun r => ⟨.ok (), { r with offset := r.offset + n }⟩

/-- Method `UBuffer.seek` on a reader. -/
def UReader.seek (position : Int) : RM Unit := fun r =>
  if position < 0 ∨ (r.buffer.length : Int) ≤ position then ⟨.error .seekError, r⟩
  else ⟨.ok (), { r with offset := position }⟩

/-- The `Buffer` read of `n` bytes at `o` (`readUIntLE` family): a `RangeError` unless
`0 ≤ o` and `o + n ≤ length`. -/
def readLE (n : Nat) (o : Int) : RM Nat := fun r =>
  if 0 ≤ o ∧ o + n ≤ r.buffer.length then ⟨.ok (leNat (sliceNat r.buffer o.toNat n)), r⟩
  else ⟨.error .rangeError, r⟩

/-- Method `UReader.raw`. -/
def UReader.raw (size : Int) : RM (List Nat) := do
  advance size
  let o ← getOffset
  fun r => ⟨.ok (bufSlice r.buffer (o - size) o), r⟩

/-- Method `UReader.int8`. -/
def UReader.int8 : RM Int := do
  advance 1
  let o ← getOffset
  let v ← readLE 1 (o - 1)
  pure (toSigned 8 v)

/-- Method `UReader.uint8`. -/
def UReader.uint8 : RM Int := do
  advance 1
  let o ← getOffset
  let v ← readLE 1 (o - 1)
  pure (v : Int)

/-- Method `UReader.int16`. -/
def UReader.int16 : RM Int := do
  advance 2
  let o ← getOffset
  let v ← readLE 2 (o - 2)
  pure (toSigned 16 v)

/-- Method `UReader.uint16`. -/
def UReader.uint16 : RM Int := do
  advance 2
  let o ← getOffset
  let v ← readLE 2 (o - 2)
  pure (v : Int)

/-- Method `UReader.int32`. -/
def UReader.int32 : RM Int := do
  advance 4
  let o ← getOffset
  let v ← readLE 4 (o - 4)
  pure (toSigned 32 v)

/-- Method `UReader.uint32`. -/
def UReader.uint32 : RM Int := do
  advance 4
  let o ← getOffset
  let v ← readLE 4 (o - 4)
  pure (v : Int)

/-- Method `UReader.int64` (the result is a BigInt). -/
def UReader.int64 : RM Int := do
  advance 8
  let o ← getOffset
  let v ← readLE 8 (o - 8)
  pure (toSigned 64 v)

/-- Method `UReader.float`: the number read is represented by its 32-bit pattern. -/
def UReader.float : RM Nat := do
  advance 4
  let o ← getOffset
  readLE 4 (o - 4)

/-- Method `UReader.double`: the number read is represented by its 64-bit pattern. -/
def UReader.double : RM Nat := do
  advance 8
  let o ← getOffset
  readLE 8 (o - 8)

/-- Method `UReader.fstring`. -/
def UReader.fstring : RM JSString := do
  let size ← UReader.int32
  if 0 ≤ size then
    advance size
    if size = 1 then pure EMPTY_STR_AS_NULL_CHAR
    else
      let o ← getOffset
      fun r => ⟨.ok (utf8Decode (toStringRange r.buffer (o - size) (o - 1))), r⟩
  else
    let size2 := size * (-2)
    advance size2
    let o ← getOffset
    fun r => ⟨.ok (utf16leDecode (toStringRange r.buffer (o - size2) (o - 2))), r⟩

/-- Method `UBuffer.fname` on a reader. -/
def UReader.fname : RM JSString := UReader.fstring

/-- Method `UReader.isEOF`. -/
def UReader.isEOF (r : UReader) : Bool := r.offset == r.buffer.length

/-! ## Numbers, tags and decoded values -/

/-- A JavaScript number as far as the decoder needs it: an integer, or a value that is not one
(a fraction, `NaN` or an infinity, all of which only arise from the division of a size). -/
inductive JSNum where
  | int (n : Int)
  | nonInt
  deriving DecidableEq, Repr

/-- The expression `a - k` for an integer `k`. -/
def JSNum.subInt : JSNum → Int → JSNum
  | .int n, k => .int (n - k)
  | .nonInt, _ => .nonInt

/-- The expression `a / d` for an integer `d`. -/
def JSNum.divInt : JSNum → Int → JSNum
  | .int n, d => if d ≠ 0 ∧ n % d = 0 then .int (n / d) else .nonInt
  | .nonInt, _ => .nonInt

/-- The own fields of a property tag object that hold plain data. A field that the source has
not assigned (`undefined`) is `none`. -/
structure TagFields where
  Name : Option JSString := none
  Typ : Option JSString := none
  Size : Option JSNum := none
  ArrayIndex : Option Int := none
  StructName : Option JSString := none
  StructGuid : Option (List Int) := none
  bool_offset : Option Int := none
  BoolVal : Option Int := none
  EnumName : Option JSString := none
  InnerType : Option JSString := none
  ValueType : Option JSString := none
  HasPropertyGuid : Option Int := none
  PropertyGuid : Option (List Int) := none
  tag_offset : Option Int := none
  size_offset : Option Int := none
  data_offset : Option Int := none
  MapAsBuffer : Bool := false
  SetAsBuffer : Bool := false
  deriving DecidableEq, Repr

/-- A property tag object: its data fields and the tags stored in `InnerTag` and `ValueTag`. -/
inductive Tag where
  | mk (f : TagFields) (InnerTag : Option Tag) (ValueTag : Option Tag)

/-- Data fields of a tag. -/
def Tag.f : Tag → TagFields
  | .mk f _ _ => f

/-- Field `InnerTag` of a tag. -/
def Tag.InnerTag : Tag → Option Tag
  | .mk _ i _ => i

/-- Field `ValueTag` of a tag. -/
def Tag.ValueTag : Tag → Option Tag
  | .mk _ _ v => v

/-- The tag with other data fields. -/
def Tag.setF (t : Tag) (f : TagFields) : Tag := .mk f t.InnerTag t.ValueTag

/-- The assignment `tag.InnerTag = i`. -/
def Tag.setInner (t : Tag) (i : Tag) : Tag := .mk t.f (some i) t.ValueTag

/-- The assignment `tag.ValueTag = v`. -/
def Tag.setValue (t : Tag) (v : Tag) : Tag := .mk t.f t.InnerTag (some v)

/-- A tag object with data fields only. -/
def Tag.ofFields (f : TagFields) : Tag := .mk f none none

/-- A decoded value (a JavaScript value of the tree that the reader builds).
An array is given by its leading elements, the number of empty slots after them (a decode
that stops early leaves them) and its `buffer` property when the raw fallback has set one.
The numbers read by `float` and `double` are represented by their bit patterns. -/
inductive JSVal where
  | undefined
  | null
  | num (n : Int)
  | bigint (n : Int)
  | float (bits : Nat)
  | double (bits : Nat)
  | str (s : JSString)
  | buffer (bytes : List Nat)
  | array (elems : List JSVal) (holes : Nat) (buffer : Option (List Nat))
  | object (fields : List (JSString × JSVal))
  | props (tags : List Tag)

/-- An array without empty slots and without a `buffer` property. -/
def JSVal.arr (xs : List JSVal) : JSVal := .array xs 0 none

/-- The option `SerializerOptions.PropertiesKey`. -/
def PropertiesKey : JSString := js "__props__"

/-- The options and the host the decoder runs with: `SerializerOptions.EarlyExit`, and whether
a `process` object exists (Node.js) or not (browser). -/
structure Options where
  EarlyExit : Bool := false
  hasProcess : Bool := true

/-- Own-property lookup `obj[key]`. -/
def objGet : List (JSString × JSVal) → JSString → Option JSVal
  | [], _ => none
  | (k, v) :: rest, key => if k = key then some v else objGet rest key

/-- Own-property assignment `obj[key] = v`: an existing key keeps its place. -/
def objSet : List (JSString × JSVal) → JSString → JSVal → List (JSString × JSVal)
  | [], key, v => [(key, v)]
  | (k, w) :: rest, key, v => if k = key then (k, v) :: rest else (k, w) :: objSet rest key v

/-- Truthiness of an optional string field. -/
def truthyStr : Option JSString → Bool
  | some (_ :: _) => true
  | _ => false

/-- String concatenation `x + suffix` where `x` may be `undefined`. -/
def strPlus (x : Option JSString) (suffix : JSString) : JSString :=
  (x.getD (js "undefined")) ++ suffix

/-! ## Regular expressions of the source -/

/-- ASCII decimal digit. -/
def isDigit (c : Nat) : Bool := 48 ≤ c && c ≤ 57

/-- ASCII letter (the class `[a-z]` under the flag `i`). -/
def isAlpha (c : Nat) : Bool := (65 ≤ c && c ≤ 90) || (97 ≤ c && c ≤ 122)

/-- The class `[a-z:0-9_]` under the flag `i`. -/
def isNameChar (c : Nat) : Bool := isAlpha c || isDigit c || c == 58 || c == 95

/-- Whether the whole string is `[`, one or more digits, `]`. -/
def isBracketNum (s : JSString) : Bool :=
  match s with
  | 91 :: rest =>
    (match rest.reverse with
     | 93 :: revDigits => !revDigits.isEmpty && revDigits.all isDigit
     | _ => false)
  | _ => false

/-- The match of `/\[\d+\]$/`: the leftmost suffix of the string that is a bracketed number,
returned as the part before it and the match `m[0]`. -/
def matchArraySuffix : JSString → Option (JSString × JSString)
  | [] => none
  | c :: cs =>
    if isBracketNum (c :: cs) then some ([], c :: cs)
    else match matchArraySuffix cs with
      | some (pre, m) => some (c :: pre, m)
      | none => none

/-- Whether `p` is a prefix of `s`. -/
def startsWith (p s : JSString) : Bool := p.isPrefixOf s

/-- The character class `.` (anything but a line terminator). -/
def isDot (c : Nat) : Bool := !(c == 10 || c == 13 || c == 8232 || c == 8233)

/-- Whether `/(Bool|U?Int.?.?|Float|Double|Byte)Property/` matches at the start of `s`. -/
def fixedTypeAt (s : JSString) : Bool :=
  let prop := js "Property"
  let afterInt (t : JSString) : Bool :=
    startsWith prop t ||
    (match t with
     | a :: t1 => isDot a && (startsWith prop t1 ||
        (match t1 with
         | b :: t2 => isDot b && startsWith prop t2
         | [] => false))
     | [] => false)
  let intAt (t : JSString) : Bool :=
    startsWith (js "Int") t && afterInt (t.drop 3)
  startsWith (js "BoolProperty") s || startsWith (js "FloatProperty") s ||
  startsWith (js "DoubleProperty") s || startsWith (js "ByteProperty") s ||
  intAt s || (match s with
              | 85 :: t => intAt t
              | _ => false)

/-- The test `s.match(/(Bool|U?Int.?.?|Float|Double|Byte)Property/)`. -/
def isFixedType : JSString → Bool
  | [] => false
  | c :: cs => fixedTypeAt (c :: cs) || isFixedType cs

/-- The value of `s.indexOf(p)` when `p` occurs in `s`. -/
def indexOf (p : JSString) : JSString → Option Nat
  | [] => if p.isEmpty then some 0 else none
  | c :: cs =>
    if startsWith p (c :: cs) then some 0
    else (indexOf p cs).map (· + 1)

/-! ## Registry of native structs -/

/-- The serializer methods that the registry can name. -/
inductive Native where
  | FGuid | FGameplayTagContainer | FSoftObjectPath | FIntPoint | FLinearColor
  | fname | int64 | FSaveGameData | FTQ2FogOfWarPackedData | FGrimAppearanceHandle
  | FGrimItemInstanceHandle | FGrimPtr_IntClassNameProps | FGrimDialogueVariableValue
  deriving DecidableEq, Repr

/-- The table `NativeSerializedStructs` after all `registerNativeStruct` and
`registerNativeAlias` calls of the source. -/
def registry : List (String × Native) :=
  [ ("Guid", .FGuid), ("GameplayTagContainer", .FGameplayTagContainer),
    ("SoftObjectPath", .FSoftObjectPath), ("IntPoint", .FIntPoint),
    ("LinearColor", .FLinearColor), ("GameplayTag", .fname), ("DateTime", .int64),
    ("SaveGameData", .FSaveGameData), ("TQ2FogOfWarPackedData", .FTQ2FogOfWarPackedData),
    ("GrimAppearanceHandle", .FGrimAppearanceHandle),
    ("GrimItemInstanceHandle", .FGrimItemInstanceHandle),
    ("GrimInstancedAppearancePtr", .FGrimPtr_IntClassNameProps),
    ("GrimArchetypeInstancedBaseMeshEntrySelectorPtr", .FGrimPtr_IntClassNameProps),
    ("GrimArchetypeInstancedMaterialOverrideSelectorPtr", .FGrimPtr_IntClassNameProps),
    ("GrimDialogueVariablesSaveStatePtr", .FGrimPtr_IntClassNameProps),
    ("TQ2MasteryDescriptionPtr", .FSoftObjectPath),
    ("GrimItemDescriptionPtr", .FSoftObjectPath),
    ("TQ2MasteryDescriptionSoftPtr", .FSoftObjectPath),
    ("m_EquippedAppearances:ValueStructType", .FGrimAppearanceHandle),
    ("m_VisitedTorches:InnerStructType", .FGuid),
    ("m_CollectedItems:InnerStructType", .FSoftObjectPath),
    ("m_VariableValues:ValueStructType", .FGrimDialogueVariableValue) ]

/-- Names that the plain object `NativeSerializedStructs` inherits from `Object.prototype`:
the lookup is truthy for them but names no serializer method. -/
def protoKeys : List String :=
  [ "constructor", "__defineGetter__", "__defineSetter__", "hasOwnProperty",
    "__lookupGetter__", "__lookupSetter__", "isPrototypeOf", "propertyIsEnumerable",
    "toString", "valueOf", "__proto__", "toLocaleString" ]

/-- Result of the lookup `this.NativeSerializedStructs[name]`. -/
inductive Lookup where
  | native (n : Native)
  | inherited
  | absent

/-- The lookup `this.NativeSerializedStructs[tag.StructName]`. -/
def lookupStruct (name : Option JSString) : Lookup :=
  let key := name.getD (js "undefined")
  match registry.find? (fun e => js e.1 = key) with
  | some e => .native e.2
  | none => if protoKeys.any (fun k => js k = key) then .inherited else .absent

/-! ## The reader: tags -/

/-- Method `UBuffer.bool` on a reader. -/
def UReader.bool : RM Int := UReader.uint32

/-- Method `UBuffer.object` on a reader. -/
def UReader.object : RM JSString := UReader.fname

/-- Method `UBuffer.FGuid` on a reader. -/
def UReader.FGuid : RM (List Int) := do
  let a ← UReader.uint32
  let b ← UReader.uint32
  let c ← UReader.uint32
  let d ← UReader.uint32
  pure [a, b, c, d]

/-- The type-conditional part of `FPropertyTag` on a reader. -/
def UReader.tagExtras (ty : JSString) (f : TagFields) : RM TagFields :=
  if ty = js "StructProperty" then do
    let sn ← UReader.fname
    let g ← UReader.FGuid
    pure { f with StructName := some sn, StructGuid := some g }
  else if ty = js "BoolProperty" then do
    let bo ← getOffset
    let bv ← UReader.uint8
    pure { f with bool_offset := some bo, BoolVal := some bv }
  else if ty = js "ByteProperty" ∨ ty = js "EnumProperty" then do
    let en ← UReader.fname
    pure { f with EnumName := some en }
  else if ty = js "ArrayProperty" ∨ ty = js "SetProperty" then do
    let it ← UReader.fname
    pure { f with InnerType := some it }
  else if ty = js "MapProperty" then do
    let it ← UReader.fname
    let vt ← UReader.fname
    pure { f with InnerType := some it, ValueType := some vt }
  else pure f

/-- Method `UBuffer.FPropertyTag` on a reader (called without argument: a fresh tag object). -/
def UReader.FPropertyTag : RM Tag := do
  let tagOffset ← getOffset
  let name ← UReader.fname
  let f0 : TagFields := { tag_offset := some tagOffset, Name := some name }
  if name = js "None" then pure (Tag.ofFields f0)
  else do
    let ty ← UReader.fname
    let sizeOffset ← getOffset
    let size ← UReader.int32
    let idx ← UReader.int32
    let name1 := if 0 < idx then name ++ (js "[" ++ intToJS idx ++ js "]") else name
    let f1 : TagFields :=
      { f0 with Name := some name1, Typ := some ty, size_offset := some sizeOffset,
                Size := some (.int size), ArrayIndex := some idx }
    let f2 ← UReader.tagExtras ty f1
    let hpg ← UReader.uint8
    let f3 : TagFields := { f2 with HasPropertyGuid := some hpg }
    let f4 ← (if hpg ≠ 0 then do
                let g ← UReader.FGuid
                pure { f3 with PropertyGuid := some g }
              else pure f3)
    let dataOffset ← getOffset
    pure (Tag.ofFields { f4 with data_offset := some dataOffset })

/-- The plausibility test of `tryPropertyTag` on a decoded tag: `true` when the source
executes `throw 1`. -/
def tagImplausible (tag : Tag) (offset : Int) (outerOffsetLimit : Option Int) : Bool :=
  !truthyStr tag.f.Name ||
  (tag.f.Name != some (js "None") &&
    ((match outerOffsetLimit with
      | some l => decide (l ≤ offset)
      | none => false) ||
     !truthyStr tag.f.Typ ||
     (tag.f.Typ.getD []).any (fun c => !isAlpha c) ||
     (match indexOf (js "Property") (tag.f.Typ.getD []) with
      | some i => decide (i < 3)
      | none => true)))

/-- Method `UReader.tryPropertyTag`. The limit is `none` when the source computes `NaN`. -/
def UReader.tryPropertyTag (outerOffsetLimit : Option Int) : RM Bool := fun r =>
  let bkpOffset := r.offset
  let attempt : RM Bool := do
    let tag ← UReader.FPropertyTag
    let o ← getOffset
    if tagImplausible tag o outerOffsetLimit then M.fail .thrown1
    else do
      UReader.seek bkpOffset
      pure true
  M.tryCatch attempt (fun _ => do
    UReader.seek bkpOffset
    pure false) r

/-! ## The reader: values -/

/-- An object literal with ASCII keys. -/
def mkObj (l : List (String × JSVal)) : JSVal := .object (l.map (fun e => (js e.1, e.2)))

/-- State of a value codec: the tag object in hand (the source mutates it) and the reader or
writer. -/
structure TState (ρ : Type) where
  tag : Tag
  rd : ρ

/-- A value decode on a tag object. -/
abbrev TM (α : Type) : Type := M (TState UReader) α

/-- A reader or writer operation inside a value codec. -/
def liftR {ρ α : Type} (m : M ρ α) : M (TState ρ) α := fun s =>
  match m s.rd with
  | ⟨o, r⟩ => ⟨o, ⟨s.tag, r⟩⟩

/-- The tag object in hand. -/
def getTag {ρ : Type} : M (TState ρ) Tag := fun s => ⟨.ok s.tag, s⟩

/-- An assignment to data fields of the tag object in hand (`tag.X = ..`). -/
def modTag {ρ : Type} (g : TagFields → TagFields) : M (TState ρ) Unit := fun s =>
  ⟨.ok (), ⟨s.tag.setF (g s.tag.f), s.rd⟩⟩

/-- The assignment `tag.InnerTag = i` on the tag object in hand. -/
def setInnerTag {ρ : Type} (i : Tag) : M (TState ρ) Unit := fun s =>
  ⟨.ok (), ⟨s.tag.setInner i, s.rd⟩⟩

/-- The assignment `tag.ValueTag = v` on the tag object in hand. -/
def setValueTag {ρ : Type} (v : Tag) : M (TState ρ) Unit := fun s =>
  ⟨.ok (), ⟨s.tag.setValue v, s.rd⟩⟩

/-- Run a value codec on the object stored in `tag.InnerTag`, keeping its mutations. -/
def onInner {ρ α : Type} (m : M (TState ρ) α) : M (TState ρ) α := fun s =>
  match s.tag.InnerTag with
  | none => ⟨.error .typeError, s⟩
  | some it =>
    match m ⟨it, s.rd⟩ with
    | ⟨o, s1⟩ => ⟨o, ⟨s.tag.setInner s1.tag, s1.rd⟩⟩

/-- Run a value codec on the object stored in `tag.ValueTag`, keeping its mutations. -/
def onValue {ρ α : Type} (m : M (TState ρ) α) : M (TState ρ) α := fun s =>
  match s.tag.ValueTag with
  | none => ⟨.error .typeError, s⟩
  | some vt =>
    match m ⟨vt, s.rd⟩ with
    | ⟨o, s1⟩ => ⟨o, ⟨s.tag.setValue s1.tag, s1.rd⟩⟩

/-- The assignment `result.length = n` followed by the use of `n` as a loop bound: a negative
length is a `RangeError`. -/
def arrayLength {σ : Type} (n : Int) : M σ Nat :=
  if n < 0 then M.fail .rangeError else pure n.toNat

/-- Method `UBuffer.tarray` on a reader, for an inner serializer that exists. -/
def UReader.tarray (inner : RM JSVal) : RM JSVal := do
  let size ← UReader.uint32
  let xs ← repeatM inner size.toNat
  pure (.arr xs)

/-- Method `UBuffer.tarray` on a reader for an inner type name that names no method
(`'TScriptDelegate'`): the first iteration calls `undefined`. -/
def UReader.tarrayMissing : RM JSVal := do
  let size ← UReader.uint32
  if size = 0 then pure (.arr []) else M.fail .typeError

/-- Method `UBuffer.FSoftObjectPath` on a reader. -/
def UReader.FSoftObjectPath : RM JSVal := do
  let p ← UReader.fstring
  let a ← UReader.fname
  let sp ← UReader.fstring
  pure (mkObj [("PackageName", .str p), ("AssetName", .str a), ("SubPathString", .str sp)])

/-- Method `UBuffer.FIntPoint` on a reader. -/
def UReader.FIntPoint : RM JSVal := do
  let x ← UReader.int32
  let y ← UReader.int32
  pure (mkObj [("X", .num x), ("Y", .num y)])

/-- Method `UBuffer.FLinearColor` on a reader. -/
def UReader.FLinearColor : RM JSVal := do
  let r ← UReader.float
  let g ← UReader.float
  let b ← UReader.float
  let a ← UReader.float
  pure (mkObj [("R", .float r), ("G", .float g), ("B", .float b), ("A", .float a)])

/-- Method `UBuffer.FGameplayTagContainer` on a reader. -/
def UReader.FGameplayTagContainer : RM JSVal :=
  UReader.tarray (JSVal.str <$> UReader.fname)

/-- Method `UBuffer.FTQ2FogOfWarPackedData` on a reader. -/
def UReader.FTQ2FogOfWarPackedData : RM JSVal := do
  let c ← UReader.tarray (JSVal.num <$> UReader.uint8)
  let t ← UReader.int32
  let u ← UReader.uint8
  pure (mkObj [("CompressedData", c), ("TextureSize", .num t), ("Unknown", .num u)])

/-- Method `UBuffer.FGrimDialogueVariableValue` on a reader. -/
def UReader.FGrimDialogueVariableValue : RM JSVal := do
  let t ← UReader.uint8
  if t = 0 then do
    let v ← UReader.int32
    pure (mkObj [("Type", .num t), ("Value", .num v)])
  else if t = 1 then do
    let v ← UReader.int64
    pure (mkObj [("Type", .num t), ("Value", .bigint v)])
  else if t = 3 then do
    let v ← UReader.fstring
    pure (mkObj [("Type", .num t), ("Value", .str v)])
  else pure (mkObj [("Type", .num t)])

/-- The recursive decoders one level of fuel below the function being defined. `listLoop` and
`structLoop` stand for the remaining iterations of the `while (true)` loops of
`UReader.FPropertyList` and of the struct branch of `FPropertyValue_unsafe`. -/
structure Decoders where
  listLoop : Bool → List (JSString × JSVal) → RM JSVal
  structLoop : Option Int → List (JSString × JSVal) → RM JSVal
  FPropertyValue : Tag → RM (JSVal × Tag)
  FPropertyValue_unsafe : TM JSVal
  ftext : RM JSVal

/-- The assignment `result[name] = value` on a plain object: the key `__proto__` is not an own
property (a primitive value is ignored, anything else would replace the prototype). -/
def assignProp (result : List (JSString × JSVal)) (name : JSString) (value : JSVal) :
    RM (List (JSString × JSVal)) :=
  if name = js "__proto__" then
    match value with
    | .undefined | .num _ | .bigint _ | .float _ | .double _ | .str _ => pure result
    | _ => M.fail .unmodelled
  else pure (objSet result name value)

/-- The statements `result[PropertiesKey].push(tag); result[tag.Name] = this.FPropertyValue(tag)`
shared by both property-list loops. The tag object is pushed before its value is decoded and
mutated afterwards, so the list holds the mutated tag. -/
def pushAndDecode (d : Decoders) (result : List (JSString × JSVal)) (tag : Tag) :
    RM (List (JSString × JSVal)) :=
  match objGet result PropertiesKey with
  | some (.props ts) => do
    let vt ← d.FPropertyValue tag
    let result1 := objSet result PropertiesKey (.props (ts ++ [vt.2]))
    assignProp result1 (vt.2.f.Name.getD []) vt.1
  | some (.array _ _ _) => M.fail .unmodelled
  | _ => M.fail .typeError

/-- One iteration of the loop of `UReader.FPropertyList`, and what follows the loop. -/
def listLoopBody (d : Decoders) (withExtraBytes : Bool) (result : List (JSString × JSVal)) :
    RM JSVal := do
  let tag ← UReader.FPropertyTag
  if tag.f.Name = some (js "None") then
    if withExtraBytes then do
      let _ ← UReader.int32
      pure (.object result)
    else pure (.object result)
  else do
    let result1 ← pushAndDecode d result tag
    d.listLoop withExtraBytes result1

/-- Method `UReader.FPropertyList`. -/
def UReader.FPropertyList (d : Decoders) (withExtraBytes : Bool) : RM JSVal :=
  listLoopBody d withExtraBytes [(PropertiesKey, .props [])]

/-- One iteration of the loop of the struct branch of `FPropertyValue_unsafe`. -/
def structLoopBody (d : Decoders) (limit : Option Int) (result : List (JSString × JSVal)) :
    RM JSVal := do
  let looksValid ← UReader.tryPropertyTag limit
  if !looksValid then M.fail .thrown1
  else do
    let innerTag ← UReader.FPropertyTag
    if innerTag.f.Name = some (js "None") then pure (.object result)
    else do
      let result1 ← pushAndDecode d result innerTag
      d.structLoop limit result1

/-- Method `UBuffer.FFormatArgumentValue` on a reader. The field `Type` is
`this.int8() || val.Type` with `val = {}`, so a type byte 0 leaves it `undefined`; there is no
method `uint64`. -/
def UReader.FFormatArgumentValue (d : Decoders) : RM JSVal := do
  let t ← UReader.int8
  if t = 0 then pure (mkObj [("Type", .undefined)])
  else if t = 3 then do
    let v ← UReader.double
    pure (mkObj [("Type", .num t), ("Value", .double v)])
  else if t = 2 then do
    let v ← UReader.float
    pure (mkObj [("Type", .num t), ("Value", .float v)])
  else if t = 1 then M.fail .typeError
  else if t = 4 then do
    let v ← d.ftext
    pure (mkObj [("Type", .num t), ("Value", v)])
  else pure (mkObj [("Type", .num t)])

/-- Method `UBuffer.tmap` on a reader, as `ftext` calls it (string keys, format-argument
values): the loop pushes each key and value read. -/
def UReader.tmap (d : Decoders) : RM JSVal := do
  let size ← UReader.uint32
  let kvs ← repeatM (do
    let k ← UReader.fstring
    let v ← UReader.FFormatArgumentValue d
    pure (JSVal.str k, v)) size.toNat
  pure (mkObj [("keys", .arr (kvs.map Prod.fst)), ("values", .arr (kvs.map Prod.snd))])

/-- Method `UBuffer.ftext` on a reader. An unknown history type ends in
`return console.error(..)`, which returns `undefined`. -/
def UReader.ftext (d : Decoders) : RM JSVal := do
  let flags ← UReader.uint32
  let h ← UReader.int8
  let head : List (String × JSVal) := [("Flags", .num flags), ("HistoryType", .num h)]
  if h = -1 then do
    let b ← UReader.bool
    if b ≠ 0 then do
      let c ← UReader.fstring
      pure (mkObj (head ++ [("bHasCultureInvariantString", .num b),
        ("CultureInvariantString", .str c)]))
    else pure (mkObj (head ++ [("bHasCultureInvariantString", .num b)]))
  else if h = 0 then do
    let ns ← UReader.fstring
    let k ← UReader.fstring
    let src ← UReader.fstring
    pure (mkObj (head ++ [("Namespace", .str ns), ("Key", .str k), ("SourceString", .str src)]))
  else if h = 1 then do
    let ft ← d.ftext
    let args ← UReader.tmap d
    pure (mkObj (head ++ [("FormatText", ft), ("Arguments", args)]))
  else if h = 2 then do
    let ft ← d.ftext
    let args ← UReader.tarray (UReader.FFormatArgumentValue d)
    pure (mkObj (head ++ [("FormatText", ft), ("Arguments", args)]))
  else if h = 4 then do
    let sv ← UReader.FFormatArgumentValue d
    let b ← UReader.bool
    if b ≠ 0 then do
      let fo ← UReader.raw 25
      let cn ← UReader.fstring
      pure (mkObj (head ++ [("SourceValue", sv), ("bHasFormatOptions", .num b),
        ("FormatOptions", .buffer fo), ("CultureName", .str cn)]))
    else do
      let cn ← UReader.fstring
      pure (mkObj (head ++ [("SourceValue", sv), ("bHasFormatOptions", .num b),
        ("CultureName", .str cn)]))
  else if h = 11 then do
    let t ← UReader.fname
    let k ← UReader.fstring
    pure (mkObj (head ++ [("TableId", .str t), ("Key", .str k)]))
  else pure .undefined

/-- Method `UBuffer.FSaveGameData` on a reader. -/
def UReader.FSaveGameData (d : Decoders) : RM JSVal := do
  let n ← UReader.fname
  let c ← UReader.object
  let _ ← UReader.int32
  let data ← UReader.FPropertyList d true
  pure (mkObj [("Name", .str n), ("Class", .str c), ("Data", data)])

/-- Method `UBuffer.FGrimAppearanceHandle` on a reader. -/
def UReader.FGrimAppearanceHandle (d : Decoders) : RM JSVal := do
  let ds ← UReader.int32
  let h1 ← UReader.int32
  let f1 : List (String × JSVal) := [("DataSize", .num ds), ("bHasData1", .num h1)]
  let f2 ← (if h1 ≠ 0 then do
              let d1 ← UReader.FPropertyList d true
              pure (f1 ++ [("Data1", d1)])
            else pure f1)
  let h2 ← UReader.int32
  let f3 := f2 ++ [("bHasData2", JSVal.num h2)]
  let f4 ← (if h2 ≠ 0 then do
              let d2 ← UReader.FPropertyList d true
              pure (f3 ++ [("Data2", d2)])
            else pure f3)
  if h1 = 0 ∧ h2 = 0 then do
    let a ← UReader.fstring
    pure (mkObj (f4 ++ [("pAppearance", .str a)]))
  else pure (mkObj f4)

/-- Method `UBuffer.FGrimItemInstanceHandle` on a reader. -/
def UReader.FGrimItemInstanceHandle (d : Decoders) : RM JSVal := do
  let op ← UReader.FSoftObjectPath
  let h ← UReader.int32
  if h ≠ 0 then do
    let data ← UReader.FPropertyList d true
    pure (mkObj [("ObjectPath", op), ("bHasData", .num h), ("Data", data)])
  else pure (mkObj [("ObjectPath", op), ("bHasData", .num h)])

/-- Method `UBuffer.FGrimPtr_IntClassNameProps` on a reader. -/
def UReader.FGrimPtr_IntClassNameProps (d : Decoders) : RM JSVal := do
  let u ← UReader.int32
  let c ← UReader.fname
  if c ≠ js "None" then do
    let n ← UReader.fname
    let data ← UReader.FPropertyList d true
    pure (mkObj [("Unknown", .num u), ("Class", .str c), ("Name", .str n), ("Data", data)])
  else pure (mkObj [("Unknown", .num u), ("Class", .str c)])

/-- The call `this[this.NativeSerializedStructs[tag.StructName]]()` on a reader. -/
def UReader.native (d : Decoders) : Native → RM JSVal
  | .FGuid => (fun g => JSVal.arr (g.map JSVal.num)) <$> UReader.FGuid
  | .FGameplayTagContainer => UReader.FGameplayTagContainer
  | .FSoftObjectPath => UReader.FSoftObjectPath
  | .FIntPoint => UReader.FIntPoint
  | .FLinearColor => UReader.FLinearColor
  | .fname => JSVal.str <$> UReader.fname
  | .int64 => JSVal.bigint <$> UReader.int64
  | .FSaveGameData => UReader.FSaveGameData d
  | .FTQ2FogOfWarPackedData => UReader.FTQ2FogOfWarPackedData
  | .FGrimAppearanceHandle => UReader.FGrimAppearanceHandle d
  | .FGrimItemInstanceHandle => UReader.FGrimItemInstanceHandle d
  | .FGrimPtr_IntClassNameProps => UReader.FGrimPtr_IntClassNameProps d
  | .FGrimDialogueVariableValue => UReader.FGrimDialogueVariableValue

/-- The expression `tag.Size - k` (a missing size gives `NaN`). -/
def sizeMinus (size : Option JSNum) (k : Int) : JSNum :=
  match size with
  | some n => n.subInt k
  | none => .nonInt

/-- The expression `tag.data_offset + tag.Size` (`none` stands for `NaN`). -/
def outerLimit (f : TagFields) : Option Int :=
  match f.data_offset, f.Size with
  | some o, some (.int n) => some (o + n)
  | _, _ => none

/-- The call `this.raw(tag.Size)` on a reader: a size that is not an integer is outside the
embedding. -/
def rawOfSize (size : Option JSNum) : RM JSVal :=
  match size with
  | some (.int n) => JSVal.buffer <$> UReader.raw n
  | _ => M.fail .unmodelled

/-- The call `this.seek(tag.data_offset)` on a reader (`seek(undefined)` is outside the
embedding). -/
def seekDataOffset (o : Option Int) : RM Unit :=
  match o with
  | some p => UReader.seek p
  | none => M.fail .unmodelled

/-- Method `UBuffer.FPropertyValue_common` on a reader: `none` stands for `NOT_HANDLED`. -/
def UReader.FPropertyValue_common (d : Decoders) (f : TagFields) : Option (RM JSVal) :=
  if f.Name = some (js "None") then some (pure .undefined)
  else if f.Typ = some (js "NameProperty") then some (JSVal.str <$> UReader.fname)
  else if f.Typ = some (js "EnumProperty") then some (JSVal.str <$> UReader.fname)
  else if f.Typ = some (js "IntProperty") then some (JSVal.num <$> UReader.int32)
  else if f.Typ = some (js "ObjectProperty") then some (JSVal.str <$> UReader.object)
  else if f.Typ = some (js "SoftObjectProperty") then some UReader.FSoftObjectPath
  else if f.Typ = some (js "UInt64Property") then some (JSVal.bigint <$> UReader.int64)
  else if f.Typ = some (js "Int16Property") then some (JSVal.num <$> UReader.int16)
  else if f.Typ = some (js "UInt16Property") then some (JSVal.num <$> UReader.uint16)
  else if f.Typ = some (js "Int64Property") then some (JSVal.bigint <$> UReader.int64)
  else if f.Typ = some (js "FloatProperty") then some (JSVal.float <$> UReader.float)
  else if f.Typ = some (js "DoubleProperty") then some (JSVal.double <$> UReader.double)
  else if f.Typ = some (js "StrProperty") then some (JSVal.str <$> UReader.fstring)
  else if f.Typ = some (js "TextProperty") then some d.ftext
  else if f.Typ = some (js "MulticastSparseDelegateProperty") ∨
      f.Typ = some (js "MulticastInlineDelegateProperty") then some UReader.tarrayMissing
  else none

/-- The ByteProperty branch of `FPropertyValue_unsafe`. The `try` block that probes for a name
does not restore the cursor when it fails. -/
def UReader.byteValue (f : TagFields) : RM JSVal :=
  if truthyStr f.EnumName then JSVal.str <$> UReader.fname
  else if f.Size = some (.int 1) then JSVal.num <$> UReader.uint8
  else
    M.tryCatch
      (do
        let str ← UReader.fname
        if str.any (fun c => !isNameChar c) then M.fail .thrown1
        else pure (JSVal.str str))
      (fun _ =>
        if f.Size = some (.int 8) then JSVal.bigint <$> UReader.int64
        else rawOfSize f.Size)

/-- The StructProperty branch of `FPropertyValue_unsafe`. -/
def UReader.structValue (d : Decoders) (f : TagFields) : RM JSVal :=
  match lookupStruct f.StructName with
  | .native n => UReader.native d n
  | .inherited => M.fail .typeError
  | .absent => structLoopBody d (outerLimit f) [(PropertiesKey, .props [])]

/-- The ArrayProperty branch of `FPropertyValue_unsafe`. -/
def UReader.arrayValue (d : Decoders) : TM JSVal := do
  let tag ← getTag
  let f := tag.f
  let len ← liftR UReader.int32
  let count ← arrayLength len
  if f.InnerType = some (js "StructProperty") then do
    let it ← liftR UReader.FPropertyTag
    setInnerTag it
  else do
    let fake : TagFields := { Typ := f.InnerType, Size := some (sizeMinus f.Size 4) }
    setInnerTag (Tag.ofFields fake)
    match f.InnerType with
    | none => M.fail .typeError
    | some it =>
      let fake1 : TagFields :=
        if isFixedType it then { fake with Size := some ((sizeMinus f.Size 4).divInt len) }
        else fake
      let fake2 : TagFields :=
        if it = js "BoolProperty" then { fake1 with Typ := some (js "ByteProperty") } else fake1
      setInnerTag (Tag.ofFields fake2)
  let xs ← repeatM (onInner d.FPropertyValue_unsafe) count
  pure (.arr xs)

/-- The closure `tryParseItem` of the map and set branches. -/
def tryParseItem (d : Decoders) : TM JSVal := do
  let innerTag ← getTag
  if innerTag.f.Typ = some (js "BoolProperty") then
    modTag (fun f => { f with Typ := some (js "IntProperty") })
  else pure ()
  d.FPropertyValue_unsafe

/-- A synthesized element tag `{ Type, Size: tag.Size-8 }` of the map and set branches, with its
composite struct name when the element type is a struct. -/
def elementTag (f : TagFields) (ty : Option JSString) (role : String) : Tag :=
  let base : TagFields := { Typ := ty, Size := some (sizeMinus f.Size 8) }
  if ty = some (js "StructProperty") then
    Tag.ofFields { base with StructName := some (strPlus f.Name (js role)) }
  else Tag.ofFields base

/-- The loop body of the map branch: one `{ key, value }` pair. -/
def UReader.mapItem (d : Decoders) : TM JSVal := do
  let k ← onInner (tryParseItem d)
  let v ← onValue (tryParseItem d)
  pure (mkObj [("key", k), ("value", v)])

/-- The tag of a map after `tag.InnerTag` and `tag.ValueTag` have been assigned. -/
def UReader.mapTags (tag : Tag) : Tag :=
  (tag.setInner (elementTag tag.f tag.f.InnerType ":KeyStructType")).setValue
    (elementTag tag.f tag.f.ValueType ":ValueStructType")

/-- The `catch` block of the map branch: flag the tag, rewind to the value start and take the
whole value as a buffer. `xs` are the pairs already decoded, `count` is `result.length`. -/
def UReader.mapFallback (xs : List JSVal) (count : Nat) : TM JSVal := do
  modTag (fun f => { f with MapAsBuffer := true })
  let t ← getTag
  liftR (seekDataOffset t.f.data_offset)
  match t.f.Size with
  | some (.int n) =>
    let buf ← liftR (UReader.raw n)
    pure (JSVal.array xs (count - xs.length) (some buf))
  | _ => M.fail .unmodelled

/-- The MapProperty branch of `FPropertyValue_unsafe`. -/
def UReader.mapValue (d : Decoders) : TM JSVal := do
  let tag ← getTag
  let _something ← liftR UReader.int32
  let len ← liftR UReader.int32
  let count ← arrayLength len
  setInnerTag (elementTag tag.f tag.f.InnerType ":KeyStructType")
  setValueTag (elementTag tag.f tag.f.ValueType ":ValueStructType")
  fun s =>
    match loopM (UReader.mapItem d) count s with
    | ⟨xs, none, s1⟩ => ⟨.ok (.arr xs), s1⟩
    | ⟨xs, some e, s1⟩ =>
      if e.catchable then UReader.mapFallback xs count s1 else ⟨.error e, s1⟩

/-- The SetProperty branch of `FPropertyValue_unsafe`. -/
def UReader.setValue (d : Decoders) : TM JSVal := do
  let tag ← getTag
  let f := tag.f
  let lenR ← liftR UReader.int32
  let countR ← arrayLength lenR
  setInnerTag (elementTag f f.InnerType ":InnerStructType")
  fun s =>
    let fallback (removed added : JSVal) : TM JSVal := do
      modTag (fun f => { f with SetAsBuffer := true })
      let t ← getTag
      liftR (seekDataOffset t.f.data_offset)
      match t.f.Size with
      | some (.int n) =>
        let buf ← liftR (UReader.raw n)
        pure (mkObj [("removed", removed), ("added", added), ("buffer", .buffer buf)])
      | _ => M.fail .unmodelled
    match loopM (onInner (tryParseItem d)) countR s with
    | ⟨rs, some e, s1⟩ =>
      if e.catchable then fallback (.array rs (countR - rs.length) none) (.arr []) s1
      else ⟨.error e, s1⟩
    | ⟨rs, none, s1⟩ =>
      match liftR UReader.int32 s1 with
      | ⟨.error e, s2⟩ =>
        if e.catchable then fallback (.arr rs) (.arr []) s2 else ⟨.error e, s2⟩
      | ⟨.ok lenA, s2⟩ =>
        if lenA < 0 then fallback (.arr rs) (.arr []) s2
        else
          match loopM (onInner (tryParseItem d)) lenA.toNat s2 with
          | ⟨as, none, s3⟩ => ⟨.ok (mkObj [("removed", .arr rs), ("added", .arr as)]), s3⟩
          | ⟨as, some e, s3⟩ =>
            if e.catchable then fallback (.arr rs) (.array as (lenA.toNat - as.length) none) s3
            else ⟨.error e, s3⟩

/-- Method `UReader.FPropertyValue_unsafe`. -/
def UReader.FPropertyValue_unsafe (d : Decoders) : TM JSVal := do
  let tag ← getTag
  let f := tag.f
  match UReader.FPropertyValue_common d f with
  | some m => liftR m
  | none =>
    if f.Typ = some (js "BoolProperty") then
      pure (match f.BoolVal with
            | some b => .num b
            | none => .undefined)
    else if f.Typ = some (js "ByteProperty") then liftR (UReader.byteValue f)
    else if f.Typ = some (js "StructProperty") then liftR (UReader.structValue d f)
    else if f.Typ = some (js "ArrayProperty") then UReader.arrayValue d
    else if f.Typ = some (js "MapProperty") then UReader.mapValue d
    else if f.Typ = some (js "SetProperty") then UReader.setValue d
    else liftR (rawOfSize f.Size)

/-- The recovery of `UReader.FPropertyValue` (its `catch` block): abort under fail-fast,
otherwise seek to the declared end of the property and return `null`. -/
def UReader.recover (opts : Options) (startOffset : Int) (tag : Tag) : RM (JSVal × Tag) :=
  if opts.EarlyExit then
    if opts.hasProcess then M.fail .exit else M.fail .cascade
  else
    match tag.f.Size with
    | some (.int n) => do
      UReader.seek (startOffset + n)
      pure (.null, tag)
    | _ => M.fail .unmodelled

/-- Method `UReader.FPropertyValue`; the result carries the tag object as the value decode has
mutated it. -/
def UReader.FPropertyValue (opts : Options) (d : Decoders) (tag : Tag) : RM (JSVal × Tag) :=
  fun r =>
    if tag.f.Name = some (js "None") then ⟨.ok (.undefined, tag), r⟩
    else
      let startOffset := r.offset
      match d.FPropertyValue_unsafe ⟨tag, r⟩ with
      | ⟨.ok value, s1⟩ =>
        if some (JSNum.int (s1.rd.offset - startOffset)) = s1.tag.f.Size then
          ⟨.ok (value, s1.tag), s1.rd⟩
        else UReader.recover opts startOffset s1.tag s1.rd
      | ⟨.error e, s1⟩ =>
        if e.catchable then UReader.recover opts startOffset s1.tag s1.rd
        else ⟨.error e, s1.rd⟩

/-- The decoders with `fuel` levels of nesting (calls and loop iterations) available. -/
def decoders (opts : Options) : Nat → Decoders
  | 0 =>
    { listLoop := fun _ _ => M.fail .outOfFuel
      structLoop := fun _ _ => M.fail .outOfFuel
      FPropertyValue := fun _ => M.fail .outOfFuel
      FPropertyValue_unsafe := M.fail .outOfFuel
      ftext := M.fail .outOfFuel }
  | fuel + 1 =>
    let d := decoders opts fuel
    { listLoop := listLoopBody d
      structLoop := structLoopBody d
      FPropertyValue := UReader.FPropertyValue opts d
      FPropertyValue_unsafe := UReader.FPropertyValue_unsafe d
      ftext := UReader.ftext d }

/-! ## The reader: file structures -/

/-- Method `UBuffer.FPackageFileVersion` on a reader. -/
def UReader.FPackageFileVersion : RM JSVal := do
  let v4 ← UReader.int32
  let v5 ← UReader.int32
  pure (mkObj [("FileVersionUE4", .num v4), ("FileVersionUE5", .num v5)])

/-- Method `UBuffer.FEngineVersion` on a reader. -/
def UReader.FEngineVersion : RM JSVal := do
  let major ← UReader.uint16
  let minor ← UReader.uint16
  let patch ← UReader.uint16
  let cl ← UReader.uint32
  let br ← UReader.fstring
  pure (mkObj [("Major", .num major), ("Minor", .num minor), ("patch", .num patch),
    ("Changelist", .num cl), ("Branch", .str br)])

/-- Method `UBuffer.FCustomVersion` on a reader. -/
def UReader.FCustomVersion : RM JSVal := do
  let k ← UReader.FGuid
  let v ← UReader.int32
  pure (mkObj [("Key", .arr (k.map JSVal.num)), ("Version", .num v)])

/-- Method `UBuffer.FCustomVersionContainer` on a reader. -/
def UReader.FCustomVersionContainer : RM JSVal := UReader.tarray UReader.FCustomVersion

/-- Method `UBuffer.FSaveGameHeader` on a reader. -/
def UReader.FSaveGameHeader : RM JSVal := do
  let ftt ← UReader.int32
  let ver ← UReader.int32
  let pkg ← UReader.FPackageFileVersion
  let eng ← UReader.FEngineVersion
  let cvf ← UReader.int32
  let cvs ← UReader.FCustomVersionContainer
  let cls ← UReader.fstring
  pure (mkObj [("FileTypeTag", .num ftt), ("SaveGameFileVersion", .num ver),
    ("PackageFileUEVersion", pkg), ("SavedEngineVersion", eng),
    ("CustomVersionFormat", .num cvf), ("CustomVersions", cvs), ("SaveGameClassName", .str cls)])

/-- Method `UBuffer.File_Data_Player` (and its aliases `File_Data_PlayerLocal`,
`File_Data_WorldCampaign`, `File_Data_WorldFluff`, `File_Header`,
`File_PublicCrossCharacterSaveData`) on a reader. -/
def UReader.File_Data_Player (d : Decoders) : RM JSVal := do
  let h ← UReader.FSaveGameHeader
  let data ← UReader.FPropertyList d true
  pure (mkObj [("Header", h), ("Data", data)])

/-- Decode a whole buffer with the top-level entry point, from a fresh `UReader`. -/
def decodeFile (opts : Options) (fuel : Nat) (b : List Nat) : Res UReader JSVal :=
  UReader.File_Data_Player (decoders opts fuel) ⟨b, 0⟩

/-! ## The write cursor -/

/-- The fields `buffer` and `offset` of a `UWriter`. The buffer is given by its length and by
the byte at each index below the length. -/
structure UWriter where
  byteAt : Nat → Nat
  length : Nat
  offset : Nat

/-- A writer operation. -/
abbrev WM (α : Type) : Type := M UWriter α

/-- The constructor of `UWriter`: a zero-filled buffer of `WRITE_BUF_SIZE` bytes. -/
def UWriter.new : UWriter := { byteAt := fun _ => 0, length := WRITE_BUF_SIZE, offset := 0 }

/-- Method `UWriter.getBuffer`: the bytes `[0, offset)`. -/
def UWriter.getBuffer (w : UWriter) : List Nat := (List.range w.offset).map w.byteAt

/-- Method `UBuffer.seek` on a writer. -/
def UWriter.seek (position : Int) : WM Unit := fun w =>
  if position < 0 ∨ (w.length : Int) ≤ position then ⟨.error .seekError, w⟩
  else ⟨.ok (), { w with offset := position.toNat }⟩

/-- The writer after `checkBuf(forSize)`: when `offset + forSize` reaches the length, a longer
zero-filled buffer receives a copy of the old one. -/
def UWriter.grow (forSize : Nat) (w : UWriter) : UWriter :=
  if w.length ≤ w.offset + forSize then
    { w with byteAt := fun i => if i < w.length then w.byteAt i else 0
             length := w.offset + forSize + WRITE_BUF_SIZE }
  else w

/-- Method `UWriter.checkBuf`. -/
def UWriter.checkBuf (forSize : Nat) : WM Unit := fun w => ⟨.ok (), w.grow forSize⟩

/-- The bytes that lie between the cursor of `w0` and the cursor of `w1`, read in `w1`: what
the operations leading from `w0` to `w1` have emitted. -/
def UWriter.emitted (w0 w1 : UWriter) : List Nat :=
  (List.range (w1.offset - w0.offset)).map (fun i => w1.byteAt (w0.offset + i))

/-- Store bytes at the cursor and advance it (all of them fit). -/
def UWriter.put (bs : List Nat) (w : UWriter) : UWriter :=
  { w with byteAt := fun i =>
             if w.offset ≤ i ∧ i < w.offset + bs.length then bs.getD (i - w.offset) 0
             else w.byteAt i
           offset := w.offset + bs.length }

/-- A fixed-width `Buffer` write at the cursor: a `RangeError` when the bytes do not fit. -/
def UWriter.writeBytes (bs : List Nat) : WM Unit := fun w =>
  if w.offset + bs.length ≤ w.length then ⟨.ok (), w.put bs⟩
  else ⟨.error .rangeError, w⟩

/-- Method `UWriter.goBack`. -/
def UWriter.goBack (position : Int) (callback : Nat → WM Unit) : WM Unit := fun w =>
  let bkpOffset := w.offset
  (do
    UWriter.seek position
    callback bkpOffset
    UWriter.seek bkpOffset) w

/-- The number that a `Buffer` integer write makes of its argument (`+value`); `undefined`
gives `NaN`, which passes the range check and is stored as 0. -/
def numArg : JSVal → Except Fault Int
  | .num n => .ok n
  | .undefined => .ok 0
  | .null => .ok 0
  | .bigint _ => .error .typeError
  | _ => .error .unmodelled

/-- The methods `int8` .. `uint32` of `UWriter`: `checkBuf`, then the `Buffer` write, which
raises a `RangeError` for a value outside the range of the type. -/
def UWriter.writeInt (bits : Nat) (signed : Bool) (val : JSVal) : WM Unit := do
  UWriter.checkBuf (bits / 8)
  match numArg val with
  | .error e => M.fail e
  | .ok n =>
    let lo : Int := if signed then -(2 ^ (bits - 1)) else 0
    let hi : Int := if signed then 2 ^ (bits - 1) else 2 ^ bits
    if n < lo ∨ hi ≤ n then M.fail .rangeError
    else UWriter.writeBytes (leBytes (bits / 8) (toUnsigned bits n))

/-- Method `UWriter.int8`. -/
def UWriter.int8 (val : JSVal) : WM Unit := UWriter.writeInt 8 true val

/-- Method `UWriter.uint8`. -/
def UWriter.uint8 (val : JSVal) : WM Unit := UWriter.writeInt 8 false val

/-- Method `UWriter.int16`. -/
def UWriter.int16 (val : JSVal) : WM Unit := UWriter.writeInt 16 true val

/-- Method `UWriter.uint16`. -/
def UWriter.uint16 (val : JSVal) : WM Unit := UWriter.writeInt 16 false val

/-- Method `UWriter.int32`. -/
def UWriter.int32 (val : JSVal) : WM Unit := UWriter.writeInt 32 true val

/-- Method `UWriter.uint32`. -/
def UWriter.uint32 (val : JSVal) : WM Unit := UWriter.writeInt 32 false val

/-- Method `UWriter.int64` (`writeBigInt64LE`): the argument has to be a BigInt. -/
def UWriter.int64 (val : JSVal) : WM Unit := do
  UWriter.checkBuf 8
  match val with
  | .bigint n =>
    if n < -(2 ^ 63) ∨ 2 ^ 63 ≤ n then M.fail .rangeError
    else UWriter.writeBytes (leBytes 8 (toUnsigned 64 n))
  | .num n => if n < -(2 ^ 63) ∨ 2 ^ 63 ≤ n then M.fail .rangeError else M.fail .typeError
  | _ => M.fail .typeError

/-- Method `UWriter.float`, for a number that the reader produced with `float`. -/
def UWriter.float (val : JSVal) : WM Unit := do
  UWriter.checkBuf 4
  match val with
  | .float bits => UWriter.writeBytes (leBytes 4 bits)
  | _ => M.fail .unmodelled

/-- Method `UWriter.double`, for a number that the reader produced with `double`. -/
def UWriter.double (val : JSVal) : WM Unit := do
  UWriter.checkBuf 8
  match val with
  | .double bits => UWriter.writeBytes (leBytes 8 bits)
  | _ => M.fail .unmodelled

/-- Method `UWriter.raw`: the second argument has to be a `Buffer`; `copy` stores as many bytes
as fit. -/
def UWriter.raw (inBuf : JSVal) : WM Unit :=
  match inBuf with
  | .buffer bs => do
    UWriter.checkBuf bs.length
    fun w => ⟨.ok (), w.put (bs.take (w.length - w.offset))⟩
  | _ => M.fail .typeError

/-- Method `UWriter.fstring`. The terminator of a non-empty string is not written: the cursor
skips one byte of the buffer. -/
def UWriter.fstring (val : JSVal) : WM Unit :=
  match val with
  | .str s =>
    if s = EMPTY_STR_AS_NULL_CHAR then do
      UWriter.int32 (.num 1)
      UWriter.int8 (.num 0)
    else if 0 < s.length then do
      UWriter.int32 (.num (s.length + 1))
      UWriter.checkBuf (s.length + 1)
      fun w =>
        let w1 := w.put ((s.map (· % 256)).take (w.length - w.offset))
        ⟨.ok (), { w1 with offset := w1.offset + 1 }⟩
    else UWriter.int32 (.num 0)
  | .undefined | .null => M.fail .typeError
  | .num _ | .bigint _ | .float _ | .double _ => UWriter.int32 (.num 0)
  | _ => M.fail .unmodelled

/-- Method `UBuffer.fname` on a writer. -/
def UWriter.fname (val : JSVal) : WM Unit := UWriter.fstring val

/-- Method `UBuffer.object` on a writer. -/
def UWriter.object (val : JSVal) : WM Unit := UWriter.fname val

/-- Method `UBuffer.bool` on a writer. -/
def UWriter.bool (val : JSVal) : WM Unit := UWriter.uint32 val

/-- An optional string field of a tag as a JavaScript value. -/
def optStr : Option JSString → JSVal
  | some s => .str s
  | none => .undefined

/-- An optional number field of a tag as a JavaScript value. -/
def optNum : Option Int → JSVal
  | some n => .num n
  | none => .undefined

/-- The property access `val.key` for the keys that the writer reads (`val || (val = {})`
included: a value that is not an object has none of them). -/
def field (val : JSVal) (key : String) : JSVal :=
  match val with
  | .object fs => (objGet fs (js key)).getD .undefined
  | .array _ _ (some b) => if key = "buffer" then .buffer b else .undefined
  | _ => .undefined

/-- Truthiness of a decoded value. -/
def truthy : JSVal → Bool
  | .undefined => false
  | .null => false
  | .num n => n != 0
  | .bigint n => n != 0
  | .str s => !s.isEmpty
  | _ => true

/-- Method `UBuffer.FGuid` on a writer, for the guid stored in a tag. -/
def UWriter.FGuidOpt (g : Option (List Int)) : WM Unit := do
  let xs := g.getD []
  UWriter.uint32 (optNum xs[0]?)
  UWriter.uint32 (optNum xs[1]?)
  UWriter.uint32 (optNum xs[2]?)
  UWriter.uint32 (optNum xs[3]?)

/-- The elements of an array value by index (`val[i]`, an empty slot is `undefined`), and
`none` for a value that is not an array. -/
def arrayItems : JSVal → Option (List JSVal)
  | .array xs holes _ => some (xs ++ List.replicate holes .undefined)
  | _ => none

/-- Method `UBuffer.FGuid` on a writer, for a decoded value. -/
def UWriter.FGuid (val : JSVal) : WM Unit :=
  match val with
  | .undefined | .null => UWriter.FGuidOpt none
  | .array xs _ _ => do
    UWriter.uint32 (xs.getD 0 .undefined)
    UWriter.uint32 (xs.getD 1 .undefined)
    UWriter.uint32 (xs.getD 2 .undefined)
    UWriter.uint32 (xs.getD 3 .undefined)
  | _ => M.fail .unmodelled

/-! ## The writer: tags and values -/

/-- A writer codec on a tag object. -/
abbrev WTM (α : Type) : Type := M (TState UWriter) α

/-- A loop `for (let x of xs) f(x)`. -/
def forEachM {σ α : Type} (f : α → M σ Unit) : List α → M σ Unit
  | [] => pure ()
  | x :: xs => do
    f x
    forEachM f xs

/-- The current value of `this.offset` of a writer. -/
def UWriter.getOffset : WM Nat := fun w => ⟨.ok w.offset, w⟩

/-- The recursive encoders one level of fuel below the function being defined. -/
structure Encoders where
  FPropertyValue : JSVal → WTM Unit
  FPropertyList : JSVal → Bool → WM Unit
  ftext : JSVal → WM Unit

/-- The type-conditional part of `FPropertyTag` on a writer. -/
def UWriter.tagExtras : WTM Unit := do
  let tag ← getTag
  let f := tag.f
  if f.Typ = some (js "StructProperty") then do
    liftR (UWriter.fname (optStr f.StructName))
    liftR (UWriter.FGuidOpt f.StructGuid)
  else if f.Typ = some (js "BoolProperty") then do
    let o ← liftR UWriter.getOffset
    modTag (fun g => { g with bool_offset := some (o : Int) })
    liftR (UWriter.uint8 (optNum f.BoolVal))
  else if f.Typ = some (js "ByteProperty") ∨ f.Typ = some (js "EnumProperty") then
    liftR (UWriter.fname (optStr f.EnumName))
  else if f.Typ = some (js "ArrayProperty") ∨ f.Typ = some (js "SetProperty") then
    liftR (UWriter.fname (optStr f.InnerType))
  else if f.Typ = some (js "MapProperty") then do
    liftR (UWriter.fname (optStr f.InnerType))
    liftR (UWriter.fname (optStr f.ValueType))
  else pure ()

/-- The name that the writer's `FPropertyTag` passes to `fname` for a tag named `name`:
`val.Name.slice(0, -m[0].length)` when the name matches `/\[\d+\]$/`, else the name itself. -/
def UWriter.writtenName (name : JSString) : JSString :=
  match matchArraySuffix name with
  | some m => m.1
  | none => name

/-- Method `UBuffer.FPropertyTag` on a writer, applied to the tag object in hand. Both branches
of the static-array test call `fname`, on `writtenName`; the tag keeps its name. -/
def UWriter.FPropertyTag : WTM Unit := do
  let tag ← getTag
  let o ← liftR UWriter.getOffset
  modTag (fun f => { f with tag_offset := some (o : Int) })
  match tag.f.Name with
  | none => M.fail .typeError
  | some name =>
    liftR (UWriter.fname (.str (UWriter.writtenName name)))
    if name = js "None" then pure ()
    else do
      let t1 ← getTag
      liftR (UWriter.fname (optStr t1.f.Typ))
      let so ← liftR UWriter.getOffset
      liftR (UWriter.int32 (.num 0))
      liftR (UWriter.int32 (optNum t1.f.ArrayIndex))
      modTag (fun f => { f with size_offset := some (so : Int), Size := some (.int 0) })
      UWriter.tagExtras
      let t2 ← getTag
      liftR (UWriter.uint8 (optNum t2.f.HasPropertyGuid))
      let hpg : Int := t2.f.HasPropertyGuid.getD 0
      if hpg ≠ 0 then liftR (UWriter.FGuidOpt t2.f.PropertyGuid) else pure ()
      let d ← liftR UWriter.getOffset
      modTag (fun f => { f with HasPropertyGuid := some hpg, data_offset := some (d : Int) })

/-- The backpatch `this.goBack(tag.size_offset, (headOffset) =>
this.int32(headOffset - tag.data_offset))` for the tag in hand. -/
def UWriter.patchSize : WTM Unit := do
  let tag ← getTag
  match tag.f.size_offset with
  | none => M.fail .unmodelled
  | some so =>
    liftR (UWriter.goBack so (fun headOffset =>
      match tag.f.data_offset with
      | some d => UWriter.int32 (.num (headOffset - d))
      | none => UWriter.int32 .undefined))

/-- The lookup `val[tag.Name]` of `UWriter.FPropertyList`. -/
def propValue (fs : List (JSString × JSVal)) (name : Option JSString) : WTM JSVal :=
  let key := name.getD (js "undefined")
  match objGet fs key with
  | some v => pure v
  | none => if protoKeys.any (fun k => js k = key) then M.fail .unmodelled else pure .undefined

/-- The first two statements of an iteration of the loop of `UWriter.FPropertyList`:
`this.FPropertyTag(tag); this.FPropertyValue(tag, val[tag.Name])`. -/
def UWriter.writeTagAndValue (e : Encoders) (fs : List (JSString × JSVal)) : WTM Unit := do
  UWriter.FPropertyTag
  let t ← getTag
  let v ← propValue fs t.f.Name
  e.FPropertyValue v

/-- One iteration of the loop of `UWriter.FPropertyList`: tag, value, then the backpatch of the
size field. -/
def UWriter.writeProperty (e : Encoders) (fs : List (JSString × JSVal)) (tag : Tag) :
    WM Unit := fun w =>
  match (do UWriter.writeTagAndValue e fs; UWriter.patchSize : WTM Unit) ⟨tag, w⟩ with
  | ⟨o, s⟩ => ⟨o, s.rd⟩

/-- The call `this.FPropertyTag({ Name:"None" })`. -/
def UWriter.terminator : WM Unit := fun w =>
  match UWriter.FPropertyTag ⟨Tag.ofFields { Name := some (js "None") }, w⟩ with
  | ⟨o, s⟩ => ⟨o, s.rd⟩

/-- Method `UWriter.FPropertyList`. -/
def UWriter.FPropertyList (e : Encoders) (val : JSVal) (withExtraBytes : Bool) : WM Unit :=
  match val with
  | .object fs =>
    match objGet fs PropertiesKey with
    | some (.props tags) => do
      forEachM (UWriter.writeProperty e fs) tags
      UWriter.terminator
      if withExtraBytes then UWriter.int32 (.num 0) else pure ()
    | some (.str _) | some (.array _ _ _) | some (.buffer _) => M.fail .unmodelled
    | _ => M.fail .typeError
  | _ => M.fail .typeError

/-- Method `UBuffer.tarray` on a writer. -/
def UWriter.tarray (inner : JSVal → WM Unit) (val : JSVal) : WM Unit :=
  match val with
  | .array xs holes _ => do
    UWriter.uint32 (.num (xs.length + holes))
    forEachM inner (xs ++ List.replicate holes .undefined)
  | .undefined | .null => UWriter.uint32 (.num 0)
  | _ => M.fail .unmodelled

/-- Method `UBuffer.tarray` on a writer for an inner type name that names no method. -/
def UWriter.tarrayMissing (val : JSVal) : WM Unit :=
  match val with
  | .array xs holes _ => do
    UWriter.uint32 (.num (xs.length + holes))
    if xs.length + holes = 0 then pure () else M.fail .typeError
  | .undefined | .null => UWriter.uint32 (.num 0)
  | _ => M.fail .unmodelled

/-- Method `UBuffer.FSoftObjectPath` on a writer. -/
def UWriter.FSoftObjectPath (val : JSVal) : WM Unit := do
  UWriter.fstring (field val "PackageName")
  UWriter.fname (field val "AssetName")
  UWriter.fstring (field val "SubPathString")

/-- Method `UBuffer.FIntPoint` on a writer. -/
def UWriter.FIntPoint (val : JSVal) : WM Unit := do
  UWriter.int32 (field val "X")
  UWriter.int32 (field val "Y")

/-- Method `UBuffer.FLinearColor` on a writer. -/
def UWriter.FLinearColor (val : JSVal) : WM Unit := do
  UWriter.float (field val "R")
  UWriter.float (field val "G")
  UWriter.float (field val "B")
  UWriter.float (field val "A")

/-- Method `UBuffer.FTQ2FogOfWarPackedData` on a writer. -/
def UWriter.FTQ2FogOfWarPackedData (val : JSVal) : WM Unit := do
  UWriter.tarray UWriter.uint8 (field val "CompressedData")
  UWriter.int32 (field val "TextureSize")
  UWriter.uint8 (field val "Unknown")

/-- Method `UBuffer.FGrimDialogueVariableValue` on a writer. -/
def UWriter.FGrimDialogueVariableValue (val : JSVal) : WM Unit := do
  let t := field val "Type"
  UWriter.uint8 t
  match t with
  | .num 0 => UWriter.int32 (field val "Value")
  | .num 1 => UWriter.int64 (field val "Value")
  | .num 3 => UWriter.fstring (field val "Value")
  | _ => pure ()

/-- Method `UBuffer.FFormatArgumentValue` on a writer. -/
def UWriter.FFormatArgumentValue (e : Encoders) (val : JSVal) : WM Unit := do
  let t := field val "Type"
  UWriter.int8 t
  match t with
  | .num 3 => UWriter.double (field val "Value")
  | .num 2 => UWriter.float (field val "Value")
  | .num 0 => UWriter.int64 (field val "Value")
  | .num 1 => M.fail .typeError
  | .num 4 => e.ftext (field val "Value")
  | _ => pure ()

/-- Method `UBuffer.tmap` on a writer, as `ftext` calls it. -/
def UWriter.tmap (e : Encoders) (val : JSVal) : WM Unit :=
  let keysOf (v : JSVal) : Option (List JSVal) :=
    match v with
    | .undefined | .null => some []
    | other => arrayItems other
  match keysOf (field val "keys"), keysOf (field val "values") with
  | some keys, some values => do
    UWriter.uint32 (.num keys.length)
    forEachM (fun i => do
      UWriter.fstring (keys.getD i .undefined)
      UWriter.FFormatArgumentValue e (values.getD i .undefined)) (List.range keys.length)
  | _, _ => M.fail .unmodelled

/-- Method `UBuffer.ftext` on a writer. -/
def UWriter.ftext (e : Encoders) (val : JSVal) : WM Unit := do
  UWriter.uint32 (field val "Flags")
  let h := field val "HistoryType"
  UWriter.int8 h
  match h with
  | .num (-1) => do
    let b := field val "bHasCultureInvariantString"
    UWriter.bool b
    if truthy b then UWriter.fstring (field val "CultureInvariantString") else pure ()
  | .num 0 => do
    UWriter.fstring (field val "Namespace")
    UWriter.fstring (field val "Key")
    UWriter.fstring (field val "SourceString")
  | .num 1 => do
    e.ftext (field val "FormatText")
    UWriter.tmap e (field val "Arguments")
  | .num 2 => do
    e.ftext (field val "FormatText")
    UWriter.tarray (UWriter.FFormatArgumentValue e) (field val "Arguments")
  | .num 4 => do
    UWriter.FFormatArgumentValue e (field val "SourceValue")
    let b := field val "bHasFormatOptions"
    UWriter.bool b
    if truthy b then UWriter.raw (field val "FormatOptions") else pure ()
    UWriter.fstring (field val "CultureName")
  | .num 11 => do
    UWriter.fname (field val "TableId")
    UWriter.fstring (field val "Key")
  | _ => pure ()

/-- Method `UBuffer.FSaveGameData` on a writer. -/
def UWriter.FSaveGameData (e : Encoders) (val : JSVal) : WM Unit := do
  UWriter.fname (field val "Name")
  UWriter.object (field val "Class")
  let offsetOfSize ← UWriter.getOffset
  UWriter.int32 (.num 0)
  e.FPropertyList (field val "Data") true
  UWriter.goBack offsetOfSize (fun headOffset =>
    UWriter.int32 (.num ((headOffset : Int) - offsetOfSize - 4)))

/-- Method `UBuffer.FGrimAppearanceHandle` on a writer. -/
def UWriter.FGrimAppearanceHandle (e : Encoders) (val : JSVal) : WM Unit := do
  UWriter.int32 (field val "DataSize")
  let h1 := field val "bHasData1"
  UWriter.int32 h1
  if truthy h1 then e.FPropertyList (field val "Data1") true else pure ()
  let h2 := field val "bHasData2"
  UWriter.int32 h2
  if truthy h2 then e.FPropertyList (field val "Data2") true else pure ()
  if !truthy h1 && !truthy h2 then UWriter.fstring (field val "pAppearance") else pure ()

/-- Method `UBuffer.FGrimItemInstanceHandle` on a writer. -/
def UWriter.FGrimItemInstanceHandle (e : Encoders) (val : JSVal) : WM Unit := do
  UWriter.FSoftObjectPath (field val "ObjectPath")
  let h := field val "bHasData"
  UWriter.int32 h
  if truthy h then e.FPropertyList (field val "Data") true else pure ()

/-- Method `UBuffer.FGrimPtr_IntClassNameProps` on a writer. -/
def UWriter.FGrimPtr_IntClassNameProps (e : Encoders) (val : JSVal) : WM Unit := do
  UWriter.int32 (field val "Unknown")
  let c := field val "Class"
  UWriter.fname c
  match c with
  | .str s =>
    if s ≠ js "None" then do
      UWriter.fname (field val "Name")
      e.FPropertyList (field val "Data") true
    else pure ()
  | _ => do
    UWriter.fname (field val "Name")
    e.FPropertyList (field val "Data") true

/-- The call `this[this.NativeSerializedStructs[tag.StructName]](val)` on a writer. -/
def UWriter.native (e : Encoders) : Native → JSVal → WM Unit
  | .FGuid => UWriter.FGuid
  | .FGameplayTagContainer => UWriter.tarray UWriter.fname
  | .FSoftObjectPath => UWriter.FSoftObjectPath
  | .FIntPoint => UWriter.FIntPoint
  | .FLinearColor => UWriter.FLinearColor
  | .fname => UWriter.fname
  | .int64 => UWriter.int64
  | .FSaveGameData => UWriter.FSaveGameData e
  | .FTQ2FogOfWarPackedData => UWriter.FTQ2FogOfWarPackedData
  | .FGrimAppearanceHandle => UWriter.FGrimAppearanceHandle e
  | .FGrimItemInstanceHandle => UWriter.FGrimItemInstanceHandle e
  | .FGrimPtr_IntClassNameProps => UWriter.FGrimPtr_IntClassNameProps e
  | .FGrimDialogueVariableValue => UWriter.FGrimDialogueVariableValue

/-- Method `UBuffer.FPropertyValue_common` on a writer: `none` stands for `NOT_HANDLED`. -/
def UWriter.FPropertyValue_common (e : Encoders) (f : TagFields) (val : JSVal) :
    Option (WM Unit) :=
  if f.Name = some (js "None") then some (pure ())
  else if f.Typ = some (js "NameProperty") then some (UWriter.fname val)
  else if f.Typ = some (js "EnumProperty") then some (UWriter.fname val)
  else if f.Typ = some (js "IntProperty") then some (UWriter.int32 val)
  else if f.Typ = some (js "ObjectProperty") then some (UWriter.object val)
  else if f.Typ = some (js "SoftObjectProperty") then some (UWriter.FSoftObjectPath val)
  else if f.Typ = some (js "UInt64Property") then some (UWriter.int64 val)
  else if f.Typ = some (js "Int16Property") then some (UWriter.int16 val)
  else if f.Typ = some (js "UInt16Property") then some (UWriter.uint16 val)
  else if f.Typ = some (js "Int64Property") then some (UWriter.int64 val)
  else if f.Typ = some (js "FloatProperty") then some (UWriter.float val)
  else if f.Typ = some (js "DoubleProperty") then some (UWriter.double val)
  else if f.Typ = some (js "StrProperty") then some (UWriter.fstring val)
  else if f.Typ = some (js "TextProperty") then some (e.ftext val)
  else if f.Typ = some (js "MulticastSparseDelegateProperty") ∨
      f.Typ = some (js "MulticastInlineDelegateProperty") then some (UWriter.tarrayMissing val)
  else none

/-- The ByteProperty branch of `UWriter.FPropertyValue`. -/
def UWriter.byteValue (f : TagFields) (val : JSVal) : WM Unit :=
  if truthyStr f.EnumName then UWriter.fname val
  else if f.Size = some (.int 1) then UWriter.uint8 val
  else
    match val with
    | .str _ => UWriter.fname val
    | _ => if f.Size = some (.int 8) then UWriter.int64 val else UWriter.raw val

/-- The ArrayProperty branch of `UWriter.FPropertyValue`. -/
def UWriter.arrayValue (e : Encoders) (val : JSVal) : WTM Unit := do
  let tag ← getTag
  match val with
  | .array xs holes _ => do
    liftR (UWriter.int32 (.num (xs.length + holes)))
    if tag.f.InnerType = some (js "StructProperty") then onInner UWriter.FPropertyTag
    else pure ()
    forEachM (fun x => onInner (e.FPropertyValue x)) (xs ++ List.replicate holes .undefined)
    if tag.f.InnerType = some (js "StructProperty") then onInner UWriter.patchSize
    else pure ()
  | .undefined | .null => M.fail .typeError
  | _ => M.fail .unmodelled

/-- The MapProperty branch of `UWriter.FPropertyValue`. -/
def UWriter.mapValue (e : Encoders) (val : JSVal) : WTM Unit := do
  let tag ← getTag
  if tag.f.MapAsBuffer then
    match val with
    | .undefined | .null => M.fail .typeError
    | _ => liftR (UWriter.raw (field val "buffer"))
  else
    match val with
    | .array xs holes _ => do
      liftR (UWriter.int32 (.num 0))
      liftR (UWriter.int32 (.num (xs.length + holes)))
      forEachM (fun x =>
        match x with
        | .undefined | .null => M.fail .typeError
        | _ => do
          onInner (e.FPropertyValue (field x "key"))
          onValue (e.FPropertyValue (field x "value")))
        (xs ++ List.replicate holes .undefined)
    | .undefined | .null => M.fail .typeError
    | _ => M.fail .unmodelled

/-- The SetProperty branch of `UWriter.FPropertyValue`. Its raw-bytes test reads
`this.SetAsBuffer`, a property that the writer never has, so it never holds. -/
def UWriter.setValue (e : Encoders) (val : JSVal) : WTM Unit :=
  let part (v : JSVal) : WTM Unit :=
    match (if truthy v then v else JSVal.arr []) with
    | .array xs holes _ => do
      liftR (UWriter.int32 (.num (xs.length + holes)))
      forEachM (fun x => onInner (e.FPropertyValue x)) (xs ++ List.replicate holes .undefined)
    | _ => M.fail .unmodelled
  match val with
  | .undefined | .null => M.fail .typeError
  | _ => do
    part (field val "removed")
    part (field val "added")

/-- Method `UWriter.FPropertyValue`, applied to the tag object in hand. -/
def UWriter.FPropertyValue (e : Encoders) (val : JSVal) : WTM Unit := do
  let tag ← getTag
  let f := tag.f
  match UWriter.FPropertyValue_common e f val with
  | some m => liftR m
  | none =>
    if f.Typ = some (js "BoolProperty") then
      match f.bool_offset with
      | some bo => liftR (UWriter.goBack bo (fun _ => UWriter.uint8 val))
      | none => M.fail .unmodelled
    else if f.Typ = some (js "ByteProperty") then liftR (UWriter.byteValue f val)
    else if f.Typ = some (js "StructProperty") then
      match lookupStruct f.StructName with
      | .native n => liftR (UWriter.native e n val)
      | .inherited => M.fail .typeError
      | .absent => liftR (e.FPropertyList val false)
    else if f.Typ = some (js "ArrayProperty") then UWriter.arrayValue e val
    else if f.Typ = some (js "MapProperty") then UWriter.mapValue e val
    else if f.Typ = some (js "SetProperty") then UWriter.setValue e val
    else liftR (UWriter.raw val)

/-- The encoders with `fuel` levels of nesting available. -/
def encoders : Nat → Encoders
  | 0 =>
    { FPropertyValue := fun _ => M.fail .outOfFuel
      FPropertyList := fun _ _ => M.fail .outOfFuel
      ftext := fun _ => M.fail .outOfFuel }
  | fuel + 1 =>
    let e := encoders fuel
    { FPropertyValue := UWriter.FPropertyValue e
      FPropertyList := UWriter.FPropertyList e
      ftext := UWriter.ftext e }

/-! ## The writer: file structures -/

/-- Method `UBuffer.FPackageFileVersion` on a writer. -/
def UWriter.FPackageFileVersion (val : JSVal) : WM Unit := do
  UWriter.int32 (field val "FileVersionUE4")
  UWriter.int32 (field val "FileVersionUE5")

/-- Method `UBuffer.FEngineVersion` on a writer. -/
def UWriter.FEngineVersion (val : JSVal) : WM Unit := do
  UWriter.uint16 (field val "Major")
  UWriter.uint16 (field val "Minor")
  UWriter.uint16 (field val "patch")
  UWriter.uint32 (field val "Changelist")
  UWriter.fstring (field val "Branch")

/-- Method `UBuffer.FCustomVersion` on a writer. -/
def UWriter.FCustomVersion (val : JSVal) : WM Unit := do
  UWriter.FGuid (field val "Key")
  UWriter.int32 (field val "Version")

/-- Method `UBuffer.FCustomVersionContainer` on a writer. -/
def UWriter.FCustomVersionContainer (val : JSVal) : WM Unit :=
  UWriter.tarray UWriter.FCustomVersion val

/-- Method `UBuffer.FSaveGameHeader` on a writer. -/
def UWriter.FSaveGameHeader (val : JSVal) : WM Unit := do
  UWriter.int32 (field val "FileTypeTag")
  UWriter.int32 (field val "SaveGameFileVersion")
  UWriter.FPackageFileVersion (field val "PackageFileUEVersion")
  UWriter.FEngineVersion (field val "SavedEngineVersion")
  UWriter.int32 (field val "CustomVersionFormat")
  UWriter.FCustomVersionContainer (field val "CustomVersions")
  UWriter.fstring (field val "SaveGameClassName")

/-- Method `UBuffer.File_Data_Player` (and its aliases) on a writer. -/
def UWriter.File_Data_Player (e : Encoders) (val : JSVal) : WM Unit := do
  UWriter.FSaveGameHeader (field val "Header")
  UWriter.FPropertyList e (field val "Data") true

/-- Encode a tree with the top-level entry point on a fresh `UWriter` and take `getBuffer()`;
`none` when the writer throws. -/
def encodeFile (fuel : Nat) (val : JSVal) : Option (List Nat) :=
  match UWriter.File_Data_Player (encoders fuel) val UWriter.new with
  | ⟨.ok _, w⟩ => some w.getBuffer
  | ⟨.error _, _⟩ => none

/-! ## Relations between start and end states -/

/-- A reflexive and transitive relation on states. -/
structure StateRel (σ : Type) where
  rel : σ → σ → Prop
  refl : ∀ s, rel s s
  trans : ∀ a b c, rel a b → rel b c → rel a c

/-- The operation relates every start state to the state it ends in, at the return or at the
throw. -/
structure M.Preserves {σ α : Type} (R : StateRel σ) (m : M σ α) : Prop where
  holds : ∀ s, R.rel s (m s).st

/-- A reader never assigns `this.buffer`. -/
def bufRel : StateRel UReader where
  rel r r' := r'.buffer = r.buffer
  refl _ := rfl
  trans _ _ _ h1 h2 := h2.trans h1

/-- A value decode keeps the buffer and, in the tag in hand, the fields `Name`, `Size` and
`data_offset`. -/
def tagRel : StateRel (TState UReader) where
  rel s s' := s'.rd.buffer = s.rd.buffer ∧ s'.tag.f.Size = s.tag.f.Size ∧
    s'.tag.f.Name = s.tag.f.Name ∧ s'.tag.f.data_offset = s.tag.f.data_offset
  refl _ := ⟨rfl, rfl, rfl, rfl⟩
  trans _ _ _ h1 h2 :=
    ⟨h2.1.trans h1.1, h2.2.1.trans h1.2.1, h2.2.2.1.trans h1.2.2.1, h2.2.2.2.trans h1.2.2.2⟩

/-- The writer's tag codec keeps the name of the tag in hand. -/
def nameRel : StateRel (TState UWriter) where
  rel s s' := s'.tag.f.Name = s.tag.f.Name
  refl _ := rfl
  trans _ _ _ h1 h2 := h2.trans h1

/-- The decoders of one level keep the reader's buffer and the main fields of the tag in
hand. -/
structure Decoders.Keeps (d : Decoders) : Prop where
  listLoop : ∀ b fs, M.Preserves bufRel (d.listLoop b fs)
  structLoop : ∀ l fs, M.Preserves bufRel (d.structLoop l fs)
  value : ∀ t, M.Preserves bufRel (d.FPropertyValue t)
  unsafeValue : M.Preserves tagRel d.FPropertyValue_unsafe
  ftext : M.Preserves bufRel d.ftext

/-- Two readers at the same offset, at or beyond position `k`, over buffers of the same
length that hold the same bytes from position `k` on. -/
def agreeFrom (k : Nat) (r1 r2 : UReader) : Prop :=
  r1.offset = r2.offset ∧ (k : Int) ≤ r1.offset ∧ r1.buffer.length = r2.buffer.length ∧
    r1.buffer.drop k = r2.buffer.drop k

/-- The operation does not look at the bytes before position `k`: on two readers that agree
from `k` on it has the same outcome and ends in readers that agree from `k` on. -/
structure M.Frame {α : Type} (k : Nat) (m : RM α) : Prop where
  holds : ∀ r1 r2, agreeFrom k r1 r2 → (m r1).out = (m r2).out ∧ agreeFrom k (m r1).st (m r2).st

/-- The operation relates every start state to the state of each normal return. -/
structure M.Returns {σ α : Type} (R : StateRel σ) (m : M σ α) : Prop where
  holds : ∀ s a s', m s = ⟨.ok a, s'⟩ → R.rel s s'

/-- Across a writer operation that returns, neither the cursor nor the buffer length
decreases, and a cursor inside the buffer stays inside. -/
def growRel : StateRel UWriter where
  rel w w' := w.offset ≤ w'.offset ∧ w.length ≤ w'.length ∧
    (w.offset < w.length → w'.offset < w'.length)
  refl _ := ⟨Nat.le_refl _, Nat.le_refl _, id⟩
  trans _ _ _ h1 h2 :=
    ⟨Nat.le_trans h1.1 h2.1, Nat.le_trans h1.2.1 h2.2.1, fun h => h2.2.2 (h1.2.2 h)⟩

/-- The relation `growRel` on the writer of a value codec, whatever happens to the tag. -/
def rdRel : StateRel (TState UWriter) where
  rel s s' := growRel.rel s.rd s'.rd
  refl s := growRel.refl s.rd
  trans a b c h1 h2 := growRel.trans a.rd b.rd c.rd h1 h2

/-- The relation `growRel` on the writer, and the tag in hand keeps its fields `Name`,
`size_offset` and `data_offset`. -/
def ownRel : StateRel (TState UWriter) where
  rel s s' := growRel.rel s.rd s'.rd ∧ s'.tag.f.Name = s.tag.f.Name ∧
    s'.tag.f.size_offset = s.tag.f.size_offset ∧ s'.tag.f.data_offset = s.tag.f.data_offset
  refl s := ⟨growRel.refl s.rd, rfl, rfl, rfl⟩
  trans a b c h1 h2 :=
    ⟨growRel.trans a.rd b.rd c.rd h1.1 h2.1, h2.2.1.trans h1.2.1, h2.2.2.1.trans h1.2.2.1,
      h2.2.2.2.trans h1.2.2.2⟩

/-- The encoders of one level satisfy `growRel`, and the value encoder `ownRel`. -/
structure Encoders.Grows (e : Encoders) : Prop where
  value : ∀ v, M.Returns ownRel (e.FPropertyValue v)
  list : ∀ v b, M.Returns growRel (e.FPropertyList v b)
  ftext : ∀ v, M.Returns growRel (e.ftext v)

/-- A codec that works on the element tags keeps the data fields of the tag in hand. -/
def fieldsRel : StateRel (TState UReader) where
  rel s s' := s'.tag.f = s.tag.f
  refl _ := rfl
  trans _ _ _ h1 h2 := h2.trans h1

/-! ## Canonical encodings -/

/-- The operation, started at the first byte of `bs` in any buffer that holds `bs` there,
returns `v` (which may depend on the start offset) with the cursor right behind `bs`. -/
def Reads {α : Type} (m : RM α) (bs : List Nat) (v : Int → α) : Prop :=
  ∀ (r : UReader) (pre post : List Nat), r.buffer = pre ++ bs ++ post → r.offset = pre.length →
    m r = ⟨.ok (v r.offset), { r with offset := r.offset + bs.length }⟩

/-- The cursor is inside the buffer and every byte from the cursor on is zero (as in a fresh
writer). -/
def UWriter.clean (w : UWriter) : Prop :=
  w.offset < w.length ∧ ∀ j, w.offset ≤ j → w.byteAt j = 0

/-- The writer `w'` is `w` with the bytes `bs` stored at the cursor of `w` and the cursor
behind them, inside the buffer; the bytes before are unchanged and those behind are zero. -/
structure UWriter.Appended (w : UWriter) (bs : List Nat) (w' : UWriter) : Prop where
  offset : w'.offset = w.offset + bs.length
  clean : w'.clean
  before : ∀ j, j < w.offset → w'.byteAt j = w.byteAt j
  bytes : ∀ i, i < bs.length → w'.byteAt (w.offset + i) = bs.getD i 0

/-- On every clean writer the operation returns and appends `bs`. -/
def Wrote (m : WM Unit) (bs : List Nat) : Prop :=
  ∀ w : UWriter, w.clean → ∃ w', m w = ⟨.ok (), w'⟩ ∧ w.Appended bs w'

/-- The wire form of a string as the writer produces it: four zero bytes for the empty string,
`01 00 00 00 00` for the sentinel, else length plus one, the characters and a null byte. -/
def strWire (s : JSString) : List Nat :=
  if s = [] then [0, 0, 0, 0]
  else if s = EMPTY_STR_AS_NULL_CHAR then [1, 0, 0, 0, 0]
  else leBytes 4 (s.length + 1) ++ s ++ [0]

/-- Strings that `strWire` represents faithfully: ASCII, and short enough for the length
field. -/
def asciiStr (s : JSString) : Prop := (∀ c ∈ s, c < 128) ∧ s.length + 1 < 2 ^ 31

/-- The wire form of a signed integer of `n` bytes. -/
def intWire (n : Nat) (v : Int) : List Nat := leBytes n (toUnsigned (8 * n) v)

/-- The integers that fit a signed field of `n` bytes. -/
def fitsSigned (n : Nat) (v : Int) : Prop := -(2 ^ (8 * n - 1)) ≤ v ∧ v < 2 ^ (8 * n - 1)

/-- A guid: four unsigned 32-bit numbers. -/
structure GuidData where
  a : Nat
  b : Nat
  c : Nat
  d : Nat

/-- The four numbers fit 32 bits. -/
def GuidData.valid (g : GuidData) : Prop := g.a < 2 ^ 32 ∧ g.b < 2 ^ 32 ∧ g.c < 2 ^ 32 ∧ g.d < 2 ^ 32

/-- Wire form of a guid. -/
def GuidData.wire (g : GuidData) : List Nat :=
  leBytes 4 g.a ++ leBytes 4 g.b ++ leBytes 4 g.c ++ leBytes 4 g.d

/-- The list that the reader's `FGuid` returns. -/
def GuidData.ints (g : GuidData) : List Int := [(g.a : Int), (g.b : Int), (g.c : Int), (g.d : Int)]

/-- An entry of the custom version container. -/
structure CustomVersionData where
  key : GuidData
  version : Int

/-- The fields of a save-game header. -/
structure HeaderData where
  fileTypeTag : Int
  saveGameFileVersion : Int
  fileVersionUE4 : Int
  fileVersionUE5 : Int
  major : Nat
  minor : Nat
  patchNo : Nat
  changelist : Nat
  branch : JSString
  customVersionFormat : Int
  customVersions : List CustomVersionData
  saveGameClassName : JSString

/-- Every field of the header fits its wire field and the strings are ASCII. -/
def HeaderData.valid (h : HeaderData) : Prop :=
  fitsSigned 4 h.fileTypeTag ∧ fitsSigned 4 h.saveGameFileVersion ∧
  fitsSigned 4 h.fileVersionUE4 ∧ fitsSigned 4 h.fileVersionUE5 ∧
  h.major < 2 ^ 16 ∧ h.minor < 2 ^ 16 ∧ h.patchNo < 2 ^ 16 ∧ h.changelist < 2 ^ 32 ∧
  asciiStr h.branch ∧ fitsSigned 4 h.customVersionFormat ∧
  h.customVersions.length < 2 ^ 32 ∧
  (∀ cv ∈ h.customVersions, cv.key.valid ∧ fitsSigned 4 cv.version) ∧
  asciiStr h.saveGameClassName

/-- Wire form of a custom version entry. -/
def CustomVersionData.wire (cv : CustomVersionData) : List Nat :=
  cv.key.wire ++ intWire 4 cv.version

/-- The decoded custom version entry. -/
def CustomVersionData.value (cv : CustomVersionData) : JSVal :=
  mkObj [("Key", .arr (cv.key.ints.map JSVal.num)), ("Version", .num cv.version)]

/-- Wire form of a save-game header. -/
def HeaderData.wire (h : HeaderData) : List Nat :=
  intWire 4 h.fileTypeTag ++ intWire 4 h.saveGameFileVersion ++
  (intWire 4 h.fileVersionUE4 ++ intWire 4 h.fileVersionUE5) ++
  (leBytes 2 h.major ++ leBytes 2 h.minor ++ leBytes 2 h.patchNo ++ leBytes 4 h.changelist ++
    strWire h.branch) ++
  intWire 4 h.customVersionFormat ++
  (leBytes 4 h.customVersions.length ++ h.customVersions.flatMap CustomVersionData.wire) ++
  strWire h.saveGameClassName

/-- The decoded save-game header. -/
def HeaderData.value (h : HeaderData) : JSVal :=
  mkObj [("FileTypeTag", .num h.fileTypeTag), ("SaveGameFileVersion", .num h.saveGameFileVersion),
    ("PackageFileUEVersion",
      mkObj [("FileVersionUE4", .num h.fileVersionUE4), ("FileVersionUE5", .num h.fileVersionUE5)]),
    ("SavedEngineVersion",
      mkObj [("Major", .num h.major), ("Minor", .num h.minor), ("patch", .num h.patchNo),
        ("Changelist", .num h.changelist), ("Branch", .str h.branch)]),
    ("CustomVersionFormat", .num h.customVersionFormat),
    ("CustomVersions", .arr (h.customVersions.map CustomVersionData.value)),
    ("SaveGameClassName", .str h.saveGameClassName)]

/-- A property value of a type that `FPropertyValue_common` handles and whose tag has no
type-specific fields. -/
inductive ScalarData where
  | int (v : Int)
  | int16 (v : Int)
  | uint16 (v : Nat)
  | int64 (v : Int)
  | uint64 (v : Int)
  | str (s : JSString)
  | name (s : JSString)
  | object (s : JSString)
  | float (bits : Nat)
  | double (bits : Nat)
  | softObject (packageName assetName subPath : JSString)

/-- The bit pattern of a 32-bit float that is not a NaN (the conversions between a float and a
JavaScript number keep every other pattern). -/
def notNaN32 (bits : Nat) : Prop :=
  bits < 2 ^ 32 ∧ ¬ ((bits / 2 ^ 23) % 256 = 255 ∧ bits % 2 ^ 23 ≠ 0)

/-- The bit pattern of a 64-bit float that is not a NaN. -/
def notNaN64 (bits : Nat) : Prop :=
  bits < 2 ^ 64 ∧ ¬ ((bits / 2 ^ 52) % 2048 = 2047 ∧ bits % 2 ^ 52 ≠ 0)

/-- The type name in the tag. -/
def ScalarData.typeName : ScalarData → JSString
  | .int _ => js "IntProperty"
  | .int16 _ => js "Int16Property"
  | .uint16 _ => js "UInt16Property"
  | .int64 _ => js "Int64Property"
  | .uint64 _ => js "UInt64Property"
  | .str _ => js "StrProperty"
  | .name _ => js "NameProperty"
  | .object _ => js "ObjectProperty"
  | .float _ => js "FloatProperty"
  | .double _ => js "DoubleProperty"
  | .softObject _ _ _ => js "SoftObjectProperty"

/-- The value fits its wire field; strings are ASCII; floats are not NaN. -/
def ScalarData.valid : ScalarData → Prop
  | .int v => fitsSigned 4 v
  | .int16 v => fitsSigned 2 v
  | .uint16 v => v < 2 ^ 16
  | .int64 v => fitsSigned 8 v
  | .uint64 v => fitsSigned 8 v
  | .str s => asciiStr s
  | .name s => asciiStr s
  | .object s => asciiStr s
  | .float bits => notNaN32 bits
  | .double bits => notNaN64 bits
  | .softObject p a s => asciiStr p ∧ asciiStr a ∧ asciiStr s

/-- Wire form of the value. -/
def ScalarData.wire : ScalarData → List Nat
  | .int v => intWire 4 v
  | .int16 v => intWire 2 v
  | .uint16 v => leBytes 2 v
  | .int64 v => intWire 8 v
  | .uint64 v => intWire 8 v
  | .str s => strWire s
  | .name s => strWire s
  | .object s => strWire s
  | .float bits => leBytes 4 bits
  | .double bits => leBytes 8 bits
  | .softObject p a s => strWire p ++ strWire a ++ strWire s

/-- The decoded value. -/
def ScalarData.value : ScalarData → JSVal
  | .int v => .num v
  | .int16 v => .num v
  | .uint16 v => .num v
  | .int64 v => .bigint v
  | .uint64 v => .bigint v
  | .str s => .str s
  | .name s => .str s
  | .object s => .str s
  | .float bits => .float bits
  | .double bits => .double bits
  | .softObject p a s =>
    mkObj [("PackageName", .str p), ("AssetName", .str a), ("SubPathString", .str s)]

/-- The reader that `FPropertyValue_common` selects for the type. -/
def ScalarData.reader : ScalarData → RM JSVal
  | .int _ => JSVal.num <$> UReader.int32
  | .int16 _ => JSVal.num <$> UReader.int16
  | .uint16 _ => JSVal.num <$> UReader.uint16
  | .int64 _ => JSVal.bigint <$> UReader.int64
  | .uint64 _ => JSVal.bigint <$> UReader.int64
  | .str _ => JSVal.str <$> UReader.fstring
  | .name _ => JSVal.str <$> UReader.fname
  | .object _ => JSVal.str <$> UReader.object
  | .float _ => JSVal.float <$> UReader.float
  | .double _ => JSVal.double <$> UReader.double
  | .softObject _ _ _ => UReader.FSoftObjectPath

/-- The writer that `FPropertyValue_common` selects for the type, on a value. -/
def ScalarData.writer : ScalarData → JSVal → WM Unit
  | .int _ => UWriter.int32
  | .int16 _ => UWriter.int16
  | .uint16 _ => UWriter.uint16
  | .int64 _ => UWriter.int64
  | .uint64 _ => UWriter.int64
  | .str _ => UWriter.fstring
  | .name _ => UWriter.fname
  | .object _ => UWriter.object
  | .float _ => UWriter.float
  | .double _ => UWriter.double
  | .softObject _ _ _ => UWriter.FSoftObjectPath

/-- A property of a scalar type without property guid: the name on the wire, the array index
and the value. -/
structure PropData where
  name : JSString
  index : Int
  val : ScalarData

/-- The name under which the reader stores the property: `name[index]` for a positive index. -/
def PropData.fullName (p : PropData) : JSString :=
  if 0 < p.index then p.name ++ (js "[" ++ intToJS p.index ++ js "]") else p.name

/-- The property can be stored and found again: ASCII name that is not the terminator and does
not itself end in a bracketed number, index in range, valid value, and a stored name that is
neither the key of the tag list nor `__proto__`. -/
def PropData.valid (p : PropData) : Prop :=
  asciiStr p.name ∧ p.name ≠ js "None" ∧ matchArraySuffix p.name = none ∧
  fitsSigned 4 p.index ∧ p.val.valid ∧ p.val.wire.length < 2 ^ 31 ∧
  p.fullName ≠ PropertiesKey ∧ p.fullName ≠ js "__proto__"

/-- Wire form of the tag up to the size field. -/
def PropData.headWire (p : PropData) : List Nat := strWire p.name ++ strWire p.val.typeName

/-- Wire form of the tag behind the size field: array index and the absent property guid. -/
def PropData.midWire (p : PropData) : List Nat := intWire 4 p.index ++ [0]

/-- Wire form of the property: tag (with the size of the value) and value. -/
def PropData.wire (p : PropData) : List Nat :=
  p.headWire ++ intWire 4 p.val.wire.length ++ p.midWire ++ p.val.wire

/-- The tag object that the reader builds for the property when its tag starts at `o`. -/
def PropData.tag (p : PropData) (o : Int) : Tag :=
  Tag.ofFields
    { Name := some p.fullName, Typ := some p.val.typeName,
      Size := some (.int p.val.wire.length), ArrayIndex := some p.index,
      HasPropertyGuid := some 0, tag_offset := some o,
      size_offset := some (o + p.headWire.length),
      data_offset := some (o + p.headWire.length + 4 + p.midWire.length) }

/-- The tag objects of consecutive properties, the first of which starts at `o`. -/
def decodedTags : List PropData → Int → List Tag
  | [], _ => []
  | p :: ps, o => p.tag o :: decodedTags ps (o + p.wire.length)

/-- The decoded property list: the tag objects under `PropertiesKey`, then each value under
its stored name. -/
def listValue (ps : List PropData) (o : Int) : JSVal :=
  .object ((PropertiesKey, .props (decodedTags ps o)) ::
    ps.map (fun p => (p.fullName, p.val.value)))

/-- Wire form of a top-level property list with zero extra bytes. -/
def listWire (ps : List PropData) : List Nat :=
  ps.flatMap PropData.wire ++ strWire (js "None") ++ [0, 0, 0, 0]

/-- Wire form of a save file: header and top-level property list. -/
def fileWire (h : HeaderData) (ps : List PropData) : List Nat := h.wire ++ listWire ps

/-- The tree that the reader builds from `fileWire h ps`. -/
def fileValue (h : HeaderData) (ps : List PropData) : JSVal :=
  mkObj [("Header", h.value), ("Data", listValue ps h.wire.length)]

/-- The fixed-width reads of `UReader`. -/
inductive FixedRead where
  | int8 | uint8 | int16 | uint16 | int32 | uint32 | int64 | float | double
  deriving DecidableEq, Repr

/-- The number of bytes that the read takes. -/
def FixedRead.width : FixedRead → Nat
  | .int8 => 1
  | .uint8 => 1
  | .int16 => 2
  | .uint16 => 2
  | .int32 => 4
  | .uint32 => 4
  | .int64 => 8
  | .float => 4
  | .double => 8

/-- The method of `UReader` that performs the read, its result as a decoded value. -/
def FixedRead.run : FixedRead → RM JSVal
  | .int8 => JSVal.num <$> UReader.int8
  | .uint8 => JSVal.num <$> UReader.uint8
  | .int16 => JSVal.num <$> UReader.int16
  | .uint16 => JSVal.num <$> UReader.uint16
  | .int32 => JSVal.num <$> UReader.int32
  | .uint32 => JSVal.num <$> UReader.uint32
  | .int64 => JSVal.bigint <$> UReader.int64
  | .float => JSVal.float <$> UReader.float
  | .double => JSVal.double <$> UReader.double

/-- The value that the read makes of the little-endian number formed by its bytes. -/
def FixedRead.value : FixedRead → Nat → JSVal
  | .int8, v => .num (toSigned 8 v)
  | .uint8, v => .num v
  | .int16, v => .num (toSigned 16 v)
  | .uint16, v => .num v
  | .int32, v => .num (toSigned 32 v)
  | .uint32, v => .num v
  | .int64, v => .bigint (toSigned 64 v)
  | .float, v => .float v
  | .double, v => .double v

/-- A write of the writer's cursor interface with its argument: a fixed-width primitive, `raw`
of a buffer, `fstring` of a string. -/
inductive WriteOp where
  | int8 (v : Int)
  | uint8 (v : Nat)
  | int16 (v : Int)
  | uint16 (v : Nat)
  | int32 (v : Int)
  | uint32 (v : Nat)
  | int64 (v : Int)
  | float (bits : Nat)
  | double (bits : Nat)
  | raw (bs : List Nat)
  | fstring (s : JSString)

/-- The method of `UWriter` that performs the write, applied to its argument. -/
def WriteOp.run : WriteOp → WM Unit
  | .int8 v => UWriter.int8 (.num v)
  | .uint8 v => UWriter.uint8 (.num v)
  | .int16 v => UWriter.int16 (.num v)
  | .uint16 v => UWriter.uint16 (.num v)
  | .int32 v => UWriter.int32 (.num v)
  | .uint32 v => UWriter.uint32 (.num v)
  | .int64 v => UWriter.int64 (.bigint v)
  | .float bits => UWriter.float (.float bits)
  | .double bits => UWriter.double (.double bits)
  | .raw bs => UWriter.raw (.buffer bs)
  | .fstring s => UWriter.fstring (.str s)

/-- The argument is one that the `Buffer` write accepts whatever the capacity: an integer in
the range of the type, a string whose length fits the length field. -/
def WriteOp.valid : WriteOp → Prop
  | .int8 v => fitsSigned 1 v
  | .uint8 v => v < 2 ^ 8
  | .int16 v => fitsSigned 2 v
  | .uint16 v => v < 2 ^ 16
  | .int32 v => fitsSigned 4 v
  | .uint32 v => v < 2 ^ 32
  | .int64 v => fitsSigned 8 v
  | .float _ => True
  | .double _ => True
  | .raw _ => True
  | .fstring s => s.length + 1 < 2 ^ 31

/-- The bytes that the write stores at the cursor. The characters of a string are stored as
`'ascii'`, which keeps the low byte of each code unit (the character itself for ASCII). -/
def WriteOp.stored : WriteOp → List Nat
  | .int8 v => intWire 1 v
  | .uint8 v => leBytes 1 v
  | .int16 v => intWire 2 v
  | .uint16 v => leBytes 2 v
  | .int32 v => intWire 4 v
  | .uint32 v => leBytes 4 v
  | .int64 v => intWire 8 v
  | .float bits => leBytes 4 bits
  | .double bits => leBytes 8 bits
  | .raw bs => bs
  | .fstring s =>
    if s = EMPTY_STR_AS_NULL_CHAR then [1, 0, 0, 0, 0]
    else if 0 < s.length then leBytes 4 (s.length + 1) ++ s.map (· % 256)
    else [0, 0, 0, 0]

/-- The number of buffer bytes behind the stored ones that the write steps over without
storing anything: the terminator of a non-empty string. -/
def WriteOp.skipped : WriteOp → Nat
  | .fstring s => if s = EMPTY_STR_AS_NULL_CHAR then 0 else if 0 < s.length then 1 else 0
  | _ => 0

/-- The bytes between the old and the new cursor after the write, on a buffer that is zero
from the old cursor on. -/
def WriteOp.bytes (op : WriteOp) : List Nat := op.stored ++ List.replicate op.skipped 0

/-- The writer states that a fresh `UWriter` reaches by writes of its cursor interface and by
`goBack` to a position in the written part with such a write as callback that stays within
the written part. -/
inductive UWriter.Reachable : UWriter → Prop where
  | fresh : UWriter.Reachable UWriter.new
  | step (op : WriteOp) (w w' : UWriter) : UWriter.Reachable w → op.run w = ⟨.ok (), w'⟩ →
      UWriter.Reachable w'
  | back (op : WriteOp) (p : Nat) (w w' : UWriter) : UWriter.Reachable w →
      p + op.bytes.length ≤ w.offset →
      UWriter.goBack p (fun _ => op.run) w = ⟨.ok (), w'⟩ → UWriter.Reachable w'

/-- The writer `w'` is `w` after a store of `bs` at the cursor of `w` and a step over `k` more
bytes, from any state: where the buffer ends up, and which bytes are kept. -/
structure UWriter.Stored (w : UWriter) (bs : List Nat) (k : Nat) (w' : UWriter) : Prop where
  offset : w'.offset = w.offset + bs.length + k
  length : w.length ≤ w'.length
  inside : w'.offset < w'.length
  bytes : ∀ i, i < bs.length → w'.byteAt (w.offset + i) = bs.getD i 0
  kept : ∀ j, j < w.length → j < w.offset ∨ w.offset + bs.length ≤ j → w'.byteAt j = w.byteAt j
  zero : ∀ z, w.offset + bs.length ≤ z → (∀ j, z ≤ j → w.byteAt j = 0) →
    ∀ j, z ≤ j → w'.byteAt j = 0

/-- From every writer state the operation returns, having stored `bs` at the cursor and
stepped over `k` more bytes. -/
def Stores (m : WM Unit) (bs : List Nat) (k : Nat) : Prop :=
  ∀ w : UWriter, ∃ w', m w = ⟨.ok (), w'⟩ ∧ w.Stored bs k w'

/-- Every fault that the operation throws satisfies `P`. -/
structure M.Throws {σ α : Type} (P : Fault → Prop) (m : M σ α) : Prop where
  holds : ∀ s e s', m s = ⟨.error e, s'⟩ → P e

/-- The first occurrence of `p` in `s` is at index `i`. -/
def firstOccurrence (p s : JSString) (i : Nat) : Prop :=
  p <+: s.drop i ∧ ∀ j, j < i → ¬ p <+: s.drop j

/-- Wire form of a pair of a map whose keys and values are of scalar types. -/
def pairWire (p : ScalarData × ScalarData) : List Nat := p.1.wire ++ p.2.wire

/-- The decoded pair. -/
def pairValue (p : ScalarData × ScalarData) : JSVal :=
  mkObj [("key", p.1.value), ("value", p.2.value)]

/-- Wire form of the value of a map: the reserved leading field, the count and the pairs. -/
def mapWire (reserved : Int) (ps : List (ScalarData × ScalarData)) : List Nat :=
  intWire 4 reserved ++ (intWire 4 ps.length ++ ps.flatMap pairWire)

/-- Some probe of the struct loop fails: started with `fuel` levels of decoders at the reader
`r` with the entries `result`, the loop of the struct branch reaches, after zero or more inner
properties decoded, a probe that does not answer `true`. -/
inductive ProbeFails (opts : Options) (limit : Option Int) :
    Nat → List (JSString × JSVal) → UReader → Prop where
  | here (fuel : Nat) (result : List (JSString × JSVal)) (r : UReader) :
      (UReader.tryPropertyTag limit r).out ≠ .ok true → ProbeFails opts limit fuel result r
  | later (fuel : Nat) (result result1 : List (JSString × JSVal)) (r r1 r2 : UReader)
      (tag : Tag) :
      UReader.tryPropertyTag limit r = ⟨.ok true, r⟩ → UReader.FPropertyTag r = ⟨.ok tag, r1⟩ →
      tag.f.Name ≠ some (js "None") →
      pushAndDecode (decoders opts (fuel + 1)) result tag r1 = ⟨.ok result1, r2⟩ →
      ProbeFails opts limit fuel result1 r2 → ProbeFails opts limit (fuel + 1) result r

/-- Across a writer operation that returns from a state whose cursor is inside the buffer, the
cursor stays inside and does not move back, and the bytes before the old cursor are
unchanged. -/
def keepRel : StateRel UWriter where
  rel w w' := w.offset < w.length →
    w'.offset < w'.length ∧ w.offset ≤ w'.offset ∧ ∀ j, j < w.offset → w'.byteAt j = w.byteAt j
  refl _ := fun h => ⟨h, Nat.le_refl _, fun _ _ => rfl⟩
  trans _ _ _ h1 h2 := fun h =>
    ⟨(h2 (h1 h).1).1, Nat.le_trans (h1 h).2.1 (h2 (h1 h).1).2.1, fun j hj =>
      ((h2 (h1 h).1).2.2 j (Nat.lt_of_lt_of_le hj (h1 h).2.1)).trans ((h1 h).2.2 j hj)⟩

/-- The relation `keepRel` on the writer of a tag codec, whatever happens to the tag. -/
def keepTagRel : StateRel (TState UWriter) where
  rel s s' := keepRel.rel s.rd s'.rd
  refl s := keepRel.refl s.rd
  trans a b c h1 h2 := keepRel.trans a.rd b.rd c.rd h1 h2

/-- The key under which the loop of `UReader.FPropertyList` stores the value decoded for a tag
object: `tag.Name` after the value decode. -/
def stepName (s : Tag × JSVal) : JSString := s.1.f.Name.getD []

/-- A run of the loop of `UReader.FPropertyList` on decoders of level `fuel`, from the reader
`r` to the reader `r'`: the tags before the terminator in wire order, each as the tag object
that `FPropertyValue` returned with the value that it decoded for the tag. -/
inductive ListRun (opts : Options) (withExtraBytes : Bool) :
    Nat → UReader → List (Tag × JSVal) → UReader → Prop where
  | done (fuel : Nat) (r r1 r' : UReader) (tag : Tag) :
      UReader.FPropertyTag r = ⟨.ok tag, r1⟩ → tag.f.Name = some (js "None") →
      (if withExtraBytes then ∃ x, UReader.int32 r1 = ⟨.ok x, r'⟩ else r' = r1) →
      ListRun opts withExtraBytes fuel r [] r'
  | step (fuel : Nat) (r r1 r2 r' : UReader) (tag t' : Tag) (v : JSVal)
      (steps : List (Tag × JSVal)) :
      UReader.FPropertyTag r = ⟨.ok tag, r1⟩ → tag.f.Name ≠ some (js "None") →
      (decoders opts (fuel + 1)).FPropertyValue tag r1 = ⟨.ok (v, t'), r2⟩ →
      ListRun opts withExtraBytes fuel r2 steps r' →
      ListRun opts withExtraBytes (fuel + 1) r ((t', v) :: steps) r'

/-- The elements of an array of a fixed-size element type: 32-bit integers (inner type
IntProperty) or single bytes (inner type BoolProperty). -/
inductive ArrayData where
  | ints (xs : List Int)
  | bools (bs : List Nat)

/-- The inner type in the tag of the array. -/
def ArrayData.innerType : ArrayData → JSString
  | .ints _ => js "IntProperty"
  | .bools _ => js "BoolProperty"

/-- The number of elements. -/
def ArrayData.count : ArrayData → Nat
  | .ints xs => xs.length
  | .bools bs => bs.length

/-- The elements fit their wire fields and the count fits the count field. -/
def ArrayData.valid : ArrayData → Prop
  | .ints xs => (∀ x ∈ xs, fitsSigned 4 x) ∧ xs.length < 2 ^ 31
  | .bools bs => (∀ b ∈ bs, b < 2 ^ 8) ∧ bs.length < 2 ^ 31

/-- Wire form of the value of the array: the little-endian count, then the elements. -/
def ArrayData.wire : ArrayData → List Nat
  | .ints xs => intWire 4 xs.length ++ xs.flatMap (intWire 4)
  | .bools bs => intWire 4 bs.length ++ bs

/-- The declared size of the value: 4 + 4n for integers, 4 + n for single bytes. -/
def ArrayData.size : ArrayData → Int
  | .ints xs => 4 + 4 * xs.length
  | .bools bs => 4 + bs.length

/-- The decoded array: the elements in order. -/
def ArrayData.value : ArrayData → JSVal
  | .ints xs => .arr (xs.map JSVal.num)
  | .bools bs => .arr (bs.map (fun (b : Nat) => JSVal.num (b : Int)))

/-- The element tag that the reader synthesizes: the inner type (ByteProperty for
BoolProperty) and the element size `(size - 4) / count`, which is not a number for an empty
array. -/
def ArrayData.innerTag : ArrayData → Tag
  | .ints xs =>
    Tag.ofFields { Typ := some (js "IntProperty"),
                   Size := some (if xs.length = 0 then .nonInt else .int 4) }
  | .bools bs =>
    Tag.ofFields { Typ := some (js "ByteProperty"),
                   Size := some (if bs.length = 0 then .nonInt else .int 1) }

/-- Wire form of the tag of a BoolProperty with wire name `n`, array index `i` and the value
byte `v`: name, type, the size field (zero: the value stream holds nothing), array index, the
value byte and the absent property guid. -/
def boolWire (n : JSString) (i : Int) (v : Nat) : List Nat :=
  strWire n ++ strWire (js "BoolProperty") ++ intWire 4 0 ++ intWire 4 i ++ [v] ++ [0]

/-- The tag object that the reader builds from `boolWire n i v` when the tag starts at `o`. -/
def boolTag (n : JSString) (i : Int) (v : Nat) (o : Int) : Tag :=
  Tag.ofFields
    { Name := some (if 0 < i then n ++ (js "[" ++ intToJS i ++ js "]") else n),
      Typ := some (js "BoolProperty"), Size := some (.int 0), ArrayIndex := some i,
      bool_offset := some (o + (strWire n).length + 25), BoolVal := some (v : Int),
      HasPropertyGuid := some 0, tag_offset := some o,
      size_offset := some (o + (strWire n).length + 17),
      data_offset := some (o + (strWire n).length + 27) }

/-- A string field that is present and whose length fits the length field of `fstring`. -/
def shortStr (o : Option JSString) : Prop := ∃ s, o = some s ∧ s.length + 1 < 2 ^ 31

/-- A guid field that is present: four numbers of 32 bits. -/
def guidField (o : Option (List Int)) : Prop :=
  ∃ a b c d : Nat, o = some [(a : Int), (b : Int), (c : Int), (d : Int)] ∧
    a < 2 ^ 32 ∧ b < 2 ^ 32 ∧ c < 2 ^ 32 ∧ d < 2 ^ 32

/-- The type-specific fields that the writer's `FPropertyTag` writes are present and fit their
wire fields. -/
def TagFields.extrasWritable (f : TagFields) : Prop :=
  if f.Typ = some (js "StructProperty") then shortStr f.StructName ∧ guidField f.StructGuid
  else if f.Typ = some (js "BoolProperty") then ∃ b : Nat, f.BoolVal = some (b : Int) ∧ b < 2 ^ 8
  else if f.Typ = some (js "ByteProperty") ∨ f.Typ = some (js "EnumProperty") then
    shortStr f.EnumName
  else if f.Typ = some (js "ArrayProperty") ∨ f.Typ = some (js "SetProperty") then
    shortStr f.InnerType
  else if f.Typ = some (js "MapProperty") then shortStr f.InnerType ∧ shortStr f.ValueType
  else True

/-- The fields that the writer's `FPropertyTag` writes behind the name are present and fit
their wire fields. -/
def TagFields.writable (f : TagFields) : Prop :=
  shortStr f.Typ ∧ (∃ i, f.ArrayIndex = some i ∧ fitsSigned 4 i) ∧
  (∃ h : Nat, f.HasPropertyGuid = some (h : Int) ∧ h < 2 ^ 8 ∧
    (h ≠ 0 → guidField f.PropertyGuid)) ∧
  f.extrasWritable

/-- From the state `s` the operation returns, in a state that satisfies `Q`. -/
def M.runsTo {σ α : Type} (m : M σ α) (s : σ) (Q : σ → Prop) : Prop :=
  ∃ a s', m s = ⟨.ok a, s'⟩ ∧ Q s'

/-- A property of a property list taken as a unit: its bytes on the wire (tag and value), the
tag object that the decoded list holds for it when the tag starts at offset `o`, the name under
which its value is stored, the decoded value, and the levels of fuel from which the decoders and
the encoders handle it. -/
structure Entry where
  wire : List Nat
  tag : Int → Tag
  name : JSString
  value : JSVal
  readFuel : Nat
  writeFuel : Nat

/-- The property round-trips on its own. Wherever its bytes stand in a buffer, the reader's
`FPropertyTag` returns a tag other than the terminator and `FPropertyValue` on that tag returns
the value and leaves the tag object `e.tag o`, with the cursor right behind the bytes; the tag
carries the name, which is none of `None`, `__props__`, `__proto__`; and wherever the writer
stands, with only zero bytes at and beyond its cursor, one iteration of the loop of
`UWriter.FPropertyList` (tag, value found under the name, size backpatch) on `e.tag o` and an
object that holds the value under the name appends exactly these bytes. -/
structure Entry.roundTrips (opts : Options) (e : Entry) : Prop where
  named : ∀ o, (e.tag o).f.Name = some e.name
  ordinary : e.name ≠ js "None" ∧ e.name ≠ PropertiesKey ∧ e.name ≠ js "__proto__"
  reads : ∀ n, e.readFuel ≤ n → ∀ (r : UReader) (pre post : List Nat),
    r.buffer = pre ++ e.wire ++ post → r.offset = pre.length →
    ∃ t0 r1, UReader.FPropertyTag r = ⟨.ok t0, r1⟩ ∧ t0.f.Name ≠ some (js "None") ∧
      Decoders.FPropertyValue (decoders opts n) t0 r1 =
        ⟨.ok (e.value, e.tag r.offset), { r with offset := r.offset + e.wire.length }⟩
  writes : ∀ m fs o, e.writeFuel ≤ m → objGet fs e.name = some e.value →
    Wrote (UWriter.writeProperty (encoders m) fs (e.tag o)) e.wire

/-- The tag objects of consecutive properties, the first of which starts at `o`. -/
def entryTags : List Entry → Int → List Tag
  | [], _ => []
  | e :: es, o => e.tag o :: entryTags es (o + e.wire.length)

/-- The value entries of the decoded list: each value assigned under its name, in wire order,
to the entries `acc` (a later assignment to a name replaces the earlier value in place). -/
def entryFields (es : List Entry) (acc : List (JSString × JSVal)) : List (JSString × JSVal) :=
  es.foldl (fun a e => objSet a e.name e.value) acc

/-- The decoded property list: the tag objects under `PropertiesKey`, then the values. -/
def entryListValue (es : List Entry) (o : Int) : JSVal :=
  .object ((PropertiesKey, .props (entryTags es o)) :: entryFields es [])

/-- Wire form of a top-level property list: the properties, the terminator and four zero
bytes. -/
def entryListWire (es : List Entry) : List Nat :=
  es.flatMap Entry.wire ++ strWire (js "None") ++ [0, 0, 0, 0]

/-- Wire form of a save file: canonical header and top-level property list. -/
def entryFileWire (h : HeaderData) (es : List Entry) : List Nat := h.wire ++ entryListWire es

/-- The tree that the reader builds from `entryFileWire h es`. -/
def entryFileValue (h : HeaderData) (es : List Entry) : JSVal :=
  mkObj [("Header", h.value), ("Data", entryListValue es h.wire.length)]

/-- A scalar property as an entry. -/
def PropData.toEntry (p : PropData) : Entry :=
  { wire := p.wire, tag := p.tag, name := p.fullName, value := p.val.value,
    readFuel := 2, writeFuel := 1 }

/-- A BoolProperty with wire name `n`, array index `i` and value byte `v` as an entry. -/
def boolEntry (n : JSString) (i : Int) (v : Nat) : Entry :=
  { wire := boolWire n i v, tag := boolTag n i v,
    name := if 0 < i then n ++ (js "[" ++ intToJS i ++ js "]") else n,
    value := .num v, readFuel := 2, writeFuel := 1 }

/-! ## Example data -/

/-- Wire form of an ASCII string: length + 1, the characters, a null byte. -/
def wireStr (s : String) : List Nat := leBytes 4 (s.length + 1) ++ js s ++ [0]

/-- Wire form of a 32-bit integer. -/
def wireInt (i : Int) : List Nat := leBytes 4 (toUnsigned 32 i)

/-- Wire form of a tag without type-specific fields and without property guid. -/
def wireTag (name type : String) (size index : Int) : List Nat :=
  wireStr name ++ wireStr type ++ wireInt size ++ wireInt index

/-- A ByteProperty tag named `B` with enum name `E` and declared size 1, followed by the bytes
`02 00 00 00 41 00` (the name `A` when read as a string). -/
def exByteEnumWire : List Nat :=
  wireTag "B" "ByteProperty" 1 0 ++ wireStr "E" ++ [0] ++ [2, 0, 0, 0, 65, 0]

/-- The tag that `FPropertyTag` decodes from `exByteEnumWire`. -/
def exByteEnumTag : Tag :=
  Tag.ofFields
    { Name := some (js "B"), Typ := some (js "ByteProperty"), Size := some (.int 1),
      ArrayIndex := some 0, EnumName := some (js "E"), HasPropertyGuid := some 0,
      tag_offset := some 0, size_offset := some 23, data_offset := some 38 }

/-- A ByteProperty tag with an empty enum name and declared size 1. -/
def exByteTag : Tag :=
  Tag.ofFields
    { Name := some (js "B"), Typ := some (js "ByteProperty"), Size := some (.int 1),
      ArrayIndex := some 0, EnumName := some [], HasPropertyGuid := some 0 }

/-- Wire form of an IntProperty named `Foo` with array index `idx` and value `v`. -/
def exFooProp (idx v : Int) : List Nat :=
  wireTag "Foo" "IntProperty" 4 idx ++ [0] ++ wireInt v

/-- A property list of three consecutive tags named `Foo` with array indices 0, 1, 2. -/
def exFooWire : List Nat :=
  exFooProp 0 10 ++ exFooProp 1 11 ++ exFooProp 2 12 ++ wireStr "None"

/-- The names of the tags in the ordered tag sequence of a decoded property list. -/
def tagNames : JSVal → List (Option JSString)
  | .object fs =>
    match objGet fs PropertiesKey with
    | some (.props ts) => ts.map (fun t => t.f.Name)
    | _ => []
  | _ => []

/-- The bytes that `UWriter.FPropertyList` produces for a value on a fresh writer. -/
def encodeList (fuel : Nat) (val : JSVal) (withExtraBytes : Bool) : Option (List Nat) :=
  match UWriter.FPropertyList (encoders fuel) val withExtraBytes UWriter.new with
  | ⟨.ok _, w⟩ => some w.getBuffer
  | ⟨.error _, _⟩ => none

/-- Decode a property list from a buffer and encode the decoded value again. -/
def reencodeList (fuel : Nat) (b : List Nat) (withExtraBytes : Bool) : Option (List Nat) :=
  match UReader.FPropertyList (decoders {} fuel) withExtraBytes ⟨b, 0⟩ with
  | ⟨.ok v, _⟩ => encodeList fuel v withExtraBytes
  | ⟨.error _, _⟩ => none

/-- The tag that `FPropertyTag` decodes at the second property of `exFooWire`. -/
def exFooTag1 : Tag :=
  Tag.ofFields
    { Name := some (js "Foo[1]"), Typ := some (js "IntProperty"), Size := some (.int 4),
      ArrayIndex := some 1, HasPropertyGuid := some 0,
      tag_offset := some 37, size_offset := some 61, data_offset := some 70 }

/-- An IntProperty tag named `X` whose declared size 6 is wrong (an int32 takes 4 bytes). -/
def exBadSizeTag : Tag :=
  Tag.ofFields
    { Name := some (js "X"), Typ := some (js "IntProperty"), Size := some (.int 6),
      ArrayIndex := some 0, HasPropertyGuid := some 0 }

/-- Six bytes of value region for `exBadSizeTag`, followed by the terminator tag. -/
def exBadSizeWire : List Nat := [1, 0, 0, 0, 9, 9] ++ wireStr "None"

/-- An empty top-level property list whose four extra bytes are `01 02 03 04`. -/
def exExtraWire : List Nat := wireStr "None" ++ [1, 2, 3, 4]

/-- The value that decodes from a property list without properties. -/
def exEmptyList : JSVal := .object [(PropertiesKey, .props [])]

/-- An IntProperty tag named `Foo`, as it stands in a decoded tree. -/
def exIntTag : Tag :=
  Tag.ofFields
    { Name := some (js "Foo"), Typ := some (js "IntProperty"), Size := some (.int 4),
      ArrayIndex := some 0, HasPropertyGuid := some 0 }

/-- The writer state after tag and value of `exIntTag` with value 10, on a fresh writer. -/
def exIntWritten : TState UWriter :=
  (UWriter.writeTagAndValue (encoders 1) [(js "Foo", .num 10)] ⟨exIntTag, UWriter.new⟩).st

/-- A MapProperty tag (keys and values IntProperty) of declared size 14 whose value starts at
offset 0. -/
def exMapTag : Tag :=
  Tag.ofFields
    { Name := some (js "M"), Typ := some (js "MapProperty"), Size := some (.int 14),
      ArrayIndex := some 0, InnerType := some (js "IntProperty"),
      ValueType := some (js "IntProperty"), HasPropertyGuid := some 0, data_offset := some 0 }

/-- A map value of 14 bytes: reserved field, count 1, the key 7 and only two bytes of value. -/
def exMapWire : List Nat := [0, 0, 0, 0, 1, 0, 0, 0, 7, 0, 0, 0, 1, 2]

/-- A header whose numbers are zero and whose strings are empty, without custom versions. -/
def exHeader : HeaderData :=
  { fileTypeTag := 0, saveGameFileVersion := 0, fileVersionUE4 := 0, fileVersionUE5 := 0,
    major := 0, minor := 0, patchNo := 0, changelist := 0, branch := [],
    customVersionFormat := 0, customVersions := [], saveGameClassName := [] }

/-- A save file with the header `exHeader`, no property, and the bytes `01 02 03 04` behind the
terminator. -/
def exFileExtra : List Nat := exHeader.wire ++ strWire (js "None") ++ [1, 2, 3, 4]

/-- The property `Foo` of type IntProperty with value 10. -/
def exFooData : PropData := { name := js "Foo", index := 0, val := .int 10 }

/-- The bytes that the writer's value encode produces for a tag object and a value on a fresh
writer; `none` when the writer throws. -/
def encodeValue (fuel : Nat) (tag : Tag) (val : JSVal) : Option (List Nat) :=
  match UWriter.FPropertyValue (encoders fuel) val ⟨tag, UWriter.new⟩ with
  | ⟨.ok _, s⟩ => some s.rd.getBuffer
  | ⟨.error _, _⟩ => none

/-- A SetProperty tag (elements IntProperty) of declared size 6 whose value starts at
offset 0. -/
def exSetTag : Tag :=
  Tag.ofFields
    { Name := some (js "S"), Typ := some (js "SetProperty"), Size := some (.int 6),
      ArrayIndex := some 0, InnerType := some (js "IntProperty"), HasPropertyGuid := some 0,
      data_offset := some 0 }

/-- A set value of 6 bytes: one removed element, of which only two bytes are there. -/
def exSetWire : List Nat := [1, 0, 0, 0, 7, 0]

/-- The tag object `exSetTag` after the value decode on `exSetWire`: the element tag is
stored and the tag is flagged. -/
def exSetTagRead : Tag :=
  (Tag.ofFields { exSetTag.f with SetAsBuffer := true }).setInner
    (Tag.ofFields { Typ := some (js "IntProperty"), Size := some (.int (-2)) })

/-- The value that decodes from `exSetWire` under `exSetTag`: a removed sequence of one empty
slot, no added element, and the six bytes of the value. -/
def exSetValue : JSVal :=
  mkObj [("removed", .array [] 1 none), ("added", .arr []), ("buffer", .buffer exSetWire)]

/-- A tag named `A` whose type name `IntPropertyX` consists of letters and does not end in
`Property`, declared size 4, no property guid. -/
def exOddTypeWire : List Nat := wireTag "A" "IntPropertyX" 4 0 ++ [0]

/-- A tag named `A` whose type name `XProperty` consists of letters and ends in `Property`,
declared size 4, no property guid. -/
def exShortTypeWire : List Nat := wireTag "A" "XProperty" 4 0 ++ [0]

/-- The tag that `FPropertyTag` decodes at the first property of `exFooWire`. -/
def exIntTagAt0 : Tag :=
  Tag.ofFields
    { Name := some (js "Foo"), Typ := some (js "IntProperty"), Size := some (.int 4),
      ArrayIndex := some 0, HasPropertyGuid := some 0,
      tag_offset := some 0, size_offset := some 24, data_offset := some 33 }

/-- A StructProperty tag named `P` of the unregistered struct type `Foo`, declared size 4, whose
value starts at offset 0. -/
def exStructTag : Tag :=
  Tag.ofFields
    { Name := some (js "P"), Typ := some (js "StructProperty"), Size := some (.int 4),
      ArrayIndex := some 0, StructName := some (js "Foo"), StructGuid := some [0, 0, 0, 0],
      HasPropertyGuid := some 0, data_offset := some 0 }

/-- Four bytes of a natively serialized struct value (no property tag starts there), followed
by the terminator tag of the enclosing list. -/
def exStructWire : List Nat := [1, 2, 3, 4] ++ wireStr "None"

/-- A ByteProperty tag named `B` with an empty enum name and declared size 8. -/
def exByte8Tag : Tag :=
  Tag.ofFields
    { Name := some (js "B"), Typ := some (js "ByteProperty"), Size := some (.int 8),
      ArrayIndex := some 0, EnumName := some [], HasPropertyGuid := some 0 }

/-- A ByteProperty tag named `B` with an empty enum name and declared size 3. -/
def exByte3Tag : Tag :=
  Tag.ofFields
    { Name := some (js "B"), Typ := some (js "ByteProperty"), Size := some (.int 3),
      ArrayIndex := some 0, EnumName := some [], HasPropertyGuid := some 0 }

/-- The eight little-endian bytes of the integer 5, followed by the terminator tag. -/
def exByte8Wire : List Nat := [5, 0, 0, 0, 0, 0, 0, 0] ++ wireStr "None"

/-- A MapProperty tag (keys and values IntProperty) of declared size 8 whose value starts at
offset 0. -/
def exEmptyMapTag : Tag :=
  Tag.ofFields
    { Name := some (js "M"), Typ := some (js "MapProperty"), Size := some (.int 8),
      ArrayIndex := some 0, InnerType := some (js "IntProperty"),
      ValueType := some (js "IntProperty"), HasPropertyGuid := some 0, data_offset := some 0 }

/-- The value of a map without pairs whose reserved leading field holds 5. -/
def exEmptyMapWire : List Nat := [5, 0, 0, 0, 0, 0, 0, 0]

/-- A tag of an unsigned 64-bit property, as far as the value codecs read it. -/
def exU64Tag : Tag :=
  Tag.ofFields { Name := some (js "X"), Typ := some (js "UInt64Property"), Size := some (.int 8) }

/-- The bytes that the writer's `FFormatArgumentValue` produces for a value on a fresh writer;
`none` when the writer throws. -/
def encodeArgument (fuel : Nat) (val : JSVal) : Option (List Nat) :=
  match UWriter.FFormatArgumentValue (encoders fuel) val UWriter.new with
  | ⟨.ok _, w⟩ => some w.getBuffer
  | ⟨.error _, _⟩ => none

/-- A format-argument value of type 0: the type byte and the eight little-endian bytes of 5. -/
def exArgZeroWire : List Nat := [0, 5, 0, 0, 0, 0, 0, 0, 0]

/-- A property list with one property: a ByteProperty named `B` with an empty enum name and
declared size 1, whose value is the byte 7. -/
def exByte1Wire : List Nat :=
  wireTag "B" "ByteProperty" 1 0 ++ [0, 0, 0, 0] ++ [0] ++ [7] ++ wireStr "None"

/-- The tag that `FPropertyTag` decodes from `exByte1Wire`. -/
def exByte1Tag : Tag :=
  Tag.ofFields
    { Name := some (js "B"), Typ := some (js "ByteProperty"), Size := some (.int 1),
      ArrayIndex := some 0, EnumName := some [], HasPropertyGuid := some 0,
      tag_offset := some 0, size_offset := some 23, data_offset := some 36 }

/-- The property list that `FPropertyList` decodes from `exByte1Wire`. -/
def exByte1List : JSVal := .object [(PropertiesKey, .props [exByte1Tag]), (js "B", .num 7)]

/-- The 12-byte encoding of the 7-character text `<empty>`. -/
def exEmptyTextWire : List Nat := wireStr "<empty>"

/-- A tag named `X` of the unknown type `FooProperty` whose declared size is -31, the negated
length of the tag itself. -/
def exBackWire : List Nat := wireTag "X" "FooProperty" (-31) 0 ++ [0]

/-- The tag that `FPropertyTag` decodes from `exBackWire`. -/
def exBackTag : Tag :=
  Tag.ofFields
    { Name := some (js "X"), Typ := some (js "FooProperty"), Size := some (.int (-31)),
      ArrayIndex := some 0, HasPropertyGuid := some 0,
      tag_offset := some 0, size_offset := some 22, data_offset := some 31 }

/-- A property list with one IntProperty of array index 0 whose wire name is `Slot[2]`. -/
def exSlotWire : List Nat :=
  wireTag "Slot[2]" "IntProperty" 4 0 ++ [0] ++ wireInt 7 ++ wireStr "None"

/-- The same property list with the wire name `Slot`. -/
def exSlotStripped : List Nat :=
  wireTag "Slot" "IntProperty" 4 0 ++ [0] ++ wireInt 7 ++ wireStr "None"

/-- A property list of two IntProperty tags that are both named `Foo` with array index 0; the
values are 10 and 11. -/
def exDupWire : List Nat := exFooProp 0 10 ++ exFooProp 0 11 ++ wireStr "None"

/-- The tag that `FPropertyTag` decodes at the second property of `exDupWire`. -/
def exDupTag1 : Tag :=
  Tag.ofFields
    { Name := some (js "Foo"), Typ := some (js "IntProperty"), Size := some (.int 4),
      ArrayIndex := some 0, HasPropertyGuid := some 0,
      tag_offset := some 37, size_offset := some 61, data_offset := some 70 }

/-- A property list of one IntProperty named `__props__` with the value 7. -/
def exPropsKeyWire : List Nat :=
  wireTag "__props__" "IntProperty" 4 0 ++ [0] ++ wireInt 7 ++ wireStr "None"

/-- A property list of one IntProperty named `__proto__` with the value 7. -/
def exProtoWire : List Nat :=
  wireTag "__proto__" "IntProperty" 4 0 ++ [0] ++ wireInt 7 ++ wireStr "None"

/-- The tag that `FPropertyTag` decodes from `exProtoWire`. -/
def exProtoTag : Tag :=
  Tag.ofFields
    { Name := some (js "__proto__"), Typ := some (js "IntProperty"), Size := some (.int 4),
      ArrayIndex := some 0, HasPropertyGuid := some 0,
      tag_offset := some 0, size_offset := some 30, data_offset := some 39 }

/-- The tag that `FPropertyTag` decodes at the third property of `exFooWire`. -/
def exFooTag2 : Tag :=
  Tag.ofFields
    { Name := some (js "Foo[2]"), Typ := some (js "IntProperty"), Size := some (.int 4),
      ArrayIndex := some 2, HasPropertyGuid := some 0,
      tag_offset := some 74, size_offset := some 98, data_offset := some 107 }

/-- An ArrayProperty tag named `A` with inner type IntProperty and declared size 12. -/
def exIntArrayTag : Tag :=
  Tag.ofFields
    { Name := some (js "A"), Typ := some (js "ArrayProperty"), Size := some (.int 12),
      ArrayIndex := some 0, InnerType := some (js "IntProperty"), HasPropertyGuid := some 0 }

/-- An ArrayProperty tag named `A` with inner type IntProperty and declared size 4. -/
def exEmptyArrayTag : Tag :=
  Tag.ofFields
    { Name := some (js "A"), Typ := some (js "ArrayProperty"), Size := some (.int 4),
      ArrayIndex := some 0, InnerType := some (js "IntProperty"), HasPropertyGuid := some 0 }

/-- An ArrayProperty tag named `A` with inner type BoolProperty and declared size 7. -/
def exBoolArrayTag : Tag :=
  Tag.ofFields
    { Name := some (js "A"), Typ := some (js "ArrayProperty"), Size := some (.int 7),
      ArrayIndex := some 0, InnerType := some (js "BoolProperty"), HasPropertyGuid := some 0 }

/-- The tag record of a BoolProperty named `Flag` that holds the byte 0. -/
def exBoolTag : Tag :=
  Tag.ofFields
    { Name := some (js "Flag"), Typ := some (js "BoolProperty"), Size := some (.int 0),
      ArrayIndex := some 0, BoolVal := some 0, HasPropertyGuid := some 0 }

/-- Decode a whole buffer with the top-level entry point and, when the reader returns with the
cursor at the end of the buffer, encode the decoded tree with the writer's entry point; `none`
when the reader throws or stops elsewhere, or when the writer throws. -/
def reencodeFile (fuel : Nat) (b : List Nat) : Option (List Nat) :=
  match decodeFile {} fuel b with
  | ⟨.ok v, r⟩ => if r.offset = (b.length : Int) then encodeFile fuel v else none
  | ⟨.error _, _⟩ => none

/-- A save file with the header `exHeader` and one IntProperty with the wire name `Slot[2]` and
array index 0. -/
def exFileSlot : List Nat := exHeader.wire ++ exSlotWire ++ [0, 0, 0, 0]

/-- A save file with the header `exHeader` and two IntProperty named `Foo` with array index 0
and the values 10 and 11. -/
def exFileDup : List Nat := exHeader.wire ++ exDupWire ++ [0, 0, 0, 0]

/-- A save file without properties whose header differs from `exHeader` in the branch string:
the two bytes `C3 A9` (the letter e with acute accent in UTF-8) and a terminator. -/
def exFileBranch : List Nat :=
  List.replicate 26 0 ++ [3, 0, 0, 0, 195, 169, 0] ++ List.replicate 12 0 ++
    strWire (js "None") ++ [0, 0, 0, 0]

/-- The property `Flag` of type BoolProperty with value 1. -/
def exFlagEntry : Entry := boolEntry (js "Flag") 0 1

/-! # Properties -/

/-! ## Unfolding of the state-passing operations -/

@[simp] theorem M.bind_apply {σ α β : Type} (m : M σ α) (f : α → M σ β) (s : σ) :
    (m >>= f) s = match m s with
      | ⟨.ok a, s1⟩ => f a s1
      | ⟨.error e, s1⟩ => ⟨.error e, s1⟩ := rfl

@[simp] theorem M.pure_apply {σ α : Type} (a : α) (s : σ) :
    (pure a : M σ α) s = ⟨.ok a, s⟩ := rfl

@[simp] theorem M.map_apply {σ α β : Type} (f : α → β) (m : M σ α) (s : σ) :
    (f <$> m) s = match m s with
      | ⟨.ok a, s1⟩ => ⟨.ok (f a), s1⟩
      | ⟨.error e, s1⟩ => ⟨.error e, s1⟩ := rfl

@[simp] theorem M.fail_apply {σ α : Type} (e : Fault) (s : σ) :
    (M.fail e : M σ α) s = ⟨.error e, s⟩ := rfl

/-! ## The read cursor -/

@[simp] theorem advance_apply (n : Int) (r : UReader) :
    advance n r = ⟨.ok (), { r with offset := r.offset + n }⟩ := rfl

@[simp] theorem getOffset_apply (r : UReader) : getOffset r = ⟨.ok r.offset, r⟩ := rfl

theorem sliceNat_append (pre bytes post : List Nat) :
    sliceNat (pre ++ bytes ++ post) pre.length bytes.length = bytes := by
  simp [sliceNat, List.append_assoc]

theorem readLE_at (r : UReader) (pre bytes post : List Nat) (n : Nat) (o : Int)
    (hb : r.buffer = pre ++ bytes ++ post) (ho : o = pre.length) (hn : bytes.length = n) :
    readLE n o r = ⟨.ok (leNat bytes), r⟩ := by
  unfold readLE
  subst hn ho
  have h : (0 : Int) ≤ (pre.length : Int) ∧
      (pre.length : Int) + (bytes.length : Nat) ≤ (r.buffer.length : Nat) := by
    rw [hb]; simp only [List.length_append]; push_cast; omega
  rw [if_pos h, hb, Int.toNat_ofNat, sliceNat_append]

theorem UReader.int32_at (r : UReader) (pre post : List Nat) (a b c d : Nat)
    (hb : r.buffer = pre ++ [a, b, c, d] ++ post) (ho : r.offset = pre.length) :
    UReader.int32 r =
      ⟨.ok (toSigned 32 (leNat [a, b, c, d])), { r with offset := r.offset + 4 }⟩ := by
  have h := readLE_at { r with offset := r.offset + 4 } pre [a, b, c, d] post 4 (r.offset + 4 - 4)
    hb (by omega) rfl
  simp only [UReader.int32, advance_apply, getOffset_apply, M.bind_apply, M.pure_apply, h]

theorem toStringRange_empty (b : List Nat) (s e : Int) (hs : 0 ≤ s) (he : e ≤ s) :
    toStringRange b s e = [] := by
  unfold toStringRange
  have h0 : (if s ≤ 0 then (0 : Int) else s) = s := by split <;> omega
  simp only [h0]
  by_cases h1 : (b.length : Int) ≤ s
  · rw [if_pos h1]
  · rw [if_neg h1, if_pos]
    split <;> omega

theorem UReader.fstring_sentinel_at (r : UReader) (pre post : List Nat)
    (hb : r.buffer = pre ++ [1, 0, 0, 0, 0] ++ post) (ho : r.offset = pre.length) :
    UReader.fstring r = ⟨.ok EMPTY_STR_AS_NULL_CHAR, { r with offset := r.offset + 5 }⟩ := by
  have h := UReader.int32_at r pre (0 :: post) 1 0 0 0 (by rw [hb]; simp) ho
  have hv : toSigned 32 (leNat [1, 0, 0, 0]) = 1 := by decide
  rw [hv] at h
  simp [UReader.fstring, h, add_assoc]

theorem UReader.fstring_zero_at (r : UReader) (pre post : List Nat)
    (hb : r.buffer = pre ++ [0, 0, 0, 0] ++ post) (ho : r.offset = pre.length) :
    UReader.fstring r = ⟨.ok [], { r with offset := r.offset + 4 }⟩ := by
  have h := UReader.int32_at r pre post 0 0 0 0 hb ho
  have hv : toSigned 32 (leNat [0, 0, 0, 0]) = 0 := by decide
  rw [hv] at h
  have hs : toStringRange r.buffer (r.offset + 4) (r.offset + 4 - 1) = [] :=
    toStringRange_empty _ _ _ (by omega) (by omega)
  simp [UReader.fstring, h, hs, utf8Decode, utf8Go]

/-! ## The write cursor -/

@[simp] theorem UWriter.grow_offset (w : UWriter) (n : Nat) : (w.grow n).offset = w.offset := by
  unfold UWriter.grow; split <;> rfl

theorem UWriter.grow_fits (w : UWriter) (n : Nat) :
    (w.grow n).offset + n < (w.grow n).length := by
  unfold UWriter.grow WRITE_BUF_SIZE
  split
  · simp
  · omega

theorem UWriter.grow_length (w : UWriter) (n : Nat) : w.length ≤ (w.grow n).length := by
  unfold UWriter.grow
  split
  · simp; omega
  · exact Nat.le_refl _

theorem UWriter.grow_byteAt (w : UWriter) (n j : Nat) (h : j < w.length) :
    (w.grow n).byteAt j = w.byteAt j := by
  unfold UWriter.grow; split <;> simp [h]

@[simp] theorem UWriter.put_offset (w : UWriter) (bs : List Nat) :
    (w.put bs).offset = w.offset + bs.length := rfl

@[simp] theorem UWriter.put_length (w : UWriter) (bs : List Nat) :
    (w.put bs).length = w.length := rfl

theorem UWriter.put_byteAt_in (w : UWriter) (bs : List Nat) (i : Nat) (h : i < bs.length) :
    (w.put bs).byteAt (w.offset + i) = bs.getD i 0 := by
  simp [UWriter.put, h]

theorem UWriter.put_byteAt_out (w : UWriter) (bs : List Nat) (j : Nat)
    (h : j < w.offset ∨ w.offset + bs.length ≤ j) : (w.put bs).byteAt j = w.byteAt j := by
  have : ¬ (w.offset ≤ j ∧ j < w.offset + bs.length) := by omega
  simp [UWriter.put, this]

@[simp] theorem UWriter.checkBuf_apply (n : Nat) (w : UWriter) :
    UWriter.checkBuf n w = ⟨.ok (), w.grow n⟩ := rfl

theorem leBytes_length (n v : Nat) : (leBytes n v).length = n := by
  induction n generalizing v with
  | zero => rfl
  | succ n ih => simp [leBytes, ih]

theorem UWriter.writeInt_num (bits : Nat) (signed : Bool) (n : Int) (w : UWriter)
    (hlo : (if signed then -(2 ^ (bits - 1)) else 0 : Int) ≤ n)
    (hhi : n < (if signed then 2 ^ (bits - 1) else 2 ^ bits : Int)) :
    UWriter.writeInt bits signed (.num n) w =
      ⟨.ok (), (w.grow (bits / 8)).put (leBytes (bits / 8) (toUnsigned bits n))⟩ := by
  have hr : ¬ (n < (if signed then -(2 ^ (bits - 1)) else 0 : Int) ∨
      (if signed then 2 ^ (bits - 1) else 2 ^ bits : Int) ≤ n) := by omega
  have hf := UWriter.grow_fits w (bits / 8)
  simp only [UWriter.writeInt, M.bind_apply, UWriter.checkBuf_apply, numArg, hr, if_false,
    UWriter.writeBytes, leBytes_length]
  rw [if_pos (by omega)]

@[simp] theorem UWriter.emitted_self (w : UWriter) : UWriter.emitted w w = [] := by
  simp [UWriter.emitted]

theorem UWriter.emitted_length (w0 w1 : UWriter) :
    (UWriter.emitted w0 w1).length = w1.offset - w0.offset := by
  simp [UWriter.emitted]

theorem UWriter.emitted_grow_put (w0 w : UWriter) (k : Nat) (bs : List Nat)
    (h0 : w0.offset ≤ w.offset) (h : ∀ j, w0.offset ≤ j → j < w.offset → j < w.length) :
    UWriter.emitted w0 ((w.grow k).put bs) = UWriter.emitted w0 w ++ bs := by
  apply List.ext_getElem
  · simp [UWriter.emitted]; omega
  · intro i h1 h2
    simp only [UWriter.emitted, List.getElem_map, List.getElem_range]
    simp only [UWriter.emitted, List.length_map, List.length_range, UWriter.put_offset,
      UWriter.grow_offset] at h1
    by_cases hi : i < w.offset - w0.offset
    · rw [List.getElem_append_left (by simpa [UWriter.emitted] using hi)]
      simp only [UWriter.emitted, List.getElem_map, List.getElem_range]
      rw [UWriter.put_byteAt_out _ _ _ (by left; simp; omega),
        UWriter.grow_byteAt _ _ _ (h _ (by omega) (by omega))]
    · rw [List.getElem_append_right (by simp [UWriter.emitted]; omega)]
      have e : w0.offset + i = (w.grow k).offset + (i - (w.offset - w0.offset)) := by
        simp; omega
      rw [e, UWriter.put_byteAt_in _ _ _ (by omega)]
      rw [List.getD_eq_getElem _ _ (by omega)]
      simp only [List.length_map, List.length_range]

theorem UWriter.fstring_sentinel (w : UWriter) :
    UWriter.fstring (.str EMPTY_STR_AS_NULL_CHAR) w =
      ⟨.ok (), (((w.grow 4).put [1, 0, 0, 0]).grow 1).put [0]⟩ := by
  have h1 := UWriter.writeInt_num 32 true 1 w (by decide) (by decide)
  have h2 := UWriter.writeInt_num 8 true 0 ((w.grow 4).put [1, 0, 0, 0]) (by decide) (by decide)
  have e1 : leBytes (32 / 8) (toUnsigned 32 1) = [1, 0, 0, 0] := by decide
  have e2 : leBytes (8 / 8) (toUnsigned 8 0) = [0] := by decide
  rw [e1] at h1
  rw [e2] at h2
  simp only [UWriter.fstring, if_true, M.bind_apply, UWriter.int32, UWriter.int8, h1, h2]

theorem UWriter.fstring_nil (w : UWriter) :
    UWriter.fstring (.str []) w = ⟨.ok (), (w.grow 4).put [0, 0, 0, 0]⟩ := by
  have h1 := UWriter.writeInt_num 32 true 0 w (by decide) (by decide)
  have e1 : leBytes (32 / 8) (toUnsigned 32 0) = [0, 0, 0, 0] := by decide
  rw [e1] at h1
  have hne : ([] : JSString) ≠ EMPTY_STR_AS_NULL_CHAR := by decide
  simp only [UWriter.fstring, hne, if_false, List.length_nil, Nat.lt_irrefl, UWriter.int32, h1]

/-- C10. `seek(p)` on a cursor over a buffer of length `L` (a reader or a writer) succeeds and
sets the offset to `p` exactly when `0 ≤ p < L`; any other position, `p = L` included, raises the
seek error and leaves the cursor as it was. -/
theorem seek_bounds (r : UReader) (w : UWriter) (p : Int) :
    UReader.seek p r =
      (if 0 ≤ p ∧ p < r.buffer.length then ⟨.ok (), { r with offset := p }⟩
       else ⟨.error .seekError, r⟩) ∧
    UWriter.seek p w =
      (if 0 ≤ p ∧ p < w.length then ⟨.ok (), { w with offset := p.toNat }⟩
       else ⟨.error .seekError, w⟩) ∧
    (0 ≤ p ∧ p < w.length ↔ ((UWriter.seek p w).st.offset : Int) = p ∧
      (UWriter.seek p w).out = .ok ()) ∧
    UReader.seek r.buffer.length r = ⟨.error .seekError, r⟩ ∧
    UWriter.seek w.length w = ⟨.error .seekError, w⟩ := by
  have hr : UReader.seek p r =
      (if 0 ≤ p ∧ p < r.buffer.length then ⟨.ok (), { r with offset := p }⟩
       else ⟨.error .seekError, r⟩) := by
    unfold UReader.seek
    by_cases h : 0 ≤ p ∧ p < (r.buffer.length : Int)
    · rw [if_pos h, if_neg (by omega)]
    · rw [if_neg h, if_pos (by omega)]
  have hw : UWriter.seek p w =
      (if 0 ≤ p ∧ p < w.length then ⟨.ok (), { w with offset := p.toNat }⟩
       else ⟨.error .seekError, w⟩) := by
    unfold UWriter.seek
    by_cases h : 0 ≤ p ∧ p < (w.length : Int)
    · rw [if_pos h, if_neg (by omega)]
    · rw [if_neg h, if_pos (by omega)]
  refine ⟨hr, hw, ?_, ?_, ?_⟩
  · rw [hw]
    by_cases h : 0 ≤ p ∧ p < (w.length : Int)
    · rw [if_pos h]
      simp only [h, true_iff, and_true, true_and]
      exact Int.toNat_of_nonneg h.1
    · rw [if_neg h]
      simp [h]
  · unfold UReader.seek
    rw [if_pos (by omega)]
  · unfold UWriter.seek
    rw [if_pos (by omega)]

/-- C2. A reader positioned at the bytes `01 00 00 00 00` gets the empty-string sentinel from
`fstring` and advances by 5; at the length-0 encoding `00 00 00 00` it gets the plain empty
string, which differs from the sentinel. `UWriter.fstring` emits `01 00 00 00 00` for the
sentinel and `00 00 00 00` for the plain empty string, from any writer state. -/
theorem fstring_empty_sentinel (pre post : List Nat) (w : UWriter) :
    UReader.fstring ⟨pre ++ [1, 0, 0, 0, 0] ++ post, pre.length⟩ =
      ⟨.ok EMPTY_STR_AS_NULL_CHAR, ⟨pre ++ [1, 0, 0, 0, 0] ++ post, pre.length + 5⟩⟩ ∧
    UReader.fstring ⟨pre ++ [0, 0, 0, 0] ++ post, pre.length⟩ =
      ⟨.ok [], ⟨pre ++ [0, 0, 0, 0] ++ post, pre.length + 4⟩⟩ ∧
    EMPTY_STR_AS_NULL_CHAR ≠ [] ∧
    (UWriter.fstring (.str EMPTY_STR_AS_NULL_CHAR) w).out = .ok () ∧
    UWriter.emitted w (UWriter.fstring (.str EMPTY_STR_AS_NULL_CHAR) w).st = [1, 0, 0, 0, 0] ∧
    (UWriter.fstring (.str []) w).out = .ok () ∧
    UWriter.emitted w (UWriter.fstring (.str []) w).st = [0, 0, 0, 0] := by
  refine ⟨UReader.fstring_sentinel_at _ pre post rfl rfl,
    UReader.fstring_zero_at _ pre post rfl rfl, by decide, ?_, ?_, ?_, ?_⟩
  · rw [UWriter.fstring_sentinel]
  · rw [UWriter.fstring_sentinel]
    have hf := UWriter.grow_fits w 4
    rw [UWriter.emitted_grow_put w _ 1 [0] (by simp), UWriter.emitted_grow_put w w 4 [1, 0, 0, 0]
      (Nat.le_refl _) (by intro j h1 h2; omega)]
    · simp
    · intro j h1 h2
      simp only [UWriter.put_offset, UWriter.put_length, UWriter.grow_offset] at h2 ⊢
      simp only [UWriter.grow_offset, List.length_cons, List.length_nil] at hf h2
      omega
  · rw [UWriter.fstring_nil]
  · rw [UWriter.fstring_nil, UWriter.emitted_grow_put w w 4 [0, 0, 0, 0] (Nat.le_refl _)
      (by intro j h1 h2; omega)]
    simp

/-! ## The value decode: dispatch -/

theorem UReader.common_byte (d : Decoders) (f : TagFields)
    (hT : f.Typ = some (js "ByteProperty")) (hN : f.Name ≠ some (js "None")) :
    UReader.FPropertyValue_common d f = none := by
  unfold UReader.FPropertyValue_common
  rw [if_neg hN, hT]
  repeat rw [if_neg (by decide)]

theorem UReader.unsafe_byte (d : Decoders) (tag : Tag) (r : UReader)
    (hT : tag.f.Typ = some (js "ByteProperty")) (hN : tag.f.Name ≠ some (js "None")) :
    UReader.FPropertyValue_unsafe d ⟨tag, r⟩ =
      ⟨(UReader.byteValue tag.f r).out, ⟨tag, (UReader.byteValue tag.f r).st⟩⟩ := by
  unfold UReader.FPropertyValue_unsafe
  simp only [M.bind_apply, getTag, UReader.common_byte d tag.f hT hN, hT]
  rw [if_neg (by decide), if_pos trivial]
  rfl

/-- C5. A ByteProperty tag with a non-empty enum name, whatever its declared size: the value
decode is exactly the result of `fname` at the value start (the same string and cursor, or the
same fault), so neither the character validation nor the integer or raw fallback runs. -/
theorem byte_with_enum_is_fname (opts : Options) (fuel : Nat) (tag : Tag) (r : UReader)
    (c : Nat) (cs : JSString)
    (hT : tag.f.Typ = some (js "ByteProperty")) (hN : tag.f.Name ≠ some (js "None"))
    (hE : tag.f.EnumName = some (c :: cs)) :
    Decoders.FPropertyValue_unsafe (decoders opts (fuel + 1)) ⟨tag, r⟩ =
      ⟨(UReader.fname r).out.map JSVal.str, ⟨tag, (UReader.fname r).st⟩⟩ := by
  show UReader.FPropertyValue_unsafe (decoders opts fuel) ⟨tag, r⟩ = _
  rw [UReader.unsafe_byte _ _ _ hT hN]
  simp only [UReader.byteValue, hE, truthyStr, if_true, M.map_apply]
  cases h : UReader.fname r with
  | mk o st => cases o <;> rfl

theorem UReader.uint8_at (r : UReader) (pre post : List Nat) (b : Nat)
    (hb : r.buffer = pre ++ [b] ++ post) (ho : r.offset = pre.length) :
    UReader.uint8 r = ⟨.ok (b : Int), { r with offset := r.offset + 1 }⟩ := by
  have h := readLE_at { r with offset := r.offset + 1 } pre [b] post 1 (r.offset + 1 - 1)
    hb (by omega) rfl
  simp only [UReader.uint8, advance_apply, getOffset_apply, M.bind_apply, M.pure_apply, h]
  simp [leNat]

/-- C5 at a concrete tag: enum name `E`, and the bytes of the name `A` at the value start. -/
theorem byte_with_enum_is_fname_witness :
    Decoders.FPropertyValue_unsafe (decoders {} 1) ⟨exByteEnumTag, ⟨exByteEnumWire, 38⟩⟩ =
      ⟨.ok (.str (js "A")), ⟨exByteEnumTag, ⟨exByteEnumWire, 44⟩⟩⟩ :=
  (byte_with_enum_is_fname {} 0 exByteEnumTag ⟨exByteEnumWire, 38⟩ 69 [] (by decide) (by decide)
    (by decide)).trans (by rfl)

/-- C4 as stated fails: the tag decoded from `exByteEnumWire` is a ByteProperty of declared
size 1 with enum name `E`; its value decode returns the string `A` and advances the cursor by
6, not the byte 2 with an advance of 1. -/
theorem byte_size_one_with_enum_counterexample :
    UReader.FPropertyTag ⟨exByteEnumWire, 0⟩ = ⟨.ok exByteEnumTag, ⟨exByteEnumWire, 38⟩⟩ ∧
    exByteEnumTag.f.Size = some (.int 1) ∧
    ( Decoders.FPropertyValue_unsafe (decoders {} 1) ⟨exByteEnumTag, ⟨exByteEnumWire, 38⟩⟩).out =
      .ok (.str (js "A")) ∧
    ( Decoders.FPropertyValue_unsafe (decoders {} 1) ⟨exByteEnumTag, ⟨exByteEnumWire, 38⟩⟩).st.rd.offset =
      38 + 6 ∧
    ¬ (( Decoders.FPropertyValue_unsafe (decoders {} 1) ⟨exByteEnumTag, ⟨exByteEnumWire, 38⟩⟩).out =
        .ok (.num 2) ∧
      ( Decoders.FPropertyValue_unsafe (decoders {} 1) ⟨exByteEnumTag, ⟨exByteEnumWire, 38⟩⟩).st.rd.offset =
        38 + 1) := by
  refine ⟨by rfl, by rfl, by rfl, by rfl, ?_⟩
  intro h
  have h2 : ( Decoders.FPropertyValue_unsafe (decoders {} 1)
      ⟨exByteEnumTag, ⟨exByteEnumWire, 38⟩⟩).st.rd.offset = 38 + 6 := by rfl
  rw [h2] at h
  exact absurd h.2 (by decide)

theorem UReader.unsafe_byte_size_one (d : Decoders) (tag : Tag) (r : UReader)
    (pre post : List Nat) (b : Nat)
    (hb : r.buffer = pre ++ [b] ++ post) (ho : r.offset = pre.length)
    (hT : tag.f.Typ = some (js "ByteProperty")) (hN : tag.f.Name ≠ some (js "None"))
    (hE : truthyStr tag.f.EnumName = false) (hS : tag.f.Size = some (.int 1)) :
    UReader.FPropertyValue_unsafe d ⟨tag, r⟩ =
      ⟨.ok (.num b), ⟨tag, { r with offset := r.offset + 1 }⟩⟩ := by
  rw [UReader.unsafe_byte _ _ _ hT hN]
  simp only [UReader.byteValue, hE, hS, if_true, M.map_apply, Bool.false_eq_true, if_false]
  rw [UReader.uint8_at r pre post b hb ho]

theorem UReader.value_of_unsafe_ok (opts : Options) (d : Decoders) (tag tag1 : Tag)
    (r r1 : UReader) (v : JSVal) (hN : tag.f.Name ≠ some (js "None"))
    (hu : d.FPropertyValue_unsafe ⟨tag, r⟩ = ⟨.ok v, ⟨tag1, r1⟩⟩)
    (hS : tag1.f.Size = some (.int (r1.offset - r.offset))) :
    UReader.FPropertyValue opts d tag r = ⟨.ok (v, tag1), r1⟩ := by
  unfold UReader.FPropertyValue
  rw [if_neg hN]
  simp only [hu, hS, if_true]

/-- C4, amended. A ByteProperty tag of declared size 1 whose enum name is empty or absent: the
value decode returns the byte at the value start as an unsigned integer and advances the cursor
by exactly 1, and `FPropertyValue` accepts it (no integrity fault). -/
theorem byte_size_one_reads_byte (opts : Options) (fuel : Nat) (tag : Tag)
    (pre post : List Nat) (b : Nat)
    (hT : tag.f.Typ = some (js "ByteProperty")) (hN : tag.f.Name ≠ some (js "None"))
    (hE : truthyStr tag.f.EnumName = false) (hS : tag.f.Size = some (.int 1)) :
    Decoders.FPropertyValue_unsafe (decoders opts (fuel + 1)) ⟨tag, ⟨pre ++ [b] ++ post, pre.length⟩⟩ =
      ⟨.ok (.num b), ⟨tag, ⟨pre ++ [b] ++ post, pre.length + 1⟩⟩⟩ ∧
    (decoders opts (fuel + 2)).FPropertyValue tag ⟨pre ++ [b] ++ post, pre.length⟩ =
      ⟨.ok (.num b, tag), ⟨pre ++ [b] ++ post, pre.length + 1⟩⟩ :=
  ⟨UReader.unsafe_byte_size_one (decoders opts fuel) tag _ pre post b rfl rfl hT hN hE hS,
   UReader.value_of_unsafe_ok opts (decoders opts (fuel + 1)) tag tag _ _ _ hN
     (UReader.unsafe_byte_size_one (decoders opts fuel) tag _ pre post b rfl rfl hT hN hE hS)
     (by rw [hS]; simp)⟩

/-- C4, amended, at a concrete tag with an empty enum name and the value byte 7. -/
theorem byte_size_one_reads_byte_witness :
    Decoders.FPropertyValue_unsafe (decoders {} 1) ⟨exByteTag, ⟨[9, 9] ++ [7] ++ [9], 2⟩⟩ =
      ⟨.ok (.num 7), ⟨exByteTag, ⟨[9, 9] ++ [7] ++ [9], 3⟩⟩⟩ ∧
    (decoders {} 2).FPropertyValue exByteTag ⟨[9, 9] ++ [7] ++ [9], 2⟩ =
      ⟨.ok (.num 7, exByteTag), ⟨[9, 9] ++ [7] ++ [9], 3⟩⟩ :=
  byte_size_one_reads_byte {} 0 exByteTag [9, 9] [9] 7 (by decide) (by decide) (by decide)
    (by decide)

/-! ## Results of sequenced operations -/

theorem M.bind_ok {σ α β : Type} {m : M σ α} {f : α → M σ β} {s s' : σ} {b : β}
    (h : (m >>= f) s = ⟨.ok b, s'⟩) : ∃ a s1, m s = ⟨.ok a, s1⟩ ∧ f a s1 = ⟨.ok b, s'⟩ := by
  rw [M.bind_apply] at h
  cases hm : m s with
  | mk o s1 =>
    cases o with
    | ok a => rw [hm] at h; exact ⟨a, s1, rfl, h⟩
    | error e => rw [hm] at h; simp at h

theorem M.pure_ok {σ α : Type} {a b : α} {s s' : σ}
    (h : (pure a : M σ α) s = ⟨.ok b, s'⟩) : a = b ∧ s = s' := by
  simpa using h

theorem M.map_ok {σ α β : Type} {m : M σ α} {f : α → β} {s s' : σ} {b : β}
    (h : (f <$> m) s = ⟨.ok b, s'⟩) : ∃ a, m s = ⟨.ok a, s'⟩ ∧ f a = b := by
  rw [M.map_apply] at h
  cases hm : m s with
  | mk o s1 =>
    cases o with
    | ok a =>
      rw [hm] at h
      simp only [Res.mk.injEq, Except.ok.injEq] at h
      exact ⟨a, by rw [h.2], h.1⟩
    | error e => rw [hm] at h; simp at h

/-! ## Tags: the array-index suffix -/

theorem UReader.tagExtras_keeps (ty : JSString) (f f2 : TagFields) (r r2 : UReader)
    (h : UReader.tagExtras ty f r = ⟨.ok f2, r2⟩) :
    f2.Name = f.Name ∧ f2.ArrayIndex = f.ArrayIndex := by
  unfold UReader.tagExtras at h
  split at h
  · obtain ⟨_, _, _, h⟩ := M.bind_ok h
    obtain ⟨_, _, _, h⟩ := M.bind_ok h
    rw [← (M.pure_ok h).1]; exact ⟨rfl, rfl⟩
  · split at h
    · obtain ⟨_, _, _, h⟩ := M.bind_ok h
      obtain ⟨_, _, _, h⟩ := M.bind_ok h
      rw [← (M.pure_ok h).1]; exact ⟨rfl, rfl⟩
    · split at h
      · obtain ⟨_, _, _, h⟩ := M.bind_ok h
        rw [← (M.pure_ok h).1]; exact ⟨rfl, rfl⟩
      · split at h
        · obtain ⟨_, _, _, h⟩ := M.bind_ok h
          rw [← (M.pure_ok h).1]; exact ⟨rfl, rfl⟩
        · split at h
          · obtain ⟨_, _, _, h⟩ := M.bind_ok h
            obtain ⟨_, _, _, h⟩ := M.bind_ok h
            rw [← (M.pure_ok h).1]; exact ⟨rfl, rfl⟩
          · rw [← (M.pure_ok h).1]; exact ⟨rfl, rfl⟩

theorem UReader.FPropertyTag_decoded_name (r r1 r' : UReader) (tag : Tag) (n : JSString) (i : Int)
    (hn : UReader.fname r = ⟨.ok n, r1⟩)
    (h : UReader.FPropertyTag r = ⟨.ok tag, r'⟩) (hi : tag.f.ArrayIndex = some i) :
    tag.f.Name = some (if 0 < i then n ++ (js "[" ++ intToJS i ++ js "]") else n) := by
  unfold UReader.FPropertyTag at h
  obtain ⟨_, _, h0, h⟩ := M.bind_ok h
  obtain ⟨h0a, h0b⟩ := M.pure_ok (show (pure r.offset : RM Int) r = _ from h0)
  subst h0a h0b
  obtain ⟨n', r1', h1, h⟩ := M.bind_ok h
  rw [hn] at h1
  simp only [Res.mk.injEq, Except.ok.injEq] at h1
  obtain ⟨h1a, h1b⟩ := h1
  subst h1a h1b
  split at h
  · rw [← (M.pure_ok h).1] at hi
    simp [Tag.ofFields, Tag.f] at hi
  · obtain ⟨ty, _, _, h⟩ := M.bind_ok h
    obtain ⟨_, _, _, h⟩ := M.bind_ok h
    obtain ⟨_, _, _, h⟩ := M.bind_ok h
    obtain ⟨idx, _, _, h⟩ := M.bind_ok h
    obtain ⟨f2, _, hx, h⟩ := M.bind_ok h
    obtain ⟨hpg, _, _, h⟩ := M.bind_ok h
    obtain ⟨f4, _, h4, h⟩ := M.bind_ok h
    obtain ⟨_, _, _, h⟩ := M.bind_ok h
    have hk := UReader.tagExtras_keeps _ _ _ _ _ hx
    have h4k : f4.Name = f2.Name ∧ f4.ArrayIndex = f2.ArrayIndex := by
      split at h4
      · obtain ⟨_, _, _, h4⟩ := M.bind_ok h4
        rw [← (M.pure_ok h4).1]; exact ⟨rfl, rfl⟩
      · rw [← (M.pure_ok h4).1]; exact ⟨rfl, rfl⟩
    rw [← (M.pure_ok h).1] at hi ⊢
    simp only [Tag.ofFields, Tag.f] at hi ⊢
    rw [h4k.2, hk.2] at hi
    rw [h4k.1, hk.1]
    simp only [Option.some.injEq] at hi
    subst hi
    rfl

theorem digitsCore_digits (fuel n : Nat) (acc : JSString)
    (hacc : ∀ c ∈ acc, isDigit c = true) : ∀ c ∈ digitsCore fuel n acc, isDigit c = true := by
  induction fuel generalizing n acc with
  | zero => simpa [digitsCore] using hacc
  | succ fuel ih =>
    have hd : isDigit (48 + n % 10) = true := by
      have : n % 10 < 10 := Nat.mod_lt _ (by decide)
      simp [isDigit]; omega
    have hacc2 : ∀ c ∈ (48 + n % 10) :: acc, isDigit c = true := by
      intro c hc
      rcases List.mem_cons.mp hc with h | h
      · rw [h]; exact hd
      · exact hacc c h
    unfold digitsCore
    split
    · exact hacc2
    · exact ih _ _ hacc2

theorem digitsCore_ne_nil (fuel n : Nat) (acc : JSString) :
    digitsCore (fuel + 1) n acc ≠ [] := by
  induction fuel generalizing n acc with
  | zero => unfold digitsCore; split <;> simp [digitsCore]
  | succ fuel ih =>
    unfold digitsCore
    split
    · simp
    · exact ih _ _

theorem isBracketNum_digits (ds : JSString) (hne : ds ≠ [])
    (hd : ∀ c ∈ ds, isDigit c = true) : isBracketNum (91 :: (ds ++ [93])) = true := by
  have hne' : ds.reverse ≠ [] := by simpa using hne
  simp only [isBracketNum, List.reverse_append, List.reverse_cons, List.reverse_nil,
    List.nil_append, List.singleton_append]
  simp [hne']
  exact hd

theorem isBracketNum_split (c : Nat) (cs ds : JSString) :
    isBracketNum (c :: (cs ++ (91 :: (ds ++ [93])))) = false := by
  unfold isBracketNum
  split
  · rename_i rest heq
    simp only [List.cons.injEq] at heq
    rw [← heq.2]
    simp only [List.reverse_append, List.reverse_cons, List.reverse_nil, List.nil_append,
      List.singleton_append, List.append_assoc, List.cons_append]
    simp [isDigit]
  · rfl

theorem matchArraySuffix_append (n ds : JSString) (hne : ds ≠ [])
    (hd : ∀ c ∈ ds, isDigit c = true) :
    matchArraySuffix (n ++ (91 :: (ds ++ [93]))) = some (n, 91 :: (ds ++ [93])) := by
  induction n with
  | nil =>
    simp only [List.nil_append, matchArraySuffix, isBracketNum_digits ds hne hd, if_true]
  | cons c cs ih =>
    show matchArraySuffix (c :: (cs ++ 91 :: (ds ++ [93]))) = _
    unfold matchArraySuffix
    rw [isBracketNum_split, ih]
    simp

theorem liftR_ok {ρ α : Type} {m : M ρ α} {s s' : TState ρ} {a : α}
    (h : liftR m s = ⟨.ok a, s'⟩) : s'.tag = s.tag ∧ m s.rd = ⟨.ok a, s'.rd⟩ := by
  unfold liftR at h
  cases hm : m s.rd with
  | mk o r =>
    rw [hm] at h
    simp only [Res.mk.injEq] at h
    obtain ⟨h1, h2⟩ := h
    subst h1 h2
    exact ⟨rfl, rfl⟩

theorem getTag_ok {ρ : Type} {s s' : TState ρ} {t : Tag}
    (h : getTag s = ⟨.ok t, s'⟩) : t = s.tag ∧ s' = s := by
  simp only [getTag, Res.mk.injEq, Except.ok.injEq] at h
  exact ⟨h.1.symm, h.2.symm⟩

theorem modTag_ok {ρ : Type} {s s' : TState ρ} {g : TagFields → TagFields} {u : Unit}
    (h : modTag g s = ⟨.ok u, s'⟩) : s'.tag = s.tag.setF (g s.tag.f) ∧ s'.rd = s.rd := by
  simp only [modTag, Res.mk.injEq, Except.ok.injEq] at h
  rw [← h.2]; exact ⟨rfl, rfl⟩

theorem getTag_bind {ρ α : Type} (f : Tag → M (TState ρ) α) (s : TState ρ) :
    (getTag >>= f) s = f s.tag s := rfl

theorem modTag_bind {ρ α : Type} (g : TagFields → TagFields) (f : Unit → M (TState ρ) α)
    (s : TState ρ) : (modTag g >>= f) s = f () ⟨s.tag.setF (g s.tag.f), s.rd⟩ := rfl

theorem UWriter.getOffset_bind {α : Type} (f : Nat → WTM α) (s : TState UWriter) :
    (liftR UWriter.getOffset >>= f) s = f s.rd.offset s := rfl

theorem intToJS_pos (i : Int) (h : 0 < i) :
    intToJS i ≠ [] ∧ ∀ c ∈ intToJS i, isDigit c = true := by
  have hn : ¬ i < 0 := by omega
  simp only [intToJS, hn, if_false, natToJS]
  exact ⟨digitsCore_ne_nil _ _ _, digitsCore_digits _ _ _ (by simp)⟩

theorem UWriter.writtenName_suffix (n : JSString) (i : Int) (h : 0 < i) :
    UWriter.writtenName (n ++ (js "[" ++ intToJS i ++ js "]")) = n := by
  have e : n ++ (js "[" ++ intToJS i ++ js "]") = n ++ (91 :: (intToJS i ++ [93])) := by
    simp [js]
  rw [e, UWriter.writtenName, matchArraySuffix_append n _ (intToJS_pos i h).1 (intToJS_pos i h).2]

/-! ## Relations between start and end states: rules -/

theorem M.Preserves.pure {σ α : Type} (R : StateRel σ) (a : α) :
    M.Preserves R (pure a : M σ α) := ⟨fun s => R.refl s⟩

theorem M.Preserves.fail {σ α : Type} (R : StateRel σ) (e : Fault) :
    M.Preserves R (M.fail e : M σ α) := ⟨fun s => R.refl s⟩

theorem M.Preserves.ret {σ α : Type} (R : StateRel σ) (g : σ → α) :
    M.Preserves R (fun s => (⟨.ok (g s), s⟩ : Res σ α)) := ⟨fun s => R.refl s⟩

theorem M.Preserves.bind {σ α β : Type} (R : StateRel σ) {m : M σ α} {f : α → M σ β}
    (hm : M.Preserves R m) (hf : ∀ a, M.Preserves R (f a)) : M.Preserves R (m >>= f) := by
  constructor
  intro s
  rw [M.bind_apply]
  have h1 := hm.holds s
  cases hms : m s with
  | mk o s1 =>
    rw [hms] at h1
    cases o with
    | ok a => exact R.trans _ _ _ h1 ((hf a).holds s1)
    | error e => exact h1

theorem M.Preserves.map {σ α β : Type} (R : StateRel σ) {m : M σ α} (g : α → β)
    (hm : M.Preserves R m) : M.Preserves R (g <$> m) := by
  constructor
  intro s
  rw [M.map_apply]
  have h1 := hm.holds s
  cases hms : m s with
  | mk o s1 =>
    rw [hms] at h1
    cases o <;> exact h1

theorem M.Preserves.tryCatch {σ α : Type} (R : StateRel σ) {m : M σ α} {h : Fault → M σ α}
    (hm : M.Preserves R m) (hh : ∀ e, M.Preserves R (h e)) : M.Preserves R (M.tryCatch m h) := by
  constructor
  intro s
  unfold M.tryCatch
  have h1 := hm.holds s
  cases hms : m s with
  | mk o s1 =>
    rw [hms] at h1
    cases o with
    | ok a => exact h1
    | error e =>
      dsimp only
      split
      · exact R.trans _ _ _ h1 ((hh e).holds s1)
      · exact h1

theorem M.Preserves.loopM {σ α : Type} (R : StateRel σ) {m : M σ α}
    (hm : M.Preserves R m) (n : Nat) (s : σ) : R.rel s (loopM m n s).st := by
  induction n generalizing s with
  | zero => exact R.refl s
  | succ n ih =>
    unfold TQ2.loopM
    have h1 := hm.holds s
    cases hms : m s with
    | mk o s1 =>
      rw [hms] at h1
      cases o with
      | ok a => exact R.trans _ _ _ h1 (ih s1)
      | error e => exact h1

theorem M.Preserves.repeatM {σ α : Type} (R : StateRel σ) {m : M σ α}
    (hm : M.Preserves R m) (n : Nat) : M.Preserves R (repeatM m n) := by
  constructor
  intro s
  unfold TQ2.repeatM
  have h1 := M.Preserves.loopM R hm n s
  cases hl : TQ2.loopM m n s with
  | mk xs fault s1 =>
    rw [hl] at h1
    cases fault <;> exact h1

theorem M.Preserves.forEachM {σ α : Type} (R : StateRel σ) {f : α → M σ Unit}
    (hf : ∀ a, M.Preserves R (f a)) (xs : List α) : M.Preserves R (forEachM f xs) := by
  induction xs with
  | nil => exact M.Preserves.pure R ()
  | cons x xs ih => exact M.Preserves.bind R (hf x) (fun _ => ih)

theorem M.Preserves.liftR {ρ α : Type} (R : StateRel ρ) (RT : StateRel (TState ρ))
    (hl : ∀ (s : TState ρ) (r : ρ), R.rel s.rd r → RT.rel s ⟨s.tag, r⟩)
    {m : M ρ α} (hm : M.Preserves R m) : M.Preserves RT (liftR m) := by
  constructor
  intro s
  unfold TQ2.liftR
  have h1 := hm.holds s.rd
  cases hms : m s.rd with
  | mk o r => rw [hms] at h1; exact hl s r h1

theorem M.Preserves.getTag {ρ : Type} (RT : StateRel (TState ρ)) :
    M.Preserves RT (getTag : M (TState ρ) Tag) := ⟨fun s => RT.refl s⟩

theorem M.Preserves.arrayLength {σ : Type} (R : StateRel σ) (n : Int) :
    M.Preserves R (arrayLength n : M σ Nat) := by
  unfold TQ2.arrayLength
  split
  · exact M.Preserves.fail _ _
  · exact M.Preserves.pure _ _

/-! ## The reader keeps its buffer -/

theorem advance_buf (n : Int) : M.Preserves bufRel (advance n) := ⟨fun _ => rfl⟩

theorem getOffset_buf : M.Preserves bufRel getOffset := ⟨fun _ => rfl⟩

theorem readLE_buf (n : Nat) (o : Int) : M.Preserves bufRel (readLE n o) := by
  constructor; intro r; unfold readLE; split <;> rfl

theorem UReader.seek_buf (p : Int) : M.Preserves bufRel (UReader.seek p) := by
  constructor; intro r; unfold UReader.seek; split <;> rfl


theorem UReader.raw_buf (n : Int) : M.Preserves bufRel (UReader.raw n) := by
  unfold UReader.raw
  repeat (with_reducible first
    | apply M.Preserves.bind | apply M.Preserves.map | apply M.Preserves.repeatM
    | exact M.Preserves.pure _ _ | exact M.Preserves.fail _ _ | exact M.Preserves.ret _ _
    | exact advance_buf _ | exact getOffset_buf | exact readLE_buf _ _
    | exact UReader.seek_buf _ | split | intro _ | dsimp only)

theorem UReader.int8_buf : M.Preserves bufRel (UReader.int8) := by
  unfold UReader.int8
  repeat (with_reducible first
    | apply M.Preserves.bind | apply M.Preserves.map | apply M.Preserves.repeatM
    | exact M.Preserves.pure _ _ | exact M.Preserves.fail _ _ | exact M.Preserves.ret _ _
    | exact advance_buf _ | exact getOffset_buf | exact readLE_buf _ _
    | exact UReader.seek_buf _ | exact UReader.raw_buf _ | split | intro _ | dsimp only)

theorem UReader.uint8_buf : M.Preserves bufRel (UReader.uint8) := by
  unfold UReader.uint8
  repeat (with_reducible first
    | apply M.Preserves.bind | apply M.Preserves.map | apply M.Preserves.repeatM
    | exact M.Preserves.pure _ _ | exact M.Preserves.fail _ _ | exact M.Preserves.ret _ _
    | exact advance_buf _ | exact getOffset_buf | exact readLE_buf _ _
    | exact UReader.seek_buf _ | exact UReader.raw_buf _ | exact UReader.int8_buf | split
    | intro _ | dsimp only)

theorem UReader.int16_buf : M.Preserves bufRel (UReader.int16) := by
  unfold UReader.int16
  repeat (with_reducible first
    | apply M.Preserves.bind | apply M.Preserves.map | apply M.Preserves.repeatM
    | exact M.Preserves.pure _ _ | exact M.Preserves.fail _ _ | exact M.Preserves.ret _ _
    | exact advance_buf _ | exact getOffset_buf | exact readLE_buf _ _
    | exact UReader.seek_buf _ | exact UReader.raw_buf _ | exact UReader.int8_buf
    | exact UReader.uint8_buf | split | intro _ | dsimp only)

theorem UReader.uint16_buf : M.Preserves bufRel (UReader.uint16) := by
  unfold UReader.uint16
  repeat (with_reducible first
    | apply M.Preserves.bind | apply M.Preserves.map | apply M.Preserves.repeatM
    | exact M.Preserves.pure _ _ | exact M.Preserves.fail _ _ | exact M.Preserves.ret _ _
    | exact advance_buf _ | exact getOffset_buf | exact readLE_buf _ _
    | exact UReader.seek_buf _ | exact UReader.raw_buf _ | exact UReader.int8_buf
    | exact UReader.uint8_buf | exact UReader.int16_buf | split | intro _ | dsimp only)

theorem UReader.int32_buf : M.Preserves bufRel (UReader.int32) := by
  unfold UReader.int32
  repeat (with_reducible first
    | apply M.Preserves.bind | apply M.Preserves.map | apply M.Preserves.repeatM
    | exact M.Preserves.pure _ _ | exact M.Preserves.fail _ _ | exact M.Preserves.ret _ _
    | exact advance_buf _ | exact getOffset_buf | exact readLE_buf _ _
    | exact UReader.seek_buf _ | exact UReader.raw_buf _ | exact UReader.int8_buf
    | exact UReader.uint8_buf | exact UReader.int16_buf | exact UReader.uint16_buf | split
    | intro _ | dsimp only)

theorem UReader.uint32_buf : M.Preserves bufRel (UReader.uint32) := by
  unfold UReader.uint32
  repeat (with_reducible first
    | apply M.Preserves.bind | apply M.Preserves.map | apply M.Preserves.repeatM
    | exact M.Preserves.pure _ _ | exact M.Preserves.fail _ _ | exact M.Preserves.ret _ _
    | exact advance_buf _ | exact getOffset_buf | exact readLE_buf _ _
    | exact UReader.seek_buf _ | exact UReader.raw_buf _ | exact UReader.int8_buf
    | exact UReader.uint8_buf | exact UReader.int16_buf | exact UReader.uint16_buf
    | exact UReader.int32_buf | split | intro _ | dsimp only)

theorem UReader.int64_buf : M.Preserves bufRel (UReader.int64) := by
  unfold UReader.int64
  repeat (with_reducible first
    | apply M.Preserves.bind | apply M.Preserves.map | apply M.Preserves.repeatM
    | exact M.Preserves.pure _ _ | exact M.Preserves.fail _ _ | exact M.Preserves.ret _ _
    | exact advance_buf _ | exact getOffset_buf | exact readLE_buf _ _
    | exact UReader.seek_buf _ | exact UReader.raw_buf _ | exact UReader.int8_buf
    | exact UReader.uint8_buf | exact UReader.int16_buf | exact UReader.uint16_buf
    | exact UReader.int32_buf | exact UReader.uint32_buf | split | intro _ | dsimp only)

theorem UReader.float_buf : M.Preserves bufRel (UReader.float) := by
  unfold UReader.float
  repeat (with_reducible first
    | apply M.Preserves.bind | apply M.Preserves.map | apply M.Preserves.repeatM
    | exact M.Preserves.pure _ _ | exact M.Preserves.fail _ _ | exact M.Preserves.ret _ _
    | exact advance_buf _ | exact getOffset_buf | exact readLE_buf _ _
    | exact UReader.seek_buf _ | exact UReader.raw_buf _ | exact UReader.int8_buf
    | exact UReader.uint8_buf | exact UReader.int16_buf | exact UReader.uint16_buf
    | exact UReader.int32_buf | exact UReader.uint32_buf | exact UReader.int64_buf | split
    | intro _ | dsimp only)

theorem UReader.double_buf : M.Preserves bufRel (UReader.double) := by
  unfold UReader.double
  repeat (with_reducible first
    | apply M.Preserves.bind | apply M.Preserves.map | apply M.Preserves.repeatM
    | exact M.Preserves.pure _ _ | exact M.Preserves.fail _ _ | exact M.Preserves.ret _ _
    | exact advance_buf _ | exact getOffset_buf | exact readLE_buf _ _
    | exact UReader.seek_buf _ | exact UReader.raw_buf _ | exact UReader.int8_buf
    | exact UReader.uint8_buf | exact UReader.int16_buf | exact UReader.uint16_buf
    | exact UReader.int32_buf | exact UReader.uint32_buf | exact UReader.int64_buf
    | exact UReader.float_buf | split | intro _ | dsimp only)

theorem UReader.fstring_buf : M.Preserves bufRel (UReader.fstring) := by
  unfold UReader.fstring
  repeat (with_reducible first
    | apply M.Preserves.bind | apply M.Preserves.map | apply M.Preserves.repeatM
    | exact M.Preserves.pure _ _ | exact M.Preserves.fail _ _ | exact M.Preserves.ret _ _
    | exact advance_buf _ | exact getOffset_buf | exact readLE_buf _ _
    | exact UReader.seek_buf _ | exact UReader.raw_buf _ | exact UReader.int8_buf
    | exact UReader.uint8_buf | exact UReader.int16_buf | exact UReader.uint16_buf
    | exact UReader.int32_buf | exact UReader.uint32_buf | exact UReader.int64_buf
    | exact UReader.float_buf | exact UReader.double_buf | split | intro _ | dsimp only)

theorem UReader.fname_buf : M.Preserves bufRel (UReader.fname) := by
  unfold UReader.fname
  repeat (with_reducible first
    | apply M.Preserves.bind | apply M.Preserves.map | apply M.Preserves.repeatM
    | exact M.Preserves.pure _ _ | exact M.Preserves.fail _ _ | exact M.Preserves.ret _ _
    | exact advance_buf _ | exact getOffset_buf | exact readLE_buf _ _
    | exact UReader.seek_buf _ | exact UReader.raw_buf _ | exact UReader.int8_buf
    | exact UReader.uint8_buf | exact UReader.int16_buf | exact UReader.uint16_buf
    | exact UReader.int32_buf | exact UReader.uint32_buf | exact UReader.int64_buf
    | exact UReader.float_buf | exact UReader.double_buf | exact UReader.fstring_buf | split
    | intro _ | dsimp only)

theorem UReader.bool_buf : M.Preserves bufRel (UReader.bool) := by
  unfold UReader.bool
  repeat (with_reducible first
    | apply M.Preserves.bind | apply M.Preserves.map | apply M.Preserves.repeatM
    | exact M.Preserves.pure _ _ | exact M.Preserves.fail _ _ | exact M.Preserves.ret _ _
    | exact advance_buf _ | exact getOffset_buf | exact readLE_buf _ _
    | exact UReader.seek_buf _ | exact UReader.raw_buf _ | exact UReader.int8_buf
    | exact UReader.uint8_buf | exact UReader.int16_buf | exact UReader.uint16_buf
    | exact UReader.int32_buf | exact UReader.uint32_buf | exact UReader.int64_buf
    | exact UReader.float_buf | exact UReader.double_buf | exact UReader.fstring_buf
    | exact UReader.fname_buf | split | intro _ | dsimp only)

theorem UReader.object_buf : M.Preserves bufRel (UReader.object) := by
  unfold UReader.object
  repeat (with_reducible first
    | apply M.Preserves.bind | apply M.Preserves.map | apply M.Preserves.repeatM
    | exact M.Preserves.pure _ _ | exact M.Preserves.fail _ _ | exact M.Preserves.ret _ _
    | exact advance_buf _ | exact getOffset_buf | exact readLE_buf _ _
    | exact UReader.seek_buf _ | exact UReader.raw_buf _ | exact UReader.int8_buf
    | exact UReader.uint8_buf | exact UReader.int16_buf | exact UReader.uint16_buf
    | exact UReader.int32_buf | exact UReader.uint32_buf | exact UReader.int64_buf
    | exact UReader.float_buf | exact UReader.double_buf | exact UReader.fstring_buf
    | exact UReader.fname_buf | exact UReader.bool_buf | split | intro _ | dsimp only)

theorem UReader.FGuid_buf : M.Preserves bufRel (UReader.FGuid) := by
  unfold UReader.FGuid
  repeat (with_reducible first
    | apply M.Preserves.bind | apply M.Preserves.map | apply M.Preserves.repeatM
    | exact M.Preserves.pure _ _ | exact M.Preserves.fail _ _ | exact M.Preserves.ret _ _
    | exact advance_buf _ | exact getOffset_buf | exact readLE_buf _ _
    | exact UReader.seek_buf _ | exact UReader.raw_buf _ | exact UReader.int8_buf
    | exact UReader.uint8_buf | exact UReader.int16_buf | exact UReader.uint16_buf
    | exact UReader.int32_buf | exact UReader.uint32_buf | exact UReader.int64_buf
    | exact UReader.float_buf | exact UReader.double_buf | exact UReader.fstring_buf
    | exact UReader.fname_buf | exact UReader.bool_buf | exact UReader.object_buf | split
    | intro _ | dsimp only)

theorem UReader.tagExtras_buf (ty : JSString) (f : TagFields) : M.Preserves bufRel (UReader.tagExtras ty f) := by
  unfold UReader.tagExtras
  repeat (with_reducible first
    | apply M.Preserves.bind | apply M.Preserves.map | apply M.Preserves.repeatM
    | exact M.Preserves.pure _ _ | exact M.Preserves.fail _ _ | exact M.Preserves.ret _ _
    | exact advance_buf _ | exact getOffset_buf | exact readLE_buf _ _
    | exact UReader.seek_buf _ | exact UReader.raw_buf _ | exact UReader.int8_buf
    | exact UReader.uint8_buf | exact UReader.int16_buf | exact UReader.uint16_buf
    | exact UReader.int32_buf | exact UReader.uint32_buf | exact UReader.int64_buf
    | exact UReader.float_buf | exact UReader.double_buf | exact UReader.fstring_buf
    | exact UReader.fname_buf | exact UReader.bool_buf | exact UReader.object_buf
    | exact UReader.FGuid_buf | split | intro _ | dsimp only)

theorem UReader.FPropertyTag_buf : M.Preserves bufRel (UReader.FPropertyTag) := by
  unfold UReader.FPropertyTag
  repeat (with_reducible first
    | apply M.Preserves.bind | apply M.Preserves.map | apply M.Preserves.repeatM
    | exact M.Preserves.pure _ _ | exact M.Preserves.fail _ _ | exact M.Preserves.ret _ _
    | exact advance_buf _ | exact getOffset_buf | exact readLE_buf _ _
    | exact UReader.seek_buf _ | exact UReader.raw_buf _ | exact UReader.int8_buf
    | exact UReader.uint8_buf | exact UReader.int16_buf | exact UReader.uint16_buf
    | exact UReader.int32_buf | exact UReader.uint32_buf | exact UReader.int64_buf
    | exact UReader.float_buf | exact UReader.double_buf | exact UReader.fstring_buf
    | exact UReader.fname_buf | exact UReader.bool_buf | exact UReader.object_buf
    | exact UReader.FGuid_buf | exact UReader.tagExtras_buf _ _ | split | intro _ | dsimp only)

theorem liftR_tag {α : Type} {m : RM α} (hm : M.Preserves bufRel m) :
    M.Preserves tagRel (liftR m) :=
  M.Preserves.liftR bufRel tagRel (fun _ _ h => ⟨h, rfl, rfl, rfl⟩) hm

theorem modTag_tag (g : TagFields → TagFields)
    (hg : ∀ f, (g f).Size = f.Size ∧ (g f).Name = f.Name ∧ (g f).data_offset = f.data_offset) :
    M.Preserves tagRel (modTag g) :=
  ⟨fun s => ⟨rfl, (hg s.tag.f).1, (hg s.tag.f).2.1, (hg s.tag.f).2.2⟩⟩

theorem setInnerTag_tag (i : Tag) : M.Preserves tagRel (setInnerTag i) :=
  ⟨fun _ => ⟨rfl, rfl, rfl, rfl⟩⟩

theorem setValueTag_tag (v : Tag) : M.Preserves tagRel (setValueTag v) :=
  ⟨fun _ => ⟨rfl, rfl, rfl, rfl⟩⟩

theorem onInner_tag {α : Type} {m : TM α} (hm : M.Preserves tagRel m) :
    M.Preserves tagRel (onInner m) := by
  constructor
  intro s
  unfold onInner
  split
  · exact tagRel.refl s
  · rename_i it hit
    have h1 := hm.holds ⟨it, s.rd⟩
    cases hms : m ⟨it, s.rd⟩ with
    | mk o s1 => rw [hms] at h1; exact ⟨h1.1, rfl, rfl, rfl⟩

theorem onValue_tag {α : Type} {m : TM α} (hm : M.Preserves tagRel m) :
    M.Preserves tagRel (onValue m) := by
  constructor
  intro s
  unfold onValue
  split
  · exact tagRel.refl s
  · rename_i it hit
    have h1 := hm.holds ⟨it, s.rd⟩
    cases hms : m ⟨it, s.rd⟩ with
    | mk o s1 => rw [hms] at h1; exact ⟨h1.1, rfl, rfl, rfl⟩

theorem UReader.tryPropertyTag_buf (l : Option Int) :
    M.Preserves bufRel (UReader.tryPropertyTag l) := by
  constructor
  intro r
  unfold UReader.tryPropertyTag
  dsimp only
  refine (M.Preserves.tryCatch bufRel ?_ ?_).holds r
  · apply M.Preserves.bind _ UReader.FPropertyTag_buf
    intro _
    apply M.Preserves.bind _ getOffset_buf
    intro _
    split
    · exact M.Preserves.fail _ _
    · exact M.Preserves.bind _ (UReader.seek_buf _) (fun _ => M.Preserves.pure _ _)
  · intro _
    exact M.Preserves.bind _ (UReader.seek_buf _) (fun _ => M.Preserves.pure _ _)

theorem UReader.tarray_buf (inner : RM JSVal) (hi : M.Preserves bufRel inner) :
    M.Preserves bufRel (UReader.tarray inner) := by
  unfold UReader.tarray
  repeat (with_reducible first
    | exact hi | apply M.Preserves.bind | apply M.Preserves.map | apply M.Preserves.repeatM
    | apply M.Preserves.tryCatch | apply liftR_tag | apply onInner_tag
    | apply onValue_tag | exact M.Preserves.pure _ _ | exact M.Preserves.fail _ _
    | exact M.Preserves.ret _ _ | exact M.Preserves.getTag _ | exact M.Preserves.arrayLength _ _
    | exact setInnerTag_tag _ | exact setValueTag_tag _
    | exact modTag_tag _ (fun _ => ⟨rfl, rfl, rfl⟩) | exact advance_buf _ | exact getOffset_buf
    | exact readLE_buf _ _ | exact UReader.seek_buf _ | exact UReader.raw_buf _
    | exact UReader.int8_buf | exact UReader.uint8_buf | exact UReader.int16_buf
    | exact UReader.uint16_buf | exact UReader.int32_buf | exact UReader.uint32_buf
    | exact UReader.int64_buf | exact UReader.float_buf | exact UReader.double_buf
    | exact UReader.fstring_buf | exact UReader.fname_buf | exact UReader.bool_buf
    | exact UReader.object_buf | exact UReader.FGuid_buf | exact UReader.FPropertyTag_buf
    | exact UReader.tagExtras_buf _ _ | exact UReader.tryPropertyTag_buf _ | split | intro _
    | dsimp only)

theorem UReader.tarrayMissing_buf :
    M.Preserves bufRel (UReader.tarrayMissing) := by
  unfold UReader.tarrayMissing
  repeat (with_reducible first
    | apply M.Preserves.bind | apply M.Preserves.map | apply M.Preserves.repeatM
    | apply M.Preserves.tryCatch | apply liftR_tag | apply onInner_tag
    | apply onValue_tag | exact M.Preserves.pure _ _ | exact M.Preserves.fail _ _
    | exact M.Preserves.ret _ _ | exact M.Preserves.getTag _ | exact M.Preserves.arrayLength _ _
    | exact setInnerTag_tag _ | exact setValueTag_tag _
    | exact modTag_tag _ (fun _ => ⟨rfl, rfl, rfl⟩) | exact advance_buf _ | exact getOffset_buf
    | exact readLE_buf _ _ | exact UReader.seek_buf _ | exact UReader.raw_buf _
    | exact UReader.int8_buf | exact UReader.uint8_buf | exact UReader.int16_buf
    | exact UReader.uint16_buf | exact UReader.int32_buf | exact UReader.uint32_buf
    | exact UReader.int64_buf | exact UReader.float_buf | exact UReader.double_buf
    | exact UReader.fstring_buf | exact UReader.fname_buf | exact UReader.bool_buf
    | exact UReader.object_buf | exact UReader.FGuid_buf | exact UReader.FPropertyTag_buf
    | exact UReader.tagExtras_buf _ _ | exact UReader.tryPropertyTag_buf _
    | apply UReader.tarray_buf | split | intro _ | dsimp only)

theorem UReader.FSoftObjectPath_buf :
    M.Preserves bufRel (UReader.FSoftObjectPath) := by
  unfold UReader.FSoftObjectPath
  repeat (with_reducible first
    | apply M.Preserves.bind | apply M.Preserves.map | apply M.Preserves.repeatM
    | apply M.Preserves.tryCatch | apply liftR_tag | apply onInner_tag
    | apply onValue_tag | exact M.Preserves.pure _ _ | exact M.Preserves.fail _ _
    | exact M.Preserves.ret _ _ | exact M.Preserves.getTag _ | exact M.Preserves.arrayLength _ _
    | exact setInnerTag_tag _ | exact setValueTag_tag _
    | exact modTag_tag _ (fun _ => ⟨rfl, rfl, rfl⟩) | exact advance_buf _ | exact getOffset_buf
    | exact readLE_buf _ _ | exact UReader.seek_buf _ | exact UReader.raw_buf _
    | exact UReader.int8_buf | exact UReader.uint8_buf | exact UReader.int16_buf
    | exact UReader.uint16_buf | exact UReader.int32_buf | exact UReader.uint32_buf
    | exact UReader.int64_buf | exact UReader.float_buf | exact UReader.double_buf
    | exact UReader.fstring_buf | exact UReader.fname_buf | exact UReader.bool_buf
    | exact UReader.object_buf | exact UReader.FGuid_buf | exact UReader.FPropertyTag_buf
    | exact UReader.tagExtras_buf _ _ | exact UReader.tryPropertyTag_buf _
    | apply UReader.tarray_buf | exact UReader.tarrayMissing_buf | split | intro _
    | dsimp only)

theorem UReader.FIntPoint_buf :
    M.Preserves bufRel (UReader.FIntPoint) := by
  unfold UReader.FIntPoint
  repeat (with_reducible first
    | apply M.Preserves.bind | apply M.Preserves.map | apply M.Preserves.repeatM
    | apply M.Preserves.tryCatch | apply liftR_tag | apply onInner_tag
    | apply onValue_tag | exact M.Preserves.pure _ _ | exact M.Preserves.fail _ _
    | exact M.Preserves.ret _ _ | exact M.Preserves.getTag _ | exact M.Preserves.arrayLength _ _
    | exact setInnerTag_tag _ | exact setValueTag_tag _
    | exact modTag_tag _ (fun _ => ⟨rfl, rfl, rfl⟩) | exact advance_buf _ | exact getOffset_buf
    | exact readLE_buf _ _ | exact UReader.seek_buf _ | exact UReader.raw_buf _
    | exact UReader.int8_buf | exact UReader.uint8_buf | exact UReader.int16_buf
    | exact UReader.uint16_buf | exact UReader.int32_buf | exact UReader.uint32_buf
    | exact UReader.int64_buf | exact UReader.float_buf | exact UReader.double_buf
    | exact UReader.fstring_buf | exact UReader.fname_buf | exact UReader.bool_buf
    | exact UReader.object_buf | exact UReader.FGuid_buf | exact UReader.FPropertyTag_buf
    | exact UReader.tagExtras_buf _ _ | exact UReader.tryPropertyTag_buf _
    | apply UReader.tarray_buf | exact UReader.tarrayMissing_buf
    | exact UReader.FSoftObjectPath_buf | split | intro _ | dsimp only)

theorem UReader.FLinearColor_buf :
    M.Preserves bufRel (UReader.FLinearColor) := by
  unfold UReader.FLinearColor
  repeat (with_reducible first
    | apply M.Preserves.bind | apply M.Preserves.map | apply M.Preserves.repeatM
    | apply M.Preserves.tryCatch | apply liftR_tag | apply onInner_tag
    | apply onValue_tag | exact M.Preserves.pure _ _ | exact M.Preserves.fail _ _
    | exact M.Preserves.ret _ _ | exact M.Preserves.getTag _ | exact M.Preserves.arrayLength _ _
    | exact setInnerTag_tag _ | exact setValueTag_tag _
    | exact modTag_tag _ (fun _ => ⟨rfl, rfl, rfl⟩) | exact advance_buf _ | exact getOffset_buf
    | exact readLE_buf _ _ | exact UReader.seek_buf _ | exact UReader.raw_buf _
    | exact UReader.int8_buf | exact UReader.uint8_buf | exact UReader.int16_buf
    | exact UReader.uint16_buf | exact UReader.int32_buf | exact UReader.uint32_buf
    | exact UReader.int64_buf | exact UReader.float_buf | exact UReader.double_buf
    | exact UReader.fstring_buf | exact UReader.fname_buf | exact UReader.bool_buf
    | exact UReader.object_buf | exact UReader.FGuid_buf | exact UReader.FPropertyTag_buf
    | exact UReader.tagExtras_buf _ _ | exact UReader.tryPropertyTag_buf _
    | apply UReader.tarray_buf | exact UReader.tarrayMissing_buf
    | exact UReader.FSoftObjectPath_buf | exact UReader.FIntPoint_buf | split | intro _
    | dsimp only)

theorem UReader.FGameplayTagContainer_buf :
    M.Preserves bufRel (UReader.FGameplayTagContainer) := by
  unfold UReader.FGameplayTagContainer
  repeat (with_reducible first
    | apply M.Preserves.bind | apply M.Preserves.map | apply M.Preserves.repeatM
    | apply M.Preserves.tryCatch | apply liftR_tag | apply onInner_tag
    | apply onValue_tag | exact M.Preserves.pure _ _ | exact M.Preserves.fail _ _
    | exact M.Preserves.ret _ _ | exact M.Preserves.getTag _ | exact M.Preserves.arrayLength _ _
    | exact setInnerTag_tag _ | exact setValueTag_tag _
    | exact modTag_tag _ (fun _ => ⟨rfl, rfl, rfl⟩) | exact advance_buf _ | exact getOffset_buf
    | exact readLE_buf _ _ | exact UReader.seek_buf _ | exact UReader.raw_buf _
    | exact UReader.int8_buf | exact UReader.uint8_buf | exact UReader.int16_buf
    | exact UReader.uint16_buf | exact UReader.int32_buf | exact UReader.uint32_buf
    | exact UReader.int64_buf | exact UReader.float_buf | exact UReader.double_buf
    | exact UReader.fstring_buf | exact UReader.fname_buf | exact UReader.bool_buf
    | exact UReader.object_buf | exact UReader.FGuid_buf | exact UReader.FPropertyTag_buf
    | exact UReader.tagExtras_buf _ _ | exact UReader.tryPropertyTag_buf _
    | apply UReader.tarray_buf | exact UReader.tarrayMissing_buf
    | exact UReader.FSoftObjectPath_buf | exact UReader.FIntPoint_buf
    | exact UReader.FLinearColor_buf | split | intro _ | dsimp only)

theorem UReader.FTQ2FogOfWarPackedData_buf :
    M.Preserves bufRel (UReader.FTQ2FogOfWarPackedData) := by
  unfold UReader.FTQ2FogOfWarPackedData
  repeat (with_reducible first
    | apply M.Preserves.bind | apply M.Preserves.map | apply M.Preserves.repeatM
    | apply M.Preserves.tryCatch | apply liftR_tag | apply onInner_tag
    | apply onValue_tag | exact M.Preserves.pure _ _ | exact M.Preserves.fail _ _
    | exact M.Preserves.ret _ _ | exact M.Preserves.getTag _ | exact M.Preserves.arrayLength _ _
    | exact setInnerTag_tag _ | exact setValueTag_tag _
    | exact modTag_tag _ (fun _ => ⟨rfl, rfl, rfl⟩) | exact advance_buf _ | exact getOffset_buf
    | exact readLE_buf _ _ | exact UReader.seek_buf _ | exact UReader.raw_buf _
    | exact UReader.int8_buf | exact UReader.uint8_buf | exact UReader.int16_buf
    | exact UReader.uint16_buf | exact UReader.int32_buf | exact UReader.uint32_buf
    | exact UReader.int64_buf | exact UReader.float_buf | exact UReader.double_buf
    | exact UReader.fstring_buf | exact UReader.fname_buf | exact UReader.bool_buf
    | exact UReader.object_buf | exact UReader.FGuid_buf | exact UReader.FPropertyTag_buf
    | exact UReader.tagExtras_buf _ _ | exact UReader.tryPropertyTag_buf _
    | apply UReader.tarray_buf | exact UReader.tarrayMissing_buf
    | exact UReader.FSoftObjectPath_buf | exact UReader.FIntPoint_buf
    | exact UReader.FLinearColor_buf | exact UReader.FGameplayTagContainer_buf | split | intro _
    | dsimp only)

theorem UReader.FGrimDialogueVariableValue_buf :
    M.Preserves bufRel (UReader.FGrimDialogueVariableValue) := by
  unfold UReader.FGrimDialogueVariableValue
  repeat (with_reducible first
    | apply M.Preserves.bind | apply M.Preserves.map | apply M.Preserves.repeatM
    | apply M.Preserves.tryCatch | apply liftR_tag | apply onInner_tag
    | apply onValue_tag | exact M.Preserves.pure _ _ | exact M.Preserves.fail _ _
    | exact M.Preserves.ret _ _ | exact M.Preserves.getTag _ | exact M.Preserves.arrayLength _ _
    | exact setInnerTag_tag _ | exact setValueTag_tag _
    | exact modTag_tag _ (fun _ => ⟨rfl, rfl, rfl⟩) | exact advance_buf _ | exact getOffset_buf
    | exact readLE_buf _ _ | exact UReader.seek_buf _ | exact UReader.raw_buf _
    | exact UReader.int8_buf | exact UReader.uint8_buf | exact UReader.int16_buf
    | exact UReader.uint16_buf | exact UReader.int32_buf | exact UReader.uint32_buf
    | exact UReader.int64_buf | exact UReader.float_buf | exact UReader.double_buf
    | exact UReader.fstring_buf | exact UReader.fname_buf | exact UReader.bool_buf
    | exact UReader.object_buf | exact UReader.FGuid_buf | exact UReader.FPropertyTag_buf
    | exact UReader.tagExtras_buf _ _ | exact UReader.tryPropertyTag_buf _
    | apply UReader.tarray_buf | exact UReader.tarrayMissing_buf
    | exact UReader.FSoftObjectPath_buf | exact UReader.FIntPoint_buf
    | exact UReader.FLinearColor_buf | exact UReader.FGameplayTagContainer_buf
    | exact UReader.FTQ2FogOfWarPackedData_buf | split | intro _ | dsimp only)

theorem assignProp_buf (result : List (JSString × JSVal)) (name : JSString) (value : JSVal) :
    M.Preserves bufRel (assignProp result name value) := by
  unfold assignProp
  repeat (with_reducible first
    | apply M.Preserves.bind | apply M.Preserves.map | apply M.Preserves.repeatM
    | apply M.Preserves.tryCatch | apply liftR_tag | apply onInner_tag
    | apply onValue_tag | exact M.Preserves.pure _ _ | exact M.Preserves.fail _ _
    | exact M.Preserves.ret _ _ | exact M.Preserves.getTag _ | exact M.Preserves.arrayLength _ _
    | exact setInnerTag_tag _ | exact setValueTag_tag _
    | exact modTag_tag _ (fun _ => ⟨rfl, rfl, rfl⟩) | exact advance_buf _ | exact getOffset_buf
    | exact readLE_buf _ _ | exact UReader.seek_buf _ | exact UReader.raw_buf _
    | exact UReader.int8_buf | exact UReader.uint8_buf | exact UReader.int16_buf
    | exact UReader.uint16_buf | exact UReader.int32_buf | exact UReader.uint32_buf
    | exact UReader.int64_buf | exact UReader.float_buf | exact UReader.double_buf
    | exact UReader.fstring_buf | exact UReader.fname_buf | exact UReader.bool_buf
    | exact UReader.object_buf | exact UReader.FGuid_buf | exact UReader.FPropertyTag_buf
    | exact UReader.tagExtras_buf _ _ | exact UReader.tryPropertyTag_buf _
    | apply UReader.tarray_buf | exact UReader.tarrayMissing_buf
    | exact UReader.FSoftObjectPath_buf | exact UReader.FIntPoint_buf
    | exact UReader.FLinearColor_buf | exact UReader.FGameplayTagContainer_buf
    | exact UReader.FTQ2FogOfWarPackedData_buf | exact UReader.FGrimDialogueVariableValue_buf
    | split | intro _ | dsimp only)

theorem rawOfSize_buf (size : Option JSNum) :
    M.Preserves bufRel (rawOfSize size) := by
  unfold rawOfSize
  repeat (with_reducible first
    | apply M.Preserves.bind | apply M.Preserves.map | apply M.Preserves.repeatM
    | apply M.Preserves.tryCatch | apply liftR_tag | apply onInner_tag
    | apply onValue_tag | exact M.Preserves.pure _ _ | exact M.Preserves.fail _ _
    | exact M.Preserves.ret _ _ | exact M.Preserves.getTag _ | exact M.Preserves.arrayLength _ _
    | exact setInnerTag_tag _ | exact setValueTag_tag _
    | exact modTag_tag _ (fun _ => ⟨rfl, rfl, rfl⟩) | exact advance_buf _ | exact getOffset_buf
    | exact readLE_buf _ _ | exact UReader.seek_buf _ | exact UReader.raw_buf _
    | exact UReader.int8_buf | exact UReader.uint8_buf | exact UReader.int16_buf
    | exact UReader.uint16_buf | exact UReader.int32_buf | exact UReader.uint32_buf
    | exact UReader.int64_buf | exact UReader.float_buf | exact UReader.double_buf
    | exact UReader.fstring_buf | exact UReader.fname_buf | exact UReader.bool_buf
    | exact UReader.object_buf | exact UReader.FGuid_buf | exact UReader.FPropertyTag_buf
    | exact UReader.tagExtras_buf _ _ | exact UReader.tryPropertyTag_buf _
    | apply UReader.tarray_buf | exact UReader.tarrayMissing_buf
    | exact UReader.FSoftObjectPath_buf | exact UReader.FIntPoint_buf
    | exact UReader.FLinearColor_buf | exact UReader.FGameplayTagContainer_buf
    | exact UReader.FTQ2FogOfWarPackedData_buf | exact UReader.FGrimDialogueVariableValue_buf
    | exact assignProp_buf _ _ _ | split | intro _ | dsimp only)

theorem seekDataOffset_buf (o : Option Int) :
    M.Preserves bufRel (seekDataOffset o) := by
  unfold seekDataOffset
  repeat (with_reducible first
    | apply M.Preserves.bind | apply M.Preserves.map | apply M.Preserves.repeatM
    | apply M.Preserves.tryCatch | apply liftR_tag | apply onInner_tag
    | apply onValue_tag | exact M.Preserves.pure _ _ | exact M.Preserves.fail _ _
    | exact M.Preserves.ret _ _ | exact M.Preserves.getTag _ | exact M.Preserves.arrayLength _ _
    | exact setInnerTag_tag _ | exact setValueTag_tag _
    | exact modTag_tag _ (fun _ => ⟨rfl, rfl, rfl⟩) | exact advance_buf _ | exact getOffset_buf
    | exact readLE_buf _ _ | exact UReader.seek_buf _ | exact UReader.raw_buf _
    | exact UReader.int8_buf | exact UReader.uint8_buf | exact UReader.int16_buf
    | exact UReader.uint16_buf | exact UReader.int32_buf | exact UReader.uint32_buf
    | exact UReader.int64_buf | exact UReader.float_buf | exact UReader.double_buf
    | exact UReader.fstring_buf | exact UReader.fname_buf | exact UReader.bool_buf
    | exact UReader.object_buf | exact UReader.FGuid_buf | exact UReader.FPropertyTag_buf
    | exact UReader.tagExtras_buf _ _ | exact UReader.tryPropertyTag_buf _
    | apply UReader.tarray_buf | exact UReader.tarrayMissing_buf
    | exact UReader.FSoftObjectPath_buf | exact UReader.FIntPoint_buf
    | exact UReader.FLinearColor_buf | exact UReader.FGameplayTagContainer_buf
    | exact UReader.FTQ2FogOfWarPackedData_buf | exact UReader.FGrimDialogueVariableValue_buf
    | exact assignProp_buf _ _ _ | exact rawOfSize_buf _ | split | intro _ | dsimp only)

theorem UReader.byteValue_buf (f : TagFields) :
    M.Preserves bufRel (UReader.byteValue f) := by
  unfold UReader.byteValue
  repeat (with_reducible first
    | apply M.Preserves.bind | apply M.Preserves.map | apply M.Preserves.repeatM
    | apply M.Preserves.tryCatch | apply liftR_tag | apply onInner_tag
    | apply onValue_tag | exact M.Preserves.pure _ _ | exact M.Preserves.fail _ _
    | exact M.Preserves.ret _ _ | exact M.Preserves.getTag _ | exact M.Preserves.arrayLength _ _
    | exact setInnerTag_tag _ | exact setValueTag_tag _
    | exact modTag_tag _ (fun _ => ⟨rfl, rfl, rfl⟩) | exact advance_buf _ | exact getOffset_buf
    | exact readLE_buf _ _ | exact UReader.seek_buf _ | exact UReader.raw_buf _
    | exact UReader.int8_buf | exact UReader.uint8_buf | exact UReader.int16_buf
    | exact UReader.uint16_buf | exact UReader.int32_buf | exact UReader.uint32_buf
    | exact UReader.int64_buf | exact UReader.float_buf | exact UReader.double_buf
    | exact UReader.fstring_buf | exact UReader.fname_buf | exact UReader.bool_buf
    | exact UReader.object_buf | exact UReader.FGuid_buf | exact UReader.FPropertyTag_buf
    | exact UReader.tagExtras_buf _ _ | exact UReader.tryPropertyTag_buf _
    | apply UReader.tarray_buf | exact UReader.tarrayMissing_buf
    | exact UReader.FSoftObjectPath_buf | exact UReader.FIntPoint_buf
    | exact UReader.FLinearColor_buf | exact UReader.FGameplayTagContainer_buf
    | exact UReader.FTQ2FogOfWarPackedData_buf | exact UReader.FGrimDialogueVariableValue_buf
    | exact assignProp_buf _ _ _ | exact rawOfSize_buf _ | exact seekDataOffset_buf _ | split
    | intro _ | dsimp only)

theorem pushAndDecode_buf (d : Decoders) (hd : d.Keeps) (result : List (JSString × JSVal)) (tag : Tag) :
    M.Preserves bufRel (pushAndDecode d result tag) := by
  unfold pushAndDecode
  repeat (with_reducible first
    | apply M.Preserves.bind | apply M.Preserves.map | apply M.Preserves.repeatM
    | apply M.Preserves.tryCatch | apply liftR_tag | apply onInner_tag
    | apply onValue_tag | exact M.Preserves.pure _ _ | exact M.Preserves.fail _ _
    | exact M.Preserves.ret _ _ | exact M.Preserves.getTag _ | exact M.Preserves.arrayLength _ _
    | exact setInnerTag_tag _ | exact setValueTag_tag _
    | exact modTag_tag _ (fun _ => ⟨rfl, rfl, rfl⟩) | exact advance_buf _ | exact getOffset_buf
    | exact readLE_buf _ _ | exact UReader.seek_buf _ | exact UReader.raw_buf _
    | exact UReader.int8_buf | exact UReader.uint8_buf | exact UReader.int16_buf
    | exact UReader.uint16_buf | exact UReader.int32_buf | exact UReader.uint32_buf
    | exact UReader.int64_buf | exact UReader.float_buf | exact UReader.double_buf
    | exact UReader.fstring_buf | exact UReader.fname_buf | exact UReader.bool_buf
    | exact UReader.object_buf | exact UReader.FGuid_buf | exact UReader.FPropertyTag_buf
    | exact UReader.tagExtras_buf _ _ | exact UReader.tryPropertyTag_buf _
    | apply UReader.tarray_buf | exact UReader.tarrayMissing_buf
    | exact UReader.FSoftObjectPath_buf | exact UReader.FIntPoint_buf
    | exact UReader.FLinearColor_buf | exact UReader.FGameplayTagContainer_buf
    | exact UReader.FTQ2FogOfWarPackedData_buf | exact UReader.FGrimDialogueVariableValue_buf
    | exact assignProp_buf _ _ _ | exact rawOfSize_buf _ | exact seekDataOffset_buf _
    | exact UReader.byteValue_buf _ | exact hd.listLoop _ _ | exact hd.structLoop _ _
    | exact hd.value _ | exact hd.ftext | exact hd.unsafeValue | split | intro _ | dsimp only)

theorem listLoopBody_buf (d : Decoders) (hd : d.Keeps) (b : Bool) (result : List (JSString × JSVal)) :
    M.Preserves bufRel (listLoopBody d b result) := by
  unfold listLoopBody
  repeat (with_reducible first
    | apply M.Preserves.bind | apply M.Preserves.map | apply M.Preserves.repeatM
    | apply M.Preserves.tryCatch | apply liftR_tag | apply onInner_tag
    | apply onValue_tag | exact M.Preserves.pure _ _ | exact M.Preserves.fail _ _
    | exact M.Preserves.ret _ _ | exact M.Preserves.getTag _ | exact M.Preserves.arrayLength _ _
    | exact setInnerTag_tag _ | exact setValueTag_tag _
    | exact modTag_tag _ (fun _ => ⟨rfl, rfl, rfl⟩) | exact advance_buf _ | exact getOffset_buf
    | exact readLE_buf _ _ | exact UReader.seek_buf _ | exact UReader.raw_buf _
    | exact UReader.int8_buf | exact UReader.uint8_buf | exact UReader.int16_buf
    | exact UReader.uint16_buf | exact UReader.int32_buf | exact UReader.uint32_buf
    | exact UReader.int64_buf | exact UReader.float_buf | exact UReader.double_buf
    | exact UReader.fstring_buf | exact UReader.fname_buf | exact UReader.bool_buf
    | exact UReader.object_buf | exact UReader.FGuid_buf | exact UReader.FPropertyTag_buf
    | exact UReader.tagExtras_buf _ _ | exact UReader.tryPropertyTag_buf _
    | apply UReader.tarray_buf | exact UReader.tarrayMissing_buf
    | exact UReader.FSoftObjectPath_buf | exact UReader.FIntPoint_buf
    | exact UReader.FLinearColor_buf | exact UReader.FGameplayTagContainer_buf
    | exact UReader.FTQ2FogOfWarPackedData_buf | exact UReader.FGrimDialogueVariableValue_buf
    | exact assignProp_buf _ _ _ | exact rawOfSize_buf _ | exact seekDataOffset_buf _
    | exact UReader.byteValue_buf _ | exact pushAndDecode_buf _ hd _ _ | exact hd.listLoop _ _
    | exact hd.structLoop _ _ | exact hd.value _ | exact hd.ftext | exact hd.unsafeValue | split
    | intro _ | dsimp only)

theorem UReader.FPropertyList_buf (d : Decoders) (hd : d.Keeps) (b : Bool) :
    M.Preserves bufRel (UReader.FPropertyList d b) := by
  unfold UReader.FPropertyList
  repeat (with_reducible first
    | apply M.Preserves.bind | apply M.Preserves.map | apply M.Preserves.repeatM
    | apply M.Preserves.tryCatch | apply liftR_tag | apply onInner_tag
    | apply onValue_tag | exact M.Preserves.pure _ _ | exact M.Preserves.fail _ _
    | exact M.Preserves.ret _ _ | exact M.Preserves.getTag _ | exact M.Preserves.arrayLength _ _
    | exact setInnerTag_tag _ | exact setValueTag_tag _
    | exact modTag_tag _ (fun _ => ⟨rfl, rfl, rfl⟩) | exact advance_buf _ | exact getOffset_buf
    | exact readLE_buf _ _ | exact UReader.seek_buf _ | exact UReader.raw_buf _
    | exact UReader.int8_buf | exact UReader.uint8_buf | exact UReader.int16_buf
    | exact UReader.uint16_buf | exact UReader.int32_buf | exact UReader.uint32_buf
    | exact UReader.int64_buf | exact UReader.float_buf | exact UReader.double_buf
    | exact UReader.fstring_buf | exact UReader.fname_buf | exact UReader.bool_buf
    | exact UReader.object_buf | exact UReader.FGuid_buf | exact UReader.FPropertyTag_buf
    | exact UReader.tagExtras_buf _ _ | exact UReader.tryPropertyTag_buf _
    | apply UReader.tarray_buf | exact UReader.tarrayMissing_buf
    | exact UReader.FSoftObjectPath_buf | exact UReader.FIntPoint_buf
    | exact UReader.FLinearColor_buf | exact UReader.FGameplayTagContainer_buf
    | exact UReader.FTQ2FogOfWarPackedData_buf | exact UReader.FGrimDialogueVariableValue_buf
    | exact assignProp_buf _ _ _ | exact rawOfSize_buf _ | exact seekDataOffset_buf _
    | exact UReader.byteValue_buf _ | exact pushAndDecode_buf _ hd _ _
    | exact listLoopBody_buf _ hd _ _ | exact hd.listLoop _ _ | exact hd.structLoop _ _
    | exact hd.value _ | exact hd.ftext | exact hd.unsafeValue | split | intro _ | dsimp only)

theorem structLoopBody_buf (d : Decoders) (hd : d.Keeps) (l : Option Int) (result : List (JSString × JSVal)) :
    M.Preserves bufRel (structLoopBody d l result) := by
  unfold structLoopBody
  repeat (with_reducible first
    | apply M.Preserves.bind | apply M.Preserves.map | apply M.Preserves.repeatM
    | apply M.Preserves.tryCatch | apply liftR_tag | apply onInner_tag
    | apply onValue_tag | exact M.Preserves.pure _ _ | exact M.Preserves.fail _ _
    | exact M.Preserves.ret _ _ | exact M.Preserves.getTag _ | exact M.Preserves.arrayLength _ _
    | exact setInnerTag_tag _ | exact setValueTag_tag _
    | exact modTag_tag _ (fun _ => ⟨rfl, rfl, rfl⟩) | exact advance_buf _ | exact getOffset_buf
    | exact readLE_buf _ _ | exact UReader.seek_buf _ | exact UReader.raw_buf _
    | exact UReader.int8_buf | exact UReader.uint8_buf | exact UReader.int16_buf
    | exact UReader.uint16_buf | exact UReader.int32_buf | exact UReader.uint32_buf
    | exact UReader.int64_buf | exact UReader.float_buf | exact UReader.double_buf
    | exact UReader.fstring_buf | exact UReader.fname_buf | exact UReader.bool_buf
    | exact UReader.object_buf | exact UReader.FGuid_buf | exact UReader.FPropertyTag_buf
    | exact UReader.tagExtras_buf _ _ | exact UReader.tryPropertyTag_buf _
    | apply UReader.tarray_buf | exact UReader.tarrayMissing_buf
    | exact UReader.FSoftObjectPath_buf | exact UReader.FIntPoint_buf
    | exact UReader.FLinearColor_buf | exact UReader.FGameplayTagContainer_buf
    | exact UReader.FTQ2FogOfWarPackedData_buf | exact UReader.FGrimDialogueVariableValue_buf
    | exact assignProp_buf _ _ _ | exact rawOfSize_buf _ | exact seekDataOffset_buf _
    | exact UReader.byteValue_buf _ | exact pushAndDecode_buf _ hd _ _
    | exact listLoopBody_buf _ hd _ _ | exact UReader.FPropertyList_buf _ hd _
    | exact hd.listLoop _ _ | exact hd.structLoop _ _ | exact hd.value _ | exact hd.ftext
    | exact hd.unsafeValue | split | intro _ | dsimp only)

theorem UReader.FFormatArgumentValue_buf (d : Decoders) (hd : d.Keeps) :
    M.Preserves bufRel (UReader.FFormatArgumentValue d) := by
  unfold UReader.FFormatArgumentValue
  repeat (with_reducible first
    | apply M.Preserves.bind | apply M.Preserves.map | apply M.Preserves.repeatM
    | apply M.Preserves.tryCatch | apply liftR_tag | apply onInner_tag
    | apply onValue_tag | exact M.Preserves.pure _ _ | exact M.Preserves.fail _ _
    | exact M.Preserves.ret _ _ | exact M.Preserves.getTag _ | exact M.Preserves.arrayLength _ _
    | exact setInnerTag_tag _ | exact setValueTag_tag _
    | exact modTag_tag _ (fun _ => ⟨rfl, rfl, rfl⟩) | exact advance_buf _ | exact getOffset_buf
    | exact readLE_buf _ _ | exact UReader.seek_buf _ | exact UReader.raw_buf _
    | exact UReader.int8_buf | exact UReader.uint8_buf | exact UReader.int16_buf
    | exact UReader.uint16_buf | exact UReader.int32_buf | exact UReader.uint32_buf
    | exact UReader.int64_buf | exact UReader.float_buf | exact UReader.double_buf
    | exact UReader.fstring_buf | exact UReader.fname_buf | exact UReader.bool_buf
    | exact UReader.object_buf | exact UReader.FGuid_buf | exact UReader.FPropertyTag_buf
    | exact UReader.tagExtras_buf _ _ | exact UReader.tryPropertyTag_buf _
    | apply UReader.tarray_buf | exact UReader.tarrayMissing_buf
    | exact UReader.FSoftObjectPath_buf | exact UReader.FIntPoint_buf
    | exact UReader.FLinearColor_buf | exact UReader.FGameplayTagContainer_buf
    | exact UReader.FTQ2FogOfWarPackedData_buf | exact UReader.FGrimDialogueVariableValue_buf
    | exact assignProp_buf _ _ _ | exact rawOfSize_buf _ | exact seekDataOffset_buf _
    | exact UReader.byteValue_buf _ | exact pushAndDecode_buf _ hd _ _
    | exact listLoopBody_buf _ hd _ _ | exact UReader.FPropertyList_buf _ hd _
    | exact structLoopBody_buf _ hd _ _ | exact hd.listLoop _ _ | exact hd.structLoop _ _
    | exact hd.value _ | exact hd.ftext | exact hd.unsafeValue | split | intro _ | dsimp only)

theorem UReader.tmap_buf (d : Decoders) (hd : d.Keeps) :
    M.Preserves bufRel (UReader.tmap d) := by
  unfold UReader.tmap
  repeat (with_reducible first
    | apply M.Preserves.bind | apply M.Preserves.map | apply M.Preserves.repeatM
    | apply M.Preserves.tryCatch | apply liftR_tag | apply onInner_tag
    | apply onValue_tag | exact M.Preserves.pure _ _ | exact M.Preserves.fail _ _
    | exact M.Preserves.ret _ _ | exact M.Preserves.getTag _ | exact M.Preserves.arrayLength _ _
    | exact setInnerTag_tag _ | exact setValueTag_tag _
    | exact modTag_tag _ (fun _ => ⟨rfl, rfl, rfl⟩) | exact advance_buf _ | exact getOffset_buf
    | exact readLE_buf _ _ | exact UReader.seek_buf _ | exact UReader.raw_buf _
    | exact UReader.int8_buf | exact UReader.uint8_buf | exact UReader.int16_buf
    | exact UReader.uint16_buf | exact UReader.int32_buf | exact UReader.uint32_buf
    | exact UReader.int64_buf | exact UReader.float_buf | exact UReader.double_buf
    | exact UReader.fstring_buf | exact UReader.fname_buf | exact UReader.bool_buf
    | exact UReader.object_buf | exact UReader.FGuid_buf | exact UReader.FPropertyTag_buf
    | exact UReader.tagExtras_buf _ _ | exact UReader.tryPropertyTag_buf _
    | apply UReader.tarray_buf | exact UReader.tarrayMissing_buf
    | exact UReader.FSoftObjectPath_buf | exact UReader.FIntPoint_buf
    | exact UReader.FLinearColor_buf | exact UReader.FGameplayTagContainer_buf
    | exact UReader.FTQ2FogOfWarPackedData_buf | exact UReader.FGrimDialogueVariableValue_buf
    | exact assignProp_buf _ _ _ | exact rawOfSize_buf _ | exact seekDataOffset_buf _
    | exact UReader.byteValue_buf _ | exact pushAndDecode_buf _ hd _ _
    | exact listLoopBody_buf _ hd _ _ | exact UReader.FPropertyList_buf _ hd _
    | exact structLoopBody_buf _ hd _ _ | exact UReader.FFormatArgumentValue_buf _ hd
    | exact hd.listLoop _ _ | exact hd.structLoop _ _ | exact hd.value _ | exact hd.ftext
    | exact hd.unsafeValue | split | intro _ | dsimp only)

theorem UReader.ftext_buf (d : Decoders) (hd : d.Keeps) :
    M.Preserves bufRel (UReader.ftext d) := by
  unfold UReader.ftext
  repeat (with_reducible first
    | apply M.Preserves.bind | apply M.Preserves.map | apply M.Preserves.repeatM
    | apply M.Preserves.tryCatch | apply liftR_tag | apply onInner_tag
    | apply onValue_tag | exact M.Preserves.pure _ _ | exact M.Preserves.fail _ _
    | exact M.Preserves.ret _ _ | exact M.Preserves.getTag _ | exact M.Preserves.arrayLength _ _
    | exact setInnerTag_tag _ | exact setValueTag_tag _
    | exact modTag_tag _ (fun _ => ⟨rfl, rfl, rfl⟩) | exact advance_buf _ | exact getOffset_buf
    | exact readLE_buf _ _ | exact UReader.seek_buf _ | exact UReader.raw_buf _
    | exact UReader.int8_buf | exact UReader.uint8_buf | exact UReader.int16_buf
    | exact UReader.uint16_buf | exact UReader.int32_buf | exact UReader.uint32_buf
    | exact UReader.int64_buf | exact UReader.float_buf | exact UReader.double_buf
    | exact UReader.fstring_buf | exact UReader.fname_buf | exact UReader.bool_buf
    | exact UReader.object_buf | exact UReader.FGuid_buf | exact UReader.FPropertyTag_buf
    | exact UReader.tagExtras_buf _ _ | exact UReader.tryPropertyTag_buf _
    | apply UReader.tarray_buf | exact UReader.tarrayMissing_buf
    | exact UReader.FSoftObjectPath_buf | exact UReader.FIntPoint_buf
    | exact UReader.FLinearColor_buf | exact UReader.FGameplayTagContainer_buf
    | exact UReader.FTQ2FogOfWarPackedData_buf | exact UReader.FGrimDialogueVariableValue_buf
    | exact assignProp_buf _ _ _ | exact rawOfSize_buf _ | exact seekDataOffset_buf _
    | exact UReader.byteValue_buf _ | exact pushAndDecode_buf _ hd _ _
    | exact listLoopBody_buf _ hd _ _ | exact UReader.FPropertyList_buf _ hd _
    | exact structLoopBody_buf _ hd _ _ | exact UReader.FFormatArgumentValue_buf _ hd
    | exact UReader.tmap_buf _ hd | exact hd.listLoop _ _ | exact hd.structLoop _ _
    | exact hd.value _ | exact hd.ftext | exact hd.unsafeValue | split | intro _ | dsimp only)

theorem UReader.FSaveGameData_buf (d : Decoders) (hd : d.Keeps) :
    M.Preserves bufRel (UReader.FSaveGameData d) := by
  unfold UReader.FSaveGameData
  repeat (with_reducible first
    | apply M.Preserves.bind | apply M.Preserves.map | apply M.Preserves.repeatM
    | apply M.Preserves.tryCatch | apply liftR_tag | apply onInner_tag
    | apply onValue_tag | exact M.Preserves.pure _ _ | exact M.Preserves.fail _ _
    | exact M.Preserves.ret _ _ | exact M.Preserves.getTag _ | exact M.Preserves.arrayLength _ _
    | exact setInnerTag_tag _ | exact setValueTag_tag _
    | exact modTag_tag _ (fun _ => ⟨rfl, rfl, rfl⟩) | exact advance_buf _ | exact getOffset_buf
    | exact readLE_buf _ _ | exact UReader.seek_buf _ | exact UReader.raw_buf _
    | exact UReader.int8_buf | exact UReader.uint8_buf | exact UReader.int16_buf
    | exact UReader.uint16_buf | exact UReader.int32_buf | exact UReader.uint32_buf
    | exact UReader.int64_buf | exact UReader.float_buf | exact UReader.double_buf
    | exact UReader.fstring_buf | exact UReader.fname_buf | exact UReader.bool_buf
    | exact UReader.object_buf | exact UReader.FGuid_buf | exact UReader.FPropertyTag_buf
    | exact UReader.tagExtras_buf _ _ | exact UReader.tryPropertyTag_buf _
    | apply UReader.tarray_buf | exact UReader.tarrayMissing_buf
    | exact UReader.FSoftObjectPath_buf | exact UReader.FIntPoint_buf
    | exact UReader.FLinearColor_buf | exact UReader.FGameplayTagContainer_buf
    | exact UReader.FTQ2FogOfWarPackedData_buf | exact UReader.FGrimDialogueVariableValue_buf
    | exact assignProp_buf _ _ _ | exact rawOfSize_buf _ | exact seekDataOffset_buf _
    | exact UReader.byteValue_buf _ | exact pushAndDecode_buf _ hd _ _
    | exact listLoopBody_buf _ hd _ _ | exact UReader.FPropertyList_buf _ hd _
    | exact structLoopBody_buf _ hd _ _ | exact UReader.FFormatArgumentValue_buf _ hd
    | exact UReader.tmap_buf _ hd | exact UReader.ftext_buf _ hd | exact hd.listLoop _ _
    | exact hd.structLoop _ _ | exact hd.value _ | exact hd.ftext | exact hd.unsafeValue | split
    | intro _ | dsimp only)

theorem UReader.FGrimAppearanceHandle_buf (d : Decoders) (hd : d.Keeps) :
    M.Preserves bufRel (UReader.FGrimAppearanceHandle d) := by
  unfold UReader.FGrimAppearanceHandle
  repeat (with_reducible first
    | apply M.Preserves.bind | apply M.Preserves.map | apply M.Preserves.repeatM
    | apply M.Preserves.tryCatch | apply liftR_tag | apply onInner_tag
    | apply onValue_tag | exact M.Preserves.pure _ _ | exact M.Preserves.fail _ _
    | exact M.Preserves.ret _ _ | exact M.Preserves.getTag _ | exact M.Preserves.arrayLength _ _
    | exact setInnerTag_tag _ | exact setValueTag_tag _
    | exact modTag_tag _ (fun _ => ⟨rfl, rfl, rfl⟩) | exact advance_buf _ | exact getOffset_buf
    | exact readLE_buf _ _ | exact UReader.seek_buf _ | exact UReader.raw_buf _
    | exact UReader.int8_buf | exact UReader.uint8_buf | exact UReader.int16_buf
    | exact UReader.uint16_buf | exact UReader.int32_buf | exact UReader.uint32_buf
    | exact UReader.int64_buf | exact UReader.float_buf | exact UReader.double_buf
    | exact UReader.fstring_buf | exact UReader.fname_buf | exact UReader.bool_buf
    | exact UReader.object_buf | exact UReader.FGuid_buf | exact UReader.FPropertyTag_buf
    | exact UReader.tagExtras_buf _ _ | exact UReader.tryPropertyTag_buf _
    | apply UReader.tarray_buf | exact UReader.tarrayMissing_buf
    | exact UReader.FSoftObjectPath_buf | exact UReader.FIntPoint_buf
    | exact UReader.FLinearColor_buf | exact UReader.FGameplayTagContainer_buf
    | exact UReader.FTQ2FogOfWarPackedData_buf | exact UReader.FGrimDialogueVariableValue_buf
    | exact assignProp_buf _ _ _ | exact rawOfSize_buf _ | exact seekDataOffset_buf _
    | exact UReader.byteValue_buf _ | exact pushAndDecode_buf _ hd _ _
    | exact listLoopBody_buf _ hd _ _ | exact UReader.FPropertyList_buf _ hd _
    | exact structLoopBody_buf _ hd _ _ | exact UReader.FFormatArgumentValue_buf _ hd
    | exact UReader.tmap_buf _ hd | exact UReader.ftext_buf _ hd
    | exact UReader.FSaveGameData_buf _ hd | exact hd.listLoop _ _ | exact hd.structLoop _ _
    | exact hd.value _ | exact hd.ftext | exact hd.unsafeValue | split | intro _ | dsimp only)

theorem UReader.FGrimItemInstanceHandle_buf (d : Decoders) (hd : d.Keeps) :
    M.Preserves bufRel (UReader.FGrimItemInstanceHandle d) := by
  unfold UReader.FGrimItemInstanceHandle
  repeat (with_reducible first
    | apply M.Preserves.bind | apply M.Preserves.map | apply M.Preserves.repeatM
    | apply M.Preserves.tryCatch | apply liftR_tag | apply onInner_tag
    | apply onValue_tag | exact M.Preserves.pure _ _ | exact M.Preserves.fail _ _
    | exact M.Preserves.ret _ _ | exact M.Preserves.getTag _ | exact M.Preserves.arrayLength _ _
    | exact setInnerTag_tag _ | exact setValueTag_tag _
    | exact modTag_tag _ (fun _ => ⟨rfl, rfl, rfl⟩) | exact advance_buf _ | exact getOffset_buf
    | exact readLE_buf _ _ | exact UReader.seek_buf _ | exact UReader.raw_buf _
    | exact UReader.int8_buf | exact UReader.uint8_buf | exact UReader.int16_buf
    | exact UReader.uint16_buf | exact UReader.int32_buf | exact UReader.uint32_buf
    | exact UReader.int64_buf | exact UReader.float_buf | exact UReader.double_buf
    | exact UReader.fstring_buf | exact UReader.fname_buf | exact UReader.bool_buf
    | exact UReader.object_buf | exact UReader.FGuid_buf | exact UReader.FPropertyTag_buf
    | exact UReader.tagExtras_buf _ _ | exact UReader.tryPropertyTag_buf _
    | apply UReader.tarray_buf | exact UReader.tarrayMissing_buf
    | exact UReader.FSoftObjectPath_buf | exact UReader.FIntPoint_buf
    | exact UReader.FLinearColor_buf | exact UReader.FGameplayTagContainer_buf
    | exact UReader.FTQ2FogOfWarPackedData_buf | exact UReader.FGrimDialogueVariableValue_buf
    | exact assignProp_buf _ _ _ | exact rawOfSize_buf _ | exact seekDataOffset_buf _
    | exact UReader.byteValue_buf _ | exact pushAndDecode_buf _ hd _ _
    | exact listLoopBody_buf _ hd _ _ | exact UReader.FPropertyList_buf _ hd _
    | exact structLoopBody_buf _ hd _ _ | exact UReader.FFormatArgumentValue_buf _ hd
    | exact UReader.tmap_buf _ hd | exact UReader.ftext_buf _ hd
    | exact UReader.FSaveGameData_buf _ hd | exact UReader.FGrimAppearanceHandle_buf _ hd
    | exact hd.listLoop _ _ | exact hd.structLoop _ _ | exact hd.value _ | exact hd.ftext
    | exact hd.unsafeValue | split | intro _ | dsimp only)

theorem UReader.FGrimPtr_IntClassNameProps_buf (d : Decoders) (hd : d.Keeps) :
    M.Preserves bufRel (UReader.FGrimPtr_IntClassNameProps d) := by
  unfold UReader.FGrimPtr_IntClassNameProps
  repeat (with_reducible first
    | apply M.Preserves.bind | apply M.Preserves.map | apply M.Preserves.repeatM
    | apply M.Preserves.tryCatch | apply liftR_tag | apply onInner_tag
    | apply onValue_tag | exact M.Preserves.pure _ _ | exact M.Preserves.fail _ _
    | exact M.Preserves.ret _ _ | exact M.Preserves.getTag _ | exact M.Preserves.arrayLength _ _
    | exact setInnerTag_tag _ | exact setValueTag_tag _
    | exact modTag_tag _ (fun _ => ⟨rfl, rfl, rfl⟩) | exact advance_buf _ | exact getOffset_buf
    | exact readLE_buf _ _ | exact UReader.seek_buf _ | exact UReader.raw_buf _
    | exact UReader.int8_buf | exact UReader.uint8_buf | exact UReader.int16_buf
    | exact UReader.uint16_buf | exact UReader.int32_buf | exact UReader.uint32_buf
    | exact UReader.int64_buf | exact UReader.float_buf | exact UReader.double_buf
    | exact UReader.fstring_buf | exact UReader.fname_buf | exact UReader.bool_buf
    | exact UReader.object_buf | exact UReader.FGuid_buf | exact UReader.FPropertyTag_buf
    | exact UReader.tagExtras_buf _ _ | exact UReader.tryPropertyTag_buf _
    | apply UReader.tarray_buf | exact UReader.tarrayMissing_buf
    | exact UReader.FSoftObjectPath_buf | exact UReader.FIntPoint_buf
    | exact UReader.FLinearColor_buf | exact UReader.FGameplayTagContainer_buf
    | exact UReader.FTQ2FogOfWarPackedData_buf | exact UReader.FGrimDialogueVariableValue_buf
    | exact assignProp_buf _ _ _ | exact rawOfSize_buf _ | exact seekDataOffset_buf _
    | exact UReader.byteValue_buf _ | exact pushAndDecode_buf _ hd _ _
    | exact listLoopBody_buf _ hd _ _ | exact UReader.FPropertyList_buf _ hd _
    | exact structLoopBody_buf _ hd _ _ | exact UReader.FFormatArgumentValue_buf _ hd
    | exact UReader.tmap_buf _ hd | exact UReader.ftext_buf _ hd
    | exact UReader.FSaveGameData_buf _ hd | exact UReader.FGrimAppearanceHandle_buf _ hd
    | exact UReader.FGrimItemInstanceHandle_buf _ hd | exact hd.listLoop _ _
    | exact hd.structLoop _ _ | exact hd.value _ | exact hd.ftext | exact hd.unsafeValue | split
    | intro _ | dsimp only)

theorem UReader.native_buf (d : Decoders) (hd : d.Keeps) (n : Native) :
    M.Preserves bufRel (UReader.native d n) := by
  cases n
  · exact M.Preserves.map _ _ UReader.FGuid_buf
  · exact UReader.FGameplayTagContainer_buf
  · exact UReader.FSoftObjectPath_buf
  · exact UReader.FIntPoint_buf
  · exact UReader.FLinearColor_buf
  · exact M.Preserves.map _ _ UReader.fname_buf
  · exact M.Preserves.map _ _ UReader.int64_buf
  · exact UReader.FSaveGameData_buf _ hd
  · exact UReader.FTQ2FogOfWarPackedData_buf
  · exact UReader.FGrimAppearanceHandle_buf _ hd
  · exact UReader.FGrimItemInstanceHandle_buf _ hd
  · exact UReader.FGrimPtr_IntClassNameProps_buf _ hd
  · exact UReader.FGrimDialogueVariableValue_buf

theorem UReader.structValue_buf (d : Decoders) (hd : d.Keeps) (f : TagFields) :
    M.Preserves bufRel (UReader.structValue d f) := by
  unfold UReader.structValue
  repeat (with_reducible first
    | apply M.Preserves.bind | apply M.Preserves.map | apply M.Preserves.repeatM
    | apply M.Preserves.tryCatch | apply liftR_tag | apply onInner_tag
    | apply onValue_tag | exact M.Preserves.pure _ _ | exact M.Preserves.fail _ _
    | exact M.Preserves.ret _ _ | exact M.Preserves.getTag _ | exact M.Preserves.arrayLength _ _
    | exact setInnerTag_tag _ | exact setValueTag_tag _
    | exact modTag_tag _ (fun _ => ⟨rfl, rfl, rfl⟩) | exact advance_buf _ | exact getOffset_buf
    | exact readLE_buf _ _ | exact UReader.seek_buf _ | exact UReader.raw_buf _
    | exact UReader.int8_buf | exact UReader.uint8_buf | exact UReader.int16_buf
    | exact UReader.uint16_buf | exact UReader.int32_buf | exact UReader.uint32_buf
    | exact UReader.int64_buf | exact UReader.float_buf | exact UReader.double_buf
    | exact UReader.fstring_buf | exact UReader.fname_buf | exact UReader.bool_buf
    | exact UReader.object_buf | exact UReader.FGuid_buf | exact UReader.FPropertyTag_buf
    | exact UReader.tagExtras_buf _ _ | exact UReader.tryPropertyTag_buf _
    | apply UReader.tarray_buf | exact UReader.tarrayMissing_buf
    | exact UReader.FSoftObjectPath_buf | exact UReader.FIntPoint_buf
    | exact UReader.FLinearColor_buf | exact UReader.FGameplayTagContainer_buf
    | exact UReader.FTQ2FogOfWarPackedData_buf | exact UReader.FGrimDialogueVariableValue_buf
    | exact assignProp_buf _ _ _ | exact rawOfSize_buf _ | exact seekDataOffset_buf _
    | exact UReader.byteValue_buf _ | exact pushAndDecode_buf _ hd _ _
    | exact listLoopBody_buf _ hd _ _ | exact UReader.FPropertyList_buf _ hd _
    | exact structLoopBody_buf _ hd _ _ | exact UReader.FFormatArgumentValue_buf _ hd
    | exact UReader.tmap_buf _ hd | exact UReader.ftext_buf _ hd
    | exact UReader.FSaveGameData_buf _ hd | exact UReader.FGrimAppearanceHandle_buf _ hd
    | exact UReader.FGrimItemInstanceHandle_buf _ hd
    | exact UReader.FGrimPtr_IntClassNameProps_buf _ hd | exact hd.listLoop _ _
    | exact hd.structLoop _ _ | exact hd.value _ | exact hd.ftext | exact hd.unsafeValue | exact UReader.native_buf _ hd _
    | split
    | intro _ | dsimp only)

theorem UReader.arrayValue_buf (d : Decoders) (hd : d.Keeps) :
    M.Preserves tagRel (UReader.arrayValue d) := by
  unfold UReader.arrayValue
  repeat (with_reducible first
    | apply M.Preserves.bind | apply M.Preserves.map | apply M.Preserves.repeatM
    | apply M.Preserves.tryCatch | apply liftR_tag | apply onInner_tag
    | apply onValue_tag | exact M.Preserves.pure _ _ | exact M.Preserves.fail _ _
    | exact M.Preserves.ret _ _ | exact M.Preserves.getTag _ | exact M.Preserves.arrayLength _ _
    | exact setInnerTag_tag _ | exact setValueTag_tag _
    | exact modTag_tag _ (fun _ => ⟨rfl, rfl, rfl⟩) | exact advance_buf _ | exact getOffset_buf
    | exact readLE_buf _ _ | exact UReader.seek_buf _ | exact UReader.raw_buf _
    | exact UReader.int8_buf | exact UReader.uint8_buf | exact UReader.int16_buf
    | exact UReader.uint16_buf | exact UReader.int32_buf | exact UReader.uint32_buf
    | exact UReader.int64_buf | exact UReader.float_buf | exact UReader.double_buf
    | exact UReader.fstring_buf | exact UReader.fname_buf | exact UReader.bool_buf
    | exact UReader.object_buf | exact UReader.FGuid_buf | exact UReader.FPropertyTag_buf
    | exact UReader.tagExtras_buf _ _ | exact UReader.tryPropertyTag_buf _
    | apply UReader.tarray_buf | exact UReader.tarrayMissing_buf
    | exact UReader.FSoftObjectPath_buf | exact UReader.FIntPoint_buf
    | exact UReader.FLinearColor_buf | exact UReader.FGameplayTagContainer_buf
    | exact UReader.FTQ2FogOfWarPackedData_buf | exact UReader.FGrimDialogueVariableValue_buf
    | exact assignProp_buf _ _ _ | exact rawOfSize_buf _ | exact seekDataOffset_buf _
    | exact UReader.byteValue_buf _ | exact pushAndDecode_buf _ hd _ _
    | exact listLoopBody_buf _ hd _ _ | exact UReader.FPropertyList_buf _ hd _
    | exact structLoopBody_buf _ hd _ _ | exact UReader.FFormatArgumentValue_buf _ hd
    | exact UReader.tmap_buf _ hd | exact UReader.ftext_buf _ hd
    | exact UReader.FSaveGameData_buf _ hd | exact UReader.FGrimAppearanceHandle_buf _ hd
    | exact UReader.FGrimItemInstanceHandle_buf _ hd
    | exact UReader.FGrimPtr_IntClassNameProps_buf _ hd | exact UReader.structValue_buf _ hd _
    | exact hd.listLoop _ _ | exact hd.structLoop _ _ | exact hd.value _ | exact hd.ftext
    | exact hd.unsafeValue | exact UReader.native_buf _ hd _
    | split | intro _ | dsimp only)

theorem tryParseItem_buf (d : Decoders) (hd : d.Keeps) :
    M.Preserves tagRel (tryParseItem d) := by
  unfold tryParseItem
  repeat (with_reducible first
    | apply M.Preserves.bind | apply M.Preserves.map | apply M.Preserves.repeatM
    | apply M.Preserves.tryCatch | apply liftR_tag | apply onInner_tag
    | apply onValue_tag | exact M.Preserves.pure _ _ | exact M.Preserves.fail _ _
    | exact M.Preserves.ret _ _ | exact M.Preserves.getTag _ | exact M.Preserves.arrayLength _ _
    | exact setInnerTag_tag _ | exact setValueTag_tag _
    | exact modTag_tag _ (fun _ => ⟨rfl, rfl, rfl⟩) | exact advance_buf _ | exact getOffset_buf
    | exact readLE_buf _ _ | exact UReader.seek_buf _ | exact UReader.raw_buf _
    | exact UReader.int8_buf | exact UReader.uint8_buf | exact UReader.int16_buf
    | exact UReader.uint16_buf | exact UReader.int32_buf | exact UReader.uint32_buf
    | exact UReader.int64_buf | exact UReader.float_buf | exact UReader.double_buf
    | exact UReader.fstring_buf | exact UReader.fname_buf | exact UReader.bool_buf
    | exact UReader.object_buf | exact UReader.FGuid_buf | exact UReader.FPropertyTag_buf
    | exact UReader.tagExtras_buf _ _ | exact UReader.tryPropertyTag_buf _
    | apply UReader.tarray_buf | exact UReader.tarrayMissing_buf
    | exact UReader.FSoftObjectPath_buf | exact UReader.FIntPoint_buf
    | exact UReader.FLinearColor_buf | exact UReader.FGameplayTagContainer_buf
    | exact UReader.FTQ2FogOfWarPackedData_buf | exact UReader.FGrimDialogueVariableValue_buf
    | exact assignProp_buf _ _ _ | exact rawOfSize_buf _ | exact seekDataOffset_buf _
    | exact UReader.byteValue_buf _ | exact pushAndDecode_buf _ hd _ _
    | exact listLoopBody_buf _ hd _ _ | exact UReader.FPropertyList_buf _ hd _
    | exact structLoopBody_buf _ hd _ _ | exact UReader.FFormatArgumentValue_buf _ hd
    | exact UReader.tmap_buf _ hd | exact UReader.ftext_buf _ hd
    | exact UReader.FSaveGameData_buf _ hd | exact UReader.FGrimAppearanceHandle_buf _ hd
    | exact UReader.FGrimItemInstanceHandle_buf _ hd
    | exact UReader.FGrimPtr_IntClassNameProps_buf _ hd | exact UReader.structValue_buf _ hd _
    | exact UReader.arrayValue_buf _ hd | exact hd.listLoop _ _ | exact hd.structLoop _ _
    | exact hd.value _ | exact hd.ftext | exact hd.unsafeValue | exact UReader.native_buf _ hd _
    | split | intro _ | dsimp only)

theorem UReader.mapItem_buf (d : Decoders) (hd : d.Keeps) :
    M.Preserves tagRel (UReader.mapItem d) := by
  unfold UReader.mapItem
  repeat (with_reducible first
    | apply M.Preserves.bind | apply M.Preserves.map | apply M.Preserves.repeatM
    | apply M.Preserves.tryCatch | apply liftR_tag | apply onInner_tag
    | apply onValue_tag | exact M.Preserves.pure _ _ | exact M.Preserves.fail _ _
    | exact M.Preserves.ret _ _ | exact M.Preserves.getTag _ | exact M.Preserves.arrayLength _ _
    | exact setInnerTag_tag _ | exact setValueTag_tag _
    | exact modTag_tag _ (fun _ => ⟨rfl, rfl, rfl⟩) | exact advance_buf _ | exact getOffset_buf
    | exact readLE_buf _ _ | exact UReader.seek_buf _ | exact UReader.raw_buf _
    | exact UReader.int8_buf | exact UReader.uint8_buf | exact UReader.int16_buf
    | exact UReader.uint16_buf | exact UReader.int32_buf | exact UReader.uint32_buf
    | exact UReader.int64_buf | exact UReader.float_buf | exact UReader.double_buf
    | exact UReader.fstring_buf | exact UReader.fname_buf | exact UReader.bool_buf
    | exact UReader.object_buf | exact UReader.FGuid_buf | exact UReader.FPropertyTag_buf
    | exact UReader.tagExtras_buf _ _ | exact UReader.tryPropertyTag_buf _
    | apply UReader.tarray_buf | exact UReader.tarrayMissing_buf
    | exact UReader.FSoftObjectPath_buf | exact UReader.FIntPoint_buf
    | exact UReader.FLinearColor_buf | exact UReader.FGameplayTagContainer_buf
    | exact UReader.FTQ2FogOfWarPackedData_buf | exact UReader.FGrimDialogueVariableValue_buf
    | exact assignProp_buf _ _ _ | exact rawOfSize_buf _ | exact seekDataOffset_buf _
    | exact UReader.byteValue_buf _ | exact pushAndDecode_buf _ hd _ _
    | exact listLoopBody_buf _ hd _ _ | exact UReader.FPropertyList_buf _ hd _
    | exact structLoopBody_buf _ hd _ _ | exact UReader.FFormatArgumentValue_buf _ hd
    | exact UReader.tmap_buf _ hd | exact UReader.ftext_buf _ hd
    | exact UReader.FSaveGameData_buf _ hd | exact UReader.FGrimAppearanceHandle_buf _ hd
    | exact UReader.FGrimItemInstanceHandle_buf _ hd
    | exact UReader.FGrimPtr_IntClassNameProps_buf _ hd | exact UReader.structValue_buf _ hd _
    | exact UReader.arrayValue_buf _ hd | exact tryParseItem_buf _ hd | exact hd.listLoop _ _
    | exact hd.structLoop _ _ | exact hd.value _ | exact hd.ftext | exact hd.unsafeValue | exact UReader.native_buf _ hd _
    | split
    | intro _ | dsimp only)

theorem UReader.mapFallback_buf (xs : List JSVal) (count : Nat) :
    M.Preserves tagRel (UReader.mapFallback xs count) := by
  unfold UReader.mapFallback
  repeat (with_reducible first
    | apply M.Preserves.bind | apply M.Preserves.map | apply M.Preserves.repeatM
    | apply M.Preserves.tryCatch | apply liftR_tag | apply onInner_tag
    | apply onValue_tag | exact M.Preserves.pure _ _ | exact M.Preserves.fail _ _
    | exact M.Preserves.ret _ _ | exact M.Preserves.getTag _ | exact M.Preserves.arrayLength _ _
    | exact setInnerTag_tag _ | exact setValueTag_tag _
    | exact modTag_tag _ (fun _ => ⟨rfl, rfl, rfl⟩) | exact advance_buf _ | exact getOffset_buf
    | exact readLE_buf _ _ | exact UReader.seek_buf _ | exact UReader.raw_buf _
    | exact UReader.int8_buf | exact UReader.uint8_buf | exact UReader.int16_buf
    | exact UReader.uint16_buf | exact UReader.int32_buf | exact UReader.uint32_buf
    | exact UReader.int64_buf | exact UReader.float_buf | exact UReader.double_buf
    | exact UReader.fstring_buf | exact UReader.fname_buf | exact UReader.bool_buf
    | exact UReader.object_buf | exact UReader.FGuid_buf | exact UReader.FPropertyTag_buf
    | exact UReader.tagExtras_buf _ _ | exact UReader.tryPropertyTag_buf _
    | apply UReader.tarray_buf | exact UReader.tarrayMissing_buf
    | exact UReader.FSoftObjectPath_buf | exact UReader.FIntPoint_buf
    | exact UReader.FLinearColor_buf | exact UReader.FGameplayTagContainer_buf
    | exact UReader.FTQ2FogOfWarPackedData_buf | exact UReader.FGrimDialogueVariableValue_buf
    | exact assignProp_buf _ _ _ | exact rawOfSize_buf _ | exact seekDataOffset_buf _
    | exact UReader.byteValue_buf _ | exact pushAndDecode_buf _ hd _ _
    | exact listLoopBody_buf _ hd _ _ | exact UReader.FPropertyList_buf _ hd _
    | exact structLoopBody_buf _ hd _ _ | exact UReader.FFormatArgumentValue_buf _ hd
    | exact UReader.tmap_buf _ hd | exact UReader.ftext_buf _ hd
    | exact UReader.FSaveGameData_buf _ hd | exact UReader.FGrimAppearanceHandle_buf _ hd
    | exact UReader.FGrimItemInstanceHandle_buf _ hd
    | exact UReader.FGrimPtr_IntClassNameProps_buf _ hd | exact UReader.structValue_buf _ hd _
    | exact UReader.arrayValue_buf _ hd | exact tryParseItem_buf _ hd | exact hd.listLoop _ _
    | exact hd.structLoop _ _ | exact hd.value _ | exact hd.ftext | exact hd.unsafeValue | exact UReader.native_buf _ hd _
    | split
    | intro _ | dsimp only)

theorem UReader.mapValue_buf (d : Decoders) (hd : d.Keeps) :
    M.Preserves tagRel (UReader.mapValue d) := by
  unfold UReader.mapValue
  refine M.Preserves.bind _ (M.Preserves.getTag _) (fun tag => ?_)
  refine M.Preserves.bind _ (liftR_tag UReader.int32_buf) (fun _ => ?_)
  refine M.Preserves.bind _ (liftR_tag UReader.int32_buf) (fun len => ?_)
  refine M.Preserves.bind _ (M.Preserves.arrayLength _ _) (fun count => ?_)
  refine M.Preserves.bind _ (setInnerTag_tag _) (fun _ => ?_)
  refine M.Preserves.bind _ (setValueTag_tag _) (fun _ => ?_)
  constructor
  intro s
  have h1 := M.Preserves.loopM tagRel (UReader.mapItem_buf d hd) count s
  cases hl : loopM (UReader.mapItem d) count s with
  | mk xs fault s1 =>
    rw [hl] at h1
    cases fault with
    | none => exact h1
    | some e =>
      dsimp only
      split
      · exact tagRel.trans _ _ _ h1 ((UReader.mapFallback_buf xs count).holds s1)
      · exact h1

theorem UReader.setFallback_buf (removed added : JSVal) :
    M.Preserves tagRel (do
      modTag (fun f => { f with SetAsBuffer := true })
      let t ← getTag
      liftR (seekDataOffset t.f.data_offset)
      match t.f.Size with
      | some (.int n) =>
        let buf ← liftR (UReader.raw n)
        pure (mkObj [("removed", removed), ("added", added), ("buffer", .buffer buf)])
      | _ => M.fail .unmodelled : TM JSVal) := by
  repeat (with_reducible first
    | apply M.Preserves.bind | apply M.Preserves.map | apply M.Preserves.repeatM
    | apply M.Preserves.tryCatch | apply liftR_tag | apply onInner_tag
    | apply onValue_tag | exact M.Preserves.pure _ _ | exact M.Preserves.fail _ _
    | exact M.Preserves.ret _ _ | exact M.Preserves.getTag _ | exact M.Preserves.arrayLength _ _
    | exact setInnerTag_tag _ | exact setValueTag_tag _
    | exact modTag_tag _ (fun _ => ⟨rfl, rfl, rfl⟩) | exact advance_buf _ | exact getOffset_buf
    | exact readLE_buf _ _ | exact UReader.seek_buf _ | exact UReader.raw_buf _
    | exact UReader.int8_buf | exact UReader.uint8_buf | exact UReader.int16_buf
    | exact UReader.uint16_buf | exact UReader.int32_buf | exact UReader.uint32_buf
    | exact UReader.int64_buf | exact UReader.float_buf | exact UReader.double_buf
    | exact UReader.fstring_buf | exact UReader.fname_buf | exact UReader.bool_buf
    | exact UReader.object_buf | exact UReader.FGuid_buf | exact UReader.FPropertyTag_buf
    | exact UReader.tagExtras_buf _ _ | exact UReader.tryPropertyTag_buf _
    | apply UReader.tarray_buf | exact UReader.tarrayMissing_buf
    | exact UReader.FSoftObjectPath_buf | exact UReader.FIntPoint_buf
    | exact UReader.FLinearColor_buf | exact UReader.FGameplayTagContainer_buf
    | exact UReader.FTQ2FogOfWarPackedData_buf | exact UReader.FGrimDialogueVariableValue_buf
    | exact assignProp_buf _ _ _ | exact rawOfSize_buf _ | exact seekDataOffset_buf _
    | exact UReader.byteValue_buf _ | exact pushAndDecode_buf _ hd _ _
    | exact listLoopBody_buf _ hd _ _ | exact UReader.FPropertyList_buf _ hd _
    | exact structLoopBody_buf _ hd _ _ | exact UReader.FFormatArgumentValue_buf _ hd
    | exact UReader.tmap_buf _ hd | exact UReader.ftext_buf _ hd
    | exact UReader.FSaveGameData_buf _ hd | exact UReader.FGrimAppearanceHandle_buf _ hd
    | exact UReader.FGrimItemInstanceHandle_buf _ hd
    | exact UReader.FGrimPtr_IntClassNameProps_buf _ hd | exact UReader.structValue_buf _ hd _
    | exact UReader.arrayValue_buf _ hd | exact tryParseItem_buf _ hd | exact hd.listLoop _ _
    | exact hd.structLoop _ _ | exact hd.value _ | exact hd.ftext | exact hd.unsafeValue | exact UReader.native_buf _ hd _
    | split
    | intro _ | dsimp only)

theorem UReader.setValue_buf (d : Decoders) (hd : d.Keeps) :
    M.Preserves tagRel (UReader.setValue d) := by
  unfold UReader.setValue
  refine M.Preserves.bind _ (M.Preserves.getTag _) (fun tag => ?_)
  refine M.Preserves.bind _ (liftR_tag UReader.int32_buf) (fun _ => ?_)
  refine M.Preserves.bind _ (M.Preserves.arrayLength _ _) (fun countR => ?_)
  refine M.Preserves.bind _ (setInnerTag_tag _) (fun _ => ?_)
  have hitem := onInner_tag (tryParseItem_buf d hd)
  constructor
  intro s
  dsimp only
  have h1 := M.Preserves.loopM tagRel hitem countR s
  cases hl : loopM (onInner (tryParseItem d)) countR s with
  | mk rs fault s1 =>
    rw [hl] at h1
    cases fault with
    | some e =>
      dsimp only
      split
      · exact tagRel.trans _ _ _ h1 ((UReader.setFallback_buf _ _).holds s1)
      · exact h1
    | none =>
      dsimp only
      have h2 := (liftR_tag UReader.int32_buf).holds s1
      cases hi : liftR UReader.int32 s1 with
      | mk o s2 =>
        rw [hi] at h2
        have h12 := tagRel.trans _ _ _ h1 h2
        cases o with
        | error e =>
          dsimp only
          split
          · exact tagRel.trans _ _ _ h12 ((UReader.setFallback_buf _ _).holds s2)
          · exact h12
        | ok lenA =>
          dsimp only
          split
          · exact tagRel.trans _ _ _ h12 ((UReader.setFallback_buf _ _).holds s2)
          · have h3 := M.Preserves.loopM tagRel hitem lenA.toNat s2
            cases hl2 : loopM (onInner (tryParseItem d)) lenA.toNat s2 with
            | mk as fault2 s3 =>
              rw [hl2] at h3
              have h13 := tagRel.trans _ _ _ h12 h3
              cases fault2 with
              | none => exact h13
              | some e =>
                dsimp only
                split
                · exact tagRel.trans _ _ _ h13 ((UReader.setFallback_buf _ _).holds s3)
                · exact h13

theorem UReader.common_buf (d : Decoders) (hd : d.Keeps) (f : TagFields) (m : RM JSVal)
    (h : UReader.FPropertyValue_common d f = some m) : M.Preserves bufRel m := by
  unfold UReader.FPropertyValue_common at h
  by_cases c0 : f.Name = some (js "None")
  · rw [if_pos c0] at h; cases h; exact M.Preserves.pure _ _
  rw [if_neg c0] at h
  by_cases c1 : f.Typ = some (js "NameProperty")
  · rw [if_pos c1] at h; cases h; exact M.Preserves.map _ _ UReader.fname_buf
  rw [if_neg c1] at h
  by_cases c2 : f.Typ = some (js "EnumProperty")
  · rw [if_pos c2] at h; cases h; exact M.Preserves.map _ _ UReader.fname_buf
  rw [if_neg c2] at h
  by_cases c3 : f.Typ = some (js "IntProperty")
  · rw [if_pos c3] at h; cases h; exact M.Preserves.map _ _ UReader.int32_buf
  rw [if_neg c3] at h
  by_cases c4 : f.Typ = some (js "ObjectProperty")
  · rw [if_pos c4] at h; cases h; exact M.Preserves.map _ _ UReader.object_buf
  rw [if_neg c4] at h
  by_cases c5 : f.Typ = some (js "SoftObjectProperty")
  · rw [if_pos c5] at h; cases h; exact UReader.FSoftObjectPath_buf
  rw [if_neg c5] at h
  by_cases c6 : f.Typ = some (js "UInt64Property")
  · rw [if_pos c6] at h; cases h; exact M.Preserves.map _ _ UReader.int64_buf
  rw [if_neg c6] at h
  by_cases c7 : f.Typ = some (js "Int16Property")
  · rw [if_pos c7] at h; cases h; exact M.Preserves.map _ _ UReader.int16_buf
  rw [if_neg c7] at h
  by_cases c8 : f.Typ = some (js "UInt16Property")
  · rw [if_pos c8] at h; cases h; exact M.Preserves.map _ _ UReader.uint16_buf
  rw [if_neg c8] at h
  by_cases c9 : f.Typ = some (js "Int64Property")
  · rw [if_pos c9] at h; cases h; exact M.Preserves.map _ _ UReader.int64_buf
  rw [if_neg c9] at h
  by_cases c10 : f.Typ = some (js "FloatProperty")
  · rw [if_pos c10] at h; cases h; exact M.Preserves.map _ _ UReader.float_buf
  rw [if_neg c10] at h
  by_cases c11 : f.Typ = some (js "DoubleProperty")
  · rw [if_pos c11] at h; cases h; exact M.Preserves.map _ _ UReader.double_buf
  rw [if_neg c11] at h
  by_cases c12 : f.Typ = some (js "StrProperty")
  · rw [if_pos c12] at h; cases h; exact M.Preserves.map _ _ UReader.fstring_buf
  rw [if_neg c12] at h
  by_cases c13 : f.Typ = some (js "TextProperty")
  · rw [if_pos c13] at h; cases h; exact hd.ftext
  rw [if_neg c13] at h
  by_cases c14 : f.Typ = some (js "MulticastSparseDelegateProperty") ∨
      f.Typ = some (js "MulticastInlineDelegateProperty")
  · rw [if_pos c14] at h; cases h; exact UReader.tarrayMissing_buf
  rw [if_neg c14] at h
  cases h

theorem UReader.unsafe_buf (d : Decoders) (hd : d.Keeps) :
    M.Preserves tagRel (UReader.FPropertyValue_unsafe d) := by
  unfold UReader.FPropertyValue_unsafe
  refine M.Preserves.bind _ (M.Preserves.getTag _) (fun tag => ?_)
  dsimp only
  split
  · rename_i m hm
    exact liftR_tag (UReader.common_buf d hd _ m hm)
  · repeat (with_reducible first
      | apply liftR_tag | exact M.Preserves.pure _ _
      | exact UReader.byteValue_buf _ | exact UReader.structValue_buf _ hd _
      | exact UReader.arrayValue_buf _ hd | exact UReader.mapValue_buf _ hd
      | exact UReader.setValue_buf _ hd | exact rawOfSize_buf _ | split)

theorem UReader.recover_buf (opts : Options) (o : Int) (tag : Tag) :
    M.Preserves bufRel (UReader.recover opts o tag) := by
  unfold UReader.recover
  repeat (with_reducible first
    | apply M.Preserves.bind | apply M.Preserves.map | apply M.Preserves.repeatM
    | apply M.Preserves.tryCatch | apply liftR_tag | apply onInner_tag
    | apply onValue_tag | exact M.Preserves.pure _ _ | exact M.Preserves.fail _ _
    | exact M.Preserves.ret _ _ | exact M.Preserves.getTag _ | exact M.Preserves.arrayLength _ _
    | exact setInnerTag_tag _ | exact setValueTag_tag _
    | exact modTag_tag _ (fun _ => ⟨rfl, rfl, rfl⟩) | exact advance_buf _ | exact getOffset_buf
    | exact readLE_buf _ _ | exact UReader.seek_buf _ | exact UReader.raw_buf _
    | exact UReader.int8_buf | exact UReader.uint8_buf | exact UReader.int16_buf
    | exact UReader.uint16_buf | exact UReader.int32_buf | exact UReader.uint32_buf
    | exact UReader.int64_buf | exact UReader.float_buf | exact UReader.double_buf
    | exact UReader.fstring_buf | exact UReader.fname_buf | exact UReader.bool_buf
    | exact UReader.object_buf | exact UReader.FGuid_buf | exact UReader.FPropertyTag_buf
    | exact UReader.tagExtras_buf _ _ | exact UReader.tryPropertyTag_buf _
    | apply UReader.tarray_buf | exact UReader.tarrayMissing_buf
    | exact UReader.FSoftObjectPath_buf | exact UReader.FIntPoint_buf
    | exact UReader.FLinearColor_buf | exact UReader.FGameplayTagContainer_buf
    | exact UReader.FTQ2FogOfWarPackedData_buf | exact UReader.FGrimDialogueVariableValue_buf
    | exact assignProp_buf _ _ _ | exact rawOfSize_buf _ | exact seekDataOffset_buf _
    | exact UReader.byteValue_buf _ | exact pushAndDecode_buf _ hd _ _
    | exact listLoopBody_buf _ hd _ _ | exact UReader.FPropertyList_buf _ hd _
    | exact structLoopBody_buf _ hd _ _ | exact UReader.FFormatArgumentValue_buf _ hd
    | exact UReader.tmap_buf _ hd | exact UReader.ftext_buf _ hd
    | exact UReader.FSaveGameData_buf _ hd | exact UReader.FGrimAppearanceHandle_buf _ hd
    | exact UReader.FGrimItemInstanceHandle_buf _ hd
    | exact UReader.FGrimPtr_IntClassNameProps_buf _ hd | exact UReader.structValue_buf _ hd _
    | exact UReader.arrayValue_buf _ hd | exact tryParseItem_buf _ hd | exact hd.listLoop _ _
    | exact hd.structLoop _ _ | exact hd.value _ | exact hd.ftext | exact hd.unsafeValue | exact UReader.native_buf _ hd _
    | split
    | intro _ | dsimp only)

theorem UReader.FPropertyValue_buf (opts : Options) (d : Decoders) (hd : d.Keeps) (tag : Tag) :
    M.Preserves bufRel (UReader.FPropertyValue opts d tag) := by
  constructor
  intro r
  unfold UReader.FPropertyValue
  split
  · rfl
  · dsimp only
    have h1 := hd.unsafeValue.holds ⟨tag, r⟩
    cases hu : d.FPropertyValue_unsafe ⟨tag, r⟩ with
    | mk o s1 =>
      rw [hu] at h1
      have hb : s1.rd.buffer = r.buffer := h1.1
      cases o with
      | ok v =>
        dsimp only
        split
        · exact hb
        · exact ((UReader.recover_buf opts r.offset s1.tag).holds s1.rd).trans hb
      | error e =>
        dsimp only
        split
        · exact ((UReader.recover_buf opts r.offset s1.tag).holds s1.rd).trans hb
        · exact hb

theorem decoders_keeps (opts : Options) (fuel : Nat) : (decoders opts fuel).Keeps := by
  induction fuel with
  | zero =>
    exact ⟨fun _ _ => M.Preserves.fail _ _, fun _ _ => M.Preserves.fail _ _,
      fun _ => M.Preserves.fail _ _, M.Preserves.fail _ _, M.Preserves.fail _ _⟩
  | succ fuel ih =>
    exact ⟨fun _ _ => listLoopBody_buf _ ih _ _, fun _ _ => structLoopBody_buf _ ih _ _,
      fun _ => UReader.FPropertyValue_buf opts _ ih _, UReader.unsafe_buf _ ih,
      UReader.ftext_buf _ ih⟩

/-! ## Reads do not depend on the bytes behind the cursor -/

theorem M.Frame.of_pure {α : Type} (k : Nat) (a : α) : M.Frame k (pure a : RM α) :=
  ⟨fun _ _ h => ⟨rfl, h⟩⟩

theorem M.Frame.of_fail {α : Type} (k : Nat) (e : Fault) : M.Frame k (M.fail e : RM α) :=
  ⟨fun _ _ h => ⟨rfl, h⟩⟩

theorem M.Frame.of_bind {α β : Type} (k : Nat) {m : RM α} {f : α → RM β}
    (hm : M.Frame k m) (hf : ∀ a, M.Frame k (f a)) : M.Frame k (m >>= f) := by
  constructor
  intro r1 r2 h
  rw [M.bind_apply, M.bind_apply]
  have h1 := hm.holds r1 r2 h
  cases hm1 : m r1 with
  | mk o1 s1 =>
    cases hm2 : m r2 with
    | mk o2 s2 =>
      rw [hm1, hm2] at h1
      obtain ⟨ho, hs⟩ := h1
      dsimp only at ho hs
      subst ho
      cases o1 with
      | ok a => exact (hf a).holds s1 s2 hs
      | error e => exact ⟨rfl, hs⟩

theorem M.Frame.of_map {α β : Type} (k : Nat) {m : RM α} (g : α → β)
    (hm : M.Frame k m) : M.Frame k (g <$> m) := by
  constructor
  intro r1 r2 h
  rw [M.map_apply, M.map_apply]
  have h1 := hm.holds r1 r2 h
  cases hm1 : m r1 with
  | mk o1 s1 =>
    cases hm2 : m r2 with
    | mk o2 s2 =>
      rw [hm1, hm2] at h1
      obtain ⟨ho, hs⟩ := h1
      dsimp only at ho hs
      subst ho
      cases o1 with
      | ok a => exact ⟨rfl, hs⟩
      | error e => exact ⟨rfl, hs⟩

theorem sliceNat_agree (k : Nat) (b1 b2 : List Nat) (p n : Nat) (hp : k ≤ p)
    (h : b1.drop k = b2.drop k) : sliceNat b1 p n = sliceNat b2 p n := by
  unfold sliceNat
  have e : ∀ b : List Nat, b.drop p = (b.drop k).drop (p - k) := by
    intro b
    rw [List.drop_drop]
    congr 1
    omega
  rw [e b1, e b2, h]

theorem getOffset_frame (k : Nat) : M.Frame k getOffset :=
  ⟨fun _ _ h => ⟨congrArg Except.ok h.1, h⟩⟩

theorem advance_frame (k : Nat) (n : Int) (hn : 0 ≤ n) : M.Frame k (advance n) := by
  constructor
  intro r1 r2 h
  obtain ⟨h1, h2, h3, h4⟩ := h
  refine ⟨rfl, ?_, ?_, h3, h4⟩
  · show r1.offset + n = r2.offset + n
    rw [h1]
  · show (k : Int) ≤ r1.offset + n
    omega

theorem readBack_frame (k n : Nat) :
    M.Frame k (do
      advance n
      let o ← getOffset
      readLE n (o - n)) := by
  constructor
  intro r1 r2 h
  obtain ⟨h1, h2, h3, h4⟩ := h
  simp only [M.bind_apply, advance_apply, getOffset_apply, readLE]
  have e1 : r1.offset + (n : Int) - n = r1.offset := by omega
  have e2 : r2.offset + (n : Int) - n = r1.offset := by omega
  rw [e1, e2, h3]
  have hag : agreeFrom k { r1 with offset := r1.offset + n } { r2 with offset := r2.offset + n } :=
    ⟨by show r1.offset + (n : Int) = r2.offset + n; omega,
     by show (k : Int) ≤ r1.offset + n; omega, h3, h4⟩
  split
  · rename_i hc
    refine ⟨?_, hag⟩
    rw [sliceNat_agree k r1.buffer r2.buffer r1.offset.toNat n (by omega) h4]
  · exact ⟨rfl, hag⟩

theorem readThen_frame {β : Type} (k n : Nat) (f : Nat → RM β) (hf : ∀ v, M.Frame k (f v)) :
    M.Frame k (do
      advance n
      let o ← getOffset
      let v ← readLE n (o - n)
      f v) := by
  constructor
  intro r1 r2 h
  exact (M.Frame.of_bind k (readBack_frame k n) hf).holds r1 r2 h

theorem UReader.int8_frame (k : Nat) : M.Frame k UReader.int8 :=
  readThen_frame k 1 _ (fun _ => M.Frame.of_pure k _)

theorem UReader.uint8_frame (k : Nat) : M.Frame k UReader.uint8 :=
  readThen_frame k 1 _ (fun _ => M.Frame.of_pure k _)

theorem UReader.int32_frame (k : Nat) : M.Frame k UReader.int32 :=
  readThen_frame k 4 _ (fun _ => M.Frame.of_pure k _)

theorem UReader.uint32_frame (k : Nat) : M.Frame k UReader.uint32 :=
  readThen_frame k 4 _ (fun _ => M.Frame.of_pure k _)

theorem toStringRange_agree (k : Nat) (b1 b2 : List Nat) (s e : Int) (hs : (k : Int) ≤ s)
    (hl : b1.length = b2.length) (h : b1.drop k = b2.drop k) :
    toStringRange b1 s e = toStringRange b2 s e := by
  unfold toStringRange
  have h0 : (if s ≤ 0 then (0 : Int) else s) = s := by split <;> omega
  have hsl : ∀ n, sliceNat b1 s.toNat n = sliceNat b2 s.toNat n :=
    fun n => sliceNat_agree k b1 b2 _ n (by omega) h
  simp only [h0, hl, hsl]

theorem decodeRange_frame (k : Nat) (size shift : Int) (hsz : 0 ≤ size)
    (dec : List Nat → JSString) :
    M.Frame k (do
      advance size
      let o ← getOffset
      fun r => ⟨.ok (dec (toStringRange r.buffer (o - size) (o - shift))), r⟩) := by
  constructor
  intro r1 r2 h
  obtain ⟨h1, h2, h3, h4⟩ := h
  simp only [M.bind_apply, advance_apply, getOffset_apply]
  have hag : agreeFrom k { r1 with offset := r1.offset + size }
      { r2 with offset := r2.offset + size } :=
    ⟨by show r1.offset + size = r2.offset + size; omega,
     by show (k : Int) ≤ r1.offset + size; omega, h3, h4⟩
  refine ⟨?_, hag⟩
  rw [h1, toStringRange_agree k r1.buffer r2.buffer _ _ (by omega) h3 h4]

theorem UReader.fstring_frame (k : Nat) : M.Frame k UReader.fstring := by
  unfold UReader.fstring
  refine M.Frame.of_bind k (UReader.int32_frame k) (fun size => ?_)
  split
  · rename_i hsz
    by_cases h1 : size = 1
    · simp only [h1, if_true]
      exact M.Frame.of_bind k (advance_frame k 1 (by omega)) (fun _ => M.Frame.of_pure k _)
    · simp only [h1, if_false]
      exact decodeRange_frame k size 1 hsz utf8Decode
  · rename_i hsz
    exact decodeRange_frame k (size * -2) 2 (by omega) utf16leDecode

theorem UReader.fname_frame (k : Nat) : M.Frame k UReader.fname := UReader.fstring_frame k

theorem UReader.FGuid_frame (k : Nat) : M.Frame k UReader.FGuid := by
  unfold UReader.FGuid
  repeat (with_reducible first
    | apply M.Frame.of_bind | exact M.Frame.of_pure _ _ | exact UReader.uint32_frame _ | intro _)

theorem UReader.tagExtras_frame (k : Nat) (ty : JSString) (f : TagFields) :
    M.Frame k (UReader.tagExtras ty f) := by
  unfold UReader.tagExtras
  repeat (with_reducible first
    | apply M.Frame.of_bind | exact M.Frame.of_pure _ _ | exact UReader.uint32_frame _
    | exact UReader.fname_frame _ | exact UReader.FGuid_frame _ | exact UReader.uint8_frame _
    | exact getOffset_frame _ | split | intro _)

theorem UReader.FPropertyTag_frame (k : Nat) : M.Frame k UReader.FPropertyTag := by
  unfold UReader.FPropertyTag
  repeat (with_reducible first
    | apply M.Frame.of_bind | exact M.Frame.of_pure _ _ | exact UReader.uint32_frame _
    | exact UReader.int32_frame _ | exact UReader.tagExtras_frame _ _ _
    | exact UReader.fname_frame _ | exact UReader.FGuid_frame _ | exact UReader.uint8_frame _
    | exact getOffset_frame _ | split | intro _ | dsimp only)

/-! ## Integrity faults -/

/-- C7. With fail-fast off, a tag of declared size `N` whose end `s + N` lies inside the
buffer and whose structured value decode throws or stops at an offset other than `s + N`:
`FPropertyValue` returns the `null` placeholder without throwing and leaves the cursor at
`s + N` over the same buffer; and the tag decoded next from `s + N` does not depend on the
bytes before `s + N`, those of the faulty property included. -/
theorem integrity_fault_resync (opts : Options) (fuel : Nat) (tag : Tag) (r : UReader) (N : Int)
    (hE : opts.EarlyExit = false) (hN : tag.f.Name ≠ some (js "None"))
    (hS : tag.f.Size = some (.int N))
    (hin : 0 ≤ r.offset + N ∧ r.offset + N < r.buffer.length)
    (hfault : match Decoders.FPropertyValue_unsafe (decoders opts (fuel + 1)) ⟨tag, r⟩ with
      | ⟨.ok _, s1⟩ => s1.rd.offset ≠ r.offset + N
      | ⟨.error e, _⟩ => e.catchable = true) :
    (∃ tag1, Decoders.FPropertyValue (decoders opts (fuel + 2)) tag r =
      ⟨.ok (.null, tag1), ⟨r.buffer, r.offset + N⟩⟩) ∧
    ∀ b2 : List Nat, b2.length = r.buffer.length →
      b2.drop (r.offset + N).toNat = r.buffer.drop (r.offset + N).toNat →
      (UReader.FPropertyTag ⟨b2, r.offset + N⟩).out =
        (UReader.FPropertyTag ⟨r.buffer, r.offset + N⟩).out ∧
      (UReader.FPropertyTag ⟨b2, r.offset + N⟩).st.offset =
        (UReader.FPropertyTag ⟨r.buffer, r.offset + N⟩).st.offset := by
  constructor
  · show ∃ tag1, UReader.FPropertyValue opts (decoders opts (fuel + 1)) tag r = _
    have hk := (decoders_keeps opts (fuel + 1)).unsafeValue.holds ⟨tag, r⟩
    unfold UReader.FPropertyValue
    rw [if_neg hN]
    dsimp only
    cases hu : Decoders.FPropertyValue_unsafe (decoders opts (fuel + 1)) ⟨tag, r⟩ with
    | mk o s1 =>
      rw [hu] at hk hfault
      obtain ⟨hb, hsz, -, -⟩ := hk
      dsimp only at hb hsz hfault
      rw [hS] at hsz
      have hrec : UReader.recover opts r.offset s1.tag s1.rd =
          ⟨.ok (.null, s1.tag), ⟨r.buffer, r.offset + N⟩⟩ := by
        unfold UReader.recover
        rw [hE, hsz]
        simp only [Bool.false_eq_true, if_false, M.bind_apply, UReader.seek]
        rw [hb, if_neg (by omega)]
        simp only [M.pure_apply, hb]
      cases o with
      | ok v =>
        dsimp only at hfault ⊢
        rw [hsz, if_neg]
        · exact ⟨s1.tag, hrec⟩
        · intro h
          simp only [Option.some.injEq, JSNum.int.injEq] at h
          omega
      | error e =>
        dsimp only at hfault ⊢
        rw [if_pos hfault]
        exact ⟨s1.tag, hrec⟩
  · intro b2 hl hd
    have hag : agreeFrom (r.offset + N).toNat ⟨b2, r.offset + N⟩ ⟨r.buffer, r.offset + N⟩ :=
      ⟨rfl, by show ((r.offset + N).toNat : Int) ≤ r.offset + N; omega, hl, hd⟩
    have h := (UReader.FPropertyTag_frame (r.offset + N).toNat).holds _ _ hag
    exact ⟨h.1, h.2.1⟩

/-- C7 at a concrete property: an IntProperty of declared size 6 decodes 4 bytes, so the
integrity check fails; the value is `null` and the cursor is at 6, where the terminator tag
starts. -/
theorem integrity_fault_resync_witness :
    (∃ tag1, Decoders.FPropertyValue (decoders {} 2) exBadSizeTag ⟨exBadSizeWire, 0⟩ =
      ⟨.ok (.null, tag1), ⟨exBadSizeWire, 0 + 6⟩⟩) ∧
    ∀ b2 : List Nat, b2.length = exBadSizeWire.length →
      b2.drop ((0 : Int) + 6).toNat = exBadSizeWire.drop ((0 : Int) + 6).toNat →
      (UReader.FPropertyTag ⟨b2, 0 + 6⟩).out = (UReader.FPropertyTag ⟨exBadSizeWire, 0 + 6⟩).out ∧
      (UReader.FPropertyTag ⟨b2, 0 + 6⟩).st.offset =
        (UReader.FPropertyTag ⟨exBadSizeWire, 0 + 6⟩).st.offset :=
  integrity_fault_resync {} 0 exBadSizeTag ⟨exBadSizeWire, 0⟩ 6 rfl (by decide) rfl
    (by decide) (by show ((0 : Int) + 4 ≠ 0 + 6); decide)

/-! ## Reading canonical wire forms -/

theorem leNat_leBytes (n v : Nat) (h : v < 256 ^ n) : leNat (leBytes n v) = v := by
  induction n generalizing v with
  | zero => simp only [pow_zero, Nat.lt_one_iff] at h; subst h; rfl
  | succ k ih =>
    simp only [leBytes, leNat]
    rw [ih (v / 256) (by rw [Nat.div_lt_iff_lt_mul (by decide)]; rw [pow_succ] at h; exact h)]
    omega

theorem UReader.int32_bytes_at (r : UReader) (pre bs post : List Nat)
    (hb : r.buffer = pre ++ bs ++ post) (ho : r.offset = pre.length) (hl : bs.length = 4) :
    UReader.int32 r = ⟨.ok (toSigned 32 (leNat bs)), { r with offset := r.offset + 4 }⟩ := by
  have h := readLE_at { r with offset := r.offset + 4 } pre bs post 4 (r.offset + 4 - 4)
    hb (by omega) hl
  simp only [UReader.int32, advance_apply, getOffset_apply, M.bind_apply, M.pure_apply, h]

theorem toStringRange_at (pre bytes post : List Nat) :
    toStringRange (pre ++ bytes ++ post) pre.length (pre.length + bytes.length) = bytes := by
  unfold toStringRange
  have h0 : (if (pre.length : Int) ≤ 0 then (0 : Int) else pre.length) = pre.length := by
    split <;> omega
  have he : (if ((pre ++ bytes ++ post).length : Int) < pre.length + bytes.length
      then ((pre ++ bytes ++ post).length : Int) else pre.length + bytes.length) =
      pre.length + bytes.length := by
    simp only [List.length_append]; push_cast; split <;> omega
  simp only [h0, he]
  by_cases hbs : bytes.length = 0
  · have hnil : bytes = [] := List.length_eq_zero.mp hbs
    subst hnil
    split
    · rfl
    · rw [if_pos (by simp)]
  · rw [if_neg (by simp only [List.length_append]; push_cast; omega), if_neg (by omega)]
    have e1 : ((pre.length : Int) + bytes.length - pre.length).toNat = bytes.length := by omega
    rw [e1, Int.toNat_ofNat, sliceNat_append]

theorem utf8Decode_ascii (s : List Nat) (h : ∀ c ∈ s, c < 128) : utf8Decode s = s := by
  unfold utf8Decode
  induction s with
  | nil => rfl
  | cons c cs ih =>
    have hc : c < 128 := h c (List.mem_cons_self _ _)
    simp only [utf8Go, utf8Step, utf8Lead, if_pos hc]
    rw [ih (fun x hx => h x (List.mem_cons_of_mem _ hx))]
    rfl

/-- Reading the wire form of a non-empty ASCII string; the terminator byte is not looked at. -/
theorem UReader.fstring_ascii_at (r : UReader) (pre s post : List Nat) (z : Nat)
    (hb : r.buffer = pre ++ (leBytes 4 (s.length + 1) ++ s ++ [z]) ++ post)
    (ho : r.offset = pre.length) (hs : s ≠ []) (hlen : s.length + 1 < 2 ^ 31)
    (hascii : ∀ c ∈ s, c < 128) :
    UReader.fstring r = ⟨.ok s, { r with offset := r.offset + (4 + s.length + 1) }⟩ := by
  have hpos : 0 < s.length := List.length_pos.mpr hs
  have hb1 : r.buffer = pre ++ leBytes 4 (s.length + 1) ++ (s ++ [z] ++ post) := by
    rw [hb]; simp only [List.append_assoc]
  have hb2 : r.buffer = (pre ++ leBytes 4 (s.length + 1)) ++ s ++ ([z] ++ post) := by
    rw [hb]; simp only [List.append_assoc]
  have hi := UReader.int32_bytes_at r pre (leBytes 4 (s.length + 1)) _ hb1 ho (leBytes_length _ _)
  rw [leNat_leBytes 4 _ (by norm_num; omega)] at hi
  have hsg : toSigned 32 (s.length + 1) = ((s.length + 1 : Nat) : Int) := by
    unfold toSigned
    rw [if_pos (by norm_num; omega)]
  rw [hsg] at hi
  unfold UReader.fstring
  simp only [M.bind_apply, hi, advance_apply, getOffset_apply]
  rw [if_pos (by omega), if_neg (by omega)]
  simp only [M.bind_apply, advance_apply, getOffset_apply]
  have hr := toStringRange_at (pre ++ leBytes 4 (s.length + 1)) s ([z] ++ post)
  rw [← hb2] at hr
  simp only [List.length_append, leBytes_length] at hr
  have e1 : r.offset + 4 + ((s.length + 1 : Nat) : Int) - ((s.length + 1 : Nat) : Int) =
      ((pre.length + 4 : Nat) : Int) := by push_cast; omega
  have e2 : r.offset + 4 + ((s.length + 1 : Nat) : Int) - 1 =
      ((pre.length + 4 : Nat) : Int) + (s.length : Nat) := by push_cast; omega
  rw [e1, e2, hr, utf8Decode_ascii s hascii]
  congr 2
  push_cast
  omega

/-! ## The extra bytes of a top-level property list -/

theorem M.bind_out_ok {σ α β : Type} {m : M σ α} {f : α → M σ β} {s : σ} {b : β}
    (h : ((m >>= f) s).out = .ok b) : ∃ a s1, m s = ⟨.ok a, s1⟩ ∧ (m >>= f) s = f a s1 := by
  rw [M.bind_apply] at h ⊢
  cases hm : m s with
  | mk o s1 =>
    cases o with
    | ok a => exact ⟨a, s1, rfl, rfl⟩
    | error e => rw [hm] at h; cases h

theorem UReader.FPropertyTag_none_at (r : UReader) (pre post : List Nat)
    (hb : r.buffer = pre ++ wireStr "None" ++ post) (ho : r.offset = pre.length) :
    UReader.FPropertyTag r =
      ⟨.ok (Tag.ofFields { tag_offset := some r.offset, Name := some (js "None") }),
        { r with offset := r.offset + 9 }⟩ := by
  have hf := UReader.fstring_ascii_at r pre (js "None") post 0 hb ho (by decide) (by decide)
    (by decide)
  unfold UReader.FPropertyTag
  simp only [M.bind_apply, getOffset_apply, UReader.fname, hf, if_true]
  rfl

/-- C8 (as stated) fails: the empty top-level list followed by `01 02 03 04` decodes without
fault up to the end of the buffer, and its re-encoding ends in `00 00 00 00`. -/
theorem extra_bytes_counterexample :
    (UReader.FPropertyList (decoders {} 1) true ⟨exExtraWire, 0⟩).st.offset = exExtraWire.length ∧
    reencodeList 1 exExtraWire true = some (wireStr "None" ++ [0, 0, 0, 0]) ∧
    reencodeList 1 exExtraWire true ≠ some exExtraWire := by
  decide!

/-- C8 (amended). At the terminator of a top-level property list the reader consumes the four
bytes that follow, whatever their value, and the decoded list does not record them; the writer
ends every top-level list with `00 00 00 00`. The four bytes are reproduced only when they
are zero. -/
theorem extra_bytes_rewritten_zero (d : Decoders) (result : List (JSString × JSVal))
    (pre post : List Nat) (a b c x : Nat) (e : Encoders) (val : JSVal) (w : UWriter) :
    listLoopBody d true result ⟨pre ++ wireStr "None" ++ [a, b, c, x] ++ post, pre.length⟩ =
      ⟨.ok (.object result),
        ⟨pre ++ wireStr "None" ++ [a, b, c, x] ++ post, pre.length + 9 + 4⟩⟩ ∧
    ((UWriter.FPropertyList e val true w).out = .ok () →
      4 ≤ (UWriter.FPropertyList e val true w).st.offset ∧
      ∀ i, i < 4 →
        (UWriter.FPropertyList e val true w).st.byteAt
          ((UWriter.FPropertyList e val true w).st.offset - 4 + i) = 0) := by
  constructor
  · have key : ∀ r : UReader, r.buffer = pre ++ wireStr "None" ++ [a, b, c, x] ++ post →
        r.offset = pre.length →
        listLoopBody d true result r =
          ⟨.ok (.object result), { r with offset := r.offset + 9 + 4 }⟩ := by
      intro r hb ho
      have ht := UReader.FPropertyTag_none_at r pre ([a, b, c, x] ++ post)
        (by rw [hb]; simp only [List.append_assoc]) ho
      have hi := UReader.int32_bytes_at { r with offset := r.offset + 9 } (pre ++ wireStr "None")
        [a, b, c, x] post hb
        (by show r.offset + 9 = ((pre ++ wireStr "None").length : Nat)
            rw [List.length_append, ho]; rfl) rfl
      unfold listLoopBody
      simp only [M.bind_apply, ht, if_true]
      rw [if_pos]
      · simp only [M.bind_apply, hi, M.pure_apply]
      · rfl
    exact key ⟨_, _⟩ rfl rfl
  · have hlast : ∀ v : UWriter,
        4 ≤ ((v.grow 4).put [0, 0, 0, 0]).offset ∧
        ∀ i, i < 4 → ((v.grow 4).put [0, 0, 0, 0]).byteAt
          (((v.grow 4).put [0, 0, 0, 0]).offset - 4 + i) = 0 := by
      intro v
      have ho : ((v.grow 4).put [0, 0, 0, 0]).offset = (v.grow 4).offset + 4 := rfl
      refine ⟨by omega, fun i hi => ?_⟩
      rw [ho, Nat.add_sub_cancel, UWriter.put_byteAt_in _ [0, 0, 0, 0] i hi]
      interval_cases i <;> rfl
    have hint : ∀ v : UWriter, UWriter.int32 (.num 0) v = ⟨.ok (), (v.grow 4).put [0, 0, 0, 0]⟩ :=
      fun v => UWriter.writeInt_num 32 true 0 v (by decide) (by decide)
    cases val with
    | object fs =>
      simp only [UWriter.FPropertyList]
      cases objGet fs PropertiesKey with
      | none => intro h; cases h
      | some v =>
        cases v with
        | props tags =>
          simp only [if_true]
          intro h
          obtain ⟨_, s1, -, e1⟩ := M.bind_out_ok h
          rw [e1] at h ⊢
          obtain ⟨_, s2, -, e2⟩ := M.bind_out_ok h
          rw [e2, hint]
          exact hlast _
        | _ => intro h; cases h
    | _ => intro h; cases h

/-- C8 (amended) at the empty list: written to a fresh writer it ends in four zero bytes. -/
theorem extra_bytes_rewritten_zero_witness :
    (UWriter.FPropertyList (encoders 1) exEmptyList true UWriter.new).out = .ok () ∧
    4 ≤ (UWriter.FPropertyList (encoders 1) exEmptyList true UWriter.new).st.offset ∧
    ∀ i, i < 4 →
      (UWriter.FPropertyList (encoders 1) exEmptyList true UWriter.new).st.byteAt
        ((UWriter.FPropertyList (encoders 1) exEmptyList true UWriter.new).st.offset - 4 + i) = 0 :=
  ⟨rfl, (extra_bytes_rewritten_zero (decoders {} 1) [] [] [] 1 2 3 4 (encoders 1) exEmptyList
    UWriter.new).2 rfl⟩

/-! ## Relations between the states of a normal return -/

theorem M.Returns.on_pure {σ α : Type} (R : StateRel σ) (a : α) :
    M.Returns R (pure a : M σ α) := by
  constructor
  intro s b s' h
  rw [(M.pure_ok h).2]
  exact R.refl s'

theorem M.Returns.on_fail {σ α : Type} (R : StateRel σ) (e : Fault) :
    M.Returns R (M.fail e : M σ α) := by
  constructor
  intro s b s' h
  simp only [M.fail_apply, Res.mk.injEq, reduceCtorEq, false_and] at h

theorem M.Returns.on_bind {σ α β : Type} (R : StateRel σ) {m : M σ α} {f : α → M σ β}
    (hm : M.Returns R m) (hf : ∀ a, M.Returns R (f a)) : M.Returns R (m >>= f) := by
  constructor
  intro s b s' h
  obtain ⟨a, s1, h1, h2⟩ := M.bind_ok h
  exact R.trans _ _ _ (hm.holds _ _ _ h1) ((hf a).holds _ _ _ h2)

theorem M.Returns.on_forEachM {σ α : Type} (R : StateRel σ) {f : α → M σ Unit}
    (hf : ∀ a, M.Returns R (f a)) (xs : List α) : M.Returns R (forEachM f xs) := by
  induction xs with
  | nil => exact M.Returns.on_pure R ()
  | cons x xs ih => exact M.Returns.on_bind R (hf x) (fun _ => ih)

theorem M.Returns.on_weaken {σ α : Type} (R S : StateRel σ) (hw : ∀ a b, R.rel a b → S.rel a b)
    {m : M σ α} (hm : M.Returns R m) : M.Returns S m :=
  ⟨fun s a s' h => hw _ _ (hm.holds s a s' h)⟩

theorem M.Returns.on_getTag {ρ : Type} (RT : StateRel (TState ρ)) :
    M.Returns RT (getTag : M (TState ρ) Tag) := by
  constructor
  intro s a s' h
  rw [(getTag_ok h).2]
  exact RT.refl s

theorem liftR_own {α : Type} {m : WM α} (hm : M.Returns growRel m) :
    M.Returns ownRel (liftR m) := by
  constructor
  intro s a s' h
  obtain ⟨ht, hr⟩ := liftR_ok h
  exact ⟨hm.holds _ _ _ hr, by rw [ht], by rw [ht], by rw [ht]⟩

theorem liftR_rd {α : Type} {m : WM α} (hm : M.Returns growRel m) :
    M.Returns rdRel (liftR m) :=
  M.Returns.on_weaken ownRel rdRel (fun _ _ h => h.1) (liftR_own hm)

theorem modTag_rd (g : TagFields → TagFields) : M.Returns rdRel (modTag g) := by
  constructor
  intro s a s' h
  show growRel.rel s.rd s'.rd
  rw [(modTag_ok h).2]
  exact growRel.refl _

theorem onInner_own {α : Type} {m : WTM α} (hm : M.Returns rdRel m) :
    M.Returns ownRel (onInner m) := by
  constructor
  intro s a s' h
  unfold onInner at h
  split at h
  · simp only [Res.mk.injEq, reduceCtorEq, false_and] at h
  · rename_i it hit
    cases hr : m ⟨it, s.rd⟩ with
    | mk o s1 =>
      rw [hr] at h
      simp only [Res.mk.injEq] at h
      obtain ⟨ho, hs⟩ := h
      subst ho
      have h1 := hm.holds _ _ _ hr
      rw [← hs]
      exact ⟨h1, rfl, rfl, rfl⟩

theorem onValue_own {α : Type} {m : WTM α} (hm : M.Returns rdRel m) :
    M.Returns ownRel (onValue m) := by
  constructor
  intro s a s' h
  unfold onValue at h
  split at h
  · simp only [Res.mk.injEq, reduceCtorEq, false_and] at h
  · rename_i it hit
    cases hr : m ⟨it, s.rd⟩ with
    | mk o s1 =>
      rw [hr] at h
      simp only [Res.mk.injEq] at h
      obtain ⟨ho, hs⟩ := h
      subst ho
      have h1 := hm.holds _ _ _ hr
      rw [← hs]
      exact ⟨h1, rfl, rfl, rfl⟩

theorem own_rd {α : Type} {m : WTM α} (hm : M.Returns ownRel m) : M.Returns rdRel m :=
  M.Returns.on_weaken ownRel rdRel (fun _ _ h => h.1) hm

/-! ## The writer's cursor and buffer length -/

theorem UWriter.grow_put_rel (w : UWriter) (n : Nat) (bs : List Nat) (k : Nat)
    (h : bs.length + k ≤ n) :
    growRel.rel w { (w.grow n).put bs with offset := ((w.grow n).put bs).offset + k } := by
  have hf := UWriter.grow_fits w n
  have hl := UWriter.grow_length w n
  have ho : (w.grow n).offset = w.offset := UWriter.grow_offset w n
  have hp : ((w.grow n).put bs).offset = (w.grow n).offset + bs.length := rfl
  have hpl : ((w.grow n).put bs).length = (w.grow n).length := rfl
  refine ⟨?_, ?_, fun _ => ?_⟩
  · show w.offset ≤ ((w.grow n).put bs).offset + k
    omega
  · show w.length ≤ ((w.grow n).put bs).length
    omega
  · show ((w.grow n).put bs).offset + k < ((w.grow n).put bs).length
    omega

theorem UWriter.getOffset_grow : M.Returns growRel UWriter.getOffset := by
  constructor
  intro s a s' h
  simp only [UWriter.getOffset, Res.mk.injEq] at h
  rw [← h.2]
  exact growRel.refl s

theorem UWriter.checkThenWrite_grow (n : Nat) (bs : List Nat) (h : bs.length ≤ n) :
    M.Returns growRel (UWriter.checkBuf n >>= fun _ => UWriter.writeBytes bs) := by
  constructor
  intro s a s' hr
  simp only [M.bind_apply, UWriter.checkBuf, UWriter.writeBytes] at hr
  split at hr
  · simp only [Res.mk.injEq, true_and] at hr
    rw [← hr]
    exact UWriter.grow_put_rel s n bs 0 (by omega)
  · simp only [Res.mk.injEq, reduceCtorEq, false_and] at hr

theorem UWriter.afterCheck_grow {α : Type} (n : Nat) (f : WM α)
    (hf : ∀ w a w', w.offset + n < w.length → f w = ⟨.ok a, w'⟩ →
      w.offset ≤ w'.offset ∧ w'.length = w.length ∧ w'.offset < w'.length) :
    M.Returns growRel (UWriter.checkBuf n >>= fun _ => f) := by
  constructor
  intro s a s' hr
  simp only [M.bind_apply, UWriter.checkBuf] at hr
  have h1 := hf (s.grow n) a s' (UWriter.grow_fits s n) hr
  have hl := UWriter.grow_length s n
  have ho : (s.grow n).offset = s.offset := UWriter.grow_offset s n
  exact ⟨by omega, by omega, fun _ => h1.2.2⟩

theorem UWriter.writeBytes_fits (bs : List Nat) (n : Nat) (hn : bs.length ≤ n)
    (w : UWriter) (a : Unit) (w' : UWriter) (hw : w.offset + n < w.length)
    (h : UWriter.writeBytes bs w = ⟨.ok a, w'⟩) :
    w.offset ≤ w'.offset ∧ w'.length = w.length ∧ w'.offset < w'.length := by
  unfold UWriter.writeBytes at h
  split at h
  · simp only [Res.mk.injEq, true_and] at h
    rw [← h]
    have hp : (w.put bs).offset = w.offset + bs.length := rfl
    have hpl : (w.put bs).length = w.length := rfl
    omega
  · simp only [Res.mk.injEq, reduceCtorEq, false_and] at h

theorem UWriter.writeInt_grow (bits : Nat) (signed : Bool) (val : JSVal) :
    M.Returns growRel (UWriter.writeInt bits signed val) := by
  unfold UWriter.writeInt
  apply UWriter.afterCheck_grow
  intro w a w' hw h
  cases hn : numArg val with
  | error e =>
    rw [hn] at h
    simp only [M.fail_apply, Res.mk.injEq, reduceCtorEq, false_and] at h
  | ok n =>
    rw [hn] at h
    dsimp only at h
    by_cases hc : n < (if signed = true then -(2 : Int) ^ (bits - 1) else 0) ∨
        (if signed = true then (2 : Int) ^ (bits - 1) else 2 ^ bits) ≤ n
    · rw [if_pos hc] at h
      simp only [M.fail_apply, Res.mk.injEq, reduceCtorEq, false_and] at h
    · rw [if_neg hc] at h
      exact UWriter.writeBytes_fits _ _ (by rw [leBytes_length]) w a w' hw h

theorem UWriter.int8_grow (val : JSVal) : M.Returns growRel (UWriter.int8 val) :=
  UWriter.writeInt_grow 8 true val

theorem UWriter.uint8_grow (val : JSVal) : M.Returns growRel (UWriter.uint8 val) :=
  UWriter.writeInt_grow 8 false val

theorem UWriter.int16_grow (val : JSVal) : M.Returns growRel (UWriter.int16 val) :=
  UWriter.writeInt_grow 16 true val

theorem UWriter.uint16_grow (val : JSVal) : M.Returns growRel (UWriter.uint16 val) :=
  UWriter.writeInt_grow 16 false val

theorem UWriter.int32_grow (val : JSVal) : M.Returns growRel (UWriter.int32 val) :=
  UWriter.writeInt_grow 32 true val

theorem UWriter.uint32_grow (val : JSVal) : M.Returns growRel (UWriter.uint32 val) :=
  UWriter.writeInt_grow 32 false val

theorem UWriter.int64_grow (val : JSVal) : M.Returns growRel (UWriter.int64 val) := by
  unfold UWriter.int64
  apply UWriter.afterCheck_grow
  intro w a w' hw h
  split at h
  · split at h
    · simp only [M.fail_apply, Res.mk.injEq, reduceCtorEq, false_and] at h
    · exact UWriter.writeBytes_fits _ _ (by rw [leBytes_length]) w a w' hw h
  · split at h <;> simp only [M.fail_apply, Res.mk.injEq, reduceCtorEq, false_and] at h
  · simp only [M.fail_apply, Res.mk.injEq, reduceCtorEq, false_and] at h

theorem UWriter.float_grow (val : JSVal) : M.Returns growRel (UWriter.float val) := by
  unfold UWriter.float
  apply UWriter.afterCheck_grow
  intro w a w' hw h
  split at h
  · exact UWriter.writeBytes_fits _ _ (by rw [leBytes_length]) w a w' hw h
  · simp only [M.fail_apply, Res.mk.injEq, reduceCtorEq, false_and] at h

theorem UWriter.double_grow (val : JSVal) : M.Returns growRel (UWriter.double val) := by
  unfold UWriter.double
  apply UWriter.afterCheck_grow
  intro w a w' hw h
  split at h
  · exact UWriter.writeBytes_fits _ _ (by rw [leBytes_length]) w a w' hw h
  · simp only [M.fail_apply, Res.mk.injEq, reduceCtorEq, false_and] at h

theorem UWriter.raw_grow (val : JSVal) : M.Returns growRel (UWriter.raw val) := by
  unfold UWriter.raw
  split
  · apply UWriter.afterCheck_grow
    intro w a w' hw h
    simp only [Res.mk.injEq, true_and] at h
    rw [← h]
    rw [List.take_of_length_le (by omega)]
    simp only [UWriter.put_offset, UWriter.put_length]
    exact ⟨by omega, trivial, by omega⟩
  · exact M.Returns.on_fail _ _

theorem UWriter.fstring_grow (val : JSVal) : M.Returns growRel (UWriter.fstring val) := by
  unfold UWriter.fstring
  split
  · split
    · exact M.Returns.on_bind _ (UWriter.int32_grow _) (fun _ => UWriter.int8_grow _)
    · split
      · apply M.Returns.on_bind _ (UWriter.int32_grow _)
        intro _
        apply UWriter.afterCheck_grow
        intro w a w' hw h
        simp only [Res.mk.injEq, true_and] at h
        rw [← h]
        rw [List.take_of_length_le (by rw [List.length_map]; omega)]
        simp only [UWriter.put_offset, UWriter.put_length, List.length_map]
        exact ⟨by omega, trivial, by omega⟩
      · exact UWriter.int32_grow _
  all_goals first | exact M.Returns.on_fail _ _ | exact UWriter.int32_grow _

theorem UWriter.fname_grow (val : JSVal) : M.Returns growRel (UWriter.fname val) :=
  UWriter.fstring_grow val

theorem UWriter.object_grow (val : JSVal) : M.Returns growRel (UWriter.object val) :=
  UWriter.fstring_grow val

theorem UWriter.bool_grow (val : JSVal) : M.Returns growRel (UWriter.bool val) :=
  UWriter.writeInt_grow 32 false val

theorem UWriter.goBack_grow (position : Int) (callback : Nat → WM Unit)
    (hc : ∀ h, M.Returns growRel (callback h)) :
    M.Returns growRel (UWriter.goBack position callback) := by
  constructor
  intro w a w' h
  unfold UWriter.goBack at h
  dsimp only at h
  obtain ⟨_, w1, h1, h⟩ := M.bind_ok h
  obtain ⟨_, w2, h2, h⟩ := M.bind_ok h
  have hl1 : w1.length = w.length := by
    unfold UWriter.seek at h1
    split at h1
    · simp only [Res.mk.injEq, reduceCtorEq, false_and] at h1
    · simp only [Res.mk.injEq, true_and] at h1
      rw [← h1]
  have h12 := (hc _).holds _ _ _ h2
  unfold UWriter.seek at h
  split at h
  · simp only [Res.mk.injEq, reduceCtorEq, false_and] at h
  · rename_i hin
    simp only [Res.mk.injEq, true_and] at h
    rw [← h]
    refine ⟨?_, ?_, fun _ => ?_⟩
    · show w.offset ≤ ((w.offset : Nat) : Int).toNat
      omega
    · show w.length ≤ w2.length
      have := h12.2.1
      omega
    · show ((w.offset : Nat) : Int).toNat < w2.length
      omega

/-! ## Every encoder moves the cursor forward -/

theorem UWriter.FGuidOpt_grow (g : Option (List Int)) :
    M.Returns growRel (UWriter.FGuidOpt g) := by
  unfold UWriter.FGuidOpt
  repeat (with_reducible first
    | apply M.Returns.on_bind | apply M.Returns.on_forEachM | apply UWriter.goBack_grow
    | exact M.Returns.on_pure _ _ | exact M.Returns.on_fail _ _ | exact UWriter.getOffset_grow
    | exact UWriter.int8_grow _ | exact UWriter.uint8_grow _ | exact UWriter.int16_grow _
    | exact UWriter.uint16_grow _ | exact UWriter.int32_grow _ | exact UWriter.uint32_grow _
    | exact UWriter.int64_grow _ | exact UWriter.float_grow _ | exact UWriter.double_grow _
    | exact UWriter.raw_grow _ | exact UWriter.fstring_grow _ | exact UWriter.fname_grow _
    | exact UWriter.object_grow _ | exact UWriter.bool_grow _ | split | intro _ | dsimp only)

theorem UWriter.FGuid_grow (val : JSVal) :
    M.Returns growRel (UWriter.FGuid val) := by
  unfold UWriter.FGuid
  repeat (with_reducible first
    | apply M.Returns.on_bind | apply M.Returns.on_forEachM | apply UWriter.goBack_grow
    | exact M.Returns.on_pure _ _ | exact M.Returns.on_fail _ _ | exact UWriter.getOffset_grow
    | exact UWriter.int8_grow _ | exact UWriter.uint8_grow _ | exact UWriter.int16_grow _
    | exact UWriter.uint16_grow _ | exact UWriter.int32_grow _ | exact UWriter.uint32_grow _
    | exact UWriter.int64_grow _ | exact UWriter.float_grow _ | exact UWriter.double_grow _
    | exact UWriter.raw_grow _ | exact UWriter.fstring_grow _ | exact UWriter.fname_grow _
    | exact UWriter.object_grow _ | exact UWriter.bool_grow _ | exact UWriter.FGuidOpt_grow _
    | split | intro _ | dsimp only)

theorem UWriter.tarray_grow (inner : JSVal → WM Unit) (val : JSVal)
    (hi : ∀ v, M.Returns growRel (inner v)) : M.Returns growRel (UWriter.tarray inner val) := by
  unfold UWriter.tarray
  split
  · exact M.Returns.on_bind _ (UWriter.uint32_grow _) (fun _ => M.Returns.on_forEachM _ hi _)
  all_goals first | exact UWriter.uint32_grow _ | exact M.Returns.on_fail _ _

theorem UWriter.tarrayMissing_grow (val : JSVal) :
    M.Returns growRel (UWriter.tarrayMissing val) := by
  unfold UWriter.tarrayMissing
  repeat (with_reducible first
    | apply M.Returns.on_bind | apply M.Returns.on_forEachM | apply UWriter.goBack_grow
    | apply UWriter.tarray_grow | exact M.Returns.on_pure _ _ | exact M.Returns.on_fail _ _
    | exact UWriter.getOffset_grow | exact UWriter.int8_grow _ | exact UWriter.uint8_grow _
    | exact UWriter.int16_grow _ | exact UWriter.uint16_grow _ | exact UWriter.int32_grow _
    | exact UWriter.uint32_grow _ | exact UWriter.int64_grow _ | exact UWriter.float_grow _
    | exact UWriter.double_grow _ | exact UWriter.raw_grow _ | exact UWriter.fstring_grow _
    | exact UWriter.fname_grow _ | exact UWriter.object_grow _ | exact UWriter.bool_grow _
    | exact UWriter.FGuidOpt_grow _ | exact UWriter.FGuid_grow _ | split | intro _ | dsimp only)

theorem UWriter.FSoftObjectPath_grow (val : JSVal) :
    M.Returns growRel (UWriter.FSoftObjectPath val) := by
  unfold UWriter.FSoftObjectPath
  repeat (with_reducible first
    | apply M.Returns.on_bind | apply M.Returns.on_forEachM | apply UWriter.goBack_grow
    | apply UWriter.tarray_grow | exact M.Returns.on_pure _ _ | exact M.Returns.on_fail _ _
    | exact UWriter.getOffset_grow | exact UWriter.int8_grow _ | exact UWriter.uint8_grow _
    | exact UWriter.int16_grow _ | exact UWriter.uint16_grow _ | exact UWriter.int32_grow _
    | exact UWriter.uint32_grow _ | exact UWriter.int64_grow _ | exact UWriter.float_grow _
    | exact UWriter.double_grow _ | exact UWriter.raw_grow _ | exact UWriter.fstring_grow _
    | exact UWriter.fname_grow _ | exact UWriter.object_grow _ | exact UWriter.bool_grow _
    | exact UWriter.FGuidOpt_grow _ | exact UWriter.FGuid_grow _
    | exact UWriter.tarrayMissing_grow _ | split | intro _ | dsimp only)

theorem UWriter.FIntPoint_grow (val : JSVal) :
    M.Returns growRel (UWriter.FIntPoint val) := by
  unfold UWriter.FIntPoint
  repeat (with_reducible first
    | apply M.Returns.on_bind | apply M.Returns.on_forEachM | apply UWriter.goBack_grow
    | apply UWriter.tarray_grow | exact M.Returns.on_pure _ _ | exact M.Returns.on_fail _ _
    | exact UWriter.getOffset_grow | exact UWriter.int8_grow _ | exact UWriter.uint8_grow _
    | exact UWriter.int16_grow _ | exact UWriter.uint16_grow _ | exact UWriter.int32_grow _
    | exact UWriter.uint32_grow _ | exact UWriter.int64_grow _ | exact UWriter.float_grow _
    | exact UWriter.double_grow _ | exact UWriter.raw_grow _ | exact UWriter.fstring_grow _
    | exact UWriter.fname_grow _ | exact UWriter.object_grow _ | exact UWriter.bool_grow _
    | exact UWriter.FGuidOpt_grow _ | exact UWriter.FGuid_grow _
    | exact UWriter.tarrayMissing_grow _ | exact UWriter.FSoftObjectPath_grow _ | split | intro _
    | dsimp only)

theorem UWriter.FLinearColor_grow (val : JSVal) :
    M.Returns growRel (UWriter.FLinearColor val) := by
  unfold UWriter.FLinearColor
  repeat (with_reducible first
    | apply M.Returns.on_bind | apply M.Returns.on_forEachM | apply UWriter.goBack_grow
    | apply UWriter.tarray_grow | exact M.Returns.on_pure _ _ | exact M.Returns.on_fail _ _
    | exact UWriter.getOffset_grow | exact UWriter.int8_grow _ | exact UWriter.uint8_grow _
    | exact UWriter.int16_grow _ | exact UWriter.uint16_grow _ | exact UWriter.int32_grow _
    | exact UWriter.uint32_grow _ | exact UWriter.int64_grow _ | exact UWriter.float_grow _
    | exact UWriter.double_grow _ | exact UWriter.raw_grow _ | exact UWriter.fstring_grow _
    | exact UWriter.fname_grow _ | exact UWriter.object_grow _ | exact UWriter.bool_grow _
    | exact UWriter.FGuidOpt_grow _ | exact UWriter.FGuid_grow _
    | exact UWriter.tarrayMissing_grow _ | exact UWriter.FSoftObjectPath_grow _
    | exact UWriter.FIntPoint_grow _ | split | intro _ | dsimp only)

theorem UWriter.FTQ2FogOfWarPackedData_grow (val : JSVal) :
    M.Returns growRel (UWriter.FTQ2FogOfWarPackedData val) := by
  unfold UWriter.FTQ2FogOfWarPackedData
  repeat (with_reducible first
    | apply M.Returns.on_bind | apply M.Returns.on_forEachM | apply UWriter.goBack_grow
    | apply UWriter.tarray_grow | exact M.Returns.on_pure _ _ | exact M.Returns.on_fail _ _
    | exact UWriter.getOffset_grow | exact UWriter.int8_grow _ | exact UWriter.uint8_grow _
    | exact UWriter.int16_grow _ | exact UWriter.uint16_grow _ | exact UWriter.int32_grow _
    | exact UWriter.uint32_grow _ | exact UWriter.int64_grow _ | exact UWriter.float_grow _
    | exact UWriter.double_grow _ | exact UWriter.raw_grow _ | exact UWriter.fstring_grow _
    | exact UWriter.fname_grow _ | exact UWriter.object_grow _ | exact UWriter.bool_grow _
    | exact UWriter.FGuidOpt_grow _ | exact UWriter.FGuid_grow _
    | exact UWriter.tarrayMissing_grow _ | exact UWriter.FSoftObjectPath_grow _
    | exact UWriter.FIntPoint_grow _ | exact UWriter.FLinearColor_grow _ | split | intro _
    | dsimp only)

theorem UWriter.FGrimDialogueVariableValue_grow (val : JSVal) :
    M.Returns growRel (UWriter.FGrimDialogueVariableValue val) := by
  unfold UWriter.FGrimDialogueVariableValue
  repeat (with_reducible first
    | apply M.Returns.on_bind | apply M.Returns.on_forEachM | apply UWriter.goBack_grow
    | apply UWriter.tarray_grow | exact M.Returns.on_pure _ _ | exact M.Returns.on_fail _ _
    | exact UWriter.getOffset_grow | exact UWriter.int8_grow _ | exact UWriter.uint8_grow _
    | exact UWriter.int16_grow _ | exact UWriter.uint16_grow _ | exact UWriter.int32_grow _
    | exact UWriter.uint32_grow _ | exact UWriter.int64_grow _ | exact UWriter.float_grow _
    | exact UWriter.double_grow _ | exact UWriter.raw_grow _ | exact UWriter.fstring_grow _
    | exact UWriter.fname_grow _ | exact UWriter.object_grow _ | exact UWriter.bool_grow _
    | exact UWriter.FGuidOpt_grow _ | exact UWriter.FGuid_grow _
    | exact UWriter.tarrayMissing_grow _ | exact UWriter.FSoftObjectPath_grow _
    | exact UWriter.FIntPoint_grow _ | exact UWriter.FLinearColor_grow _
    | exact UWriter.FTQ2FogOfWarPackedData_grow _ | split | intro _ | dsimp only)

theorem UWriter.FFormatArgumentValue_grow (e : Encoders) (he : e.Grows) (val : JSVal) :
    M.Returns growRel (UWriter.FFormatArgumentValue e val) := by
  unfold UWriter.FFormatArgumentValue
  repeat (with_reducible first
    | apply M.Returns.on_bind | apply M.Returns.on_forEachM | apply UWriter.goBack_grow
    | apply UWriter.tarray_grow | exact M.Returns.on_pure _ _ | exact M.Returns.on_fail _ _
    | exact UWriter.getOffset_grow | exact UWriter.int8_grow _ | exact UWriter.uint8_grow _
    | exact UWriter.int16_grow _ | exact UWriter.uint16_grow _ | exact UWriter.int32_grow _
    | exact UWriter.uint32_grow _ | exact UWriter.int64_grow _ | exact UWriter.float_grow _
    | exact UWriter.double_grow _ | exact UWriter.raw_grow _ | exact UWriter.fstring_grow _
    | exact UWriter.fname_grow _ | exact UWriter.object_grow _ | exact UWriter.bool_grow _
    | exact UWriter.FGuidOpt_grow _ | exact UWriter.FGuid_grow _
    | exact UWriter.tarrayMissing_grow _ | exact UWriter.FSoftObjectPath_grow _
    | exact UWriter.FIntPoint_grow _ | exact UWriter.FLinearColor_grow _
    | exact UWriter.FTQ2FogOfWarPackedData_grow _
    | exact UWriter.FGrimDialogueVariableValue_grow _ | exact he.list _ _ | exact he.ftext _
    | split | intro _ | dsimp only)

theorem UWriter.tmap_grow (e : Encoders) (he : e.Grows) (val : JSVal) :
    M.Returns growRel (UWriter.tmap e val) := by
  unfold UWriter.tmap
  repeat (with_reducible first
    | apply M.Returns.on_bind | apply M.Returns.on_forEachM | apply UWriter.goBack_grow
    | apply UWriter.tarray_grow | exact M.Returns.on_pure _ _ | exact M.Returns.on_fail _ _
    | exact UWriter.getOffset_grow | exact UWriter.int8_grow _ | exact UWriter.uint8_grow _
    | exact UWriter.int16_grow _ | exact UWriter.uint16_grow _ | exact UWriter.int32_grow _
    | exact UWriter.uint32_grow _ | exact UWriter.int64_grow _ | exact UWriter.float_grow _
    | exact UWriter.double_grow _ | exact UWriter.raw_grow _ | exact UWriter.fstring_grow _
    | exact UWriter.fname_grow _ | exact UWriter.object_grow _ | exact UWriter.bool_grow _
    | exact UWriter.FGuidOpt_grow _ | exact UWriter.FGuid_grow _
    | exact UWriter.tarrayMissing_grow _ | exact UWriter.FSoftObjectPath_grow _
    | exact UWriter.FIntPoint_grow _ | exact UWriter.FLinearColor_grow _
    | exact UWriter.FTQ2FogOfWarPackedData_grow _
    | exact UWriter.FGrimDialogueVariableValue_grow _
    | exact UWriter.FFormatArgumentValue_grow e he _ | exact he.list _ _ | exact he.ftext _
    | split | intro _ | dsimp only)

theorem UWriter.ftext_grow (e : Encoders) (he : e.Grows) (val : JSVal) :
    M.Returns growRel (UWriter.ftext e val) := by
  unfold UWriter.ftext
  repeat (with_reducible first
    | apply M.Returns.on_bind | apply M.Returns.on_forEachM | apply UWriter.goBack_grow
    | apply UWriter.tarray_grow | exact M.Returns.on_pure _ _ | exact M.Returns.on_fail _ _
    | exact UWriter.getOffset_grow | exact UWriter.int8_grow _ | exact UWriter.uint8_grow _
    | exact UWriter.int16_grow _ | exact UWriter.uint16_grow _ | exact UWriter.int32_grow _
    | exact UWriter.uint32_grow _ | exact UWriter.int64_grow _ | exact UWriter.float_grow _
    | exact UWriter.double_grow _ | exact UWriter.raw_grow _ | exact UWriter.fstring_grow _
    | exact UWriter.fname_grow _ | exact UWriter.object_grow _ | exact UWriter.bool_grow _
    | exact UWriter.FGuidOpt_grow _ | exact UWriter.FGuid_grow _
    | exact UWriter.tarrayMissing_grow _ | exact UWriter.FSoftObjectPath_grow _
    | exact UWriter.FIntPoint_grow _ | exact UWriter.FLinearColor_grow _
    | exact UWriter.FTQ2FogOfWarPackedData_grow _
    | exact UWriter.FGrimDialogueVariableValue_grow _
    | exact UWriter.FFormatArgumentValue_grow e he _ | exact UWriter.tmap_grow e he _
    | exact he.list _ _ | exact he.ftext _ | split | intro _ | dsimp only)

theorem UWriter.FSaveGameData_grow (e : Encoders) (he : e.Grows) (val : JSVal) :
    M.Returns growRel (UWriter.FSaveGameData e val) := by
  unfold UWriter.FSaveGameData
  repeat (with_reducible first
    | apply M.Returns.on_bind | apply M.Returns.on_forEachM | apply UWriter.goBack_grow
    | apply UWriter.tarray_grow | exact M.Returns.on_pure _ _ | exact M.Returns.on_fail _ _
    | exact UWriter.getOffset_grow | exact UWriter.int8_grow _ | exact UWriter.uint8_grow _
    | exact UWriter.int16_grow _ | exact UWriter.uint16_grow _ | exact UWriter.int32_grow _
    | exact UWriter.uint32_grow _ | exact UWriter.int64_grow _ | exact UWriter.float_grow _
    | exact UWriter.double_grow _ | exact UWriter.raw_grow _ | exact UWriter.fstring_grow _
    | exact UWriter.fname_grow _ | exact UWriter.object_grow _ | exact UWriter.bool_grow _
    | exact UWriter.FGuidOpt_grow _ | exact UWriter.FGuid_grow _
    | exact UWriter.tarrayMissing_grow _ | exact UWriter.FSoftObjectPath_grow _
    | exact UWriter.FIntPoint_grow _ | exact UWriter.FLinearColor_grow _
    | exact UWriter.FTQ2FogOfWarPackedData_grow _
    | exact UWriter.FGrimDialogueVariableValue_grow _
    | exact UWriter.FFormatArgumentValue_grow e he _ | exact UWriter.tmap_grow e he _
    | exact UWriter.ftext_grow e he _ | exact he.list _ _ | exact he.ftext _ | split | intro _
    | dsimp only)

theorem UWriter.FGrimAppearanceHandle_grow (e : Encoders) (he : e.Grows) (val : JSVal) :
    M.Returns growRel (UWriter.FGrimAppearanceHandle e val) := by
  unfold UWriter.FGrimAppearanceHandle
  repeat (with_reducible first
    | apply M.Returns.on_bind | apply M.Returns.on_forEachM | apply UWriter.goBack_grow
    | apply UWriter.tarray_grow | exact M.Returns.on_pure _ _ | exact M.Returns.on_fail _ _
    | exact UWriter.getOffset_grow | exact UWriter.int8_grow _ | exact UWriter.uint8_grow _
    | exact UWriter.int16_grow _ | exact UWriter.uint16_grow _ | exact UWriter.int32_grow _
    | exact UWriter.uint32_grow _ | exact UWriter.int64_grow _ | exact UWriter.float_grow _
    | exact UWriter.double_grow _ | exact UWriter.raw_grow _ | exact UWriter.fstring_grow _
    | exact UWriter.fname_grow _ | exact UWriter.object_grow _ | exact UWriter.bool_grow _
    | exact UWriter.FGuidOpt_grow _ | exact UWriter.FGuid_grow _
    | exact UWriter.tarrayMissing_grow _ | exact UWriter.FSoftObjectPath_grow _
    | exact UWriter.FIntPoint_grow _ | exact UWriter.FLinearColor_grow _
    | exact UWriter.FTQ2FogOfWarPackedData_grow _
    | exact UWriter.FGrimDialogueVariableValue_grow _
    | exact UWriter.FFormatArgumentValue_grow e he _ | exact UWriter.tmap_grow e he _
    | exact UWriter.ftext_grow e he _ | exact UWriter.FSaveGameData_grow e he _
    | exact he.list _ _ | exact he.ftext _ | split | intro _ | dsimp only)

theorem UWriter.FGrimItemInstanceHandle_grow (e : Encoders) (he : e.Grows) (val : JSVal) :
    M.Returns growRel (UWriter.FGrimItemInstanceHandle e val) := by
  unfold UWriter.FGrimItemInstanceHandle
  repeat (with_reducible first
    | apply M.Returns.on_bind | apply M.Returns.on_forEachM | apply UWriter.goBack_grow
    | apply UWriter.tarray_grow | exact M.Returns.on_pure _ _ | exact M.Returns.on_fail _ _
    | exact UWriter.getOffset_grow | exact UWriter.int8_grow _ | exact UWriter.uint8_grow _
    | exact UWriter.int16_grow _ | exact UWriter.uint16_grow _ | exact UWriter.int32_grow _
    | exact UWriter.uint32_grow _ | exact UWriter.int64_grow _ | exact UWriter.float_grow _
    | exact UWriter.double_grow _ | exact UWriter.raw_grow _ | exact UWriter.fstring_grow _
    | exact UWriter.fname_grow _ | exact UWriter.object_grow _ | exact UWriter.bool_grow _
    | exact UWriter.FGuidOpt_grow _ | exact UWriter.FGuid_grow _
    | exact UWriter.tarrayMissing_grow _ | exact UWriter.FSoftObjectPath_grow _
    | exact UWriter.FIntPoint_grow _ | exact UWriter.FLinearColor_grow _
    | exact UWriter.FTQ2FogOfWarPackedData_grow _
    | exact UWriter.FGrimDialogueVariableValue_grow _
    | exact UWriter.FFormatArgumentValue_grow e he _ | exact UWriter.tmap_grow e he _
    | exact UWriter.ftext_grow e he _ | exact UWriter.FSaveGameData_grow e he _
    | exact UWriter.FGrimAppearanceHandle_grow e he _ | exact he.list _ _ | exact he.ftext _
    | split | intro _ | dsimp only)

theorem UWriter.FGrimPtr_IntClassNameProps_grow (e : Encoders) (he : e.Grows) (val : JSVal) :
    M.Returns growRel (UWriter.FGrimPtr_IntClassNameProps e val) := by
  unfold UWriter.FGrimPtr_IntClassNameProps
  repeat (with_reducible first
    | apply M.Returns.on_bind | apply M.Returns.on_forEachM | apply UWriter.goBack_grow
    | apply UWriter.tarray_grow | exact M.Returns.on_pure _ _ | exact M.Returns.on_fail _ _
    | exact UWriter.getOffset_grow | exact UWriter.int8_grow _ | exact UWriter.uint8_grow _
    | exact UWriter.int16_grow _ | exact UWriter.uint16_grow _ | exact UWriter.int32_grow _
    | exact UWriter.uint32_grow _ | exact UWriter.int64_grow _ | exact UWriter.float_grow _
    | exact UWriter.double_grow _ | exact UWriter.raw_grow _ | exact UWriter.fstring_grow _
    | exact UWriter.fname_grow _ | exact UWriter.object_grow _ | exact UWriter.bool_grow _
    | exact UWriter.FGuidOpt_grow _ | exact UWriter.FGuid_grow _
    | exact UWriter.tarrayMissing_grow _ | exact UWriter.FSoftObjectPath_grow _
    | exact UWriter.FIntPoint_grow _ | exact UWriter.FLinearColor_grow _
    | exact UWriter.FTQ2FogOfWarPackedData_grow _
    | exact UWriter.FGrimDialogueVariableValue_grow _
    | exact UWriter.FFormatArgumentValue_grow e he _ | exact UWriter.tmap_grow e he _
    | exact UWriter.ftext_grow e he _ | exact UWriter.FSaveGameData_grow e he _
    | exact UWriter.FGrimAppearanceHandle_grow e he _
    | exact UWriter.FGrimItemInstanceHandle_grow e he _ | exact he.list _ _ | exact he.ftext _
    | split | intro _ | dsimp only)

theorem UWriter.native_grow (e : Encoders) (he : e.Grows) (n : Native) (val : JSVal) :
    M.Returns growRel (UWriter.native e n val) := by
  cases n <;> unfold UWriter.native
  repeat (with_reducible first
    | apply M.Returns.on_bind | apply M.Returns.on_forEachM | apply UWriter.goBack_grow
    | apply UWriter.tarray_grow | exact M.Returns.on_pure _ _ | exact M.Returns.on_fail _ _
    | exact UWriter.getOffset_grow | exact UWriter.int8_grow _ | exact UWriter.uint8_grow _
    | exact UWriter.int16_grow _ | exact UWriter.uint16_grow _ | exact UWriter.int32_grow _
    | exact UWriter.uint32_grow _ | exact UWriter.int64_grow _ | exact UWriter.float_grow _
    | exact UWriter.double_grow _ | exact UWriter.raw_grow _ | exact UWriter.fstring_grow _
    | exact UWriter.fname_grow _ | exact UWriter.object_grow _ | exact UWriter.bool_grow _
    | exact UWriter.FGuidOpt_grow _ | exact UWriter.FGuid_grow _
    | exact UWriter.tarrayMissing_grow _ | exact UWriter.FSoftObjectPath_grow _
    | exact UWriter.FIntPoint_grow _ | exact UWriter.FLinearColor_grow _
    | exact UWriter.FTQ2FogOfWarPackedData_grow _
    | exact UWriter.FGrimDialogueVariableValue_grow _
    | exact UWriter.FFormatArgumentValue_grow e he _ | exact UWriter.tmap_grow e he _
    | exact UWriter.ftext_grow e he _ | exact UWriter.FSaveGameData_grow e he _
    | exact UWriter.FGrimAppearanceHandle_grow e he _
    | exact UWriter.FGrimItemInstanceHandle_grow e he _
    | exact UWriter.FGrimPtr_IntClassNameProps_grow e he _ | exact he.list _ _ | exact he.ftext _
    | split | intro _ | dsimp only)

theorem UWriter.byteValue_grow (f : TagFields) (val : JSVal) :
    M.Returns growRel (UWriter.byteValue f val) := by
  unfold UWriter.byteValue
  repeat (with_reducible first
    | apply M.Returns.on_bind | apply M.Returns.on_forEachM | apply UWriter.goBack_grow
    | apply UWriter.tarray_grow | exact M.Returns.on_pure _ _ | exact M.Returns.on_fail _ _
    | exact UWriter.getOffset_grow | exact UWriter.int8_grow _ | exact UWriter.uint8_grow _
    | exact UWriter.int16_grow _ | exact UWriter.uint16_grow _ | exact UWriter.int32_grow _
    | exact UWriter.uint32_grow _ | exact UWriter.int64_grow _ | exact UWriter.float_grow _
    | exact UWriter.double_grow _ | exact UWriter.raw_grow _ | exact UWriter.fstring_grow _
    | exact UWriter.fname_grow _ | exact UWriter.object_grow _ | exact UWriter.bool_grow _
    | exact UWriter.FGuidOpt_grow _ | exact UWriter.FGuid_grow _
    | exact UWriter.tarrayMissing_grow _ | exact UWriter.FSoftObjectPath_grow _
    | exact UWriter.FIntPoint_grow _ | exact UWriter.FLinearColor_grow _
    | exact UWriter.FTQ2FogOfWarPackedData_grow _
    | exact UWriter.FGrimDialogueVariableValue_grow _
    | exact UWriter.FFormatArgumentValue_grow e he _ | exact UWriter.tmap_grow e he _
    | exact UWriter.ftext_grow e he _ | exact UWriter.FSaveGameData_grow e he _
    | exact UWriter.FGrimAppearanceHandle_grow e he _
    | exact UWriter.FGrimItemInstanceHandle_grow e he _
    | exact UWriter.FGrimPtr_IntClassNameProps_grow e he _ | exact UWriter.native_grow e he _ _
    | split | intro _ | dsimp only)

theorem UWriter.common_grow (e : Encoders) (he : e.Grows) (f : TagFields) (val : JSVal)
    (m : WM Unit) (h : UWriter.FPropertyValue_common e f val = some m) :
    M.Returns growRel m := by
  unfold UWriter.FPropertyValue_common at h
  by_cases c0 : f.Name = some (js "None")
  · rw [if_pos c0] at h; injection h with h; subst h; exact M.Returns.on_pure _ _
  rw [if_neg c0] at h
  by_cases c1 : f.Typ = some (js "NameProperty")
  · rw [if_pos c1] at h; injection h with h; subst h; exact UWriter.fname_grow _
  rw [if_neg c1] at h
  by_cases c2 : f.Typ = some (js "EnumProperty")
  · rw [if_pos c2] at h; injection h with h; subst h; exact UWriter.fname_grow _
  rw [if_neg c2] at h
  by_cases c3 : f.Typ = some (js "IntProperty")
  · rw [if_pos c3] at h; injection h with h; subst h; exact UWriter.int32_grow _
  rw [if_neg c3] at h
  by_cases c4 : f.Typ = some (js "ObjectProperty")
  · rw [if_pos c4] at h; injection h with h; subst h; exact UWriter.object_grow _
  rw [if_neg c4] at h
  by_cases c5 : f.Typ = some (js "SoftObjectProperty")
  · rw [if_pos c5] at h; injection h with h; subst h; exact UWriter.FSoftObjectPath_grow _
  rw [if_neg c5] at h
  by_cases c6 : f.Typ = some (js "UInt64Property")
  · rw [if_pos c6] at h; injection h with h; subst h; exact UWriter.int64_grow _
  rw [if_neg c6] at h
  by_cases c7 : f.Typ = some (js "Int16Property")
  · rw [if_pos c7] at h; injection h with h; subst h; exact UWriter.int16_grow _
  rw [if_neg c7] at h
  by_cases c8 : f.Typ = some (js "UInt16Property")
  · rw [if_pos c8] at h; injection h with h; subst h; exact UWriter.uint16_grow _
  rw [if_neg c8] at h
  by_cases c9 : f.Typ = some (js "Int64Property")
  · rw [if_pos c9] at h; injection h with h; subst h; exact UWriter.int64_grow _
  rw [if_neg c9] at h
  by_cases c10 : f.Typ = some (js "FloatProperty")
  · rw [if_pos c10] at h; injection h with h; subst h; exact UWriter.float_grow _
  rw [if_neg c10] at h
  by_cases c11 : f.Typ = some (js "DoubleProperty")
  · rw [if_pos c11] at h; injection h with h; subst h; exact UWriter.double_grow _
  rw [if_neg c11] at h
  by_cases c12 : f.Typ = some (js "StrProperty")
  · rw [if_pos c12] at h; injection h with h; subst h; exact UWriter.fstring_grow _
  rw [if_neg c12] at h
  by_cases c13 : f.Typ = some (js "TextProperty")
  · rw [if_pos c13] at h; injection h with h; subst h; exact he.ftext _
  rw [if_neg c13] at h
  by_cases c14 : f.Typ = some (js "MulticastSparseDelegateProperty") ∨
      f.Typ = some (js "MulticastInlineDelegateProperty")
  · rw [if_pos c14] at h; injection h with h; subst h; exact UWriter.tarrayMissing_grow _
  rw [if_neg c14] at h
  cases h

theorem unliftR_grow {α : Type} (m : WTM α) (tag : Tag) (hm : M.Returns rdRel m) :
    M.Returns growRel (fun w => match m ⟨tag, w⟩ with | ⟨o, s⟩ => (⟨o, s.rd⟩ : Res UWriter α)) := by
  constructor
  intro w a w' h
  cases hr : m ⟨tag, w⟩ with
  | mk o s =>
    rw [hr] at h
    simp only [Res.mk.injEq] at h
    obtain ⟨ho, hs⟩ := h
    subst ho
    rw [← hs]
    exact hm.holds _ _ _ hr

theorem UWriter.tagExtras_rd : M.Returns rdRel UWriter.tagExtras := by
  unfold UWriter.tagExtras
  repeat (with_reducible first
    | apply M.Returns.on_bind | exact M.Returns.on_pure _ _ | exact M.Returns.on_getTag _
    | exact modTag_rd _ | apply liftR_rd | exact UWriter.fname_grow _
    | exact UWriter.FGuidOpt_grow _ | exact UWriter.getOffset_grow | exact UWriter.uint8_grow _
    | split | intro _ | dsimp only)

theorem UWriter.FPropertyTag_rd : M.Returns rdRel UWriter.FPropertyTag := by
  unfold UWriter.FPropertyTag
  repeat (with_reducible first
    | apply M.Returns.on_bind | exact M.Returns.on_pure _ _ | exact M.Returns.on_fail _ _
    | exact M.Returns.on_getTag _
    | exact modTag_rd _ | exact UWriter.tagExtras_rd | apply liftR_rd
    | exact UWriter.fname_grow _ | exact UWriter.int32_grow _
    | exact UWriter.FGuidOpt_grow _ | exact UWriter.getOffset_grow | exact UWriter.uint8_grow _
    | split | intro _ | dsimp only)

theorem UWriter.patchSize_rd : M.Returns rdRel UWriter.patchSize := by
  unfold UWriter.patchSize
  repeat (with_reducible first
    | apply M.Returns.on_bind | exact M.Returns.on_pure _ _ | exact M.Returns.on_fail _ _
    | exact M.Returns.on_getTag _ | apply liftR_rd | apply UWriter.goBack_grow
    | exact UWriter.int32_grow _ | split | intro _ | dsimp only)

theorem UWriter.arrayValue_own (e : Encoders) (he : e.Grows) (val : JSVal) :
    M.Returns ownRel (UWriter.arrayValue e val) := by
  unfold UWriter.arrayValue
  repeat (with_reducible first
    | apply M.Returns.on_bind | apply M.Returns.on_forEachM | exact M.Returns.on_pure _ _
    | exact M.Returns.on_fail _ _ | exact M.Returns.on_getTag _ | apply liftR_own
    | apply onInner_own | exact UWriter.FPropertyTag_rd | exact UWriter.patchSize_rd
    | exact own_rd (he.value _) | exact UWriter.int32_grow _ | split | intro _ | dsimp only)

theorem UWriter.mapValue_own (e : Encoders) (he : e.Grows) (val : JSVal) :
    M.Returns ownRel (UWriter.mapValue e val) := by
  unfold UWriter.mapValue
  repeat (with_reducible first
    | apply M.Returns.on_bind | apply M.Returns.on_forEachM | exact M.Returns.on_pure _ _
    | exact M.Returns.on_fail _ _ | exact M.Returns.on_getTag _ | apply liftR_own
    | apply onInner_own | apply onValue_own | exact own_rd (he.value _)
    | exact UWriter.int32_grow _ | exact UWriter.raw_grow _ | split | intro _ | dsimp only)

theorem UWriter.setValue_own (e : Encoders) (he : e.Grows) (val : JSVal) :
    M.Returns ownRel (UWriter.setValue e val) := by
  unfold UWriter.setValue
  repeat (with_reducible first
    | apply M.Returns.on_bind | apply M.Returns.on_forEachM | exact M.Returns.on_pure _ _
    | exact M.Returns.on_fail _ _ | exact M.Returns.on_getTag _ | apply liftR_own
    | apply onInner_own | exact own_rd (he.value _)
    | exact UWriter.int32_grow _ | split | intro _ | dsimp only)

theorem UWriter.FPropertyValue_own (e : Encoders) (he : e.Grows) (val : JSVal) :
    M.Returns ownRel (UWriter.FPropertyValue e val) := by
  unfold UWriter.FPropertyValue
  repeat (with_reducible first
    | apply M.Returns.on_bind | exact M.Returns.on_pure _ _
    | exact M.Returns.on_fail _ _ | exact M.Returns.on_getTag _
    | exact liftR_own (UWriter.common_grow e he _ _ _ (by assumption))
    | exact UWriter.arrayValue_own e he _ | exact UWriter.mapValue_own e he _
    | exact UWriter.setValue_own e he _
    | apply liftR_own | apply UWriter.goBack_grow | exact UWriter.uint8_grow _
    | exact UWriter.byteValue_grow _ _ | exact UWriter.native_grow e he _ _
    | exact he.list _ _ | exact UWriter.raw_grow _ | split | intro _ | dsimp only)

theorem propValue_rd (fs : List (JSString × JSVal)) (name : Option JSString) :
    M.Returns rdRel (propValue fs name) := by
  unfold propValue
  repeat (with_reducible first
    | exact M.Returns.on_pure _ _ | exact M.Returns.on_fail _ _ | split | intro _ | dsimp only)

theorem UWriter.writeTagAndValue_rd (e : Encoders) (he : e.Grows)
    (fs : List (JSString × JSVal)) : M.Returns rdRel (UWriter.writeTagAndValue e fs) := by
  unfold UWriter.writeTagAndValue
  repeat (with_reducible first
    | apply M.Returns.on_bind | exact M.Returns.on_getTag _ | exact UWriter.FPropertyTag_rd
    | exact propValue_rd _ _ | exact own_rd (he.value _) | intro _ | dsimp only)

theorem UWriter.writeProperty_grow (e : Encoders) (he : e.Grows)
    (fs : List (JSString × JSVal)) (tag : Tag) :
    M.Returns growRel (UWriter.writeProperty e fs tag) :=
  unliftR_grow _ tag
    (M.Returns.on_bind _ (UWriter.writeTagAndValue_rd e he fs) (fun _ => UWriter.patchSize_rd))

theorem UWriter.terminator_grow : M.Returns growRel UWriter.terminator :=
  unliftR_grow UWriter.FPropertyTag (Tag.ofFields { Name := some (js "None") })
    UWriter.FPropertyTag_rd

theorem UWriter.FPropertyList_grow (e : Encoders) (he : e.Grows) (val : JSVal) (b : Bool) :
    M.Returns growRel (UWriter.FPropertyList e val b) := by
  unfold UWriter.FPropertyList
  repeat (with_reducible first
    | apply M.Returns.on_bind | apply M.Returns.on_forEachM | exact M.Returns.on_pure _ _
    | exact M.Returns.on_fail _ _ | exact UWriter.writeProperty_grow e he _ _
    | exact UWriter.terminator_grow | exact UWriter.int32_grow _ | split | intro _ | dsimp only)

theorem encoders_grows (fuel : Nat) : (encoders fuel).Grows := by
  induction fuel with
  | zero =>
    exact ⟨fun _ => M.Returns.on_fail _ _, fun _ _ => M.Returns.on_fail _ _,
      fun _ => M.Returns.on_fail _ _⟩
  | succ n ih =>
    exact ⟨fun v => UWriter.FPropertyValue_own _ ih v,
      fun v b => UWriter.FPropertyList_grow _ ih v b, fun v => UWriter.ftext_grow _ ih v⟩

/-! ## Static array names -/

theorem liftR_name {α : Type} (m : WM α) : M.Returns nameRel (liftR m) := by
  constructor
  intro s a s' h
  show s'.tag.f.Name = s.tag.f.Name
  rw [(liftR_ok h).1]

theorem modTag_name (g : TagFields → TagFields) (hg : ∀ f, (g f).Name = f.Name) :
    M.Returns nameRel (modTag g) := by
  constructor
  intro s a s' h
  show s'.tag.f.Name = s.tag.f.Name
  rw [(modTag_ok h).1]
  exact hg _

theorem UWriter.tagExtras_name : M.Returns nameRel UWriter.tagExtras := by
  unfold UWriter.tagExtras
  repeat (with_reducible first
    | apply M.Returns.on_bind | exact M.Returns.on_pure _ _ | exact M.Returns.on_getTag _
    | exact modTag_name _ (fun _ => rfl) | exact liftR_name _
    | split | intro _ | dsimp only)

theorem UWriter.FPropertyTag_name : M.Returns nameRel UWriter.FPropertyTag := by
  unfold UWriter.FPropertyTag
  repeat (with_reducible first
    | apply M.Returns.on_bind | exact M.Returns.on_pure _ _ | exact M.Returns.on_fail _ _
    | exact M.Returns.on_getTag _ | exact modTag_name _ (fun _ => rfl) | exact liftR_name _
    | exact UWriter.tagExtras_name | split | intro _ | dsimp only)

theorem UWriter.FPropertyTag_keeps_name (tag t' : Tag) (w w' : UWriter) (u : Unit)
    (h : UWriter.FPropertyTag ⟨tag, w⟩ = ⟨.ok u, ⟨t', w'⟩⟩) : t'.f.Name = tag.f.Name :=
  UWriter.FPropertyTag_name.holds _ _ _ h

/-- The example of C3 in full: three consecutive tags named `Foo` with array indices 0, 1, 2
decode to the names `Foo`, `Foo[1]`, `Foo[2]`, and encoding the decoded list gives the original
bytes, where all three tags carry the name `Foo`. -/
theorem static_array_foo_example :
    tagNames ((UReader.FPropertyList (decoders {} 4) false ⟨exFooWire, 0⟩).out.toOption.getD
      .null) = [some (js "Foo"), some (js "Foo[1]"), some (js "Foo[2]")] ∧
    reencodeList 4 exFooWire false = some exFooWire := by
  decide!

/-! ## The size backpatch -/

theorem modTag_own (g : TagFields → TagFields)
    (hg : ∀ f, (g f).Name = f.Name ∧ (g f).size_offset = f.size_offset ∧
      (g f).data_offset = f.data_offset) : M.Returns ownRel (modTag g) := by
  constructor
  intro s a s' h
  obtain ⟨ht, hr⟩ := modTag_ok h
  refine ⟨?_, ?_, ?_, ?_⟩
  · rw [hr]; exact growRel.refl _
  · rw [ht]; exact (hg _).1
  · rw [ht]; exact (hg _).2.1
  · rw [ht]; exact (hg _).2.2

theorem UWriter.tagExtras_own : M.Returns ownRel UWriter.tagExtras := by
  unfold UWriter.tagExtras
  repeat (with_reducible first
    | apply M.Returns.on_bind | exact M.Returns.on_pure _ _ | exact M.Returns.on_getTag _
    | exact modTag_own _ (fun _ => ⟨rfl, rfl, rfl⟩) | apply liftR_own
    | exact UWriter.fname_grow _ | exact UWriter.FGuidOpt_grow _ | exact UWriter.getOffset_grow
    | exact UWriter.uint8_grow _ | split | intro _ | dsimp only)

/-- The writer's `FPropertyTag` on a tag that is not the terminator: the recorded size
position is followed by at least four bytes before the recorded value start, which is the
cursor at the return, inside the buffer. -/
theorem UWriter.FPropertyTag_spec (tag : Tag) (w : UWriter) (s1 : TState UWriter) (u : Unit)
    (hname : tag.f.Name ≠ some (js "None"))
    (h : UWriter.FPropertyTag ⟨tag, w⟩ = ⟨.ok u, s1⟩) :
    ∃ so : Nat, s1.tag.f.size_offset = some (so : Int) ∧
      s1.tag.f.data_offset = some (s1.rd.offset : Int) ∧
      w.offset ≤ so ∧ so + 4 ≤ s1.rd.offset ∧ s1.rd.offset < s1.rd.length := by
  unfold UWriter.FPropertyTag at h
  rw [getTag_bind, UWriter.getOffset_bind, modTag_bind] at h
  cases hn : tag.f.Name with
  | none => simp [hn] at h
  | some name =>
    simp only [hn] at h
    obtain ⟨_, s4, h4, h⟩ := M.bind_ok h
    have g4 := (liftR_own (UWriter.fname_grow _)).holds _ _ _ h4
    rw [if_neg (by intro hc; exact hname (by rw [hn, hc]))] at h
    rw [getTag_bind] at h
    obtain ⟨_, s6, h6, h⟩ := M.bind_ok h
    have g6 := (liftR_own (UWriter.fname_grow _)).holds _ _ _ h6
    rw [UWriter.getOffset_bind] at h
    obtain ⟨_, s8, h8, h⟩ := M.bind_ok h
    have e8 := (liftR_ok h8).2
    rw [show UWriter.int32 (.num 0) = UWriter.writeInt 32 true (.num 0) from rfl,
      UWriter.writeInt_num 32 true 0 _ (by decide) (by decide)] at e8
    simp only [Res.mk.injEq, true_and] at e8
    have o8 : s8.rd.offset = s6.rd.offset + 4 := by
      rw [← e8, UWriter.put_offset, UWriter.grow_offset]; rfl
    have l8 : s8.rd.offset < s8.rd.length := by
      have := UWriter.grow_fits s6.rd (32 / 8)
      rw [o8, ← e8, UWriter.put_length]
      rw [UWriter.grow_offset] at this
      omega
    obtain ⟨_, s9, h9, h⟩ := M.bind_ok h
    have g9 := (liftR_own (UWriter.int32_grow _)).holds _ _ _ h9
    rw [modTag_bind] at h
    obtain ⟨_, s11, h11, h⟩ := M.bind_ok h
    have g11 := UWriter.tagExtras_own.holds _ _ _ h11
    rw [getTag_bind] at h
    obtain ⟨_, s13, h13, h⟩ := M.bind_ok h
    have g13 := (liftR_own (UWriter.uint8_grow _)).holds _ _ _ h13
    have g := ownRel.trans _ _ _ g11 g13
    have key : ∀ s14 : TState UWriter, ownRel.rel s13 s14 →
        s1.tag.f.size_offset = s14.tag.f.size_offset →
        s1.tag.f.data_offset = some (s14.rd.offset : Int) → s1.rd = s14.rd →
        ∃ so : Nat, s1.tag.f.size_offset = some (so : Int) ∧
          s1.tag.f.data_offset = some (s1.rd.offset : Int) ∧
          w.offset ≤ so ∧ so + 4 ≤ s1.rd.offset ∧ s1.rd.offset < s1.rd.length := by
      intro s14 g14 hs hd hr
      have g' := ownRel.trans _ _ _ g g14
      refine ⟨s6.rd.offset, ?_, ?_, ?_, ?_, ?_⟩
      · rw [hs, g'.2.2.1]
        rfl
      · rw [hd, hr]
      · exact Nat.le_trans g4.1.1 g6.1.1
      · rw [hr]
        have h9 := g9.1.1
        have h14 := g'.1.1
        have e9 : ∀ t : Tag, (TState.mk t s9.rd).rd = s9.rd := fun _ => rfl
        rw [e9] at h14
        omega
      · rw [hr]
        exact g'.1.2.2 (g9.1.2.2 l8)
    split at h
    · obtain ⟨_, s14, h14, h⟩ := M.bind_ok h
      have g14 := (liftR_own (UWriter.FGuidOpt_grow _)).holds _ _ _ h14
      rw [UWriter.getOffset_bind] at h
      obtain ⟨ht, hr⟩ := modTag_ok h
      exact key s14 g14 (by rw [ht]; rfl) (by rw [ht]; rfl) hr
    · obtain ⟨_, s14, h14, h⟩ := M.bind_ok h
      have g14 : ownRel.rel s13 s14 := by rw [(M.pure_ok h14).2]; exact ownRel.refl _
      rw [UWriter.getOffset_bind] at h
      obtain ⟨ht, hr⟩ := modTag_ok h
      exact key s14 g14 (by rw [ht]; rfl) (by rw [ht]; rfl) hr

theorem UWriter.grow_of_fits (w : UWriter) (n : Nat) (h : w.offset + n < w.length) :
    w.grow n = w := by
  unfold UWriter.grow
  rw [if_neg (by omega)]

theorem toUnsigned_of_nat (bits n : Nat) (h : n < 2 ^ bits) : toUnsigned bits (n : Int) = n := by
  unfold toUnsigned
  have : ((n : Int) % 2 ^ bits) = n := by
    apply Int.emod_eq_of_lt (by omega)
    exact_mod_cast h
  rw [this, Int.toNat_ofNat]

/-- The backpatch on a tag whose recorded size position `so` and value start `d` satisfy
`so + 4 ≤ d ≤ cursor < length`: it returns, stores the four little-endian bytes of
`cursor - d` at `so`, changes no other byte, and restores the cursor. -/
theorem UWriter.patchSize_spec (s : TState UWriter) (so d : Nat)
    (hso : s.tag.f.size_offset = some (so : Int)) (hd : s.tag.f.data_offset = some (d : Int))
    (h1 : so + 4 ≤ d) (h2 : d ≤ s.rd.offset) (h3 : s.rd.offset < s.rd.length)
    (h4 : s.rd.offset - d < 2 ^ 31) :
    ∃ w3, UWriter.patchSize s = ⟨.ok (), ⟨s.tag, w3⟩⟩ ∧ w3.offset = s.rd.offset ∧
      w3.length = s.rd.length ∧
      (∀ i, i < 4 → w3.byteAt (so + i) = (leBytes 4 (s.rd.offset - d)).getD i 0) ∧
      (∀ j, j < so ∨ so + 4 ≤ j → w3.byteAt j = s.rd.byteAt j) := by
  have hseek1 : UWriter.seek (so : Int) s.rd = ⟨.ok (), { s.rd with offset := so }⟩ := by
    unfold UWriter.seek
    rw [if_neg (by omega), Int.toNat_ofNat]
  have hval : ((s.rd.offset : Nat) : Int) - (d : Int) = ((s.rd.offset - d : Nat) : Int) := by
    omega
  have hint : UWriter.int32 (.num (((s.rd.offset : Nat) : Int) - (d : Int)))
      { s.rd with offset := so } =
      ⟨.ok (), ({ s.rd with offset := so } : UWriter).put (leBytes 4 (s.rd.offset - d))⟩ := by
    rw [show UWriter.int32 (.num (((s.rd.offset : Nat) : Int) - (d : Int))) =
        UWriter.writeInt 32 true (.num (((s.rd.offset : Nat) : Int) - (d : Int))) from rfl,
      UWriter.writeInt_num 32 true _ _ (by simp only [if_true]; omega)
        (by simp only [if_true]; rw [hval]; exact_mod_cast h4),
      UWriter.grow_of_fits _ _ (by show so + 32 / 8 < s.rd.length; omega), hval,
      toUnsigned_of_nat 32 _ (by omega)]
  have hseek2 : UWriter.seek ((s.rd.offset : Nat) : Int)
      (({ s.rd with offset := so } : UWriter).put (leBytes 4 (s.rd.offset - d))) =
      ⟨.ok (), { ({ s.rd with offset := so } : UWriter).put (leBytes 4 (s.rd.offset - d))
        with offset := s.rd.offset }⟩ := by
    unfold UWriter.seek
    rw [if_neg (by rw [UWriter.put_length]; show ¬ (_ ∨ ((s.rd.length : Nat) : Int) ≤ _); omega),
      Int.toNat_ofNat]
  have hgo : UWriter.goBack (so : Int)
      (fun headOffset => UWriter.int32 (.num ((headOffset : Int) - (d : Int)))) s.rd =
      ⟨.ok (), { ({ s.rd with offset := so } : UWriter).put (leBytes 4 (s.rd.offset - d))
        with offset := s.rd.offset }⟩ := by
    unfold UWriter.goBack
    simp only [M.bind_apply, hseek1, hint, hseek2]
  refine ⟨{ ({ s.rd with offset := so } : UWriter).put (leBytes 4 (s.rd.offset - d))
    with offset := s.rd.offset }, ?_, rfl, rfl, ?_, ?_⟩
  · unfold UWriter.patchSize
    rw [getTag_bind]
    simp only [hso, hd]
    unfold liftR
    rw [hgo]
  · intro i hi
    exact UWriter.put_byteAt_in ({ s.rd with offset := so } : UWriter) _ i
      (by rw [leBytes_length]; exact hi)
  · intro j hj
    exact UWriter.put_byteAt_out ({ s.rd with offset := so } : UWriter) _ j
      (by rw [leBytes_length]; exact hj)

theorem propValue_ok (fs : List (JSString × JSVal)) (name : Option JSString)
    (s s' : TState UWriter) (v : JSVal) (h : propValue fs name s = ⟨.ok v, s'⟩) : s' = s := by
  unfold propValue at h
  revert h
  cases objGet fs (name.getD (js "undefined")) with
  | some x => intro h; exact (M.pure_ok h).2.symm
  | none =>
    intro h
    dsimp only at h
    split at h
    · simp only [M.fail_apply, Res.mk.injEq, reduceCtorEq, false_and] at h
    · exact (M.pure_ok h).2.symm

/-- C9. One iteration of the loop of `UWriter.FPropertyList`, with the encoders of any nesting
depth, on a tag that is not the terminator: when tag and value have been written (and the value
takes less than `2^31` bytes) the tag has recorded a size position `so` and a value start `d`
with `so + 4 ≤ d ≤ cursor`; the backpatch returns, the four bytes at `so` are the little-endian
bytes of `cursor - d`, every byte outside `[so, so + 4)` is unchanged (so is every size field
inside the value, which starts at `d`), and the cursor and the buffer length are as before the
patch. -/
theorem size_backpatch (fuel : Nat) (fs : List (JSString × JSVal)) (tag : Tag) (w : UWriter)
    (s2 : TState UWriter) (hname : tag.f.Name ≠ some (js "None"))
    (h : UWriter.writeTagAndValue (encoders fuel) fs ⟨tag, w⟩ = ⟨.ok (), s2⟩)
    (hfit : ∀ d : Int, s2.tag.f.data_offset = some d → s2.rd.offset - d < 2 ^ 31) :
    ∃ so d : Nat, s2.tag.f.size_offset = some (so : Int) ∧
      s2.tag.f.data_offset = some (d : Int) ∧ w.offset ≤ so ∧ so + 4 ≤ d ∧ d ≤ s2.rd.offset ∧
      ∃ w3, UWriter.patchSize s2 = ⟨.ok (), ⟨s2.tag, w3⟩⟩ ∧
        UWriter.writeProperty (encoders fuel) fs tag w = ⟨.ok (), w3⟩ ∧
        w3.offset = s2.rd.offset ∧ w3.length = s2.rd.length ∧
        (∀ i, i < 4 → w3.byteAt (so + i) = (leBytes 4 (s2.rd.offset - d)).getD i 0) ∧
        (∀ j, j < so ∨ so + 4 ≤ j → w3.byteAt j = s2.rd.byteAt j) := by
  have h0 := h
  unfold UWriter.writeTagAndValue at h
  obtain ⟨_, s1, ht, h⟩ := M.bind_ok h
  obtain ⟨so, hso, hd, hw, hsd, hlt⟩ := UWriter.FPropertyTag_spec tag w s1 _ hname ht
  rw [getTag_bind] at h
  obtain ⟨v, s1', hp, h⟩ := M.bind_ok h
  rw [propValue_ok _ _ _ _ _ hp] at h
  obtain ⟨hg, -, hso2, hd2⟩ := ((encoders_grows fuel).value v).holds _ _ _ h
  rw [hso] at hso2
  rw [hd] at hd2
  have hfit2 := hfit _ hd2
  obtain ⟨w3, hpatch, e1, e2, e3, e4⟩ := UWriter.patchSize_spec s2 so s1.rd.offset hso2 hd2 hsd
    hg.1 (hg.2.2 hlt) (by have := hg.1; omega)
  refine ⟨so, s1.rd.offset, hso2, hd2, hw, hsd, hg.1, w3, hpatch, ?_, e1, e2, e3, e4⟩
  have hb : (UWriter.writeTagAndValue (encoders fuel) fs >>= fun _ => UWriter.patchSize)
      ⟨tag, w⟩ = ⟨.ok (), ⟨s2.tag, w3⟩⟩ := by
    rw [M.bind_apply, h0]
    exact hpatch
  exact congrArg (fun r => (⟨r.out, r.st.rd⟩ : Res UWriter Unit)) hb

set_option maxRecDepth 8000 in
/-- C9 at the property `Foo` (IntProperty, value 10) written to a fresh writer: the size
position is 24, the value start 33, and the patched field holds 4. -/
theorem size_backpatch_witness :
    ∃ so d : Nat, exIntWritten.tag.f.size_offset = some (so : Int) ∧
      exIntWritten.tag.f.data_offset = some (d : Int) ∧ UWriter.new.offset ≤ so ∧ so + 4 ≤ d ∧
      d ≤ exIntWritten.rd.offset ∧
      ∃ w3, UWriter.patchSize exIntWritten = ⟨.ok (), ⟨exIntWritten.tag, w3⟩⟩ ∧
        UWriter.writeProperty (encoders 1) [(js "Foo", .num 10)] exIntTag UWriter.new =
          ⟨.ok (), w3⟩ ∧
        w3.offset = exIntWritten.rd.offset ∧ w3.length = exIntWritten.rd.length ∧
        (∀ i, i < 4 →
          w3.byteAt (so + i) = (leBytes 4 (exIntWritten.rd.offset - d)).getD i 0) ∧
        (∀ j, j < so ∨ so + 4 ≤ j → w3.byteAt j = exIntWritten.rd.byteAt j) :=
  size_backpatch 1 [(js "Foo", .num 10)] exIntTag UWriter.new exIntWritten (by decide) (by rfl)
    (by
      intro d hd
      have e : exIntWritten.tag.f.data_offset = some 33 := by rfl
      have eo : exIntWritten.rd.offset = 37 := by rfl
      rw [e] at hd
      injection hd with hd
      rw [eo, ← hd]
      decide)

/-! ## The raw fallback of a map -/

theorem onInner_fields {α : Type} (m : TM α) : M.Preserves fieldsRel (onInner m) := by
  constructor
  intro s
  unfold onInner
  split
  · rfl
  · rfl

theorem onValue_fields {α : Type} (m : TM α) : M.Preserves fieldsRel (onValue m) := by
  constructor
  intro s
  unfold onValue
  split
  · rfl
  · rfl

theorem UReader.mapItem_fields (d : Decoders) : M.Preserves fieldsRel (UReader.mapItem d) := by
  unfold UReader.mapItem
  exact M.Preserves.bind _ (onInner_fields _) (fun _ =>
    M.Preserves.bind _ (onValue_fields _) (fun _ => M.Preserves.pure _ _))

theorem bufSlice_inside (b : List Nat) (s n : Nat) (h : s + n ≤ b.length) :
    bufSlice b (s : Int) ((s : Int) + (n : Int)) = sliceNat b s n := by
  unfold bufSlice adjustOffset
  dsimp only
  by_cases hs : s = b.length
  · have hn : n = 0 := by omega
    subst hn
    simp [sliceNat]
  · rw [if_neg (by omega), if_pos (by omega), if_neg (by omega), Int.toNat_ofNat]
    by_cases he : s + n = b.length
    · rw [if_neg (by omega)]
      congr 1
      omega
    · rw [if_pos (by omega)]
      congr 1
      omega

theorem liftR_eq {ρ α : Type} {m : M ρ α} {s : TState ρ} {o : Except Fault α} {r' : ρ}
    (h : m s.rd = ⟨o, r'⟩) : liftR m s = ⟨o, ⟨s.tag, r'⟩⟩ := by
  unfold liftR
  rw [h]

theorem UReader.raw_inside (b : List Nat) (dOff N : Nat) (h : dOff + N ≤ b.length) :
    UReader.raw (N : Int) ⟨b, dOff⟩ = ⟨.ok (sliceNat b dOff N), ⟨b, (dOff : Int) + N⟩⟩ := by
  unfold UReader.raw
  simp only [M.bind_apply, advance_apply, getOffset_apply]
  rw [show ((dOff : Int) + (N : Int) - (N : Int)) = (dOff : Int) by omega,
    bufSlice_inside _ _ _ h]

/-- The `catch` block of the map branch on a tag whose value region lies inside the buffer. -/
theorem UReader.mapFallback_inside (xs : List JSVal) (count : Nat) (s : TState UReader)
    (dOff N : Nat) (hS : s.tag.f.Size = some (.int (N : Int)))
    (hD : s.tag.f.data_offset = some (dOff : Int))
    (h1 : dOff < s.rd.buffer.length) (h2 : dOff + N ≤ s.rd.buffer.length) :
    UReader.mapFallback xs count s =
      ⟨.ok (.array xs (count - xs.length) (some (sliceNat s.rd.buffer dOff N))),
        ⟨s.tag.setF { s.tag.f with MapAsBuffer := true }, ⟨s.rd.buffer, (dOff : Int) + N⟩⟩⟩ := by
  have hseek : UReader.seek (dOff : Int) s.rd = ⟨.ok (), ⟨s.rd.buffer, dOff⟩⟩ := by
    unfold UReader.seek
    rw [if_neg (by omega)]
  have hs1 : liftR (seekDataOffset (some (dOff : Int)))
      (⟨s.tag.setF { s.tag.f with MapAsBuffer := true }, s.rd⟩ : TState UReader) =
      ⟨.ok (), ⟨s.tag.setF { s.tag.f with MapAsBuffer := true }, ⟨s.rd.buffer, dOff⟩⟩⟩ :=
    liftR_eq hseek
  have hs2 : liftR (UReader.raw (N : Int))
      (⟨s.tag.setF { s.tag.f with MapAsBuffer := true }, ⟨s.rd.buffer, dOff⟩⟩ :
        TState UReader) =
      ⟨.ok (sliceNat s.rd.buffer dOff N),
        ⟨s.tag.setF { s.tag.f with MapAsBuffer := true }, ⟨s.rd.buffer, (dOff : Int) + N⟩⟩⟩ :=
    liftR_eq (UReader.raw_inside _ _ _ h2)
  unfold UReader.mapFallback
  rw [modTag_bind, getTag_bind]
  have e1 : (s.tag.setF { s.tag.f with MapAsBuffer := true }).f.data_offset =
      some (dOff : Int) := hD
  have e2 : (s.tag.setF { s.tag.f with MapAsBuffer := true }).f.Size =
      some (.int (N : Int)) := hS
  dsimp only
  rw [e1, e2, M.bind_apply, hs1]
  dsimp only
  rw [M.bind_apply, hs2]
  rfl

theorem UReader.common_map (d : Decoders) (f : TagFields)
    (hT : f.Typ = some (js "MapProperty")) (hN : f.Name ≠ some (js "None")) :
    UReader.FPropertyValue_common d f = none := by
  unfold UReader.FPropertyValue_common
  rw [if_neg hN, hT]
  repeat rw [if_neg (by decide)]

theorem UReader.unsafe_map (d : Decoders) (tag : Tag) (r : UReader)
    (hT : tag.f.Typ = some (js "MapProperty")) (hN : tag.f.Name ≠ some (js "None")) :
    UReader.FPropertyValue_unsafe d ⟨tag, r⟩ = UReader.mapValue d ⟨tag, r⟩ := by
  unfold UReader.FPropertyValue_unsafe
  simp only [M.bind_apply, getTag, UReader.common_map d tag.f hT hN, hT]
  repeat rw [if_neg (by decide)]
  rw [if_pos trivial]

theorem UWriter.common_map_none (e : Encoders) (f : TagFields) (val : JSVal)
    (hT : f.Typ = some (js "MapProperty")) (hN : f.Name ≠ some (js "None")) :
    UWriter.FPropertyValue_common e f val = none := by
  unfold UWriter.FPropertyValue_common
  rw [if_neg hN, hT]
  repeat rw [if_neg (by decide)]

theorem UWriter.raw_emits (bs : List Nat) (w : UWriter) :
    UWriter.raw (.buffer bs) w = ⟨.ok (), (w.grow bs.length).put bs⟩ := by
  unfold UWriter.raw
  simp only [M.bind_apply, UWriter.checkBuf]
  have := UWriter.grow_fits w bs.length
  rw [List.take_of_length_le (by omega)]

/-- The writer's value encode on a map tag flagged as raw: the stored bytes are emitted. -/
theorem UWriter.map_as_buffer (enc : Encoders) (t : Tag) (w : UWriter) (xs : List JSVal)
    (holes : Nat) (bs : List Nat) (hT : t.f.Typ = some (js "MapProperty"))
    (hN : t.f.Name ≠ some (js "None")) (hM : t.f.MapAsBuffer = true) :
    UWriter.FPropertyValue enc (.array xs holes (some bs)) ⟨t, w⟩ =
      ⟨.ok (), ⟨t, (w.grow bs.length).put bs⟩⟩ := by
  unfold UWriter.FPropertyValue
  simp only [M.bind_apply, getTag, UWriter.common_map_none enc t.f _ hT hN, hT]
  repeat rw [if_neg (by decide)]
  rw [if_pos trivial]
  unfold UWriter.mapValue
  rw [getTag_bind]
  simp only [hM, if_true, field]
  exact liftR_eq (UWriter.raw_emits bs w)

/-- C6. A MapProperty tag of declared size `N` whose value region `[data_offset,
data_offset + N)` lies inside the buffer, when the reserved field and the count are read and
the decode of some key or value throws: the value decode returns the array with its `buffer`
property set to exactly the `N` bytes of the value region, the tag differs from the original
only by `MapAsBuffer = true`, and the cursor is at `data_offset + N`; the writer's value encode
on a map tag so flagged emits exactly those bytes. -/
theorem map_raw_fallback (opts : Options) (fuel : Nat) (tag : Tag) (r r1 r2 : UReader)
    (dOff N : Nat) (x len : Int) (e : Fault)
    (hT : tag.f.Typ = some (js "MapProperty")) (hN : tag.f.Name ≠ some (js "None"))
    (hS : tag.f.Size = some (.int (N : Int))) (hD : tag.f.data_offset = some (dOff : Int))
    (hin : dOff < r.buffer.length ∧ dOff + N ≤ r.buffer.length)
    (hx : UReader.int32 r = ⟨.ok x, r1⟩) (hl : UReader.int32 r1 = ⟨.ok len, r2⟩)
    (hlen : 0 ≤ len)
    (hfault : (loopM (UReader.mapItem (decoders opts fuel)) len.toNat
      ⟨UReader.mapTags tag, r2⟩).fault = some e)
    (he : e.catchable = true) :
    (∃ xs tag1, Decoders.FPropertyValue_unsafe (decoders opts (fuel + 1)) ⟨tag, r⟩ =
        ⟨.ok (.array xs (len.toNat - xs.length) (some (sliceNat r.buffer dOff N))),
          ⟨tag1, ⟨r.buffer, (dOff : Int) + N⟩⟩⟩ ∧
      tag1.f = { tag.f with MapAsBuffer := true }) ∧
    (sliceNat r.buffer dOff N).length = N ∧
    ∀ (enc : Encoders) (t : Tag) (w : UWriter) (xs : List JSVal) (holes : Nat),
      t.f.Typ = some (js "MapProperty") → t.f.Name ≠ some (js "None") →
      t.f.MapAsBuffer = true →
      ∃ w', UWriter.FPropertyValue enc (.array xs holes (some (sliceNat r.buffer dOff N)))
          ⟨t, w⟩ = ⟨.ok (), ⟨t, w'⟩⟩ ∧
        UWriter.emitted w w' = sliceNat r.buffer dOff N := by
  refine ⟨?_, ?_, ?_⟩
  · show ∃ xs tag1, UReader.FPropertyValue_unsafe (decoders opts fuel) ⟨tag, r⟩ = _ ∧ _
    rw [UReader.unsafe_map _ _ _ hT hN]
    have hb1 : r1.buffer = r.buffer := by
      have := UReader.int32_buf.holds r
      rw [hx] at this
      exact this
    have hb2 : r2.buffer = r.buffer := by
      have := UReader.int32_buf.holds r1
      rw [hl] at this
      exact this.trans hb1
    have hk := M.Preserves.loopM tagRel (UReader.mapItem_buf _ (decoders_keeps opts fuel))
      len.toNat ⟨UReader.mapTags tag, r2⟩
    have hf := M.Preserves.loopM fieldsRel (UReader.mapItem_fields (decoders opts fuel))
      len.toNat ⟨UReader.mapTags tag, r2⟩
    cases hloop : loopM (UReader.mapItem (decoders opts fuel)) len.toNat
      ⟨UReader.mapTags tag, r2⟩ with
    | mk xs fault s1 =>
      rw [hloop] at hk hf hfault
      dsimp only at hfault
      subst hfault
      have hsb : s1.rd.buffer = r.buffer := hk.1.trans hb2
      have hsf : s1.tag.f = tag.f := hf
      have hfb := UReader.mapFallback_inside xs len.toNat s1 dOff N (by rw [hsf]; exact hS)
        (by rw [hsf]; exact hD) (by rw [hsb]; exact hin.1) (by rw [hsb]; exact hin.2)
      refine ⟨xs, s1.tag.setF { s1.tag.f with MapAsBuffer := true }, ?_, ?_⟩
      · unfold UReader.mapValue
        rw [getTag_bind, M.bind_apply, liftR_eq hx]
        dsimp only
        rw [M.bind_apply, liftR_eq hl]
        dsimp only
        unfold arrayLength
        rw [if_neg (by omega)]
        simp only [M.bind_apply, M.pure_apply, setInnerTag, setValueTag]
        have hm : (tag.setInner (elementTag tag.f tag.f.InnerType ":KeyStructType")).setValue
            (elementTag tag.f tag.f.ValueType ":ValueStructType") = UReader.mapTags tag := rfl
        rw [hm, hloop]
        dsimp only
        rw [if_pos he, hfb, hsb]
      · show { s1.tag.f with MapAsBuffer := true } = _
        rw [hsf]
  · unfold sliceNat
    rw [List.length_take, List.length_drop]
    omega
  · intro enc t w xs holes hT' hN' hM'
    refine ⟨_, UWriter.map_as_buffer enc t w xs holes _ hT' hN' hM', ?_⟩
    have := UWriter.emitted_grow_put w w (sliceNat r.buffer dOff N).length
      (sliceNat r.buffer dOff N) (Nat.le_refl _) (by intro j h1 h2; omega)
    rw [this, UWriter.emitted_self, List.nil_append]

/-- C6 at a map with one pair whose value is cut short: the 14 bytes of the value region come
back as the `buffer` of the decoded array. -/
theorem map_raw_fallback_witness :
    (∃ xs tag1, Decoders.FPropertyValue_unsafe (decoders {} (1 + 1)) ⟨exMapTag, ⟨exMapWire, 0⟩⟩ =
        ⟨.ok (.array xs ((1 : Int).toNat - xs.length) (some (sliceNat exMapWire 0 14))),
          ⟨tag1, ⟨exMapWire, ((0 : Nat) : Int) + (14 : Nat)⟩⟩⟩ ∧
      tag1.f = { exMapTag.f with MapAsBuffer := true }) ∧
    (sliceNat exMapWire 0 14).length = 14 ∧
    ∀ (enc : Encoders) (t : Tag) (w : UWriter) (xs : List JSVal) (holes : Nat),
      t.f.Typ = some (js "MapProperty") → t.f.Name ≠ some (js "None") →
      t.f.MapAsBuffer = true →
      ∃ w', UWriter.FPropertyValue enc (.array xs holes (some (sliceNat exMapWire 0 14)))
          ⟨t, w⟩ = ⟨.ok (), ⟨t, w'⟩⟩ ∧
        UWriter.emitted w w' = sliceNat exMapWire 0 14 :=
  map_raw_fallback {} 1 exMapTag ⟨exMapWire, 0⟩ ⟨exMapWire, 4⟩ ⟨exMapWire, 8⟩ 0 14 0 1
    .rangeError rfl (by decide) rfl rfl (by decide) rfl rfl (by decide) rfl rfl

/-! ## Reading and writing canonical encodings -/

theorem Reads.r_of_pure {α : Type} (v : α) : Reads (pure v : RM α) [] (fun _ => v) := by
  intro r pre post _ _
  show (⟨.ok v, r⟩ : Res UReader α) = _
  simp

theorem Reads.r_of_bind {α β : Type} {m : RM α} {f : α → RM β} {b1 b2 : List Nat}
    {v1 : Int → α} {v2 : Int → Int → β} (h1 : Reads m b1 v1)
    (h2 : ∀ o : Int, Reads (f (v1 o)) b2 (v2 o)) :
    Reads (m >>= f) (b1 ++ b2) (fun o => v2 o (o + b1.length)) := by
  intro r pre post hb ho
  rw [M.bind_apply, h1 r pre (b2 ++ post) (by rw [hb]; simp only [List.append_assoc]) ho]
  dsimp only
  rw [h2 r.offset { r with offset := r.offset + b1.length } (pre ++ b1) post
    (by rw [hb]; simp only [List.append_assoc])
    (by show r.offset + b1.length = ((pre ++ b1).length : Nat); rw [List.length_append, ho]
        rfl)]
  simp only [List.length_append, Nat.cast_add, add_assoc]

theorem Reads.r_of_map {α β : Type} {m : RM α} {b : List Nat} {v : Int → α} (g : α → β)
    (h : Reads m b v) : Reads (g <$> m) b (fun o => g (v o)) := by
  intro r pre post hb ho
  rw [M.map_apply, h r pre post hb ho]

theorem Reads.r_congr {α : Type} {m : RM α} {b b' : List Nat} {v v' : Int → α}
    (h : Reads m b v) (hb : b = b') (hv : ∀ o, v o = v' o) : Reads m b' v' := by
  subst hb
  intro r pre post hb ho
  rw [h r pre post hb ho, hv]

theorem toUnsigned_lt (bits : Nat) (v : Int) : toUnsigned bits v < 2 ^ bits := by
  unfold toUnsigned
  have hp : (0 : Int) < 2 ^ bits := by positivity
  have h1 := Int.emod_lt_of_pos v hp
  have h2 := Int.emod_nonneg v (ne_of_gt hp)
  have : ((v % 2 ^ bits).toNat : Int) < ((2 ^ bits : Nat) : Int) := by
    rw [Int.toNat_of_nonneg h2]; push_cast; exact h1
  exact_mod_cast this

theorem toSigned_toUnsigned (bits : Nat) (v : Int) (hb : 0 < bits)
    (h : -(2 ^ (bits - 1)) ≤ v ∧ v < 2 ^ (bits - 1)) :
    toSigned bits (toUnsigned bits v) = v := by
  obtain ⟨k, rfl⟩ : ∃ k, bits = k + 1 := ⟨bits - 1, by omega⟩
  simp only [Nat.add_sub_cancel] at h
  unfold toSigned toUnsigned
  simp only [Nat.add_sub_cancel]
  have hp : (0 : Int) < 2 ^ k := by positivity
  have e2 : (2 : Int) ^ (k + 1) = 2 * 2 ^ k := by rw [pow_succ]; ring
  have hnn := Int.emod_nonneg v (show (2 : Int) ^ (k + 1) ≠ 0 by positivity)
  have hcast : (((v % 2 ^ (k + 1)).toNat : Nat) : Int) = v % 2 ^ (k + 1) :=
    Int.toNat_of_nonneg hnn
  by_cases hv : 0 ≤ v
  · have e : v % 2 ^ (k + 1) = v := Int.emod_eq_of_lt hv (by rw [e2]; omega)
    rw [if_pos (by
      have : (((v % 2 ^ (k + 1)).toNat : Nat) : Int) < ((2 ^ k : Nat) : Int) := by
        rw [hcast, e]; push_cast; exact h.2
      exact_mod_cast this)]
    rw [hcast, e]
  · have e : v % 2 ^ (k + 1) = v + 2 ^ (k + 1) := by
      rw [← Int.add_emod_self]
      exact Int.emod_eq_of_lt (by rw [e2]; omega) (by omega)
    rw [if_neg (by
      intro hc
      have : (((v % 2 ^ (k + 1)).toNat : Nat) : Int) < ((2 ^ k : Nat) : Int) := by
        exact_mod_cast hc
      rw [hcast, e, e2] at this
      push_cast at this
      omega)]
    rw [hcast, e]
    ring

theorem Reads.r_readInt {α : Type} (n : Nat) (g : Nat → α) (bs : List Nat)
    (hl : bs.length = n) :
    Reads (do advance n; let o ← getOffset; let v ← readLE n (o - n); pure (g v)) bs
      (fun _ => g (leNat bs)) := by
  intro r pre post hb ho
  have h := readLE_at { r with offset := r.offset + n } pre bs post n (r.offset + n - n)
    hb (by omega) hl
  simp only [advance_apply, getOffset_apply, M.bind_apply, M.pure_apply, h, hl]

theorem leNat_intWire (n : Nat) (v : Int) : leNat (intWire n v) = toUnsigned (8 * n) v := by
  unfold intWire
  apply leNat_leBytes
  have := toUnsigned_lt (8 * n) v
  rwa [pow_mul] at this

theorem Reads.r_int8 (v : Int) (h : fitsSigned 1 v) :
    Reads UReader.int8 (intWire 1 v) (fun _ => v) :=
  Reads.r_congr (Reads.r_readInt 1 (toSigned 8) (intWire 1 v) (leBytes_length _ _)) rfl
    (fun _ => by rw [leNat_intWire]; exact toSigned_toUnsigned 8 v (by decide) h)

theorem Reads.r_int16 (v : Int) (h : fitsSigned 2 v) :
    Reads UReader.int16 (intWire 2 v) (fun _ => v) :=
  Reads.r_congr (Reads.r_readInt 2 (toSigned 16) (intWire 2 v) (leBytes_length _ _)) rfl
    (fun _ => by rw [leNat_intWire]; exact toSigned_toUnsigned 16 v (by decide) h)

theorem Reads.r_int32 (v : Int) (h : fitsSigned 4 v) :
    Reads UReader.int32 (intWire 4 v) (fun _ => v) :=
  Reads.r_congr (Reads.r_readInt 4 (toSigned 32) (intWire 4 v) (leBytes_length _ _)) rfl
    (fun _ => by rw [leNat_intWire]; exact toSigned_toUnsigned 32 v (by decide) h)

theorem Reads.r_int64 (v : Int) (h : fitsSigned 8 v) :
    Reads UReader.int64 (intWire 8 v) (fun _ => v) :=
  Reads.r_congr (Reads.r_readInt 8 (toSigned 64) (intWire 8 v) (leBytes_length _ _)) rfl
    (fun _ => by rw [leNat_intWire]; exact toSigned_toUnsigned 64 v (by decide) h)

theorem Reads.r_uint8 (v : Nat) (h : v < 2 ^ 8) :
    Reads UReader.uint8 (leBytes 1 v) (fun _ => (v : Int)) :=
  Reads.r_congr (Reads.r_readInt 1 (fun x => (x : Int)) (leBytes 1 v) (leBytes_length _ _)) rfl
    (fun _ => by rw [leNat_leBytes 1 v (by norm_num at h ⊢; omega)])

theorem Reads.r_uint16 (v : Nat) (h : v < 2 ^ 16) :
    Reads UReader.uint16 (leBytes 2 v) (fun _ => (v : Int)) :=
  Reads.r_congr (Reads.r_readInt 2 (fun x => (x : Int)) (leBytes 2 v) (leBytes_length _ _)) rfl
    (fun _ => by rw [leNat_leBytes 2 v (by norm_num at h ⊢; omega)])

theorem Reads.r_uint32 (v : Nat) (h : v < 2 ^ 32) :
    Reads UReader.uint32 (leBytes 4 v) (fun _ => (v : Int)) :=
  Reads.r_congr (Reads.r_readInt 4 (fun x => (x : Int)) (leBytes 4 v) (leBytes_length _ _)) rfl
    (fun _ => by rw [leNat_leBytes 4 v (by norm_num at h ⊢; omega)])

theorem Reads.r_float (v : Nat) (h : v < 2 ^ 32) :
    Reads UReader.float (leBytes 4 v) (fun _ => v) := by
  intro r pre post hb ho
  have h1 := readLE_at { r with offset := r.offset + 4 } pre (leBytes 4 v) post 4
    (r.offset + 4 - 4) hb (by omega) (leBytes_length _ _)
  simp only [UReader.float, advance_apply, getOffset_apply, M.bind_apply, h1, leBytes_length]
  rw [leNat_leBytes 4 v (by norm_num at h ⊢; omega)]
  rfl

theorem Reads.r_double (v : Nat) (h : v < 2 ^ 64) :
    Reads UReader.double (leBytes 8 v) (fun _ => v) := by
  intro r pre post hb ho
  have h1 := readLE_at { r with offset := r.offset + 8 } pre (leBytes 8 v) post 8
    (r.offset + 8 - 8) hb (by omega) (leBytes_length _ _)
  simp only [UReader.double, advance_apply, getOffset_apply, M.bind_apply, h1, leBytes_length]
  rw [leNat_leBytes 8 v (by norm_num at h ⊢; omega)]
  rfl

theorem Reads.r_fstring (s : JSString) (h : asciiStr s) :
    Reads UReader.fstring (strWire s) (fun _ => s) := by
  intro r pre post hb ho
  unfold strWire at hb ⊢
  by_cases h0 : s = []
  · subst h0
    rw [if_pos rfl] at hb ⊢
    rw [UReader.fstring_zero_at r pre post hb ho]
    rfl
  · rw [if_neg h0] at hb ⊢
    by_cases h1 : s = EMPTY_STR_AS_NULL_CHAR
    · subst h1
      rw [if_pos rfl] at hb ⊢
      rw [UReader.fstring_sentinel_at r pre post hb ho]
      rfl
    · rw [if_neg h1] at hb ⊢
      rw [UReader.fstring_ascii_at r pre s post 0 hb ho h0 h.2 h.1]
      congr 2
      simp only [List.length_append, leBytes_length, List.length_cons, List.length_nil]
      push_cast
      omega

theorem Reads.r_fname (s : JSString) (h : asciiStr s) :
    Reads UReader.fname (strWire s) (fun _ => s) := Reads.r_fstring s h

/-! ## Appending to a clean writer -/

theorem UWriter.grow_clean_byteAt (w : UWriter) (n j : Nat) (hc : w.clean) :
    (w.grow n).byteAt j = w.byteAt j := by
  unfold UWriter.grow
  split
  · dsimp only
    split
    · rfl
    · rw [hc.2 j (by have := hc.1; omega)]
  · rfl

theorem UWriter.Appended.refl (w : UWriter) (hc : w.clean) : w.Appended [] w :=
  ⟨rfl, hc, fun _ _ => rfl, fun _ h => absurd h (Nat.not_lt_zero _)⟩

theorem UWriter.Appended.trans {w w1 w2 : UWriter} {b1 b2 : List Nat}
    (h1 : w.Appended b1 w1) (h2 : w1.Appended b2 w2) : w.Appended (b1 ++ b2) w2 := by
  refine ⟨?_, h2.clean, ?_, ?_⟩
  · rw [h2.offset, h1.offset, List.length_append]; omega
  · intro j hj
    rw [h2.before j (by rw [h1.offset]; omega), h1.before j hj]
  · intro i hi
    by_cases hlt : i < b1.length
    · rw [h2.before _ (by rw [h1.offset]; omega), h1.bytes i hlt]
      simp only [List.getD_eq_getElem?_getD, List.getElem?_append_left hlt]
    · rw [List.length_append] at hi
      have e : w.offset + i = w1.offset + (i - b1.length) := by rw [h1.offset]; omega
      rw [e, h2.bytes _ (by omega)]
      simp only [List.getD_eq_getElem?_getD, List.getElem?_append_right (Nat.le_of_not_lt hlt)]

/-- The state after `checkBuf(n)` and a store of `bs` (at most `n` bytes) followed by a skip
of `k` buffer bytes, on a clean writer. -/
theorem UWriter.grow_put_appended (w : UWriter) (n k : Nat) (bs : List Nat) (hc : w.clean)
    (hn : bs.length + k ≤ n) :
    w.Appended (bs ++ List.replicate k 0)
      { (w.grow n).put bs with offset := ((w.grow n).put bs).offset + k } := by
  have hf := UWriter.grow_fits w n
  have ho : (w.grow n).offset = w.offset := UWriter.grow_offset w n
  have hb : ∀ j, ((w.grow n).put bs).byteAt j =
      if w.offset ≤ j ∧ j < w.offset + bs.length then bs.getD (j - w.offset) 0
      else w.byteAt j := by
    intro j
    show (if (w.grow n).offset ≤ j ∧ j < (w.grow n).offset + bs.length
      then bs.getD (j - (w.grow n).offset) 0 else (w.grow n).byteAt j) = _
    rw [ho, UWriter.grow_clean_byteAt w n j hc]
  refine ⟨?_, ⟨?_, ?_⟩, ?_, ?_⟩
  · show (w.grow n).offset + bs.length + k = _
    rw [ho, List.length_append, List.length_replicate]; omega
  · show (w.grow n).offset + bs.length + k < (w.grow n).length
    omega
  · intro j hj
    have hj' : w.offset + bs.length + k ≤ j := by
      have : (w.grow n).offset + bs.length + k ≤ j := hj
      omega
    show ((w.grow n).put bs).byteAt j = 0
    rw [hb, if_neg (by omega), hc.2 j (by omega)]
  · intro j hj
    show ((w.grow n).put bs).byteAt j = _
    rw [hb, if_neg (by omega)]
  · intro i hi
    show ((w.grow n).put bs).byteAt (w.offset + i) = _
    rw [hb]
    by_cases hlt : i < bs.length
    · rw [if_pos (by omega), Nat.add_sub_cancel_left]
      simp only [List.getD_eq_getElem?_getD, List.getElem?_append_left hlt]
    · rw [if_neg (by omega), hc.2 _ (by omega)]
      simp only [List.getD_eq_getElem?_getD,
        List.getElem?_append_right (Nat.le_of_not_lt hlt)]
      rw [List.length_append, List.length_replicate] at hi
      rw [List.getElem?_replicate, if_pos (by omega)]
      rfl

theorem Wrote.w_of_pure : Wrote (pure ()) [] := fun w hc => ⟨w, rfl, UWriter.Appended.refl w hc⟩

theorem Wrote.w_of_bind {m1 : WM Unit} {m2 : WM Unit} {b1 b2 : List Nat} (h1 : Wrote m1 b1)
    (h2 : Wrote m2 b2) : Wrote (m1 >>= fun _ => m2) (b1 ++ b2) := by
  intro w hc
  obtain ⟨w1, e1, a1⟩ := h1 w hc
  obtain ⟨w2, e2, a2⟩ := h2 w1 a1.clean
  exact ⟨w2, by rw [M.bind_apply, e1]; exact e2, a1.trans a2⟩

theorem Wrote.w_congr {m : WM Unit} {b b' : List Nat} (h : Wrote m b) (hb : b = b') :
    Wrote m b' := hb ▸ h

theorem Wrote.w_writeInt (bits : Nat) (signed : Bool) (n : Int)
    (hlo : (if signed then -(2 ^ (bits - 1)) else 0 : Int) ≤ n)
    (hhi : n < (if signed then 2 ^ (bits - 1) else 2 ^ bits : Int)) :
    Wrote (UWriter.writeInt bits signed (.num n)) (leBytes (bits / 8) (toUnsigned bits n)) := by
  intro w hc
  refine ⟨_, UWriter.writeInt_num bits signed n w hlo hhi, ?_⟩
  have := UWriter.grow_put_appended w (bits / 8) 0 (leBytes (bits / 8) (toUnsigned bits n)) hc
    (by rw [leBytes_length]; omega)
  rw [List.replicate_zero, List.append_nil] at this
  exact this

theorem Wrote.w_int32 (v : Int) (h : fitsSigned 4 v) :
    Wrote (UWriter.int32 (.num v)) (intWire 4 v) :=
  Wrote.w_writeInt 32 true v h.1 h.2

theorem Wrote.w_int16 (v : Int) (h : fitsSigned 2 v) :
    Wrote (UWriter.int16 (.num v)) (intWire 2 v) :=
  Wrote.w_writeInt 16 true v h.1 h.2

theorem Wrote.w_int8 (v : Int) (h : fitsSigned 1 v) :
    Wrote (UWriter.int8 (.num v)) (intWire 1 v) :=
  Wrote.w_writeInt 8 true v h.1 h.2

theorem Wrote.w_uint8 (v : Nat) (h : v < 2 ^ 8) :
    Wrote (UWriter.uint8 (.num v)) (leBytes 1 v) := by
  have := Wrote.w_writeInt 8 false v (by simp) (by simp only [Bool.false_eq_true, if_false]; exact_mod_cast h)
  rwa [toUnsigned_of_nat 8 v h] at this

theorem Wrote.w_uint16 (v : Nat) (h : v < 2 ^ 16) :
    Wrote (UWriter.uint16 (.num v)) (leBytes 2 v) := by
  have := Wrote.w_writeInt 16 false v (by simp) (by simp only [Bool.false_eq_true, if_false]; exact_mod_cast h)
  rwa [toUnsigned_of_nat 16 v h] at this

theorem Wrote.w_uint32 (v : Nat) (h : v < 2 ^ 32) :
    Wrote (UWriter.uint32 (.num v)) (leBytes 4 v) := by
  have := Wrote.w_writeInt 32 false v (by simp) (by simp only [Bool.false_eq_true, if_false]; exact_mod_cast h)
  rwa [toUnsigned_of_nat 32 v h] at this

theorem Wrote.w_checked (n : Nat) (bs : List Nat) (hn : bs.length ≤ n) :
    Wrote (UWriter.checkBuf n >>= fun _ => UWriter.writeBytes bs) bs := by
  intro w hc
  have hf := UWriter.grow_fits w n
  have hfit : (w.grow n).offset + bs.length ≤ (w.grow n).length := by omega
  refine ⟨(w.grow n).put bs, ?_, ?_⟩
  · simp only [M.bind_apply, UWriter.checkBuf, UWriter.writeBytes, if_pos hfit]
  · have := UWriter.grow_put_appended w n 0 bs hc (by omega)
    rw [List.replicate_zero, List.append_nil] at this
    exact this

theorem Wrote.w_int64 (v : Int) (h : fitsSigned 8 v) :
    Wrote (UWriter.int64 (.bigint v)) (intWire 8 v) := by
  have h1 : ¬ (v < -(2 ^ 63) ∨ 2 ^ 63 ≤ v) := by
    have := h.1
    have := h.2
    norm_num at *
    omega
  have e : UWriter.int64 (.bigint v) =
      (UWriter.checkBuf 8 >>= fun _ => UWriter.writeBytes (leBytes 8 (toUnsigned 64 v))) := by
    unfold UWriter.int64
    simp only [if_neg h1]
  rw [e]
  exact Wrote.w_checked 8 _ (by rw [leBytes_length])

theorem Wrote.w_float (v : Nat) : Wrote (UWriter.float (.float v)) (leBytes 4 v) :=
  Wrote.w_checked 4 _ (by rw [leBytes_length])

theorem Wrote.w_double (v : Nat) : Wrote (UWriter.double (.double v)) (leBytes 8 v) :=
  Wrote.w_checked 8 _ (by rw [leBytes_length])

theorem Wrote.w_fstring (s : JSString) (h : asciiStr s) :
    Wrote (UWriter.fstring (.str s)) (strWire s) := by
  unfold strWire
  by_cases h0 : s = []
  · subst h0
    rw [if_pos rfl]
    exact Wrote.w_congr (Wrote.w_int32 0 (by constructor <;> decide)) (by decide)
  · rw [if_neg h0]
    by_cases h1 : s = EMPTY_STR_AS_NULL_CHAR
    · subst h1
      rw [if_pos rfl]
      have e : UWriter.fstring (.str EMPTY_STR_AS_NULL_CHAR) =
          (UWriter.int32 (.num 1) >>= fun _ => UWriter.int8 (.num 0)) := by
        unfold UWriter.fstring
        simp only [if_true]
      rw [e]
      exact Wrote.w_congr (Wrote.w_of_bind (Wrote.w_int32 1 (by constructor <;> decide))
        (Wrote.w_int8 0 (by constructor <;> decide))) (by decide)
    · rw [if_neg h1]
      have hpos : 0 < s.length := List.length_pos.mpr h0
      have e : UWriter.fstring (.str s) =
          (UWriter.int32 (.num ((s.length + 1 : Nat) : Int)) >>= fun _ =>
            (UWriter.checkBuf (s.length + 1) >>= fun _ => fun w =>
              (⟨.ok (), { w.put ((s.map (· % 256)).take (w.length - w.offset)) with
                offset := (w.put ((s.map (· % 256)).take (w.length - w.offset))).offset + 1 }⟩ :
                Res UWriter Unit))) := by
        unfold UWriter.fstring
        simp only [if_neg h1, if_pos hpos]
        rfl
      rw [e]
      have hmap : s.map (· % 256) = s := by
        conv_rhs => rw [← List.map_id s]
        apply List.map_congr_left
        intro c hc
        have := h.1 c hc
        show c % 256 = c
        omega
      have hi : Wrote (UWriter.int32 (.num ((s.length + 1 : Nat) : Int)))
          (leBytes 4 (s.length + 1)) := by
        have := Wrote.w_int32 ((s.length + 1 : Nat) : Int) (by
          have := h.2
          constructor
          · show -(2 : Int) ^ (8 * 4 - 1) ≤ _; norm_num; omega
          · show (_ : Int) < 2 ^ (8 * 4 - 1); norm_num; omega)
        unfold intWire at this
        rwa [toUnsigned_of_nat (8 * 4) _ (by have := h.2; norm_num at this ⊢; omega)] at this
      have hbody : Wrote (UWriter.checkBuf (s.length + 1) >>= fun _ => fun w =>
          (⟨.ok (), { w.put ((s.map (· % 256)).take (w.length - w.offset)) with
            offset := (w.put ((s.map (· % 256)).take (w.length - w.offset))).offset + 1 }⟩ :
            Res UWriter Unit)) (s ++ [0]) := by
        intro w hc
        have hf := UWriter.grow_fits w (s.length + 1)
        refine ⟨{ (w.grow (s.length + 1)).put s with
          offset := ((w.grow (s.length + 1)).put s).offset + 1 }, ?_,
          UWriter.grow_put_appended w (s.length + 1) 1 s hc (by omega)⟩
        simp only [M.bind_apply, UWriter.checkBuf]
        rw [hmap, List.take_of_length_le (by omega)]
      exact Wrote.w_congr (Wrote.w_of_bind hi hbody) (by simp only [List.append_assoc])

theorem Wrote.w_fname (s : JSString) (h : asciiStr s) :
    Wrote (UWriter.fname (.str s)) (strWire s) := Wrote.w_fstring s h

theorem Wrote.w_object (s : JSString) (h : asciiStr s) :
    Wrote (UWriter.object (.str s)) (strWire s) := Wrote.w_fstring s h

/-! ## The save-game header -/

theorem Reads.r_loopM {α : Type} (inner : RM JSVal) (wire : α → List Nat) (val : α → JSVal)
    (xs : List α) (h : ∀ x ∈ xs, Reads inner (wire x) (fun _ => val x)) :
    Reads (repeatM inner xs.length) (xs.flatMap wire) (fun _ => xs.map val) := by
  induction xs with
  | nil =>
    intro r pre post hb ho
    simp [repeatM, TQ2.loopM]
  | cons x xs ih =>
    intro r pre post hb ho
    have hx := h x (List.mem_cons_self _ _) r pre (xs.flatMap wire ++ post)
      (by rw [hb]; simp only [List.flatMap_cons, List.append_assoc]) ho
    have hr := ih (fun y hy => h y (List.mem_cons_of_mem _ hy))
      { r with offset := r.offset + (wire x).length } (pre ++ wire x) post
      (by rw [hb]; simp only [List.flatMap_cons, List.append_assoc])
      (by show r.offset + (wire x).length = ((pre ++ wire x).length : Nat)
          rw [List.length_append, ho]; rfl)
    unfold repeatM at hr ⊢
    simp only [List.length_cons, TQ2.loopM, hx]
    revert hr
    cases TQ2.loopM inner xs.length { r with offset := r.offset + (wire x).length } with
    | mk done fault st =>
      cases fault with
      | some e => intro hr; simp at hr
      | none =>
        intro hr
        simp only [Res.mk.injEq, Except.ok.injEq] at hr
        obtain ⟨h1, h2⟩ := hr
        simp only [List.map_cons, List.flatMap_cons, List.length_append, Res.mk.injEq,
          Except.ok.injEq, h1, h2, true_and]
        congr 1
        push_cast
        omega

theorem Reads.r_FGuid (g : GuidData) (h : g.valid) :
    Reads UReader.FGuid g.wire (fun _ => g.ints) := by
  unfold UReader.FGuid GuidData.wire
  exact Reads.r_congr
    (Reads.r_of_bind (Reads.r_uint32 g.a h.1) (fun _ =>
      Reads.r_of_bind (Reads.r_uint32 g.b h.2.1) (fun _ =>
        Reads.r_of_bind (Reads.r_uint32 g.c h.2.2.1) (fun _ =>
          Reads.r_of_bind (Reads.r_uint32 g.d h.2.2.2) (fun _ => Reads.r_of_pure _)))))
    (by simp only [List.append_nil, List.append_assoc]) (fun _ => rfl)

theorem Reads.r_FCustomVersion (cv : CustomVersionData)
    (h : cv.key.valid ∧ fitsSigned 4 cv.version) :
    Reads UReader.FCustomVersion cv.wire (fun _ => cv.value) := by
  unfold UReader.FCustomVersion CustomVersionData.wire
  exact Reads.r_congr
    (Reads.r_of_bind (Reads.r_FGuid cv.key h.1) (fun _ =>
      Reads.r_of_bind (Reads.r_int32 cv.version h.2) (fun _ => Reads.r_of_pure _)))
    (by simp only [List.append_nil]) (fun _ => rfl)

theorem Reads.r_tarray {α : Type} (inner : RM JSVal) (wire : α → List Nat) (val : α → JSVal)
    (xs : List α) (hl : xs.length < 2 ^ 32)
    (h : ∀ x ∈ xs, Reads inner (wire x) (fun _ => val x)) :
    Reads (UReader.tarray inner) (leBytes 4 xs.length ++ xs.flatMap wire)
      (fun _ => .arr (xs.map val)) := by
  unfold UReader.tarray
  exact Reads.r_congr
    (Reads.r_of_bind (Reads.r_uint32 xs.length hl) (fun _ =>
      Reads.r_of_bind (Reads.r_loopM inner wire val xs h) (fun _ => Reads.r_of_pure _)))
    (by simp only [List.append_nil]) (fun _ => rfl)

theorem Reads.r_FSaveGameHeader (h : HeaderData) (hv : h.valid) :
    Reads UReader.FSaveGameHeader h.wire (fun _ => h.value) := by
  obtain ⟨h1, h2, h3, h4, h5, h6, h7, h8, h9, h10, h11, h12, h13⟩ := hv
  have hpkg : Reads UReader.FPackageFileVersion
      (intWire 4 h.fileVersionUE4 ++ intWire 4 h.fileVersionUE5)
      (fun _ => mkObj [("FileVersionUE4", .num h.fileVersionUE4),
        ("FileVersionUE5", .num h.fileVersionUE5)]) := by
    unfold UReader.FPackageFileVersion
    exact Reads.r_congr
      (Reads.r_of_bind (Reads.r_int32 _ h3) (fun _ =>
        Reads.r_of_bind (Reads.r_int32 _ h4) (fun _ => Reads.r_of_pure _)))
      (by simp only [List.append_nil]) (fun _ => rfl)
  have heng : Reads UReader.FEngineVersion
      (leBytes 2 h.major ++ leBytes 2 h.minor ++ leBytes 2 h.patchNo ++
        leBytes 4 h.changelist ++ strWire h.branch)
      (fun _ => mkObj [("Major", .num h.major), ("Minor", .num h.minor),
        ("patch", .num h.patchNo), ("Changelist", .num h.changelist),
        ("Branch", .str h.branch)]) := by
    unfold UReader.FEngineVersion
    exact Reads.r_congr
      (Reads.r_of_bind (Reads.r_uint16 _ h5) (fun _ =>
        Reads.r_of_bind (Reads.r_uint16 _ h6) (fun _ =>
          Reads.r_of_bind (Reads.r_uint16 _ h7) (fun _ =>
            Reads.r_of_bind (Reads.r_uint32 _ h8) (fun _ =>
              Reads.r_of_bind (Reads.r_fstring _ h9) (fun _ => Reads.r_of_pure _))))))
      (by simp only [List.append_nil, List.append_assoc]) (fun _ => rfl)
  have hcv : Reads UReader.FCustomVersionContainer
      (leBytes 4 h.customVersions.length ++ h.customVersions.flatMap CustomVersionData.wire)
      (fun _ => .arr (h.customVersions.map CustomVersionData.value)) :=
    Reads.r_tarray _ _ _ _ h11 (fun cv hcv => Reads.r_FCustomVersion cv (h12 cv hcv))
  unfold UReader.FSaveGameHeader HeaderData.wire
  exact Reads.r_congr
    (Reads.r_of_bind (Reads.r_int32 _ h1) (fun _ =>
      Reads.r_of_bind (Reads.r_int32 _ h2) (fun _ =>
        Reads.r_of_bind hpkg (fun _ =>
          Reads.r_of_bind heng (fun _ =>
            Reads.r_of_bind (Reads.r_int32 _ h10) (fun _ =>
              Reads.r_of_bind hcv (fun _ =>
                Reads.r_of_bind (Reads.r_fstring _ h13) (fun _ => Reads.r_of_pure _))))))))
    (by simp only [List.append_nil, List.append_assoc]) (fun _ => rfl)

theorem Wrote.w_forEachM {α : Type} (f : JSVal → WM Unit) (wire : α → List Nat)
    (val : α → JSVal) (xs : List α) (h : ∀ x ∈ xs, Wrote (f (val x)) (wire x)) :
    Wrote (TQ2.forEachM f (xs.map val)) (xs.flatMap wire) := by
  induction xs with
  | nil => exact Wrote.w_of_pure
  | cons x xs ih =>
    exact Wrote.w_of_bind (h x (List.mem_cons_self _ _))
      (ih (fun y hy => h y (List.mem_cons_of_mem _ hy)))

theorem Wrote.w_tarray {α : Type} (f : JSVal → WM Unit) (wire : α → List Nat)
    (val : α → JSVal) (xs : List α) (hl : xs.length < 2 ^ 32)
    (h : ∀ x ∈ xs, Wrote (f (val x)) (wire x)) :
    Wrote (UWriter.tarray f (.arr (xs.map val))) (leBytes 4 xs.length ++ xs.flatMap wire) := by
  have e : UWriter.tarray f (.arr (xs.map val)) =
      (UWriter.uint32 (.num (xs.length : Nat)) >>= fun _ => TQ2.forEachM f (xs.map val)) := by
    unfold UWriter.tarray JSVal.arr
    simp only [List.length_map, Nat.cast_zero, add_zero, List.replicate_zero, List.append_nil]
  rw [e]
  exact Wrote.w_of_bind (Wrote.w_uint32 _ hl) (Wrote.w_forEachM f wire val xs h)

theorem Wrote.w_FGuid (g : GuidData) (h : g.valid) :
    Wrote (UWriter.FGuid (.arr (g.ints.map JSVal.num))) g.wire := by
  unfold GuidData.wire
  exact Wrote.w_congr
    (Wrote.w_of_bind (Wrote.w_uint32 g.a h.1) (Wrote.w_of_bind (Wrote.w_uint32 g.b h.2.1)
      (Wrote.w_of_bind (Wrote.w_uint32 g.c h.2.2.1) (Wrote.w_uint32 g.d h.2.2.2))))
    (by simp only [List.append_assoc])

theorem Wrote.w_FCustomVersion (cv : CustomVersionData)
    (h : cv.key.valid ∧ fitsSigned 4 cv.version) :
    Wrote (UWriter.FCustomVersion cv.value) cv.wire := by
  unfold CustomVersionData.wire
  exact Wrote.w_of_bind (Wrote.w_FGuid cv.key h.1) (Wrote.w_int32 cv.version h.2)

theorem Wrote.w_FSaveGameHeader (h : HeaderData) (hv : h.valid) :
    Wrote (UWriter.FSaveGameHeader h.value) h.wire := by
  obtain ⟨h1, h2, h3, h4, h5, h6, h7, h8, h9, h10, h11, h12, h13⟩ := hv
  have hpkg : Wrote (UWriter.FPackageFileVersion
      (mkObj [("FileVersionUE4", .num h.fileVersionUE4),
        ("FileVersionUE5", .num h.fileVersionUE5)]))
      (intWire 4 h.fileVersionUE4 ++ intWire 4 h.fileVersionUE5) :=
    Wrote.w_of_bind (Wrote.w_int32 _ h3) (Wrote.w_int32 _ h4)
  have heng : Wrote (UWriter.FEngineVersion
      (mkObj [("Major", .num h.major), ("Minor", .num h.minor),
        ("patch", .num h.patchNo), ("Changelist", .num h.changelist),
        ("Branch", .str h.branch)]))
      (leBytes 2 h.major ++ leBytes 2 h.minor ++ leBytes 2 h.patchNo ++
        leBytes 4 h.changelist ++ strWire h.branch) :=
    Wrote.w_congr
      (Wrote.w_of_bind (Wrote.w_uint16 _ h5) (Wrote.w_of_bind (Wrote.w_uint16 _ h6)
        (Wrote.w_of_bind (Wrote.w_uint16 _ h7) (Wrote.w_of_bind (Wrote.w_uint32 _ h8)
          (Wrote.w_fstring _ h9)))))
      (by simp only [List.append_assoc])
  have hcv : Wrote (UWriter.FCustomVersionContainer
      (.arr (h.customVersions.map CustomVersionData.value)))
      (leBytes 4 h.customVersions.length ++ h.customVersions.flatMap CustomVersionData.wire) :=
    Wrote.w_tarray _ _ _ _ h11 (fun cv hcv => Wrote.w_FCustomVersion cv (h12 cv hcv))
  unfold HeaderData.wire
  exact Wrote.w_congr
    (Wrote.w_of_bind (Wrote.w_int32 _ h1) (Wrote.w_of_bind (Wrote.w_int32 _ h2)
      (Wrote.w_of_bind hpkg (Wrote.w_of_bind heng (Wrote.w_of_bind (Wrote.w_int32 _ h10)
        (Wrote.w_of_bind hcv (Wrote.w_fstring _ h13)))))))
    (by simp only [List.append_assoc])

/-! ## Scalar properties -/

theorem ScalarData.common_reader (d : Decoders) (f : TagFields) (sc : ScalarData)
    (hT : f.Typ = some sc.typeName) (hN : f.Name ≠ some (js "None")) :
    UReader.FPropertyValue_common d f = some sc.reader := by
  unfold UReader.FPropertyValue_common
  rw [if_neg hN, hT]
  cases sc <;> simp only [ScalarData.typeName, ScalarData.reader] <;>
    repeat (first | rw [if_pos rfl] | rw [if_pos trivial] | rw [if_neg (by decide)])

theorem ScalarData.common_writer (e : Encoders) (f : TagFields) (sc : ScalarData) (v : JSVal)
    (hT : f.Typ = some sc.typeName) (hN : f.Name ≠ some (js "None")) :
    UWriter.FPropertyValue_common e f v = some (sc.writer v) := by
  unfold UWriter.FPropertyValue_common
  rw [if_neg hN, hT]
  cases sc <;> simp only [ScalarData.typeName, ScalarData.writer] <;>
    repeat (first | rw [if_pos rfl] | rw [if_pos trivial] | rw [if_neg (by decide)])

theorem ScalarData.reads (sc : ScalarData) (h : sc.valid) :
    Reads sc.reader sc.wire (fun _ => sc.value) := by
  cases sc with
  | int v => exact Reads.r_of_map _ (Reads.r_int32 v h)
  | int16 v => exact Reads.r_of_map _ (Reads.r_int16 v h)
  | uint16 v => exact Reads.r_of_map _ (Reads.r_uint16 v h)
  | int64 v => exact Reads.r_of_map _ (Reads.r_int64 v h)
  | uint64 v => exact Reads.r_of_map _ (Reads.r_int64 v h)
  | str s => exact Reads.r_of_map _ (Reads.r_fstring s h)
  | name s => exact Reads.r_of_map _ (Reads.r_fname s h)
  | object s => exact Reads.r_of_map _ (Reads.r_fstring s h)
  | float bits => exact Reads.r_of_map _ (Reads.r_float bits h.1)
  | double bits => exact Reads.r_of_map _ (Reads.r_double bits h.1)
  | softObject p a s =>
    show Reads UReader.FSoftObjectPath _ _
    unfold UReader.FSoftObjectPath
    apply Reads.r_congr
    · apply Reads.r_of_bind (Reads.r_fstring p h.1)
      intro _
      apply Reads.r_of_bind (Reads.r_fname a h.2.1)
      intro _
      apply Reads.r_of_bind (Reads.r_fstring s h.2.2)
      intro _
      exact Reads.r_of_pure _
    · simp only [ScalarData.wire, List.append_nil, List.append_assoc]
    · intro _
      rfl

theorem ScalarData.wrote (sc : ScalarData) (h : sc.valid) :
    Wrote (sc.writer sc.value) sc.wire := by
  cases sc with
  | int v => exact Wrote.w_int32 v h
  | int16 v => exact Wrote.w_int16 v h
  | uint16 v => exact Wrote.w_uint16 v h
  | int64 v => exact Wrote.w_int64 v h
  | uint64 v => exact Wrote.w_int64 v h
  | str s => exact Wrote.w_fstring s h
  | name s => exact Wrote.w_fstring s h
  | object s => exact Wrote.w_fstring s h
  | float bits => exact Wrote.w_float bits
  | double bits => exact Wrote.w_double bits
  | softObject p a s =>
    exact Wrote.w_congr
      (Wrote.w_of_bind (Wrote.w_fstring p h.1)
        (Wrote.w_of_bind (Wrote.w_fname a h.2.1) (Wrote.w_fstring s h.2.2)))
      (by simp only [ScalarData.wire, List.append_assoc])

theorem ScalarData.typeName_ascii (sc : ScalarData) : asciiStr sc.typeName := by
  cases sc <;> simp only [ScalarData.typeName] <;> exact ⟨by decide, by decide⟩

theorem Reads.r_getOffset : Reads TQ2.getOffset [] (fun o => o) := by
  intro r pre post _ _
  simp [TQ2.getOffset]

theorem ScalarData.tagExtras_reader (sc : ScalarData) (f : TagFields) :
    UReader.tagExtras sc.typeName f = pure f := by
  unfold UReader.tagExtras
  cases sc <;> simp only [ScalarData.typeName] <;>
    repeat (first | rw [if_neg (by decide)])

theorem PropData.fullName_ne_none (p : PropData) (h : p.name ≠ js "None") :
    p.fullName ≠ js "None" := by
  unfold PropData.fullName
  split
  · intro hc
    have hl := congrArg List.getLast? hc
    rw [← List.append_assoc, ← List.append_assoc, List.getLast?_append] at hl
    have e1 : (js "]").getLast? = some 93 := by decide
    have e2 : (js "None").getLast? = some 101 := by decide
    rw [e1, e2] at hl
    simp at hl
  · exact h

theorem Reads.r_FPropertyTag (p : PropData) (hv : p.valid) :
    Reads UReader.FPropertyTag (p.headWire ++ intWire 4 p.val.wire.length ++ p.midWire)
      (fun o => p.tag o) := by
  obtain ⟨h1, h2, h3, h4, h5, h6, h7, h8⟩ := hv
  have hsz : fitsSigned 4 (p.val.wire.length : Int) := by
    constructor
    · show -(2 : Int) ^ (8 * 4 - 1) ≤ _
      norm_num
      omega
    · show (_ : Int) < 2 ^ (8 * 4 - 1)
      norm_num
      norm_num at h6
      omega
  unfold UReader.FPropertyTag
  apply Reads.r_congr
  · apply Reads.r_of_bind Reads.r_getOffset
    intro o
    apply Reads.r_of_bind (Reads.r_fname p.name h1)
    intro _
    dsimp only
    rw [if_neg h2]
    apply Reads.r_of_bind (Reads.r_fname _ p.val.typeName_ascii)
    intro _
    apply Reads.r_of_bind Reads.r_getOffset
    intro so
    apply Reads.r_of_bind (Reads.r_int32 _ hsz)
    intro _
    apply Reads.r_of_bind (Reads.r_int32 _ h4)
    intro _
    dsimp only
    rw [ScalarData.tagExtras_reader]
    apply Reads.r_of_bind (Reads.r_of_pure _)
    intro _
    apply Reads.r_of_bind (Reads.r_uint8 0 (by decide))
    intro _
    dsimp only
    rw [if_neg (by decide)]
    apply Reads.r_of_bind (Reads.r_of_pure _)
    intro _
    apply Reads.r_of_bind Reads.r_getOffset
    intro _
    exact Reads.r_of_pure _
  · simp only [PropData.headWire, PropData.midWire, List.nil_append, List.append_nil,
      List.append_assoc]
    rfl
  · intro o
    unfold PropData.tag PropData.fullName PropData.headWire PropData.midWire
    simp only [List.length_append, List.length_nil, List.length_cons, leBytes_length, intWire,
      Nat.cast_add, Nat.cast_zero, add_zero, Nat.cast_ofNat, Nat.cast_one, zero_add]
    congr 2
    · congr 1
      omega
    · congr 1
      omega

theorem Reads.r_FPropertyValue (opts : Options) (k : Nat) (p : PropData) (hv : p.valid)
    (o : Int) :
    Reads (Decoders.FPropertyValue (decoders opts (k + 2)) (p.tag o)) p.val.wire
      (fun _ => (p.val.value, p.tag o)) := by
  obtain ⟨h1, h2, h3, h4, h5, h6, h7, h8⟩ := hv
  have hN : (p.tag o).f.Name ≠ some (js "None") := by
    show some p.fullName ≠ some (js "None")
    intro hc
    exact p.fullName_ne_none h2 (Option.some.inj hc)
  intro r pre post hb ho
  have hr := p.val.reads h5 r pre post hb ho
  have hu : UReader.FPropertyValue_unsafe (decoders opts k) ⟨p.tag o, r⟩ =
      ⟨.ok p.val.value, ⟨p.tag o, { r with offset := r.offset + p.val.wire.length }⟩⟩ := by
    unfold UReader.FPropertyValue_unsafe
    rw [getTag_bind]
    dsimp only
    rw [ScalarData.common_reader (decoders opts k) (p.tag o).f p.val rfl hN]
    exact liftR_eq hr
  show UReader.FPropertyValue opts (decoders opts (k + 1)) (p.tag o) r = _
  unfold UReader.FPropertyValue
  rw [if_neg hN]
  dsimp only
  show (match UReader.FPropertyValue_unsafe (decoders opts k) ⟨p.tag o, r⟩ with
    | ⟨.ok value, s1⟩ =>
      if some (JSNum.int (s1.rd.offset - r.offset)) = s1.tag.f.Size then
        (⟨.ok (value, s1.tag), s1.rd⟩ : Res UReader (JSVal × Tag))
      else UReader.recover opts r.offset s1.tag s1.rd
    | ⟨.error e, s1⟩ =>
      if e.catchable then UReader.recover opts r.offset s1.tag s1.rd
      else ⟨.error e, s1.rd⟩) = _
  rw [hu]
  dsimp only
  rw [if_pos]
  show some (JSNum.int (r.offset + (p.val.wire.length : Int) - r.offset)) =
    some (JSNum.int (p.val.wire.length : Int))
  congr 2
  omega

theorem objGet_head (k : JSString) (v : JSVal) (es : List (JSString × JSVal)) :
    objGet ((k, v) :: es) k = some v := by
  simp [objGet]

theorem objSet_head (k : JSString) (v v' : JSVal) (es : List (JSString × JSVal)) :
    objSet ((k, v) :: es) k v' = (k, v') :: es := by
  simp [objSet]

theorem objSet_fresh (es : List (JSString × JSVal)) (k : JSString) (v : JSVal)
    (h : ∀ e ∈ es, e.1 ≠ k) : objSet es k v = es ++ [(k, v)] := by
  induction es with
  | nil => rfl
  | cons e es ih =>
    obtain ⟨k', v'⟩ := e
    have hk : k' ≠ k := h (k', v') (List.mem_cons_self _ _)
    simp only [objSet, if_neg hk, List.cons_append]
    rw [ih (fun e he => h e (List.mem_cons_of_mem _ he))]

theorem objGet_append_fresh (es : List (JSString × JSVal)) (k : JSString) (v : JSVal)
    (rest : List (JSString × JSVal)) (h : ∀ e ∈ es, e.1 ≠ k) :
    objGet (es ++ (k, v) :: rest) k = some v := by
  induction es with
  | nil => simp [objGet]
  | cons e es ih =>
    obtain ⟨k', v'⟩ := e
    have hk : k' ≠ k := h (k', v') (List.mem_cons_self _ _)
    simp only [List.cons_append, objGet, if_neg hk]
    exact ih (fun e he => h e (List.mem_cons_of_mem _ he))

theorem Reads.r_FPropertyTag_none :
    Reads UReader.FPropertyTag (strWire (js "None"))
      (fun o => Tag.ofFields { tag_offset := some o, Name := some (js "None") }) := by
  intro r pre post hb ho
  rw [UReader.FPropertyTag_none_at r pre post hb ho]
  rfl

theorem objSet_cons_ne (k key : JSString) (w v : JSVal) (rest : List (JSString × JSVal))
    (h : k ≠ key) : objSet ((k, w) :: rest) key v = (k, w) :: objSet rest key v := by
  simp only [objSet, if_neg h]

theorem Reads.r_pushAndDecode (opts : Options) (n : Nat) (hn : 2 ≤ n) (p : PropData)
    (hv : p.valid) (o : Int) (ts : List Tag) (es : List (JSString × JSVal))
    (hes : ∀ e ∈ es, e.1 ≠ p.fullName) :
    Reads (pushAndDecode (decoders opts n) ((PropertiesKey, .props ts) :: es) (p.tag o))
      p.val.wire
      (fun _ => (PropertiesKey, .props (ts ++ [p.tag o])) ::
        (es ++ [(p.fullName, p.val.value)])) := by
  obtain ⟨k, rfl⟩ : ∃ k, n = k + 2 := ⟨n - 2, by omega⟩
  unfold TQ2.pushAndDecode
  rw [objGet_head]
  dsimp only
  apply Reads.r_congr
  · apply Reads.r_of_bind (Reads.r_FPropertyValue opts k p hv o)
    intro _
    simp only [PropData.tag, Tag.ofFields, Tag.f, Option.getD_some, objSet_head]
    unfold assignProp
    rw [if_neg hv.2.2.2.2.2.2.2]
    exact Reads.r_of_pure _
  · rw [List.append_nil]
  · intro _
    rw [objSet_cons_ne _ _ _ _ _ (Ne.symm hv.2.2.2.2.2.2.1), objSet_fresh es _ _ hes]
    rfl

theorem decodedTags_cons (p : PropData) (ps : List PropData) (o : Int) :
    decodedTags (p :: ps) o = p.tag o :: decodedTags ps (o + p.wire.length) := rfl

theorem PropData.wire_length (p : PropData) :
    p.wire.length = (p.headWire ++ intWire 4 p.val.wire.length ++ p.midWire).length +
      p.val.wire.length := by
  unfold PropData.wire
  simp only [List.length_append]

theorem Reads.r_listLoop (opts : Options) (wx : Bool) (ps : List PropData) :
    ∀ (n : Nat) (ts : List Tag) (es : List (JSString × JSVal)), ps.length + 1 ≤ n →
    (∀ p ∈ ps, p.valid) → (ps.map PropData.fullName).Nodup →
    (∀ e ∈ es, ∀ p ∈ ps, e.1 ≠ p.fullName) →
    Reads (listLoopBody (decoders opts n) wx ((PropertiesKey, .props ts) :: es))
      (ps.flatMap PropData.wire ++ (strWire (js "None") ++ (if wx then [0, 0, 0, 0] else [])))
      (fun o => .object ((PropertiesKey, .props (ts ++ decodedTags ps o)) ::
        (es ++ ps.map (fun p => (p.fullName, p.val.value))))) := by
  induction ps with
  | nil =>
    intro n ts es _ _ _ _
    unfold listLoopBody
    cases wx
    · apply Reads.r_congr
      · apply Reads.r_of_bind Reads.r_FPropertyTag_none
        intro o
        simp only [Tag.ofFields, Tag.f, if_true, Bool.false_eq_true, if_false]
        exact Reads.r_of_pure _
      · simp
      · intro o
        simp [decodedTags]
    · apply Reads.r_congr
      · apply Reads.r_of_bind Reads.r_FPropertyTag_none
        intro o
        simp only [Tag.ofFields, Tag.f, if_true]
        exact Reads.r_of_bind (Reads.r_int32 0 (by constructor <;> decide))
          (fun _ => Reads.r_of_pure _)
      · simp only [List.flatMap_nil, List.nil_append, List.append_nil, if_true]
        rfl
      · intro o
        simp [decodedTags]
  | cons p ps ih =>
    intro n ts es hn hv hnd hes
    obtain ⟨m, rfl⟩ : ∃ m, n = m + 1 := ⟨n - 1, by simp only [List.length_cons] at hn; omega⟩
    have hm : ps.length + 1 ≤ m := by simp only [List.length_cons] at hn; omega
    have hp : p.valid := hv p (List.mem_cons_self _ _)
    have hN : ∀ o, (p.tag o).f.Name ≠ some (js "None") := by
      intro o
      show some p.fullName ≠ some (js "None")
      intro hc
      exact p.fullName_ne_none hp.2.1 (Option.some.inj hc)
    rw [List.map_cons, List.nodup_cons] at hnd
    unfold listLoopBody
    apply Reads.r_congr
    · apply Reads.r_of_bind (Reads.r_FPropertyTag p hp)
      intro o
      dsimp only
      rw [if_neg (hN o)]
      apply Reads.r_of_bind (Reads.r_pushAndDecode opts (m + 1) (by omega) p hp o ts es
        (fun e he => hes e he p (List.mem_cons_self _ _)))
      intro _
      exact ih m (ts ++ [p.tag o]) (es ++ [(p.fullName, p.val.value)]) hm
        (fun q hq => hv q (List.mem_cons_of_mem _ hq)) hnd.2
        (by
          intro e he q hq
          rcases List.mem_append.mp he with h1 | h1
          · exact hes e h1 q (List.mem_cons_of_mem _ hq)
          · rw [List.mem_singleton] at h1
            subst h1
            intro hc
            have hc' : p.fullName = q.fullName := hc
            exact hnd.1 (by rw [hc']; exact List.mem_map_of_mem _ hq))
    · simp only [List.flatMap_cons, PropData.wire, List.append_assoc]
    · intro o
      simp only [decodedTags_cons, List.map_cons, List.append_assoc, List.singleton_append,
        List.length_append, Nat.cast_add, PropData.wire]
      simp only [add_assoc]

theorem Reads.r_File_Data_Player (opts : Options) (h : HeaderData) (ps : List PropData)
    (n : Nat) (hn : ps.length + 1 ≤ n) (hh : h.valid) (hv : ∀ p ∈ ps, p.valid)
    (hnd : (ps.map PropData.fullName).Nodup) :
    Reads (UReader.File_Data_Player (decoders opts n)) (fileWire h ps)
      (fun o => mkObj [("Header", h.value), ("Data", listValue ps (o + h.wire.length))]) := by
  unfold UReader.File_Data_Player UReader.FPropertyList
  apply Reads.r_congr
  · apply Reads.r_of_bind (Reads.r_FSaveGameHeader h hh)
    intro _
    apply Reads.r_of_bind (Reads.r_listLoop opts true ps n [] [] hn hv hnd
      (fun e he => absurd he (List.not_mem_nil _)))
    intro _
    exact Reads.r_of_pure _
  · simp only [fileWire, listWire, List.append_nil, if_true, List.append_assoc]
  · intro o
    simp only [listValue, List.nil_append]

/-! ## Writing a scalar property -/

theorem liftR_wrote {m : WM Unit} {bs : List Nat} (h : Wrote m bs) (t : Tag) (w : UWriter)
    (hc : w.clean) : ∃ w', liftR m ⟨t, w⟩ = ⟨.ok (), ⟨t, w'⟩⟩ ∧ w.Appended bs w' := by
  obtain ⟨w', e, a⟩ := h w hc
  exact ⟨w', liftR_eq e, a⟩

theorem ScalarData.tagExtras_writer (sc : ScalarData) (s : TState UWriter)
    (hT : s.tag.f.Typ = some sc.typeName) : UWriter.tagExtras s = ⟨.ok (), s⟩ := by
  unfold UWriter.tagExtras
  rw [getTag_bind, hT]
  cases sc <;> simp only [ScalarData.typeName] <;>
    repeat (first | rw [if_neg (by decide)])
  all_goals rfl

theorem PropData.writtenName_eq (p : PropData) (h : matchArraySuffix p.name = none) :
    UWriter.writtenName p.fullName = p.name := by
  unfold PropData.fullName
  by_cases hp : 0 < p.index
  · rw [if_pos hp]; exact UWriter.writtenName_suffix p.name p.index hp
  · rw [if_neg hp, UWriter.writtenName, h]

theorem liftR_mk {ρ α : Type} {m : M ρ α} (t : Tag) (w : ρ) {o : Except Fault α} {w' : ρ}
    (h : m w = ⟨o, w'⟩) : liftR m ⟨t, w⟩ = ⟨o, ⟨t, w'⟩⟩ := by
  unfold liftR
  rw [h]

theorem Tag.f_setF (t : Tag) (g : TagFields) : (t.setF g).f = g := rfl

/-- The writer's `FPropertyTag` on the tag of a scalar property: it appends the tag with a
zero size field and records the position of the size field and the start of the value. -/
theorem UWriter.FPropertyTag_scalar (p : PropData) (hv : p.valid) (tag : Tag) (w : UWriter)
    (hc : w.clean) (hN : tag.f.Name = some p.fullName) (hT : tag.f.Typ = some p.val.typeName)
    (hI : tag.f.ArrayIndex = some p.index) (hH : tag.f.HasPropertyGuid = some 0) :
    ∃ s1, UWriter.FPropertyTag ⟨tag, w⟩ = ⟨.ok (), s1⟩ ∧
      w.Appended (p.headWire ++ [0, 0, 0, 0] ++ p.midWire) s1.rd ∧
      s1.tag.f.Name = some p.fullName ∧ s1.tag.f.Typ = some p.val.typeName ∧
      s1.tag.f.size_offset = some ((w.offset + p.headWire.length : Nat) : Int) ∧
      s1.tag.f.data_offset = some (s1.rd.offset : Int) := by
  obtain ⟨h1, h2, h3, h4, h5, h6, h7, h8⟩ := hv
  obtain ⟨w1, e1, a1⟩ := Wrote.w_fname p.name h1 w hc
  obtain ⟨w2, e2, a2⟩ := Wrote.w_fname p.val.typeName p.val.typeName_ascii w1 a1.clean
  obtain ⟨w3, e3, a3⟩ := Wrote.w_int32 0 (by constructor <;> decide) w2 a2.clean
  obtain ⟨w4, e4, a4⟩ := Wrote.w_int32 p.index h4 w3 a3.clean
  obtain ⟨w5, e5, a5⟩ := Wrote.w_uint8 0 (by decide) w4 a4.clean
  rw [Nat.cast_zero] at e5
  have hne : p.fullName ≠ js "None" := p.fullName_ne_none h2
  have o2 : w2.offset = w.offset + p.headWire.length := by
    rw [a2.offset, a1.offset, PropData.headWire, List.length_append]; omega
  refine ⟨⟨tag.setF
    { tag.f with
      tag_offset := some (w.offset : Int), size_offset := some (w2.offset : Int),
      Size := some (.int 0), HasPropertyGuid := some 0,
      data_offset := some (w5.offset : Int) }, w5⟩, ?_, ?_, hN, hT, ?_, rfl⟩
  · unfold UWriter.FPropertyTag
    rw [getTag_bind, UWriter.getOffset_bind, modTag_bind]
    simp only [hN]
    rw [p.writtenName_eq h3, M.bind_apply, liftR_mk _ _ e1]
    dsimp only
    rw [if_neg hne, getTag_bind]
    simp only [Tag.f_setF, hT, optStr]
    rw [M.bind_apply, liftR_mk _ _ e2]
    dsimp only
    rw [UWriter.getOffset_bind, M.bind_apply, liftR_mk _ _ e3]
    dsimp only
    simp only [hI, optNum]
    rw [M.bind_apply, liftR_mk _ _ e4]
    dsimp only
    rw [modTag_bind, M.bind_apply, ScalarData.tagExtras_writer p.val]
    swap
    · rfl
    dsimp only
    rw [getTag_bind]
    simp only [Tag.f_setF, hH, optNum]
    rw [M.bind_apply, liftR_mk _ _ e5]
    dsimp only
    simp only [Option.getD_some, ne_eq, not_true_eq_false, if_false, M.bind_apply, M.pure_apply]
    rfl
  · exact UWriter.Appended.trans (UWriter.Appended.trans a1 a2) (UWriter.Appended.trans
      (UWriter.Appended.trans a3 a4) a5) |> fun h => by
        simpa only [PropData.headWire, PropData.midWire, intWire, List.append_assoc] using h
  · show some (w2.offset : Int) = _
    rw [o2]

theorem getD_append_mid (A X R : List Nat) (i : Nat) (h1 : A.length ≤ i)
    (h2 : i < A.length + X.length) : (A ++ X ++ R).getD i 0 = X.getD (i - A.length) 0 := by
  simp only [List.getD_eq_getElem?_getD]
  rw [List.append_assoc, List.getElem?_append_right h1,
    List.getElem?_append_left (by omega)]

theorem getD_append_outside (A X Y R : List Nat) (i : Nat) (hl : X.length = Y.length)
    (h : i < A.length ∨ A.length + X.length ≤ i) :
    (A ++ X ++ R).getD i 0 = (A ++ Y ++ R).getD i 0 := by
  simp only [List.getD_eq_getElem?_getD]
  rcases h with h | h
  · rw [List.append_assoc, List.append_assoc, List.getElem?_append_left h,
      List.getElem?_append_left h]
  · rw [List.getElem?_append_right (by rw [List.length_append]; omega),
      List.getElem?_append_right (by rw [List.length_append]; omega)]
    simp only [List.length_append, hl]

theorem UWriter.writeValue_scalar (k : Nat) (p : PropData) (hv : p.valid)
    (s1 : TState UWriter) (hc : s1.rd.clean) (hN : s1.tag.f.Name = some p.fullName)
    (hT : s1.tag.f.Typ = some p.val.typeName) :
    ∃ w2, Encoders.FPropertyValue (encoders (k + 1)) p.val.value s1 =
        ⟨.ok (), ⟨s1.tag, w2⟩⟩ ∧ s1.rd.Appended p.val.wire w2 := by
  obtain ⟨w2, e2, a2⟩ := p.val.wrote hv.2.2.2.2.1 s1.rd hc
  refine ⟨w2, ?_, a2⟩
  show UWriter.FPropertyValue (encoders k) p.val.value s1 = _
  unfold UWriter.FPropertyValue
  rw [getTag_bind]
  rw [ScalarData.common_writer (encoders k) s1.tag.f p.val p.val.value hT
    (by rw [hN]; intro hc'; exact p.fullName_ne_none hv.2.1 (Option.some.inj hc'))]
  exact liftR_eq e2

theorem Wrote.w_writeProperty (k : Nat) (fs : List (JSString × JSVal)) (p : PropData)
    (hv : p.valid) (tag : Tag) (hN : tag.f.Name = some p.fullName)
    (hT : tag.f.Typ = some p.val.typeName) (hI : tag.f.ArrayIndex = some p.index)
    (hH : tag.f.HasPropertyGuid = some 0) (hfs : objGet fs p.fullName = some p.val.value) :
    Wrote (UWriter.writeProperty (encoders (k + 1)) fs tag) p.wire := by
  intro w hc
  obtain ⟨s1, e1, a1, n1, t1, so1, d1⟩ := UWriter.FPropertyTag_scalar p hv tag w hc hN hT hI hH
  obtain ⟨w2, e2, a2⟩ := UWriter.writeValue_scalar k p hv s1 a1.clean n1 t1
  have hlen : (p.headWire ++ [0, 0, 0, 0] ++ p.midWire).length =
      p.headWire.length + 4 + p.midWire.length := by
    simp only [List.length_append, List.length_cons, List.length_nil]
  have o1 : s1.rd.offset = w.offset + p.headWire.length + 4 + p.midWire.length := by
    rw [a1.offset, hlen]; omega
  have o2 : w2.offset = s1.rd.offset + p.val.wire.length := a2.offset
  have h6 := hv.2.2.2.2.2.1
  obtain ⟨w3, e3, f1, f2, f3, f4⟩ := UWriter.patchSize_spec ⟨s1.tag, w2⟩
    (w.offset + p.headWire.length) s1.rd.offset so1 d1 (by omega) (by show _ ≤ w2.offset; omega)
    a2.clean.1 (by show w2.offset - s1.rd.offset < 2 ^ 31; omega)
  have hsz : w2.offset - s1.rd.offset = p.val.wire.length := by omega
  have a12 := a1.trans a2
  have hwtv : UWriter.writeTagAndValue (encoders (k + 1)) fs ⟨tag, w⟩ =
      ⟨.ok (), ⟨s1.tag, w2⟩⟩ := by
    unfold UWriter.writeTagAndValue
    rw [M.bind_apply, e1]
    dsimp only
    rw [getTag_bind, n1]
    unfold propValue
    simp only [Option.getD_some, hfs, M.bind_apply, M.pure_apply]
    exact e2
  have hb : (UWriter.writeTagAndValue (encoders (k + 1)) fs >>= fun _ => UWriter.patchSize)
      ⟨tag, w⟩ = ⟨.ok (), ⟨s1.tag, w3⟩⟩ := by
    rw [M.bind_apply, hwtv]
    exact e3
  refine ⟨w3, congrArg (fun r => (⟨r.out, r.st.rd⟩ : Res UWriter Unit)) hb, ?_⟩
  have hS : intWire 4 (p.val.wire.length : Int) = leBytes 4 p.val.wire.length := by
    unfold intWire
    rw [toUnsigned_of_nat (8 * 4) _ (by norm_num at h6 ⊢; omega)]
  have hw : p.wire = p.headWire ++ leBytes 4 p.val.wire.length ++ (p.midWire ++ p.val.wire) := by
    unfold PropData.wire
    rw [hS]
    simp only [List.append_assoc]
  have hw0 : p.headWire ++ [0, 0, 0, 0] ++ p.midWire ++ p.val.wire =
      p.headWire ++ [0, 0, 0, 0] ++ (p.midWire ++ p.val.wire) := by
    simp only [List.append_assoc]
  have hwl : p.wire.length = p.headWire.length + 4 + p.midWire.length + p.val.wire.length := by
    rw [hw]
    simp only [List.length_append, leBytes_length]
    omega
  refine ⟨?_, ⟨?_, ?_⟩, ?_, ?_⟩
  · rw [f1, hwl]
    show w2.offset = _
    omega
  · rw [f1, f2]
    exact a2.clean.1
  · intro j hj
    rw [f1] at hj
    rw [f4 j (Or.inr (by have : w2.offset ≤ j := hj; omega))]
    exact a2.clean.2 j hj
  · intro j hj
    rw [f4 j (Or.inl (by omega))]
    exact a12.before j hj
  · intro i hi
    by_cases hin : p.headWire.length ≤ i ∧ i < p.headWire.length + 4
    · have e : w.offset + i = w.offset + p.headWire.length + (i - p.headWire.length) := by omega
      rw [e, f3 _ (by omega), hw,
        getD_append_mid _ _ _ i hin.1 (by rw [leBytes_length]; exact hin.2)]
      show (leBytes 4 (w2.offset - s1.rd.offset)).getD _ 0 = _
      rw [hsz]
    · rw [f4 _ (by omega)]
      show w2.byteAt (w.offset + i) = _
      rw [a12.bytes i (by rw [List.length_append, hlen]; omega), hw0, hw]
      exact getD_append_outside _ _ _ _ i (by rw [leBytes_length]; rfl) (by
        simp only [List.length_cons, List.length_nil]; omega)

theorem objGet_entries (ps : List PropData) (hnd : (ps.map PropData.fullName).Nodup)
    (p : PropData) (hp : p ∈ ps) :
    objGet (ps.map (fun q => (q.fullName, q.val.value))) p.fullName = some p.val.value := by
  induction ps with
  | nil => exact absurd hp (List.not_mem_nil _)
  | cons q qs ih =>
    rw [List.map_cons, List.nodup_cons] at hnd
    rw [List.map_cons, objGet]
    by_cases hq : q.fullName = p.fullName
    · rw [if_pos hq]
      rcases List.mem_cons.mp hp with h | h
      · rw [h]
      · exact absurd (by rw [hq]; exact List.mem_map_of_mem _ h) hnd.1
    · rw [if_neg hq]
      rcases List.mem_cons.mp hp with h | h
      · exact absurd (by rw [h]) hq
      · exact ih hnd.2 h

theorem Wrote.w_properties (k : Nat) (fs : List (JSString × JSVal)) (ps : List PropData)
    (hv : ∀ p ∈ ps, p.valid)
    (hfs : ∀ p ∈ ps, objGet fs p.fullName = some p.val.value) (o : Int) :
    Wrote (TQ2.forEachM (UWriter.writeProperty (encoders (k + 1)) fs) (decodedTags ps o))
      (ps.flatMap PropData.wire) := by
  induction ps generalizing o with
  | nil => exact Wrote.w_of_pure
  | cons p ps ih =>
    exact Wrote.w_of_bind
      (Wrote.w_writeProperty k fs p (hv p (List.mem_cons_self _ _)) (p.tag o) rfl rfl rfl rfl
        (hfs p (List.mem_cons_self _ _)))
      (ih (fun q hq => hv q (List.mem_cons_of_mem _ hq))
        (fun q hq => hfs q (List.mem_cons_of_mem _ hq)) _)

theorem Wrote.w_terminator : Wrote UWriter.terminator (strWire (js "None")) := by
  intro w hc
  obtain ⟨w1, e1, a1⟩ := Wrote.w_fname (js "None") ⟨by decide, by decide⟩ w hc
  refine ⟨w1, ?_, a1⟩
  unfold UWriter.terminator UWriter.FPropertyTag
  rw [getTag_bind, UWriter.getOffset_bind, modTag_bind]
  have hw : UWriter.writtenName (js "None") = js "None" := by decide
  simp only [Tag.ofFields, Tag.f, hw]
  rw [M.bind_apply, liftR_mk _ _ e1]
  rfl

theorem Wrote.w_FPropertyList (k : Nat) (ps : List PropData) (hv : ∀ p ∈ ps, p.valid)
    (hnd : (ps.map PropData.fullName).Nodup) (o : Int) :
    Wrote (UWriter.FPropertyList (encoders (k + 1)) (listValue ps o) true) (listWire ps) := by
  unfold UWriter.FPropertyList listValue listWire
  simp only [objGet_head, if_true]
  refine Wrote.w_congr (Wrote.w_of_bind (Wrote.w_properties k _ ps hv ?_ o)
    (Wrote.w_of_bind Wrote.w_terminator (Wrote.w_int32 0 (by constructor <;> decide)))) ?_
  · intro p hp
    rw [objGet, if_neg (Ne.symm (hv p hp).2.2.2.2.2.2.1)]
    exact objGet_entries ps hnd p hp
  · rw [List.append_assoc]
    rfl

theorem Wrote.w_File_Data_Player (k : Nat) (h : HeaderData) (ps : List PropData)
    (hh : h.valid) (hv : ∀ p ∈ ps, p.valid) (hnd : (ps.map PropData.fullName).Nodup) :
    Wrote (UWriter.File_Data_Player (encoders (k + 1)) (fileValue h ps)) (fileWire h ps) :=
  Wrote.w_of_bind (Wrote.w_FSaveGameHeader h hh) (Wrote.w_FPropertyList k ps hv hnd _)

theorem UWriter.getBuffer_appended (bs : List Nat) (w : UWriter)
    (h : UWriter.new.Appended bs w) : w.getBuffer = bs := by
  unfold UWriter.getBuffer
  have ho : w.offset = bs.length := by rw [h.offset]; exact Nat.zero_add _
  apply List.ext_getElem
  · rw [List.length_map, List.length_range, ho]
  · intro i h1 h2
    rw [List.getElem_map, List.getElem_range]
    have := h.bytes i h2
    rw [show UWriter.new.offset + i = i from Nat.zero_add i] at this
    rw [this, List.getD_eq_getElem?_getD, List.getElem?_eq_getElem h2]
    rfl

/-! ## The bounds of the read cursor -/

theorem readAfterAdvance (n : Nat) (r : UReader) :
    (do advance n; let o ← getOffset; readLE n (o - n) : RM Nat) r =
      if 0 ≤ r.offset ∧ r.offset + n ≤ r.buffer.length then
        ⟨.ok (leNat (sliceNat r.buffer r.offset.toNat n)), { r with offset := r.offset + n }⟩
      else ⟨.error .rangeError, { r with offset := r.offset + n }⟩ := by
  simp only [M.bind_apply, advance_apply, getOffset_apply, readLE]
  have e : r.offset + (n : Int) - n = r.offset := by omega
  simp only [e]

/-- C11 (as stated) fails: on the two-byte buffer `01 02` with the cursor at 0, `raw(5)`
returns the two bytes that exist (a truncated result, no failure) and leaves the cursor at 5,
beyond the length 2; `int32()` fails, and leaves the cursor at 4. -/
theorem read_keeps_bounds_counterexample :
    UReader.raw 5 ⟨[1, 2], 0⟩ = ⟨.ok [1, 2], ⟨[1, 2], 5⟩⟩ ∧
    UReader.int32 ⟨[1, 2], 0⟩ = ⟨.error .rangeError, ⟨[1, 2], 4⟩⟩ ∧
    ¬ ((5 : Int) ≤ ([1, 2] : List Nat).length) ∧ ¬ ((4 : Int) ≤ ([1, 2] : List Nat).length) := by
  refine ⟨by rfl, by rfl, by decide, by decide⟩

/-- C11 (amended). For a reader whose offset lies in `[0, L]`: a fixed-width read returns
exactly when its bytes lie inside the buffer, with the value of these bytes and the offset
advanced by the width (so still within `[0, L]`); when they extend past the end it fails with a
`RangeError`, the offset already advanced by the width. `raw(size)` never fails: it advances
the offset by `size` and returns what `Buffer.slice` gives for the range, clamped to the
buffer. `fstring` fails exactly when its four-byte length field extends past the end;
otherwise it returns and has advanced the offset by the four bytes and by the length read
(twice its negation when it is negative). -/
theorem fixed_read_bounds (r : UReader) (h0 : 0 ≤ r.offset) (hL : r.offset ≤ r.buffer.length) :
    (∀ op : FixedRead,
      (r.offset + op.width ≤ r.buffer.length →
        op.run r = ⟨.ok (op.value (leNat (sliceNat r.buffer r.offset.toNat op.width))),
          { r with offset := r.offset + op.width }⟩ ∧
        0 ≤ r.offset + op.width ∧ r.offset + op.width ≤ r.buffer.length) ∧
      ((r.buffer.length : Int) < r.offset + op.width →
        op.run r = ⟨.error .rangeError, { r with offset := r.offset + op.width }⟩)) ∧
    (∀ size : Int, UReader.raw size r =
      ⟨.ok (bufSlice r.buffer r.offset (r.offset + size)), { r with offset := r.offset + size }⟩) ∧
    (r.offset + 4 ≤ r.buffer.length →
      ∃ s, UReader.fstring r = ⟨.ok s, { r with offset := r.offset + 4 +
        (if 0 ≤ toSigned 32 (leNat (sliceNat r.buffer r.offset.toNat 4))
         then toSigned 32 (leNat (sliceNat r.buffer r.offset.toNat 4))
         else toSigned 32 (leNat (sliceNat r.buffer r.offset.toNat 4)) * (-2)) }⟩) ∧
    ((r.buffer.length : Int) < r.offset + 4 →
      UReader.fstring r = ⟨.error .rangeError, { r with offset := r.offset + 4 }⟩) := by
  have key : ∀ n : Nat, (do advance n; let o ← getOffset; readLE n (o - n) : RM Nat) r =
      if r.offset + n ≤ r.buffer.length then
        ⟨.ok (leNat (sliceNat r.buffer r.offset.toNat n)), { r with offset := r.offset + n }⟩
      else ⟨.error .rangeError, { r with offset := r.offset + n }⟩ := by
    intro n
    rw [readAfterAdvance]
    by_cases h : r.offset + n ≤ r.buffer.length
    · rw [if_pos ⟨h0, h⟩, if_pos h]
    · rw [if_neg (fun hh => h hh.2), if_neg h]
  refine ⟨?_, ?_, ?_, ?_⟩
  · intro op
    constructor
    · intro h
      refine ⟨?_, by omega, h⟩
      have k := key op.width
      rw [if_pos h] at k
      cases op <;>
        simp only [FixedRead.run, FixedRead.value, FixedRead.width, UReader.int8, UReader.uint8,
          UReader.int16, UReader.uint16, UReader.int32, UReader.uint32, UReader.int64,
          UReader.float, UReader.double, M.map_apply, M.bind_apply, M.pure_apply,
          advance_apply, getOffset_apply] at k ⊢ <;>
        simp only [FixedRead.width, Nat.cast_ofNat, Nat.cast_one] at k <;>
        rw [k] <;> rfl
    · intro h
      have k := key op.width
      rw [if_neg (by omega)] at k
      cases op <;>
        simp only [FixedRead.run, FixedRead.value, FixedRead.width, UReader.int8, UReader.uint8,
          UReader.int16, UReader.uint16, UReader.int32, UReader.uint32, UReader.int64,
          UReader.float, UReader.double, M.map_apply, M.bind_apply, M.pure_apply,
          advance_apply, getOffset_apply] at k ⊢ <;>
        simp only [FixedRead.width, Nat.cast_ofNat, Nat.cast_one] at k <;>
        rw [k] <;> rfl
  · intro size
    simp only [UReader.raw, M.bind_apply, advance_apply, getOffset_apply]
    have e : r.offset + size - size = r.offset := by omega
    rw [e]
  · intro h
    have k := key 4
    simp only [Nat.cast_ofNat] at k
    rw [if_pos h] at k
    have k32 : UReader.int32 r = ⟨.ok (toSigned 32 (leNat (sliceNat r.buffer r.offset.toNat 4))),
        { r with offset := r.offset + 4 }⟩ := by
      simp only [UReader.int32, M.bind_apply, M.pure_apply, advance_apply, getOffset_apply] at k ⊢
      rw [k]
    generalize toSigned 32 (leNat (sliceNat r.buffer r.offset.toNat 4)) = size at k32
    unfold UReader.fstring
    simp only [M.bind_apply, k32]
    by_cases hs : 0 ≤ size
    · simp only [if_pos hs]
      by_cases h1 : size = 1
      · simp only [if_pos h1, M.bind_apply, advance_apply, M.pure_apply]
        exact ⟨_, rfl⟩
      · simp only [if_neg h1, M.bind_apply, advance_apply, getOffset_apply]
        exact ⟨_, rfl⟩
    · simp only [if_neg hs, M.bind_apply, advance_apply, getOffset_apply]
      exact ⟨_, rfl⟩
  · intro h
    have k := key 4
    simp only [Nat.cast_ofNat] at k
    rw [if_neg (by omega)] at k
    have k32 : UReader.int32 r = ⟨.error .rangeError, { r with offset := r.offset + 4 }⟩ := by
      simp only [UReader.int32, M.bind_apply, M.pure_apply, advance_apply, getOffset_apply] at k ⊢
      rw [k]
    unfold UReader.fstring
    simp only [M.bind_apply, k32]

theorem fixed_read_bounds_witness :
    UReader.raw 1 ⟨[7, 0, 0, 0], 0⟩ = ⟨.ok [7], ⟨[7, 0, 0, 0], 1⟩⟩ ∧
    FixedRead.run .int32 ⟨[7, 0, 0, 0], 0⟩ = ⟨.ok (.num 7), ⟨[7, 0, 0, 0], 4⟩⟩ :=
  ⟨((fixed_read_bounds ⟨[7, 0, 0, 0], 0⟩ (by decide) (by decide)).2.1 1).trans (by rfl),
   (((fixed_read_bounds ⟨[7, 0, 0, 0], 0⟩ (by decide) (by decide)).1 .int32).1
      (by decide)).1.trans (by rfl)⟩

/-! ## Writes grow the buffer -/

theorem UWriter.grow_byteAt_cases (w : UWriter) (n j : Nat) :
    (w.grow n).byteAt j = w.byteAt j ∨ (w.length ≤ j ∧ (w.grow n).byteAt j = 0) := by
  unfold UWriter.grow
  split
  · dsimp only
    by_cases h : j < w.length
    · left; rw [if_pos h]
    · right; exact ⟨by omega, by rw [if_neg h]⟩
  · left; rfl

/-- The state after `checkBuf(n)`, a store of `bs` and a step over `k` bytes, from any
state. -/
theorem UWriter.grow_put_stored (w : UWriter) (n k : Nat) (bs : List Nat)
    (hn : bs.length + k ≤ n) :
    w.Stored bs k { (w.grow n).put bs with offset := ((w.grow n).put bs).offset + k } := by
  have hf := UWriter.grow_fits w n
  have ho : (w.grow n).offset = w.offset := UWriter.grow_offset w n
  have hl := UWriter.grow_length w n
  refine ⟨?_, ?_, ?_, ?_, ?_, ?_⟩
  · show (w.grow n).offset + bs.length + k = _
    rw [ho]
  · exact hl
  · show (w.grow n).offset + bs.length + k < (w.grow n).length
    omega
  · intro i hi
    show ((w.grow n).put bs).byteAt (w.offset + i) = _
    rw [← ho, UWriter.put_byteAt_in _ _ _ hi]
  · intro j hj hout
    show ((w.grow n).put bs).byteAt j = _
    rw [UWriter.put_byteAt_out _ _ _ (by rw [ho]; exact hout), UWriter.grow_byteAt w n j hj]
  · intro z hz hzero j hj
    show ((w.grow n).put bs).byteAt j = _
    rw [UWriter.put_byteAt_out _ _ _ (by rw [ho]; omega)]
    rcases UWriter.grow_byteAt_cases w n j with h | h
    · rw [h, hzero j hj]
    · exact h.2

theorem UWriter.Stored.st_trans {w w1 w2 : UWriter} {b1 b2 : List Nat} {k : Nat}
    (h1 : w.Stored b1 0 w1) (h2 : w1.Stored b2 k w2) : w.Stored (b1 ++ b2) k w2 := by
  have o1 : w1.offset = w.offset + b1.length := h1.offset
  refine ⟨?_, Nat.le_trans h1.length h2.length, h2.inside, ?_, ?_, ?_⟩
  · rw [h2.offset, o1, List.length_append]; omega
  · intro i hi
    by_cases hlt : i < b1.length
    · rw [h2.kept _ (by have := h1.inside; omega) (by omega), h1.bytes i hlt]
      simp only [List.getD_eq_getElem?_getD, List.getElem?_append_left hlt]
    · rw [List.length_append] at hi
      have e : w.offset + i = w1.offset + (i - b1.length) := by omega
      rw [e, h2.bytes _ (by omega)]
      simp only [List.getD_eq_getElem?_getD, List.getElem?_append_right (Nat.le_of_not_lt hlt)]
  · intro j hj hout
    rw [List.length_append] at hout
    rw [h2.kept j (by have := h1.length; omega) (by omega), h1.kept j hj (by omega)]
  · intro z hz hzero
    rw [List.length_append] at hz
    exact h2.zero z (by omega) (h1.zero z (by omega) hzero)

/-- On a clean writer a store appends the bytes stored and zeros for the bytes skipped. -/
theorem UWriter.Stored.appended {w w' : UWriter} {bs : List Nat} {k : Nat}
    (h : w.Stored bs k w') (hc : w.clean) : w.Appended (bs ++ List.replicate k 0) w' := by
  refine ⟨?_, ⟨h.inside, ?_⟩, ?_, ?_⟩
  · rw [h.offset, List.length_append, List.length_replicate]; omega
  · intro j hj
    exact h.zero (w.offset + bs.length) (Nat.le_refl _) (fun i hi => hc.2 i (by omega)) j
      (by have := h.offset; omega)
  · intro j hj
    exact h.kept j (by have := hc.1; omega) (Or.inl hj)
  · intro i hi
    by_cases hlt : i < bs.length
    · rw [h.bytes i hlt]
      simp only [List.getD_eq_getElem?_getD, List.getElem?_append_left hlt]
    · rw [h.zero (w.offset + bs.length) (Nat.le_refl _) (fun i hi => hc.2 i (by omega)) _
        (by omega)]
      rw [List.length_append, List.length_replicate] at hi
      simp only [List.getD_eq_getElem?_getD,
        List.getElem?_append_right (Nat.le_of_not_lt hlt)]
      rw [List.getElem?_replicate, if_pos (by omega)]
      rfl

theorem Stores.s_of_bind {m1 : WM Unit} {m2 : WM Unit} {b1 b2 : List Nat} {k : Nat}
    (h1 : Stores m1 b1 0) (h2 : Stores m2 b2 k) : Stores (m1 >>= fun _ => m2) (b1 ++ b2) k := by
  intro w
  obtain ⟨w1, e1, a1⟩ := h1 w
  obtain ⟨w2, e2, a2⟩ := h2 w1
  exact ⟨w2, by rw [M.bind_apply, e1]; exact e2, a1.st_trans a2⟩

theorem Stores.s_congr {m : WM Unit} {b b' : List Nat} {k : Nat} (h : Stores m b k)
    (hb : b = b') : Stores m b' k := hb ▸ h

theorem Stores.s_checked (n : Nat) (bs : List Nat) (hn : bs.length ≤ n) :
    Stores (UWriter.checkBuf n >>= fun _ => UWriter.writeBytes bs) bs 0 := by
  intro w
  have hf := UWriter.grow_fits w n
  have hfit : (w.grow n).offset + bs.length ≤ (w.grow n).length := by omega
  refine ⟨(w.grow n).put bs, ?_, UWriter.grow_put_stored w n 0 bs (by omega)⟩
  simp only [M.bind_apply, UWriter.checkBuf, UWriter.writeBytes, if_pos hfit]

theorem Stores.s_writeInt (bits : Nat) (signed : Bool) (n : Int)
    (hlo : (if signed then -(2 ^ (bits - 1)) else 0 : Int) ≤ n)
    (hhi : n < (if signed then 2 ^ (bits - 1) else 2 ^ bits : Int)) :
    Stores (UWriter.writeInt bits signed (.num n)) (leBytes (bits / 8) (toUnsigned bits n)) 0 := by
  intro w
  exact ⟨_, UWriter.writeInt_num bits signed n w hlo hhi,
    UWriter.grow_put_stored w (bits / 8) 0 _ (by rw [leBytes_length]; omega)⟩

theorem Stores.s_signed (bits : Nat) (v : Int)
    (hlo : -(2 ^ (bits - 1) : Int) ≤ v) (hhi : v < (2 ^ (bits - 1) : Int)) :
    Stores (UWriter.writeInt bits true (.num v)) (leBytes (bits / 8) (toUnsigned bits v)) 0 :=
  Stores.s_writeInt bits true v hlo hhi

theorem Stores.s_unsigned (bits : Nat) (v : Nat) (h : v < 2 ^ bits) :
    Stores (UWriter.writeInt bits false (.num v)) (leBytes (bits / 8) v) 0 := by
  have := Stores.s_writeInt bits false v (by simp)
    (by simp only [Bool.false_eq_true, if_false]; exact_mod_cast h)
  rwa [toUnsigned_of_nat bits v h] at this

theorem Stores.s_int64 (v : Int) (h : fitsSigned 8 v) :
    Stores (UWriter.int64 (.bigint v)) (intWire 8 v) 0 := by
  have h1 : ¬ (v < -(2 ^ 63) ∨ 2 ^ 63 ≤ v) := by
    have := h.1
    have := h.2
    norm_num at *
    omega
  have e : UWriter.int64 (.bigint v) =
      (UWriter.checkBuf 8 >>= fun _ => UWriter.writeBytes (leBytes 8 (toUnsigned 64 v))) := by
    unfold UWriter.int64
    simp only [if_neg h1]
  rw [e]
  exact Stores.s_checked 8 _ (by rw [leBytes_length])

theorem Stores.s_raw (bs : List Nat) : Stores (UWriter.raw (.buffer bs)) bs 0 := by
  intro w
  exact ⟨_, UWriter.raw_emits bs w, UWriter.grow_put_stored w bs.length 0 bs (by omega)⟩

theorem Stores.s_fstring (s : JSString) (h : s.length + 1 < 2 ^ 31) :
    Stores (UWriter.fstring (.str s)) (WriteOp.stored (.fstring s))
      (WriteOp.skipped (.fstring s)) := by
  unfold WriteOp.stored WriteOp.skipped
  by_cases h1 : s = EMPTY_STR_AS_NULL_CHAR
  · subst h1
    simp only [if_true]
    have e : UWriter.fstring (.str EMPTY_STR_AS_NULL_CHAR) =
        (UWriter.int32 (.num 1) >>= fun _ => UWriter.int8 (.num 0)) := by
      unfold UWriter.fstring
      simp only [if_true]
    rw [e]
    exact Stores.s_congr (Stores.s_of_bind (Stores.s_signed 32 1 (by decide) (by decide))
      (Stores.s_signed 8 0 (by decide) (by decide))) (by decide)
  · simp only [if_neg h1]
    by_cases hpos : 0 < s.length
    · simp only [if_pos hpos]
      have e : UWriter.fstring (.str s) =
          (UWriter.int32 (.num ((s.length + 1 : Nat) : Int)) >>= fun _ =>
            (UWriter.checkBuf (s.length + 1) >>= fun _ => fun w =>
              (⟨.ok (), { w.put ((s.map (· % 256)).take (w.length - w.offset)) with
                offset := (w.put ((s.map (· % 256)).take (w.length - w.offset))).offset + 1 }⟩ :
                Res UWriter Unit))) := by
        unfold UWriter.fstring
        simp only [if_neg h1, if_pos hpos]
        rfl
      rw [e]
      have hi : Stores (UWriter.int32 (.num ((s.length + 1 : Nat) : Int)))
          (leBytes 4 (s.length + 1)) 0 := by
        have := Stores.s_signed 32 ((s.length + 1 : Nat) : Int)
          (by norm_num; omega) (by norm_num; omega)
        rwa [toUnsigned_of_nat 32 _ (by norm_num at h ⊢; omega)] at this
      have hbody : Stores (UWriter.checkBuf (s.length + 1) >>= fun _ => fun w =>
          (⟨.ok (), { w.put ((s.map (· % 256)).take (w.length - w.offset)) with
            offset := (w.put ((s.map (· % 256)).take (w.length - w.offset))).offset + 1 }⟩ :
            Res UWriter Unit)) (s.map (· % 256)) 1 := by
        intro w
        have hf := UWriter.grow_fits w (s.length + 1)
        refine ⟨{ (w.grow (s.length + 1)).put (s.map (· % 256)) with
          offset := ((w.grow (s.length + 1)).put (s.map (· % 256))).offset + 1 }, ?_,
          UWriter.grow_put_stored w (s.length + 1) 1 (s.map (· % 256))
            (by rw [List.length_map])⟩
        simp only [M.bind_apply, UWriter.checkBuf]
        rw [List.take_of_length_le (by rw [List.length_map]; omega)]
      exact Stores.s_of_bind hi hbody
    · simp only [if_neg hpos]
      have h0 : s = [] := List.length_eq_zero.mp (by omega)
      subst h0
      have e : UWriter.fstring (.str []) = UWriter.int32 (.num 0) := by
        unfold UWriter.fstring
        simp only [if_neg h1, if_neg hpos]
      rw [e]
      exact Stores.s_congr (Stores.s_signed 32 0 (by decide) (by decide)) (by decide)

/-- Every write with a valid argument returns from every writer state and stores its bytes. -/
theorem WriteOp.stores (op : WriteOp) (hv : op.valid) : Stores op.run op.stored op.skipped := by
  cases op with
  | int8 v => exact Stores.s_signed 8 v hv.1 hv.2
  | uint8 v => exact Stores.s_unsigned 8 v hv
  | int16 v => exact Stores.s_signed 16 v hv.1 hv.2
  | uint16 v => exact Stores.s_unsigned 16 v hv
  | int32 v => exact Stores.s_signed 32 v hv.1 hv.2
  | uint32 v => exact Stores.s_unsigned 32 v hv
  | int64 v => exact Stores.s_int64 v hv
  | float bits => exact Stores.s_checked 4 _ (by rw [leBytes_length])
  | double bits => exact Stores.s_checked 8 _ (by rw [leBytes_length])
  | raw bs => exact Stores.s_raw bs
  | fstring s => exact Stores.s_fstring s hv

theorem UWriter.writeInt_ok_range (bits : Nat) (signed : Bool) (n : Int) (w w' : UWriter)
    (h : UWriter.writeInt bits signed (.num n) w = ⟨.ok (), w'⟩) :
    (if signed then -(2 ^ (bits - 1)) else 0 : Int) ≤ n ∧
      n < (if signed then 2 ^ (bits - 1) else 2 ^ bits : Int) := by
  by_contra hc
  have hr : n < (if signed then -(2 ^ (bits - 1)) else 0 : Int) ∨
      (if signed then 2 ^ (bits - 1) else 2 ^ bits : Int) ≤ n := by omega
  simp only [UWriter.writeInt, M.bind_apply, UWriter.checkBuf_apply, numArg, if_pos hr,
    M.fail_apply] at h
  cases h

/-- A write that returns had an argument that its `Buffer` write accepts. -/
theorem WriteOp.valid_of_ok (op : WriteOp) (w w' : UWriter) (h : op.run w = ⟨.ok (), w'⟩) :
    op.valid := by
  cases op with
  | int8 v => exact UWriter.writeInt_ok_range 8 true v w w' h
  | uint8 v =>
    have := (UWriter.writeInt_ok_range 8 false v w w' h).2
    simp only [Bool.false_eq_true, if_false] at this
    show v < 2 ^ 8
    exact_mod_cast this
  | int16 v => exact UWriter.writeInt_ok_range 16 true v w w' h
  | uint16 v =>
    have := (UWriter.writeInt_ok_range 16 false v w w' h).2
    simp only [Bool.false_eq_true, if_false] at this
    show v < 2 ^ 16
    exact_mod_cast this
  | int32 v => exact UWriter.writeInt_ok_range 32 true v w w' h
  | uint32 v =>
    have := (UWriter.writeInt_ok_range 32 false v w w' h).2
    simp only [Bool.false_eq_true, if_false] at this
    show v < 2 ^ 32
    exact_mod_cast this
  | int64 v =>
    show fitsSigned 8 v
    by_contra hc
    have hr : v < -(2 ^ 63) ∨ 2 ^ 63 ≤ v := by
      unfold fitsSigned at hc
      norm_num at hc
      omega
    simp only [WriteOp.run, UWriter.int64, M.bind_apply, UWriter.checkBuf_apply, if_pos hr,
      M.fail_apply] at h
    cases h
  | float bits => trivial
  | double bits => trivial
  | raw bs => trivial
  | fstring s =>
    show s.length + 1 < 2 ^ 31
    by_contra hc
    have h1 : s ≠ EMPTY_STR_AS_NULL_CHAR := by
      intro e
      subst e
      exact hc (by decide)
    have hpos : 0 < s.length := by omega
    have hr : ((s.length : Int) + 1 < -(2 ^ (32 - 1)) ∨ (2 : Int) ^ (32 - 1) ≤ (s.length : Int) + 1) := by
      right
      norm_num at hc ⊢
      omega
    simp only [WriteOp.run, UWriter.fstring, if_neg h1, if_pos hpos, M.bind_apply,
      UWriter.int32, UWriter.writeInt, UWriter.checkBuf_apply, numArg, if_true, if_pos hr,
      M.fail_apply] at h
    cases h

theorem UWriter.new_clean : UWriter.new.clean :=
  ⟨by decide, fun _ _ => rfl⟩

theorem UWriter.seek_inside (p : Nat) (w : UWriter) (h : p < w.length) :
    UWriter.seek p w = ⟨.ok (), { w with offset := p }⟩ := by
  unfold UWriter.seek
  rw [if_neg (by omega), Int.toNat_ofNat]

/-- The second seek of `goBack` succeeds when the cursor was inside the buffer and the callback
does not shorten the buffer. -/
theorem UWriter.goBack_restores (p : Int) (cb : Nat → WM Unit) (w w1 w2 : UWriter)
    (hin : w.offset < w.length) (hcb : M.Returns growRel (cb w.offset))
    (h1 : UWriter.seek p w = ⟨.ok (), w1⟩) (h2 : cb w.offset w1 = ⟨.ok (), w2⟩) :
    UWriter.goBack p cb w = ⟨.ok (), { w2 with offset := w.offset }⟩ := by
  have hl1 : w1.length = w.length := by
    unfold UWriter.seek at h1
    split at h1
    · cases h1
    · cases h1; rfl
  have hl2 := (hcb.holds w1 () w2 h2).2.1
  unfold UWriter.goBack
  simp only [M.bind_apply, h1, h2]
  exact UWriter.seek_inside w.offset w2 (by omega)

/-- Every reachable writer state is clean: the cursor is inside the buffer and the buffer is
zero from the cursor on. -/
theorem UWriter.Reachable.is_clean {w : UWriter} (h : w.Reachable) : w.clean := by
  induction h with
  | fresh => exact UWriter.new_clean
  | step op w w' _ hr ih =>
    obtain ⟨w'', e, st⟩ := op.stores (op.valid_of_ok w w' hr) w
    have : w'' = w' := by
      have := e.symm.trans hr
      cases this
      rfl
    subst this
    exact (st.appended ih).clean
  | back op p w w' _ hp hr ih =>
    have hlen : op.bytes.length = op.stored.length + op.skipped := by
      unfold WriteOp.bytes
      rw [List.length_append, List.length_replicate]
    have hs := UWriter.seek_inside p w (by have := ih.1; omega)
    unfold UWriter.goBack at hr
    simp only [M.bind_apply, hs] at hr
    cases hrun : op.run { w with offset := p } with
    | mk o w2 =>
      rw [hrun] at hr
      cases o with
      | error e => cases hr
      | ok u =>
        obtain ⟨w'', e, st⟩ := op.stores (op.valid_of_ok _ w2 hrun) { w with offset := p }
        have : w'' = w2 := by
          have := e.symm.trans hrun
          cases this
          rfl
        subst this
        have hl : w.length ≤ w''.length := st.length
        dsimp only at hr
        rw [UWriter.seek_inside w.offset w'' (by have := ih.1; omega)] at hr
        cases hr
        refine ⟨by have := ih.1; show w.offset < w''.length; omega, ?_⟩
        intro j hj
        exact st.zero w.offset (by show p + op.stored.length ≤ w.offset; omega)
          (fun i hi => ih.2 i hi) j hj

/-- For an ASCII string the bytes of `fstring` are the wire form of the string: the length
field, the characters themselves and the terminator. -/
theorem WriteOp.bytes_fstring_ascii (s : JSString) (h : asciiStr s) :
    WriteOp.bytes (.fstring s) = strWire s := by
  have hmap : s.map (· % 256) = s := by
    conv_rhs => rw [← List.map_id s]
    apply List.map_congr_left
    intro c hc
    have := h.1 c hc
    show c % 256 = c
    omega
  unfold WriteOp.bytes WriteOp.stored WriteOp.skipped strWire
  by_cases h1 : s = EMPTY_STR_AS_NULL_CHAR
  · subst h1
    decide
  · by_cases h0 : s = []
    · subst h0
      decide
    · have hpos : 0 < s.length := List.length_pos.mpr h0
      simp only [if_neg h1, if_pos hpos, if_neg h0, hmap, List.replicate_one, List.append_assoc]

/-- C12. From every reachable writer state, every write with an argument that the `Buffer`
write accepts returns, whatever capacity is left: the bytes before the old cursor are
unchanged, the bytes of the write lie between the old and the new cursor, the new cursor is
inside the buffer (and the state is reachable again), so that a `goBack` from there whose first
seek and whose callback return (the callback not shortening the buffer) returns with the
cursor restored. -/
theorem write_grows (w : UWriter) (op : WriteOp) (hw : w.Reachable) (hv : op.valid) :
    ∃ w', op.run w = ⟨.ok (), w'⟩ ∧
      w'.offset = w.offset + op.bytes.length ∧
      (∀ j, j < w.offset → w'.byteAt j = w.byteAt j) ∧
      (∀ i, i < op.bytes.length → w'.byteAt (w.offset + i) = op.bytes.getD i 0) ∧
      w'.offset < w'.length ∧ w'.Reachable ∧
      (∀ (p : Int) (cb : Nat → WM Unit) (w1 w2 : UWriter),
        M.Returns growRel (cb w'.offset) →
        UWriter.seek p w' = ⟨.ok (), w1⟩ → cb w'.offset w1 = ⟨.ok (), w2⟩ →
        UWriter.goBack p cb w' = ⟨.ok (), { w2 with offset := w'.offset }⟩) := by
  obtain ⟨w', e, st⟩ := op.stores hv w
  have ap := st.appended hw.is_clean
  exact ⟨w', e, ap.offset, ap.before, ap.bytes, ap.clean.1, UWriter.Reachable.step op w w' hw e,
    fun p cb w1 w2 hcb h1 h2 => UWriter.goBack_restores p cb w' w1 w2 ap.clean.1 hcb h1 h2⟩

theorem write_grows_witness :
    ∃ w', UWriter.int32 (.num 5) UWriter.new = ⟨.ok (), w'⟩ ∧ w'.offset = 4 ∧
      w'.byteAt 0 = 5 ∧ w'.offset < w'.length := by
  obtain ⟨w', e, ho, _, hb, hin, _, _⟩ :=
    write_grows UWriter.new (.int32 5) UWriter.Reachable.fresh (by constructor <;> decide)
  exact ⟨w', e, ho, hb 0 (by decide), hin⟩

/-! ## Rich text with an unknown history type -/

/-- C13 (as stated) fails: at the five bytes `00 00 00 00 07` (flags 0, history type 7)
`ftext` returns, with the value `undefined` and the cursor behind the five bytes. -/
theorem ftext_unknown_history_counterexample :
    (decoders {} 1).ftext ⟨[0, 0, 0, 0, 7], 0⟩ = ⟨.ok .undefined, ⟨[0, 0, 0, 0, 7], 5⟩⟩ := by
  rfl

/-- C13 (amended). At a rich-text value whose flags field and history byte lie inside the
buffer and whose history type is none of -1, 0, 1, 2, 4, 11, `ftext` does not fail: it returns
`undefined` (after the message on the console) with the cursor behind the history byte, five
bytes on. -/
theorem ftext_unknown_history (d : Decoders) (flags : Nat) (h : Int) (r : UReader)
    (pre post : List Nat) (hf : flags < 2 ^ 32) (hh : fitsSigned 1 h)
    (hu : h ≠ -1 ∧ h ≠ 0 ∧ h ≠ 1 ∧ h ≠ 2 ∧ h ≠ 4 ∧ h ≠ 11)
    (hb : r.buffer = pre ++ (leBytes 4 flags ++ intWire 1 h) ++ post)
    (ho : r.offset = pre.length) :
    UReader.ftext d r = ⟨.ok .undefined, { r with offset := r.offset + 5 }⟩ := by
  have key : Reads (UReader.ftext d) (leBytes 4 flags ++ (intWire 1 h ++ []))
      (fun _ => JSVal.undefined) := by
    unfold UReader.ftext
    apply Reads.r_congr
    · apply Reads.r_of_bind (Reads.r_uint32 flags hf)
      intro _
      apply Reads.r_of_bind (Reads.r_int8 h hh)
      intro _
      dsimp only
      rw [if_neg hu.1, if_neg hu.2.1, if_neg hu.2.2.1, if_neg hu.2.2.2.1, if_neg hu.2.2.2.2.1,
        if_neg hu.2.2.2.2.2]
      exact Reads.r_of_pure _
    · rfl
    · intro _
      rfl
  have := key r pre post (by rw [hb, List.append_nil]) ho
  rw [this]
  simp only [List.length_append, leBytes_length, intWire, List.length_nil]
  rfl

theorem ftext_unknown_history_witness :
    UReader.ftext (decoders {} 0) ⟨[9, 1, 0, 0, 0, 7, 9], 1⟩ =
      ⟨.ok .undefined, ⟨[9, 1, 0, 0, 0, 7, 9], 6⟩⟩ :=
  ftext_unknown_history (decoders {} 0) 1 7 ⟨[9, 1, 0, 0, 0, 7, 9], 1⟩ [9] [9] (by decide)
    (by constructor <;> decide) (by decide) (by decide) (by decide)

/-! ## The raw fallback of a set -/

set_option maxRecDepth 8000 in
/-- C14 at a failing input: the value `01 00 00 00 07 00` of a SetProperty of declared size 6
(one removed element, cut short). The reader captures the six bytes and flags the tag
(`SetAsBuffer`); the writer's value encode for that tag and value does not emit them: its test
reads `this.SetAsBuffer`, so it encodes the sequences, twelve bytes. -/
theorem set_raw_fallback_not_reemitted :
    UReader.FPropertyValue {} (decoders {} 2) exSetTag ⟨exSetWire, 0⟩ =
      ⟨.ok (exSetValue, exSetTagRead), ⟨exSetWire, 6⟩⟩ ∧
    exSetTagRead.f.SetAsBuffer = true ∧
    field exSetValue "buffer" = .buffer exSetWire ∧
    encodeValue 1 exSetTagRead exSetValue = some [1, 0, 0, 0, 0, 0, 0, 0, 0, 0, 0, 0] ∧
    encodeValue 1 exSetTagRead exSetValue ≠ some exSetWire := by
  refine ⟨by rfl, by rfl, by rfl, by decide!, by decide!⟩

/-! ## The faults of an operation -/

theorem M.Throws.t_pure {σ α : Type} (P : Fault → Prop) (a : α) :
    M.Throws P (pure a : M σ α) := by
  constructor
  intro s e s' h
  cases h

theorem M.Throws.t_fail {σ α : Type} (P : Fault → Prop) (e : Fault) (he : P e) :
    M.Throws P (M.fail e : M σ α) := by
  constructor
  intro s e' s' h
  cases h
  exact he

theorem M.Throws.t_bind {σ α β : Type} (P : Fault → Prop) {m : M σ α} {f : α → M σ β}
    (hm : M.Throws P m) (hf : ∀ a, M.Throws P (f a)) : M.Throws P (m >>= f) := by
  constructor
  intro s e s' h
  rw [M.bind_apply] at h
  cases hms : m s with
  | mk o s1 =>
    rw [hms] at h
    cases o with
    | ok a => exact (hf a).holds s1 e s' h
    | error e1 =>
      cases h
      exact hm.holds s e s' hms

theorem M.Throws.t_map {σ α β : Type} (P : Fault → Prop) {m : M σ α} (g : α → β)
    (hm : M.Throws P m) : M.Throws P (g <$> m) := by
  constructor
  intro s e s' h
  rw [M.map_apply] at h
  cases hms : m s with
  | mk o s1 =>
    rw [hms] at h
    cases o with
    | ok a => cases h
    | error e1 =>
      cases h
      exact hm.holds s e s' hms

theorem advance_throws (P : Fault → Prop) (n : Int) : M.Throws P (advance n) :=
  ⟨fun _ _ _ h => by cases h⟩

theorem getOffset_throws (P : Fault → Prop) : M.Throws P getOffset :=
  ⟨fun _ _ _ h => by cases h⟩

theorem readLE_throws (n : Nat) (o : Int) : M.Throws (· = .rangeError) (readLE n o) := by
  constructor
  intro s e s' h
  unfold readLE at h
  split at h
  · cases h
  · cases h
    rfl

theorem UReader.int32_throws : M.Throws (· = .rangeError) UReader.int32 := by
  unfold UReader.int32
  repeat (with_reducible first
    | apply M.Throws.t_bind | exact M.Throws.t_pure _ _ | exact advance_throws _ _
    | exact getOffset_throws _ | exact readLE_throws _ _ | intro _)

theorem UReader.uint32_throws : M.Throws (· = .rangeError) UReader.uint32 := by
  unfold UReader.uint32
  repeat (with_reducible first
    | apply M.Throws.t_bind | exact M.Throws.t_pure _ _ | exact advance_throws _ _
    | exact getOffset_throws _ | exact readLE_throws _ _ | intro _)

theorem UReader.uint8_throws : M.Throws (· = .rangeError) UReader.uint8 := by
  unfold UReader.uint8
  repeat (with_reducible first
    | apply M.Throws.t_bind | exact M.Throws.t_pure _ _ | exact advance_throws _ _
    | exact getOffset_throws _ | exact readLE_throws _ _ | intro _)

theorem UReader.fstring_throws : M.Throws (· = .rangeError) UReader.fstring := by
  unfold UReader.fstring
  apply M.Throws.t_bind _ UReader.int32_throws
  intro size
  split
  · apply M.Throws.t_bind _ (advance_throws _ _)
    intro _
    split
    · exact M.Throws.t_pure _ _
    · apply M.Throws.t_bind _ (getOffset_throws _)
      intro _
      exact ⟨fun _ _ _ h => by cases h⟩
  · apply M.Throws.t_bind _ (advance_throws _ _)
    intro _
    apply M.Throws.t_bind _ (getOffset_throws _)
    intro _
    exact ⟨fun _ _ _ h => by cases h⟩

theorem UReader.FGuid_throws : M.Throws (· = .rangeError) UReader.FGuid := by
  unfold UReader.FGuid
  repeat (with_reducible first
    | apply M.Throws.t_bind | exact M.Throws.t_pure _ _ | exact UReader.uint32_throws
    | intro _)

theorem UReader.tagExtras_throws (ty : JSString) (f : TagFields) :
    M.Throws (· = .rangeError) (UReader.tagExtras ty f) := by
  unfold UReader.tagExtras UReader.fname
  repeat (with_reducible first
    | apply M.Throws.t_bind | exact M.Throws.t_pure _ _ | exact UReader.uint32_throws
    | exact UReader.fstring_throws | exact UReader.FGuid_throws | exact UReader.uint8_throws
    | exact getOffset_throws _ | split | intro _)

/-- The only fault of the reader's `FPropertyTag` is the `RangeError` of a `Buffer` read. -/
theorem UReader.FPropertyTag_throws : M.Throws (· = .rangeError) UReader.FPropertyTag := by
  unfold UReader.FPropertyTag UReader.fname
  repeat (with_reducible first
    | apply M.Throws.t_bind | exact M.Throws.t_pure _ _ | exact UReader.uint32_throws
    | exact UReader.int32_throws
    | exact UReader.fstring_throws | exact UReader.FGuid_throws | exact UReader.uint8_throws
    | exact UReader.tagExtras_throws _ _
    | exact getOffset_throws _ | split | intro _)

/-! ## The probe for a property tag -/

theorem UReader.seek_cases (p : Int) (r : UReader) :
    UReader.seek p r =
      if 0 ≤ p ∧ p < r.buffer.length then ⟨.ok (), { r with offset := p }⟩
      else ⟨.error .seekError, r⟩ := by
  unfold UReader.seek
  by_cases h : 0 ≤ p ∧ p < r.buffer.length
  · rw [if_pos h, if_neg (by omega)]
  · rw [if_neg h, if_pos (by omega)]

theorem UReader.restore (r r1 : UReader) (hb : r1.buffer = r.buffer) :
    ({ r1 with offset := r.offset } : UReader) = r := by
  cases r
  cases r1
  cases hb
  rfl

/-- The probe on a reader at which a tag can be decoded: the plausibility test decides, the
cursor is restored. -/
theorem UReader.tryPropertyTag_ok (limit : Option Int) (r r1 : UReader) (tag : Tag)
    (hT : UReader.FPropertyTag r = ⟨.ok tag, r1⟩)
    (h : 0 ≤ r.offset ∧ r.offset < r.buffer.length) :
    UReader.tryPropertyTag limit r = ⟨.ok (! tagImplausible tag r1.offset limit), r⟩ := by
  have hb : r1.buffer = r.buffer := by
    have := UReader.FPropertyTag_buf.holds r
    rw [hT] at this
    exact this
  have hs : UReader.seek r.offset r1 = ⟨.ok (), r⟩ := by
    rw [UReader.seek_cases, if_pos (by rw [hb]; exact h), UReader.restore r r1 hb]
  unfold UReader.tryPropertyTag M.tryCatch
  simp only [M.bind_apply, hT, getOffset_apply]
  by_cases hp : tagImplausible tag r1.offset limit = true
  · simp only [hp, if_true, M.fail_apply, Fault.catchable, hs, M.pure_apply, Bool.not_true]
  · simp only [hp, hs, M.pure_apply, Bool.not_eq_true] at hp ⊢
    simp only [hp, Bool.false_eq_true, if_false, M.bind_apply, hs, M.pure_apply, Bool.not_false]

/-- The probe on a reader at which no tag can be decoded, the cursor inside the buffer: the
answer is `false`, the cursor is restored. -/
theorem UReader.tryPropertyTag_err (limit : Option Int) (r r1 : UReader) (e : Fault)
    (hT : UReader.FPropertyTag r = ⟨.error e, r1⟩)
    (h : 0 ≤ r.offset ∧ r.offset < r.buffer.length) :
    UReader.tryPropertyTag limit r = ⟨.ok false, r⟩ := by
  have hb : r1.buffer = r.buffer := by
    have := UReader.FPropertyTag_buf.holds r
    rw [hT] at this
    exact this
  have hs : UReader.seek r.offset r1 = ⟨.ok (), r⟩ := by
    rw [UReader.seek_cases, if_pos (by rw [hb]; exact h), UReader.restore r r1 hb]
  have he : e = .rangeError := UReader.FPropertyTag_throws.holds r e r1 hT
  subst he
  unfold UReader.tryPropertyTag M.tryCatch
  simp only [M.bind_apply, hT, Fault.catchable, if_true, hs, M.pure_apply]

/-- The probe on a reader whose cursor is not inside the buffer: the seek that restores the
cursor throws. -/
theorem UReader.tryPropertyTag_outside (limit : Option Int) (r : UReader)
    (h : ¬ (0 ≤ r.offset ∧ r.offset < r.buffer.length)) :
    (UReader.tryPropertyTag limit r).out = .error .seekError := by
  unfold UReader.tryPropertyTag M.tryCatch
  simp only [M.bind_apply, getOffset_apply]
  cases hT : UReader.FPropertyTag r with
  | mk o r1 =>
    have hb : r1.buffer = r.buffer := by
      have := UReader.FPropertyTag_buf.holds r
      rw [hT] at this
      exact this
    have hs : UReader.seek r.offset r1 = ⟨.error .seekError, r1⟩ := by
      rw [UReader.seek_cases, if_neg (by rw [hb]; exact h)]
    cases o with
    | error e =>
      have he : e = .rangeError := UReader.FPropertyTag_throws.holds r e r1 hT
      subst he
      simp only [Fault.catchable, if_true, hs]
    | ok tag =>
      dsimp only
      by_cases hp : tagImplausible tag r1.offset limit = true
      · simp only [hp, if_true, M.fail_apply, Fault.catchable, hs]
      · simp only [Bool.not_eq_true] at hp
        simp only [hp, Bool.false_eq_true, if_false, M.bind_apply, hs, Fault.catchable, if_true]

/-- C18 (as stated) fails: on a reader at the end of its buffer (the nine bytes of a
terminator tag, cursor at 9) the probe throws, from the `seek` that is to restore the cursor,
and leaves the cursor at 13. -/
theorem try_property_tag_counterexample :
    UReader.tryPropertyTag none ⟨wireStr "None", 9⟩ =
      ⟨.error .seekError, ⟨wireStr "None", 13⟩⟩ := by
  rfl

/-- C18 (amended). For every reader whose cursor is inside the buffer (`0 ≤ offset < length`)
and every outer offset limit, `tryPropertyTag` returns a boolean without raising and leaves
the reader as it was, whether the probe succeeded or failed; for every other cursor (at or
past the end, or negative) it throws the error of `seek`. -/
theorem try_property_tag_restores (r : UReader) (limit : Option Int) :
    (0 ≤ r.offset ∧ r.offset < r.buffer.length →
      ∃ b, UReader.tryPropertyTag limit r = ⟨.ok b, r⟩) ∧
    (¬ (0 ≤ r.offset ∧ r.offset < r.buffer.length) →
      (UReader.tryPropertyTag limit r).out = .error .seekError) := by
  refine ⟨fun h => ?_, UReader.tryPropertyTag_outside limit r⟩
  cases hT : UReader.FPropertyTag r with
  | mk o r1 =>
    cases o with
    | error e => exact ⟨false, UReader.tryPropertyTag_err limit r r1 e hT h⟩
    | ok tag => exact ⟨_, UReader.tryPropertyTag_ok limit r r1 tag hT h⟩

theorem try_property_tag_restores_witness :
    ∃ b, UReader.tryPropertyTag (some 100) ⟨wireStr "None", 0⟩ = ⟨.ok b, ⟨wireStr "None", 0⟩⟩ :=
  (try_property_tag_restores ⟨wireStr "None", 0⟩ (some 100)).1 (by decide)

/-! ## The verdict of the probe -/

theorem indexOf_spec (p : JSString) (hp : p ≠ []) (s : JSString) (i : Nat) :
    indexOf p s = some i ↔ firstOccurrence p s i := by
  induction s generalizing i with
  | nil =>
    have h1 : indexOf p [] = none := by
      unfold indexOf
      rw [if_neg]
      simpa using hp
    rw [h1]
    constructor
    · intro h
      cases h
    · intro h
      have := h.1
      rw [List.drop_nil, List.prefix_nil] at this
      exact absurd this hp
  | cons c cs ih =>
    unfold indexOf
    by_cases hs : startsWith p (c :: cs) = true
    · rw [if_pos hs]
      have hpre : p <+: c :: cs := List.isPrefixOf_iff_prefix.mp hs
      constructor
      · intro h
        cases h
        exact ⟨hpre, fun j hj => absurd hj (Nat.not_lt_zero j)⟩
      · intro h
        cases i with
        | zero => rfl
        | succ k => exact absurd hpre (h.2 0 (Nat.succ_pos k))
    · rw [if_neg hs]
      have hpre : ¬ p <+: c :: cs := fun h => hs (List.isPrefixOf_iff_prefix.mpr h)
      cases i with
      | zero =>
        constructor
        · intro h
          cases hi : indexOf p cs with
          | none => rw [hi] at h; cases h
          | some k => rw [hi] at h; cases h
        · intro h
          exact absurd h.1 hpre
      | succ k =>
        constructor
        · intro h
          have hk : indexOf p cs = some k := by
            cases hi : indexOf p cs with
            | none => rw [hi] at h; cases h
            | some k' =>
              rw [hi] at h
              simp only [Option.map_some', Option.some.injEq, add_left_inj] at h
              rw [h]
          have := (ih k).mp hk
          refine ⟨this.1, fun j hj => ?_⟩
          cases j with
          | zero => exact hpre
          | succ j' => exact this.2 j' (by omega)
        · intro h
          have : firstOccurrence p cs k := ⟨h.1, fun j hj => h.2 (j + 1) (by omega)⟩
          rw [(ih k).mpr this]
          rfl

theorem truthyStr_iff (x : Option JSString) :
    truthyStr x = true ↔ ∃ n, x = some n ∧ n ≠ [] := by
  cases x with
  | none => simp [truthyStr]
  | some n =>
    cases n with
    | nil => simp [truthyStr]
    | cons c cs => simp [truthyStr]

/-- A reader at which a tag can be decoded has its cursor inside the buffer. -/
theorem UReader.FPropertyTag_ok_inside (r r1 : UReader) (tag : Tag)
    (hT : UReader.FPropertyTag r = ⟨.ok tag, r1⟩) :
    0 ≤ r.offset ∧ r.offset < r.buffer.length := by
  by_contra hc
  have hi : UReader.int32 r = ⟨.error .rangeError, { r with offset := r.offset + 4 }⟩ := by
    have k := readAfterAdvance 4 r
    simp only [Nat.cast_ofNat] at k
    rw [if_neg (by omega)] at k
    simp only [UReader.int32, M.bind_apply, M.pure_apply, advance_apply, getOffset_apply] at k ⊢
    rw [k]
  unfold UReader.FPropertyTag UReader.fname UReader.fstring at hT
  simp only [M.bind_apply, getOffset_apply, hi] at hT
  cases hT

/-- The plausibility test in the words of its conditions. -/
theorem tagImplausible_iff (tag : Tag) (o limit : Int) :
    tagImplausible tag o (some limit) = false ↔
      (∃ name, tag.f.Name = some name ∧ name ≠ []) ∧
      (tag.f.Name = some (js "None") ∨
        (o < limit ∧ ∃ ty, tag.f.Typ = some ty ∧ (∀ c ∈ ty, isAlpha c = true) ∧
          ∃ i, 3 ≤ i ∧ firstOccurrence (js "Property") ty i)) := by
  have hP : js "Property" ≠ [] := by decide
  unfold tagImplausible
  simp only [Bool.or_eq_false_iff, Bool.not_eq_false', Bool.and_eq_false_imp, bne_iff_ne, ne_eq,
    decide_eq_false_iff_not, not_le, List.any_eq_false, Bool.not_eq_true', Bool.not_eq_false,
    Bool.not_eq_true, Bool.decide_eq_false]
  rw [truthyStr_iff]
  constructor
  · rintro ⟨hn, h⟩
    refine ⟨hn, ?_⟩
    by_cases hnone : tag.f.Name = some (js "None")
    · exact Or.inl hnone
    · right
      obtain ⟨⟨⟨hl, ht⟩, ha⟩, hi⟩ := h hnone
      obtain ⟨ty, hty, _⟩ := (truthyStr_iff _).mp ht
      rw [hty] at ha hi
      simp only [Option.getD_some] at ha hi
      refine ⟨hl, ty, hty, fun c hc => ?_, ?_⟩
      · have := ha c hc
        cases hcc : isAlpha c
        · rw [hcc] at this; simp at this
        · rfl
      · cases hidx : indexOf (js "Property") ty with
        | none => rw [hidx] at hi; simp at hi
        | some i =>
          rw [hidx] at hi
          simp only [decide_eq_false_iff_not, not_lt] at hi
          exact ⟨i, hi, (indexOf_spec _ hP ty i).mp hidx⟩
  · rintro ⟨hn, h⟩
    refine ⟨hn, fun hnone => ?_⟩
    rcases h with h | ⟨hl, ty, hty, ha, i, hi, hf⟩
    · exact absurd h hnone
    · have hidx := (indexOf_spec _ hP ty i).mpr hf
      have hne : ty ≠ [] := by
        intro e
        subst e
        have := hf.1
        rw [List.drop_nil, List.prefix_nil] at this
        exact hP this
      rw [hty]
      simp only [Option.getD_some, hidx, decide_eq_false_iff_not, not_lt]
      refine ⟨⟨⟨hl, (truthyStr_iff _).mpr ⟨ty, rfl, hne⟩⟩, fun c hc => ?_⟩, hi⟩
      rw [ha c hc]

/-- C19 (as stated) fails in both directions. The type name `IntPropertyX` consists of
letters and does not end in `Property`, and the probe answers `true`; the type name `XProperty`
consists of letters and ends in `Property`, and the probe answers `false`. In both cases the
name `A` is not empty and the cursor behind the tag is below the limit 1000. -/
theorem try_property_tag_verdict_counterexample :
    UReader.tryPropertyTag (some 1000) ⟨exOddTypeWire, 0⟩ = ⟨.ok true, ⟨exOddTypeWire, 0⟩⟩ ∧
    ((UReader.FPropertyTag ⟨exOddTypeWire, 0⟩).out.toOption.map (fun t => t.f.Typ)) =
      some (some (js "IntPropertyX")) ∧
    ¬ (js "Property" <:+ js "IntPropertyX") ∧
    UReader.tryPropertyTag (some 1000) ⟨exShortTypeWire, 0⟩ =
      ⟨.ok false, ⟨exShortTypeWire, 0⟩⟩ ∧
    ((UReader.FPropertyTag ⟨exShortTypeWire, 0⟩).out.toOption.map (fun t => t.f.Typ)) =
      some (some (js "XProperty")) ∧
    js "Property" <:+ js "XProperty" ∧ (∀ c ∈ js "XProperty", isAlpha c = true) := by
  refine ⟨by rfl, by rfl, by decide, by rfl, by rfl, by decide, by decide⟩

/-- C19 (amended). For every reader state at which a tag can be decoded, `tryPropertyTag(limit)`
returns `true` if and only if the decoded tag's name is non-empty and either the name is `None`
or all of: the offset after the tag is below `limit`, the type name consists only of letters,
and the type name contains `Property`, its first occurrence at index 3 or later. The reader is
left as it was. -/
theorem try_property_tag_verdict (r r1 : UReader) (tag : Tag) (limit : Int)
    (hT : UReader.FPropertyTag r = ⟨.ok tag, r1⟩) :
    ∃ b, UReader.tryPropertyTag (some limit) r = ⟨.ok b, r⟩ ∧
      (b = true ↔
        (∃ name, tag.f.Name = some name ∧ name ≠ []) ∧
        (tag.f.Name = some (js "None") ∨
          (r1.offset < limit ∧ ∃ ty, tag.f.Typ = some ty ∧ (∀ c ∈ ty, isAlpha c = true) ∧
            ∃ i, 3 ≤ i ∧ firstOccurrence (js "Property") ty i))) := by
  refine ⟨_, UReader.tryPropertyTag_ok (some limit) r r1 tag hT
    (UReader.FPropertyTag_ok_inside r r1 tag hT), ?_⟩
  rw [← tagImplausible_iff]
  cases tagImplausible tag r1.offset (some limit) <;> simp

set_option maxRecDepth 8000 in
theorem try_property_tag_verdict_witness :
    ∃ b, UReader.tryPropertyTag (some 1000) ⟨exFooWire, 0⟩ = ⟨.ok b, ⟨exFooWire, 0⟩⟩ ∧
      (b = true ↔
        (∃ name, exIntTagAt0.f.Name = some name ∧ name ≠ []) ∧
        (exIntTagAt0.f.Name = some (js "None") ∨
          ((33 : Int) < 1000 ∧ ∃ ty, exIntTagAt0.f.Typ = some ty ∧ (∀ c ∈ ty, isAlpha c = true) ∧
            ∃ i, 3 ≤ i ∧ firstOccurrence (js "Property") ty i))) :=
  try_property_tag_verdict ⟨exFooWire, 0⟩ ⟨exFooWire, 33⟩ exIntTagAt0 1000 (by rfl)

/-! ## Recovery from a catchable fault -/

/-- The `catch` block of `FPropertyValue` with fail-fast off: after a catchable fault of the
value decode the value is `null` and the cursor is at the declared end of the value. -/
theorem UReader.FPropertyValue_caught (opts : Options) (d : Decoders) (tag : Tag) (r : UReader)
    (e : Fault) (s1 : TState UReader) (N : Int)
    (hE : opts.EarlyExit = false) (hN : tag.f.Name ≠ some (js "None"))
    (hu : d.FPropertyValue_unsafe ⟨tag, r⟩ = ⟨.error e, s1⟩) (hc : e.catchable = true)
    (hb : s1.rd.buffer = r.buffer) (hS : s1.tag.f.Size = some (.int N))
    (hin : 0 ≤ r.offset + N ∧ r.offset + N < r.buffer.length) :
    UReader.FPropertyValue opts d tag r = ⟨.ok (.null, s1.tag), ⟨r.buffer, r.offset + N⟩⟩ := by
  unfold UReader.FPropertyValue
  rw [if_neg hN]
  dsimp only
  rw [hu]
  dsimp only
  rw [if_pos hc]
  unfold UReader.recover
  rw [hE, hS]
  simp only [Bool.false_eq_true, if_false, M.bind_apply, UReader.seek]
  rw [hb, if_neg (by omega)]
  simp only [M.pure_apply, hb]

theorem UReader.common_struct (d : Decoders) (f : TagFields)
    (hT : f.Typ = some (js "StructProperty")) (hN : f.Name ≠ some (js "None")) :
    UReader.FPropertyValue_common d f = none := by
  unfold UReader.FPropertyValue_common
  rw [if_neg hN, hT]
  repeat rw [if_neg (by decide)]

theorem UReader.unsafe_struct (d : Decoders) (tag : Tag) (r : UReader)
    (hT : tag.f.Typ = some (js "StructProperty")) (hN : tag.f.Name ≠ some (js "None")) :
    UReader.FPropertyValue_unsafe d ⟨tag, r⟩ = liftR (UReader.structValue d tag.f) ⟨tag, r⟩ := by
  unfold UReader.FPropertyValue_unsafe
  simp only [M.bind_apply, getTag, UReader.common_struct d tag.f hT hN, hT]
  repeat rw [if_neg (by decide)]
  rw [if_pos trivial]

theorem UReader.tryPropertyTag_inside (limit : Option Int) (r : UReader)
    (h : 0 ≤ r.offset ∧ r.offset < r.buffer.length) :
    ∃ b, UReader.tryPropertyTag limit r = ⟨.ok b, r⟩ := by
  cases hT : UReader.FPropertyTag r with
  | mk o r1 =>
    cases o with
    | error e => exact ⟨false, UReader.tryPropertyTag_err limit r r1 e hT h⟩
    | ok tag => exact ⟨_, UReader.tryPropertyTag_ok limit r r1 tag hT h⟩

/-- The struct branch on an unregistered struct type whose first probe does not answer `true`:
a catchable fault, on the same buffer. -/
theorem UReader.structValue_probe_fails (d : Decoders) (f : TagFields) (r : UReader)
    (hL : (match lookupStruct f.StructName with
      | .absent => true
      | _ => false) = true)
    (hp : (UReader.tryPropertyTag (outerLimit f) r).out ≠ .ok true) :
    ∃ e r', UReader.structValue d f r = ⟨.error e, r'⟩ ∧ e.catchable = true ∧
      r'.buffer = r.buffer := by
  have hbuf := (UReader.tryPropertyTag_buf (outerLimit f)).holds r
  unfold UReader.structValue
  cases hl : lookupStruct f.StructName with
  | native n => rw [hl] at hL; cases hL
  | inherited => rw [hl] at hL; cases hL
  | absent =>
    dsimp only
    unfold structLoopBody
    simp only [M.bind_apply]
    by_cases hr : 0 ≤ r.offset ∧ r.offset < r.buffer.length
    · obtain ⟨b, hb⟩ := (UReader.tryPropertyTag_inside (outerLimit f) r hr)
      rw [hb] at hp ⊢
      cases b with
      | true => exact absurd rfl hp
      | false => exact ⟨.thrown1, r, rfl, rfl, rfl⟩
    · have ho := UReader.tryPropertyTag_outside (outerLimit f) r hr
      cases ht : UReader.tryPropertyTag (outerLimit f) r with
      | mk o r' =>
        rw [ht] at ho hbuf
        dsimp only at ho
        subst ho
        exact ⟨.seekError, r', rfl, rfl, hbuf⟩

/-- The loop of the struct branch throws when one of its probes fails, and the buffer is the
same. -/
theorem structLoopBody_probe_fails (opts : Options) (limit : Option Int) (fuel : Nat)
    (result : List (JSString × JSVal)) (r : UReader)
    (hp : ProbeFails opts limit fuel result r) :
    ∃ e r', structLoopBody (decoders opts fuel) limit result r = ⟨.error e, r'⟩ ∧
      e.catchable = true ∧ r'.buffer = r.buffer := by
  induction hp with
  | here fuel result r hp =>
    have hbuf := (UReader.tryPropertyTag_buf limit).holds r
    unfold structLoopBody
    simp only [M.bind_apply]
    by_cases hr : 0 ≤ r.offset ∧ r.offset < r.buffer.length
    · obtain ⟨b, hb⟩ := (UReader.tryPropertyTag_inside limit r hr)
      rw [hb] at hp ⊢
      cases b with
      | true => exact absurd rfl hp
      | false => exact ⟨.thrown1, r, rfl, rfl, rfl⟩
    · have ho := UReader.tryPropertyTag_outside limit r hr
      cases ht : UReader.tryPropertyTag limit r with
      | mk o r' =>
        rw [ht] at ho hbuf
        dsimp only at ho
        subst ho
        exact ⟨.seekError, r', rfl, rfl, hbuf⟩
  | later fuel result result1 r r1 r2 tag htry hT hN hpd _ ih =>
    obtain ⟨e, r', he, hc, hb⟩ := ih
    have hb1 : r1.buffer = r.buffer := by
      have := UReader.FPropertyTag_buf.holds r
      rw [hT] at this
      exact this
    have hb2 : r2.buffer = r1.buffer := by
      have := (pushAndDecode_buf (decoders opts (fuel + 1)) (decoders_keeps opts (fuel + 1))
        result tag).holds r1
      rw [hpd] at this
      exact this
    refine ⟨e, r', ?_, hc, hb.trans (hb2.trans hb1)⟩
    unfold structLoopBody
    simp only [M.bind_apply, htry, Bool.not_true, Bool.false_eq_true, if_false, hT, if_neg hN,
      hpd]
    exact he

set_option maxRecDepth 8000 in
/-- C15 (as stated) fails: a StructProperty of the unregistered type `Foo` with declared size
4 whose value `01 02 03 04` holds no property tag. The probe fails; the decoded value is
`null`, not a byte range, and the tag object is unchanged (no flag); the cursor is at 4. The
writer's value encode on that tag and value throws. -/
theorem struct_probe_failure_counterexample :
    UReader.tryPropertyTag (outerLimit exStructTag.f) ⟨exStructWire, 0⟩ =
      ⟨.ok false, ⟨exStructWire, 0⟩⟩ ∧
    Decoders.FPropertyValue (decoders {} 2) exStructTag ⟨exStructWire, 0⟩ =
      ⟨.ok (.null, exStructTag), ⟨exStructWire, 4⟩⟩ ∧
    encodeValue 2 exStructTag .null = none := by
  refine ⟨by rfl, by rfl, by decide!⟩

/-- C15 (amended). With fail-fast off: for every StructProperty whose struct type is not
registered and one of whose inner-tag probes fails (the first, or one after some inner
properties have been decoded), and whose declared end (value start plus declared size) lies
inside the buffer, the reader's decoded value for that property is the placeholder `null`; the
tag object is unchanged (nothing is flagged, no byte range is captured) and the cursor is at
the declared end. -/
theorem struct_probe_failure_gives_null (opts : Options) (fuel : Nat) (tag : Tag) (r : UReader)
    (N : Int) (hE : opts.EarlyExit = false) (hN : tag.f.Name ≠ some (js "None"))
    (hT : tag.f.Typ = some (js "StructProperty"))
    (hL : (match lookupStruct tag.f.StructName with
      | .absent => true
      | _ => false) = true)
    (hS : tag.f.Size = some (.int N))
    (hin : 0 ≤ r.offset + N ∧ r.offset + N < r.buffer.length)
    (hp : ProbeFails opts (outerLimit tag.f) fuel [(PropertiesKey, .props [])] r) :
    Decoders.FPropertyValue (decoders opts (fuel + 2)) tag r =
      ⟨.ok (.null, tag), ⟨r.buffer, r.offset + N⟩⟩ := by
  show UReader.FPropertyValue opts (decoders opts (fuel + 1)) tag r = _
  obtain ⟨e, r', he, hc, hb⟩ :=
    structLoopBody_probe_fails opts (outerLimit tag.f) fuel _ r hp
  have hs : UReader.structValue (decoders opts fuel) tag.f r = ⟨.error e, r'⟩ := by
    unfold UReader.structValue
    cases hl : lookupStruct tag.f.StructName with
    | native n => rw [hl] at hL; cases hL
    | inherited => rw [hl] at hL; cases hL
    | absent => exact he
  have hu : Decoders.FPropertyValue_unsafe (decoders opts (fuel + 1)) ⟨tag, r⟩ =
      ⟨.error e, ⟨tag, r'⟩⟩ := by
    show UReader.FPropertyValue_unsafe (decoders opts fuel) ⟨tag, r⟩ = _
    rw [UReader.unsafe_struct _ tag r hT hN]
    unfold liftR
    rw [hs]
  exact UReader.FPropertyValue_caught opts _ tag r e ⟨tag, r'⟩ N hE hN hu hc hb hS hin

set_option maxRecDepth 8000 in
theorem struct_probe_failure_gives_null_witness :
    Decoders.FPropertyValue (decoders {} 2) exStructTag ⟨exStructWire, 0⟩ =
      ⟨.ok (.null, exStructTag), ⟨exStructWire, 0 + 4⟩⟩ :=
  struct_probe_failure_gives_null {} 0 exStructTag ⟨exStructWire, 0⟩ 4 rfl (by decide) rfl
    (by decide) rfl (by decide)
    (ProbeFails.here 0 _ _
      (by show (Except.ok false : Except Fault Bool) ≠ .ok true
          intro h
          cases h))

/-! ## Fail-fast -/

set_option maxRecDepth 8000 in
/-- C16 (as stated) fails: with `EarlyExit` on, the MapProperty of `exMapWire` (one pair whose
value is cut short, so that the element decode fails) is decoded without abort: the value is
the array with the 14 bytes of the value region as its `buffer`, the tag is flagged, the cursor
is at the declared end. -/
theorem early_exit_counterexample :
    ∃ tag1, Decoders.FPropertyValue (decoders { EarlyExit := true } 3) exMapTag ⟨exMapWire, 0⟩ =
        ⟨.ok (.array [] 1 (some exMapWire), tag1), ⟨exMapWire, 14⟩⟩ ∧
      tag1.f.MapAsBuffer = true :=
  ⟨(exMapTag.setF { exMapTag.f with MapAsBuffer := true }).setInner
      (Tag.ofFields { Typ := some (js "IntProperty"), Size := some (.int 6) }) |>.setValue
      (Tag.ofFields { Typ := some (js "IntProperty"), Size := some (.int 6) }), by rfl, by rfl⟩

/-- C16 (amended). With `EarlyExit` on, a call of `FPropertyValue` (the tag not named `None`)
whose value decode throws a fault that a `catch` can see, or returns with the cursor elsewhere
than at value start plus declared size, does not return: it leaves through `process.exit`, or
through `throw 'cascade'` where there is no `process` object. A failing probe of a nested
struct of unregistered type is such a fault. (The raw fallback of maps and sets lies inside
the value decode and does not consult the option.) -/
theorem early_exit_aborts (opts : Options) (d : Decoders) (tag : Tag) (r : UReader)
    (hE : opts.EarlyExit = true) (hN : tag.f.Name ≠ some (js "None")) :
    ((match d.FPropertyValue_unsafe ⟨tag, r⟩ with
      | ⟨.ok _, s1⟩ => some (JSNum.int (s1.rd.offset - r.offset)) ≠ s1.tag.f.Size
      | ⟨.error e, _⟩ => e.catchable = true) →
      (UReader.FPropertyValue opts d tag r).out =
        .error (if opts.hasProcess then .exit else .cascade)) ∧
    (tag.f.Typ = some (js "StructProperty") →
      (match lookupStruct tag.f.StructName with
        | .absent => true
        | _ => false) = true →
      (UReader.tryPropertyTag (outerLimit tag.f) r).out ≠ .ok true →
      ∀ fuel, (Decoders.FPropertyValue (decoders opts (fuel + 2)) tag r).out =
        .error (if opts.hasProcess then .exit else .cascade)) := by
  have hrec : ∀ (o : Int) (t : Tag) (r' : UReader), (UReader.recover opts o t r').out =
      .error (if opts.hasProcess then .exit else .cascade) := by
    intro o t r'
    unfold UReader.recover
    rw [hE, if_pos rfl]
    split <;> rfl
  have key : ∀ d : Decoders, (match d.FPropertyValue_unsafe ⟨tag, r⟩ with
      | ⟨.ok _, s1⟩ => some (JSNum.int (s1.rd.offset - r.offset)) ≠ s1.tag.f.Size
      | ⟨.error e, _⟩ => e.catchable = true) →
      (UReader.FPropertyValue opts d tag r).out =
        .error (if opts.hasProcess then .exit else .cascade) := by
    intro d hfault
    unfold UReader.FPropertyValue
    rw [if_neg hN]
    dsimp only
    cases hu : d.FPropertyValue_unsafe ⟨tag, r⟩ with
    | mk o s1 =>
      rw [hu] at hfault
      cases o with
      | ok v =>
        dsimp only at hfault ⊢
        rw [if_neg hfault]
        exact hrec _ _ _
      | error e =>
        dsimp only at hfault ⊢
        rw [if_pos hfault]
        exact hrec _ _ _
  refine ⟨key d, fun hT hL hp fuel => ?_⟩
  show (UReader.FPropertyValue opts (decoders opts (fuel + 1)) tag r).out = _
  apply key
  obtain ⟨e, r', he, hc, -⟩ :=
    UReader.structValue_probe_fails (decoders opts fuel) tag.f r hL hp
  have hu : Decoders.FPropertyValue_unsafe (decoders opts (fuel + 1)) ⟨tag, r⟩ =
      ⟨.error e, ⟨tag, r'⟩⟩ := by
    show UReader.FPropertyValue_unsafe (decoders opts fuel) ⟨tag, r⟩ = _
    rw [UReader.unsafe_struct _ tag r hT hN]
    unfold liftR
    rw [he]
  rw [hu]
  exact hc

set_option maxRecDepth 8000 in
theorem early_exit_aborts_witness :
    (Decoders.FPropertyValue (decoders { EarlyExit := true } 2) exBadSizeTag
      ⟨exBadSizeWire, 0⟩).out = .error .exit ∧
    (Decoders.FPropertyValue (decoders { EarlyExit := true } (0 + 2)) exStructTag
      ⟨exStructWire, 0⟩).out = .error .exit :=
  ⟨(early_exit_aborts { EarlyExit := true } (decoders { EarlyExit := true } 1) exBadSizeTag
      ⟨exBadSizeWire, 0⟩ rfl (by decide)).1
      (by show some (JSNum.int (4 - 0)) ≠ some (JSNum.int 6)
          decide),
   (early_exit_aborts { EarlyExit := true } (decoders { EarlyExit := true } 1) exStructTag
      ⟨exStructWire, 0⟩ rfl (by decide)).2 rfl (by decide)
      (by show (Except.ok false : Except Fault Bool) ≠ .ok true
          intro h
          cases h) 0⟩

/-! ## The ByteProperty heuristic -/

set_option maxRecDepth 8000 in
/-- C20 at a failing input: a ByteProperty without enum name, declared size 8, whose value is
the eight little-endian bytes of 5. The name probe reads the length 5 and moves the cursor to
9; the string it finds (four null characters) does not match, and the fallback reads its
64-bit integer at 9, not at the value start: the result is not 5 and the cursor ends at 17,
not at 8. `FPropertyValue` then finds the cursor off the declared end and returns `null`.
With declared size 3 the fallback takes its byte range at 9 as well. -/
theorem byte_fallback_not_at_value_start :
    UReader.fname ⟨exByte8Wire, 0⟩ = ⟨.ok [0, 0, 0, 0], ⟨exByte8Wire, 9⟩⟩ ∧
    UReader.byteValue exByte8Tag.f ⟨exByte8Wire, 0⟩ =
      ⟨.ok (.bigint 28550396976824320), ⟨exByte8Wire, 17⟩⟩ ∧
    UReader.int64 ⟨exByte8Wire, 0⟩ = ⟨.ok 5, ⟨exByte8Wire, 8⟩⟩ ∧
    Decoders.FPropertyValue (decoders {} 2) exByte8Tag ⟨exByte8Wire, 0⟩ =
      ⟨.ok (.null, exByte8Tag), ⟨exByte8Wire, 8⟩⟩ ∧
    UReader.byteValue exByte3Tag.f ⟨exByte8Wire, 0⟩ =
      ⟨.ok (.buffer [0, 0, 0]), ⟨exByte8Wire, 12⟩⟩ ∧
    UReader.raw 3 ⟨exByte8Wire, 0⟩ = ⟨.ok [5, 0, 0], ⟨exByte8Wire, 3⟩⟩ := by
  refine ⟨by rfl, by rfl, by rfl, by rfl, by rfl, by rfl⟩

/-! ## The reserved leading field of a map -/

set_option maxRecDepth 8000 in
/-- C17 (as stated) fails: a map without pairs whose reserved field holds 5 is decoded
structurally (an empty array, the tag not flagged, the cursor at the declared end), and the
writer's value encode on the decoded tag and value emits eight zero bytes: the reserved field
comes back as 0. -/
theorem map_reserved_field_counterexample :
    Decoders.FPropertyValue (decoders {} 3) exEmptyMapTag ⟨exEmptyMapWire, 0⟩ =
      ⟨.ok (.arr [], UReader.mapTags exEmptyMapTag), ⟨exEmptyMapWire, 8⟩⟩ ∧
    (UReader.mapTags exEmptyMapTag).f.MapAsBuffer = false ∧
    encodeValue 2 (UReader.mapTags exEmptyMapTag) (.arr []) = some [0, 0, 0, 0, 0, 0, 0, 0] ∧
    encodeValue 2 (UReader.mapTags exEmptyMapTag) (.arr []) ≠ some exEmptyMapWire := by
  refine ⟨by rfl, by rfl, by decide!, by decide!⟩

theorem Tag.setInner_self (t i : Tag) (h : t.InnerTag = some i) : t.setInner i = t := by
  cases t with
  | mk f it vt =>
    simp only [Tag.InnerTag] at h
    subst h
    rfl

theorem Tag.setValue_self (t v : Tag) (h : t.ValueTag = some v) : t.setValue v = t := by
  cases t with
  | mk f it vt =>
    simp only [Tag.ValueTag] at h
    subst h
    rfl

theorem ScalarData.typeName_plain (sc : ScalarData) :
    sc.typeName ≠ js "BoolProperty" ∧ sc.typeName ≠ js "StructProperty" := by
  cases sc <;> simp only [ScalarData.typeName] <;> exact ⟨by decide, by decide⟩

/-- The element tag that the map and set branches synthesize for a scalar element type. -/
theorem elementTag_scalar (f : TagFields) (sc : ScalarData) (role : String) :
    (elementTag f (some sc.typeName) role).f.Typ = some sc.typeName ∧
    (elementTag f (some sc.typeName) role).f.Name = none := by
  unfold elementTag
  dsimp only
  rw [if_neg (fun h => sc.typeName_plain.2 (Option.some.inj h))]
  exact ⟨rfl, rfl⟩

/-- The closure `tryParseItem` on an element tag of scalar type, at the wire form of a value
of that type. -/
theorem tryParseItem_scalar (opts : Options) (k : Nat) (t : Tag) (sc : ScalarData)
    (hv : sc.valid) (hT : t.f.Typ = some sc.typeName) (hN : t.f.Name ≠ some (js "None"))
    (r : UReader) (pre post : List Nat) (hb : r.buffer = pre ++ sc.wire ++ post)
    (ho : r.offset = pre.length) :
    tryParseItem (decoders opts (k + 1)) ⟨t, r⟩ =
      ⟨.ok sc.value, ⟨t, { r with offset := r.offset + sc.wire.length }⟩⟩ := by
  have hr := sc.reads hv r pre post hb ho
  unfold tryParseItem
  rw [getTag_bind]
  dsimp only
  rw [hT, if_neg (fun h => sc.typeName_plain.1 (Option.some.inj h))]
  simp only [M.bind_apply, M.pure_apply]
  show UReader.FPropertyValue_unsafe (decoders opts k) ⟨t, r⟩ = _
  unfold UReader.FPropertyValue_unsafe
  rw [getTag_bind]
  dsimp only
  rw [ScalarData.common_reader (decoders opts k) t.f sc hT hN]
  exact liftR_eq hr

/-- One pair of a map with scalar keys and values, read with the element tags in place. -/
theorem UReader.mapItem_scalar (opts : Options) (k : Nat) (T kt vt : Tag)
    (p : ScalarData × ScalarData) (hI : T.InnerTag = some kt) (hV : T.ValueTag = some vt)
    (hk : p.1.valid) (hv : p.2.valid)
    (hkT : kt.f.Typ = some p.1.typeName) (hkN : kt.f.Name ≠ some (js "None"))
    (hvT : vt.f.Typ = some p.2.typeName) (hvN : vt.f.Name ≠ some (js "None"))
    (r : UReader) (pre post : List Nat) (hb : r.buffer = pre ++ pairWire p ++ post)
    (ho : r.offset = pre.length) :
    UReader.mapItem (decoders opts (k + 1)) ⟨T, r⟩ =
      ⟨.ok (pairValue p), ⟨T, { r with offset := r.offset + (pairWire p).length }⟩⟩ := by
  have h1 := tryParseItem_scalar opts k kt p.1 hk hkT hkN r pre (p.2.wire ++ post)
    (by rw [hb, pairWire]; simp only [List.append_assoc]) ho
  have h2 := tryParseItem_scalar opts k vt p.2 hv hvT hvN
    { r with offset := r.offset + p.1.wire.length } (pre ++ p.1.wire) post
    (by rw [hb, pairWire]; simp only [List.append_assoc])
    (by show r.offset + p.1.wire.length = ((pre ++ p.1.wire).length : Nat)
        rw [List.length_append, ho]
        rfl)
  unfold UReader.mapItem
  rw [M.bind_apply]
  have e1 : onInner (tryParseItem (decoders opts (k + 1))) ⟨T, r⟩ =
      ⟨.ok p.1.value, ⟨T, { r with offset := r.offset + p.1.wire.length }⟩⟩ := by
    unfold onInner
    simp only [hI, h1, Tag.setInner_self T kt hI]
  rw [e1]
  dsimp only
  rw [M.bind_apply]
  have e2 : onValue (tryParseItem (decoders opts (k + 1)))
      ⟨T, { r with offset := r.offset + p.1.wire.length }⟩ =
      ⟨.ok p.2.value, ⟨T, { r with offset := r.offset + p.1.wire.length + p.2.wire.length }⟩⟩ := by
    unfold onValue
    simp only [hV, h2, Tag.setValue_self T vt hV]
  rw [e2]
  simp only [M.pure_apply, pairValue, pairWire, List.length_append, Nat.cast_add, add_assoc]

/-- The pairs of a map with scalar keys and values, read with the element tags in place. -/
theorem UReader.mapLoop_scalar (opts : Options) (k : Nat) (T kt vt : Tag)
    (ps : List (ScalarData × ScalarData)) (hI : T.InnerTag = some kt)
    (hV : T.ValueTag = some vt)
    (hkN : kt.f.Name ≠ some (js "None")) (hvN : vt.f.Name ≠ some (js "None"))
    (hall : ∀ p ∈ ps, p.1.valid ∧ p.2.valid ∧ kt.f.Typ = some p.1.typeName ∧
      vt.f.Typ = some p.2.typeName)
    (r : UReader) (pre post : List Nat) (hb : r.buffer = pre ++ ps.flatMap pairWire ++ post)
    (ho : r.offset = pre.length) :
    loopM (UReader.mapItem (decoders opts (k + 1))) ps.length ⟨T, r⟩ =
      ⟨ps.map pairValue, none,
        ⟨T, { r with offset := r.offset + (ps.flatMap pairWire).length }⟩⟩ := by
  induction ps generalizing r pre with
  | nil => simp [TQ2.loopM]
  | cons p ps ih =>
    obtain ⟨h1, h2, h3, h4⟩ := hall p (List.mem_cons_self _ _)
    have hx := UReader.mapItem_scalar opts k T kt vt p hI hV h1 h2 h3 hkN h4 hvN r pre
      (ps.flatMap pairWire ++ post)
      (by rw [hb]; simp only [List.flatMap_cons, List.append_assoc]) ho
    have hr := ih (fun q hq => hall q (List.mem_cons_of_mem _ hq))
      { r with offset := r.offset + (pairWire p).length } (pre ++ pairWire p)
      (by rw [hb]; simp only [List.flatMap_cons, List.append_assoc])
      (by show r.offset + (pairWire p).length = ((pre ++ pairWire p).length : Nat)
          rw [List.length_append, ho]
          rfl)
    simp only [List.length_cons, TQ2.loopM, hx, hr, List.map_cons, List.flatMap_cons,
      List.length_append, Nat.cast_add, add_assoc]

/-- The value decode of a map with scalar keys and values, whatever its reserved field
holds. -/
theorem UReader.mapValue_scalar (opts : Options) (k : Nat) (tag : Tag) (x : Int)
    (ps : List (ScalarData × ScalarData)) (kty vty : ScalarData)
    (hT : tag.f.Typ = some (js "MapProperty")) (hN : tag.f.Name ≠ some (js "None"))
    (hkt : tag.f.InnerType = some kty.typeName) (hvt : tag.f.ValueType = some vty.typeName)
    (hx : fitsSigned 4 x) (hlen : ps.length < 2 ^ 31)
    (hall : ∀ p ∈ ps, p.1.valid ∧ p.2.valid ∧ p.1.typeName = kty.typeName ∧
      p.2.typeName = vty.typeName)
    (r : UReader) (pre post : List Nat) (hb : r.buffer = pre ++ mapWire x ps ++ post)
    (ho : r.offset = pre.length) :
    Decoders.FPropertyValue_unsafe (decoders opts (k + 2)) ⟨tag, r⟩ =
      ⟨.ok (.arr (ps.map pairValue)),
        ⟨UReader.mapTags tag, { r with offset := r.offset + (mapWire x ps).length }⟩⟩ := by
  show UReader.FPropertyValue_unsafe (decoders opts (k + 1)) ⟨tag, r⟩ = _
  rw [UReader.unsafe_map _ _ _ hT hN]
  have hn : fitsSigned 4 (ps.length : Int) := by
    constructor
    · show -(2 : Int) ^ (8 * 4 - 1) ≤ _
      norm_num
      omega
    · show (_ : Int) < 2 ^ (8 * 4 - 1)
      norm_num
      omega
  have r1 := Reads.r_int32 x hx r pre (intWire 4 ps.length ++ ps.flatMap pairWire ++ post)
    (by rw [hb, mapWire]; simp only [List.append_assoc]) ho
  have r2 := Reads.r_int32 (ps.length : Int) hn
    { r with offset := r.offset + (intWire 4 x).length } (pre ++ intWire 4 x)
    (ps.flatMap pairWire ++ post)
    (by rw [hb, mapWire]; simp only [List.append_assoc])
    (by show r.offset + (intWire 4 x).length = ((pre ++ intWire 4 x).length : Nat)
        rw [List.length_append, ho]
        rfl)
  have ek := elementTag_scalar tag.f kty ":KeyStructType"
  have ev := elementTag_scalar tag.f vty ":ValueStructType"
  have hloop := UReader.mapLoop_scalar opts k (UReader.mapTags tag)
    (elementTag tag.f tag.f.InnerType ":KeyStructType")
    (elementTag tag.f tag.f.ValueType ":ValueStructType") ps rfl rfl
    (by rw [hkt, ek.2]; exact fun h => Option.noConfusion h)
    (by rw [hvt, ev.2]; exact fun h => Option.noConfusion h)
    (fun p hp => by
      obtain ⟨h1, h2, h3, h4⟩ := hall p hp
      refine ⟨h1, h2, ?_, ?_⟩
      · rw [hkt, ek.1, h3]
      · rw [hvt, ev.1, h4])
    { r with offset := r.offset + (intWire 4 x).length + (intWire 4 (ps.length : Int)).length }
    (pre ++ intWire 4 x ++ intWire 4 ps.length) post
    (by rw [hb, mapWire]; simp only [List.append_assoc])
    (by show r.offset + (intWire 4 x).length + (intWire 4 (ps.length : Int)).length =
          ((pre ++ intWire 4 x ++ intWire 4 ps.length).length : Nat)
        rw [List.length_append, List.length_append, ho]
        push_cast
        rfl)
  unfold UReader.mapValue
  rw [getTag_bind, M.bind_apply, liftR_eq r1]
  dsimp only
  rw [M.bind_apply, liftR_eq r2]
  dsimp only
  unfold arrayLength
  rw [if_neg (by omega)]
  simp only [M.bind_apply, M.pure_apply, setInnerTag, setValueTag, Int.toNat_ofNat]
  have hm : (tag.setInner (elementTag tag.f tag.f.InnerType ":KeyStructType")).setValue
      (elementTag tag.f tag.f.ValueType ":ValueStructType") = UReader.mapTags tag := rfl
  rw [hm, hloop]
  simp only [JSVal.arr, mapWire, List.length_append, Nat.cast_add, add_assoc]

/-- The writer's value encode on an element tag of scalar type. -/
theorem UWriter.elemValue_scalar (k : Nat) (t : Tag) (sc : ScalarData) (hv : sc.valid)
    (hT : t.f.Typ = some sc.typeName) (hN : t.f.Name ≠ some (js "None")) (w : UWriter)
    (hc : w.clean) :
    ∃ w', Encoders.FPropertyValue (encoders (k + 1)) sc.value ⟨t, w⟩ = ⟨.ok (), ⟨t, w'⟩⟩ ∧
      w.Appended sc.wire w' := by
  obtain ⟨w', e, a⟩ := sc.wrote hv w hc
  refine ⟨w', ?_, a⟩
  show UWriter.FPropertyValue (encoders k) sc.value ⟨t, w⟩ = _
  unfold UWriter.FPropertyValue
  rw [getTag_bind]
  rw [ScalarData.common_writer (encoders k) t.f sc sc.value hT hN]
  exact liftR_eq e

/-- A loop of a writer codec whose every iteration appends to a clean writer and keeps the tag
object. -/
theorem forEachM_appended {α : Type} (T : Tag) (body : JSVal → WTM Unit) (wire : α → List Nat)
    (val : α → JSVal) (xs : List α)
    (h : ∀ x ∈ xs, ∀ w : UWriter, w.clean →
      ∃ w', body (val x) ⟨T, w⟩ = ⟨.ok (), ⟨T, w'⟩⟩ ∧ w.Appended (wire x) w')
    (w : UWriter) (hc : w.clean) :
    ∃ w', TQ2.forEachM body (xs.map val) ⟨T, w⟩ = ⟨.ok (), ⟨T, w'⟩⟩ ∧
      w.Appended (xs.flatMap wire) w' := by
  induction xs generalizing w with
  | nil => exact ⟨w, rfl, UWriter.Appended.refl w hc⟩
  | cons x xs ih =>
    obtain ⟨w1, e1, a1⟩ := h x (List.mem_cons_self _ _) w hc
    obtain ⟨w2, e2, a2⟩ := ih (fun y hy => h y (List.mem_cons_of_mem _ hy)) w1 a1.clean
    refine ⟨w2, ?_, ?_⟩
    · show (body (val x) >>= fun _ => TQ2.forEachM body (xs.map val)) ⟨T, w⟩ = _
      rw [M.bind_apply, e1]
      exact e2
    · rw [List.flatMap_cons]
      exact a1.trans a2

/-- One pair of a map with scalar keys and values, written with the element tags in place. -/
theorem UWriter.mapPair_scalar (k : Nat) (T kt vt : Tag) (p : ScalarData × ScalarData)
    (hI : T.InnerTag = some kt) (hV : T.ValueTag = some vt)
    (hk : p.1.valid) (hv : p.2.valid)
    (hkT : kt.f.Typ = some p.1.typeName) (hkN : kt.f.Name ≠ some (js "None"))
    (hvT : vt.f.Typ = some p.2.typeName) (hvN : vt.f.Name ≠ some (js "None"))
    (w : UWriter) (hc : w.clean) :
    ∃ w', (do
        onInner (Encoders.FPropertyValue (encoders (k + 1)) (field (pairValue p) "key"))
        onValue (Encoders.FPropertyValue (encoders (k + 1)) (field (pairValue p) "value")) :
          WTM Unit) ⟨T, w⟩ = ⟨.ok (), ⟨T, w'⟩⟩ ∧
      w.Appended (pairWire p) w' := by
  obtain ⟨w1, e1, a1⟩ := UWriter.elemValue_scalar k kt p.1 hk hkT hkN w hc
  obtain ⟨w2, e2, a2⟩ := UWriter.elemValue_scalar k vt p.2 hv hvT hvN w1 a1.clean
  have f1 : field (pairValue p) "key" = p.1.value := rfl
  have f2 : field (pairValue p) "value" = p.2.value := rfl
  refine ⟨w2, ?_, a1.trans a2⟩
  rw [f1, f2, M.bind_apply]
  have o1 : onInner (Encoders.FPropertyValue (encoders (k + 1)) p.1.value) ⟨T, w⟩ =
      ⟨.ok (), ⟨T, w1⟩⟩ := by
    unfold onInner
    simp only [hI, e1, Tag.setInner_self T kt hI]
  rw [o1]
  dsimp only
  unfold onValue
  simp only [hV, e2, Tag.setValue_self T vt hV]

/-- The writer's value encode of a map with scalar keys and values, on the tag object as the
reader leaves it: the reserved field is written as zero. -/
theorem UWriter.mapEncode_scalar (k : Nat) (tag : Tag)
    (ps : List (ScalarData × ScalarData)) (kty vty : ScalarData)
    (hT : tag.f.Typ = some (js "MapProperty")) (hN : tag.f.Name ≠ some (js "None"))
    (hM : tag.f.MapAsBuffer = false)
    (hkt : tag.f.InnerType = some kty.typeName) (hvt : tag.f.ValueType = some vty.typeName)
    (hlen : ps.length < 2 ^ 31)
    (hall : ∀ p ∈ ps, p.1.valid ∧ p.2.valid ∧ p.1.typeName = kty.typeName ∧
      p.2.typeName = vty.typeName)
    (w : UWriter) (hc : w.clean) :
    ∃ w', Encoders.FPropertyValue (encoders (k + 2)) (.arr (ps.map pairValue))
        ⟨UReader.mapTags tag, w⟩ = ⟨.ok (), ⟨UReader.mapTags tag, w'⟩⟩ ∧
      w.Appended (mapWire 0 ps) w' := by
  have hT' : (UReader.mapTags tag).f.Typ = some (js "MapProperty") := hT
  have hN' : (UReader.mapTags tag).f.Name ≠ some (js "None") := hN
  have hM' : (UReader.mapTags tag).f.MapAsBuffer = false := hM
  have ek := elementTag_scalar tag.f kty ":KeyStructType"
  have ev := elementTag_scalar tag.f vty ":ValueStructType"
  have hn : fitsSigned 4 (ps.length : Int) := by
    constructor
    · show -(2 : Int) ^ (8 * 4 - 1) ≤ _
      norm_num
      omega
    · show (_ : Int) < 2 ^ (8 * 4 - 1)
      norm_num
      omega
  obtain ⟨w1, e1, a1⟩ := liftR_wrote (Wrote.w_int32 0 (by constructor <;> decide))
    (UReader.mapTags tag) w hc
  obtain ⟨w2, e2, a2⟩ := liftR_wrote (Wrote.w_int32 (ps.length : Int) hn)
    (UReader.mapTags tag) w1 a1.clean
  have key : ∀ body : JSVal → WTM Unit,
      (∀ p ∈ ps, ∀ w : UWriter, w.clean →
        ∃ w', body (pairValue p) ⟨UReader.mapTags tag, w⟩ =
          ⟨.ok (), ⟨UReader.mapTags tag, w'⟩⟩ ∧ w.Appended (pairWire p) w') →
      ∃ w', (do
          liftR (UWriter.int32 (.num 0))
          liftR (UWriter.int32 (.num (((ps.map pairValue).length + 0 : Nat) : Int)))
          TQ2.forEachM body (ps.map pairValue ++ List.replicate 0 .undefined) : WTM Unit)
          ⟨UReader.mapTags tag, w⟩ = ⟨.ok (), ⟨UReader.mapTags tag, w'⟩⟩ ∧
        w.Appended (mapWire 0 ps) w' := by
    intro body hbody
    obtain ⟨w3, e3, a3⟩ := forEachM_appended (UReader.mapTags tag) body pairWire pairValue ps
      hbody w2 a2.clean
    refine ⟨w3, ?_, ?_⟩
    · simp only [M.bind_apply, e1, List.length_map, Nat.add_zero, e2, List.replicate_zero,
        List.append_nil, e3]
    · unfold mapWire
      exact a1.trans (a2.trans a3)
  show ∃ w', UWriter.FPropertyValue (encoders (k + 1)) (.arr (ps.map pairValue))
    ⟨UReader.mapTags tag, w⟩ = _ ∧ _
  unfold UWriter.FPropertyValue
  simp only [M.bind_apply, getTag, UWriter.common_map_none _ _ _ hT' hN', hT']
  repeat rw [if_neg (by decide)]
  rw [if_pos trivial]
  unfold UWriter.mapValue
  rw [getTag_bind]
  simp only [hM', JSVal.arr, Bool.false_eq_true, if_false]
  refine key _ ?_
  intro p hp w hc
  obtain ⟨h1, h2, h3, h4⟩ := hall p hp
  exact UWriter.mapPair_scalar k (UReader.mapTags tag)
    (elementTag tag.f tag.f.InnerType ":KeyStructType")
    (elementTag tag.f tag.f.ValueType ":ValueStructType") p rfl rfl h1 h2
    (by rw [hkt, ek.1, h3]) (by rw [hkt, ek.2]; exact fun h => Option.noConfusion h)
    (by rw [hvt, ev.1, h4]) (by rw [hvt, ev.2]; exact fun h => Option.noConfusion h) w hc

theorem intWire_zero_iff (x : Int) (hx : fitsSigned 4 x) : intWire 4 0 = intWire 4 x ↔ x = 0 := by
  constructor
  · intro h
    have h1 := congrArg leNat h
    rw [leNat_intWire, leNat_intWire] at h1
    have h2 := congrArg (toSigned (8 * 4)) h1
    rw [toSigned_toUnsigned (8 * 4) 0 (by decide) (by constructor <;> decide),
      toSigned_toUnsigned (8 * 4) x (by decide) hx] at h2
    exact h2.symm
  · intro h
    rw [h]

/-- C17 (amended). For every MapProperty with keys and values of scalar types (integers in
range, floats, ASCII strings, soft object paths), whatever its reserved leading field holds:
the reader's value decode returns the array of the pairs and the tag object with its element
tags, not flagged, with the cursor behind the value; the writer's value encode on that tag and
value returns and emits the count and the pairs as they were read, behind a reserved field of
four zero bytes. So re-encoding reproduces the reserved field exactly when it held 0. -/
theorem map_reserved_field_written_zero (opts : Options) (k : Nat) (tag : Tag) (x : Int)
    (ps : List (ScalarData × ScalarData)) (kty vty : ScalarData)
    (hT : tag.f.Typ = some (js "MapProperty")) (hN : tag.f.Name ≠ some (js "None"))
    (hM : tag.f.MapAsBuffer = false)
    (hkt : tag.f.InnerType = some kty.typeName) (hvt : tag.f.ValueType = some vty.typeName)
    (hx : fitsSigned 4 x) (hlen : ps.length < 2 ^ 31)
    (hall : ∀ p ∈ ps, p.1.valid ∧ p.2.valid ∧ p.1.typeName = kty.typeName ∧
      p.2.typeName = vty.typeName)
    (r : UReader) (pre post : List Nat) (hb : r.buffer = pre ++ mapWire x ps ++ post)
    (ho : r.offset = pre.length) :
    Decoders.FPropertyValue_unsafe (decoders opts (k + 2)) ⟨tag, r⟩ =
      ⟨.ok (.arr (ps.map pairValue)),
        ⟨UReader.mapTags tag, { r with offset := r.offset + (mapWire x ps).length }⟩⟩ ∧
    (UReader.mapTags tag).f.MapAsBuffer = false ∧
    (∀ w : UWriter, w.clean →
      ∃ w', Encoders.FPropertyValue (encoders (k + 2)) (.arr (ps.map pairValue))
          ⟨UReader.mapTags tag, w⟩ = ⟨.ok (), ⟨UReader.mapTags tag, w'⟩⟩ ∧
        w.Appended (mapWire 0 ps) w') ∧
    (mapWire 0 ps = mapWire x ps ↔ x = 0) := by
  refine ⟨UReader.mapValue_scalar opts k tag x ps kty vty hT hN hkt hvt hx hlen hall r pre post
    hb ho, hM, UWriter.mapEncode_scalar k tag ps kty vty hT hN hM hkt hvt hlen hall, ?_⟩
  unfold mapWire
  rw [List.append_left_inj]
  exact intWire_zero_iff x hx

set_option maxRecDepth 8000 in
theorem map_reserved_field_written_zero_witness :
    Decoders.FPropertyValue_unsafe (decoders {} (0 + 2))
        ⟨exEmptyMapTag, ⟨[5, 0, 0, 0, 1, 0, 0, 0, 7, 0, 0, 0, 9, 0, 0, 0], 0⟩⟩ =
      ⟨.ok (.arr [mkObj [("key", .num 7), ("value", .num 9)]]),
        ⟨UReader.mapTags exEmptyMapTag,
          ⟨[5, 0, 0, 0, 1, 0, 0, 0, 7, 0, 0, 0, 9, 0, 0, 0], 16⟩⟩⟩ ∧
    (∃ w', Encoders.FPropertyValue (encoders (0 + 2))
        (.arr [mkObj [("key", .num 7), ("value", .num 9)]])
        ⟨UReader.mapTags exEmptyMapTag, UWriter.new⟩ =
          ⟨.ok (), ⟨UReader.mapTags exEmptyMapTag, w'⟩⟩ ∧
      UWriter.new.Appended [0, 0, 0, 0, 1, 0, 0, 0, 7, 0, 0, 0, 9, 0, 0, 0] w') := by
  have h := map_reserved_field_written_zero {} 0 exEmptyMapTag 5 [(.int 7, .int 9)] (.int 0)
    (.int 0) rfl (by decide) rfl rfl rfl (by constructor <;> decide) (by decide)
    (by
      intro p hp
      rw [List.mem_singleton] at hp
      subst hp
      exact ⟨by constructor <;> decide, by constructor <;> decide, rfl, rfl⟩)
    ⟨[5, 0, 0, 0, 1, 0, 0, 0, 7, 0, 0, 0, 9, 0, 0, 0], 0⟩ [] [] (by decide) rfl
  exact ⟨h.1, h.2.2.1 UWriter.new UWriter.new_clean⟩

/-! ## The terminator of a string -/

theorem UWriter.Appended.emitted_eq {w w' : UWriter} {bs : List Nat} (h : w.Appended bs w') :
    UWriter.emitted w w' = bs := by
  apply List.ext_getElem
  · rw [UWriter.emitted_length, h.offset]; omega
  · intro i h1 h2
    simp only [UWriter.emitted, List.getElem_map, List.getElem_range]
    rw [h.bytes i h2, List.getD_eq_getElem _ _ h2]

set_option maxRecDepth 8000 in
/-- C21 (as stated) fails: `seek` is an operation of the writer, and after it the bytes at and
beyond the cursor need not be zero. From a fresh writer, two `int32` writes of 0x01010101 and
`seek(0)` lead to a state in which `fstring("A")` advances the cursor by 6 and leaves the bytes
`02 00 00 00 41 01` there: the last one is the old byte, not a terminator. -/
theorem fstring_terminator_counterexample :
    ∃ w w', (UWriter.int32 (.num 16843009) >>= fun _ =>
        UWriter.int32 (.num 16843009) >>= fun _ => UWriter.seek 0) UWriter.new = ⟨.ok (), w⟩ ∧
      UWriter.fstring (.str (js "A")) w = ⟨.ok (), w'⟩ ∧ w'.offset = w.offset + 6 ∧
      UWriter.emitted w w' = [2, 0, 0, 0, 65, 1] :=
  ⟨_, _, rfl, rfl, rfl, by rfl⟩

/-- C21 (amended). In every writer state whose cursor is inside the buffer with only zero bytes
at and beyond it (every state that a fresh writer reaches by its write operations and by
`goBack` patches inside the written part is such a state, `UWriter.Reachable.is_clean`), and
for every ASCII string `s` whose length fits the length field: `fstring` returns, the bytes
between the old and the new cursor are `00 00 00 00` for the empty string, `01 00 00 00 00` for
the sentinel, else the little-endian int32 `length + 1`, the bytes of `s` and one `00`; the
cursor has advanced by exactly that many bytes, and the bytes at and beyond the new cursor are
zero again. -/
theorem fstring_emits (w : UWriter) (s : JSString) (hw : w.clean) (hs : asciiStr s) :
    ∃ w', UWriter.fstring (.str s) w = ⟨.ok (), w'⟩ ∧
      UWriter.emitted w w' =
        (if s = [] then [0, 0, 0, 0]
         else if s = EMPTY_STR_AS_NULL_CHAR then [1, 0, 0, 0, 0]
         else leBytes 4 (s.length + 1) ++ s ++ [0]) ∧
      w'.offset = w.offset + (UWriter.emitted w w').length ∧ w'.clean := by
  obtain ⟨w', e, a⟩ := Wrote.w_fstring s hs w hw
  have hem := a.emitted_eq
  refine ⟨w', e, hem, ?_, a.clean⟩
  rw [hem]
  exact a.offset

theorem fstring_emits_witness :
    ∃ w', UWriter.fstring (.str (js "A")) UWriter.new = ⟨.ok (), w'⟩ ∧
      UWriter.emitted UWriter.new w' = [2, 0, 0, 0, 65, 0] ∧ w'.offset = 6 := by
  obtain ⟨w', e, h1, h2, _⟩ :=
    fstring_emits UWriter.new (js "A") UWriter.new_clean (by constructor <;> decide)
  refine ⟨w', e, ?_, ?_⟩
  · rw [h1]; decide
  · rw [h2, h1]; decide

/-! ## Unsigned 64-bit properties -/

theorem toSigned_fits64 (u : Nat) (hu : u < 2 ^ 64) :
    fitsSigned 8 (toSigned 64 u) ∧ toUnsigned 64 (toSigned 64 u) = u ∧
    (toSigned 64 u = (u : Int) ↔ u < 2 ^ 63) := by
  have e1 : (2 : Int) ^ (8 * 8 - 1) = 9223372036854775808 := by norm_num
  have e2 : (2 : Int) ^ 64 = 18446744073709551616 := by norm_num
  have e3 : (2 : Nat) ^ (64 - 1) = 9223372036854775808 := by norm_num
  have e4 : (2 : Nat) ^ 63 = 9223372036854775808 := by norm_num
  have e5 : (2 : Nat) ^ 64 = 18446744073709551616 := by norm_num
  unfold toSigned fitsSigned toUnsigned
  rw [e1, e2, e3]
  rw [e5] at hu
  by_cases h : u < 9223372036854775808
  · rw [if_pos h]
    refine ⟨⟨by omega, by omega⟩, ?_, ⟨fun _ => h, fun _ => rfl⟩⟩
    rw [Int.emod_eq_of_lt (by omega) (by omega)]
    exact Int.toNat_ofNat u
  · rw [if_neg h]
    refine ⟨⟨by omega, by omega⟩, ?_, ⟨fun k => by omega, fun k => absurd k h⟩⟩
    rw [show (u : Int) - 18446744073709551616 = u + 18446744073709551616 * (-1) by ring,
      Int.add_mul_emod_self_left, Int.emod_eq_of_lt (by omega) (by omega)]
    exact Int.toNat_ofNat u

set_option maxRecDepth 8000 in
/-- C24 (as stated) fails: a UInt64Property is read and written with the signed `int64`. Over
eight bytes `FF` (the unsigned integer 2^64 - 1) the value decode returns -1, and the value
encode rejects the BigInt 2^64 - 1 with a `RangeError`. -/
theorem uint64_property_counterexample :
    UReader.FPropertyValue_unsafe (decoders {} 1)
        ⟨exU64Tag, ⟨[255, 255, 255, 255, 255, 255, 255, 255], 0⟩⟩ =
      ⟨.ok (.bigint (-1)), ⟨exU64Tag, ⟨[255, 255, 255, 255, 255, 255, 255, 255], 8⟩⟩⟩ ∧
    (UWriter.FPropertyValue (encoders 1) (.bigint 18446744073709551615)
        ⟨exU64Tag, UWriter.new⟩).out = .error .rangeError ∧
    encodeValue 2 exU64Tag (.bigint 18446744073709551615) = none := by
  refine ⟨by rfl, by rfl, by decide!⟩

/-- C24 (amended). For every UInt64Property whose 8 value bytes are the little-endian encoding
of an unsigned integer `u < 2^64`, the reader's value decode returns the signed 64-bit reading
of those bytes (`u` when `u < 2^63`, `u - 2^64` otherwise) and advances the cursor by 8; the
writer's value encode of the decoded value emits the 8 little-endian bytes of `u`; and the
value encode rejects the BigInt `u` itself with a `RangeError` when `u ≥ 2^63`. -/
theorem uint64_property_signed (d : Decoders) (e : Encoders) (tag : Tag) (u : Nat)
    (hu : u < 2 ^ 64) (hT : tag.f.Typ = some (js "UInt64Property"))
    (hN : tag.f.Name ≠ some (js "None")) (r : UReader) (pre post : List Nat)
    (hb : r.buffer = pre ++ leBytes 8 u ++ post) (ho : r.offset = pre.length)
    (w : UWriter) (hc : w.clean) :
    UReader.FPropertyValue_unsafe d ⟨tag, r⟩ =
      ⟨.ok (.bigint (toSigned 64 u)), ⟨tag, { r with offset := r.offset + 8 }⟩⟩ ∧
    (toSigned 64 u = (u : Int) ↔ u < 2 ^ 63) ∧
    (2 ^ 63 ≤ u → toSigned 64 u = (u : Int) - 2 ^ 64) ∧
    (∃ w', UWriter.FPropertyValue e (.bigint (toSigned 64 u)) ⟨tag, w⟩ =
        ⟨.ok (), ⟨tag, w'⟩⟩ ∧ w.Appended (leBytes 8 u) w') ∧
    (2 ^ 63 ≤ u →
      (UWriter.FPropertyValue e (.bigint u) ⟨tag, w⟩).out = .error .rangeError) := by
  obtain ⟨hf, hun, hiff⟩ := toSigned_fits64 u hu
  have hw : (ScalarData.uint64 (toSigned 64 u)).wire = leBytes 8 u := by
    show leBytes 8 (toUnsigned (8 * 8) (toSigned 64 u)) = _
    rw [hun]
  have hr := (ScalarData.uint64 (toSigned 64 u)).reads hf r pre post (by rw [hw]; exact hb) ho
  rw [hw, leBytes_length] at hr
  obtain ⟨w', ew, aw⟩ := (ScalarData.uint64 (toSigned 64 u)).wrote hf w hc
  rw [hw] at aw
  refine ⟨?_, hiff, ?_, ⟨w', ?_, aw⟩, ?_⟩
  · unfold UReader.FPropertyValue_unsafe
    rw [getTag_bind]
    dsimp only
    rw [ScalarData.common_reader d tag.f (.uint64 (toSigned 64 u)) hT hN]
    exact liftR_eq hr
  · intro h
    unfold toSigned
    rw [if_neg (by norm_num at h ⊢; omega)]
  · unfold UWriter.FPropertyValue
    rw [getTag_bind]
    rw [ScalarData.common_writer e tag.f (.uint64 (toSigned 64 u)) _ hT hN]
    exact liftR_eq ew
  · intro h
    unfold UWriter.FPropertyValue
    rw [getTag_bind]
    rw [ScalarData.common_writer e tag.f (.uint64 (toSigned 64 u)) _ hT hN]
    show (liftR (UWriter.int64 (.bigint u)) ⟨tag, w⟩).out = _
    unfold liftR UWriter.int64
    simp only [M.bind_apply, UWriter.checkBuf]
    rw [if_pos (Or.inr (by exact_mod_cast h))]
    rfl

set_option maxRecDepth 8000 in
theorem uint64_property_signed_witness :
    UReader.FPropertyValue_unsafe (decoders {} 1)
        ⟨exU64Tag, ⟨[254, 255, 255, 255, 255, 255, 255, 255], 0⟩⟩ =
      ⟨.ok (.bigint (toSigned 64 18446744073709551614)),
        ⟨exU64Tag, ⟨[254, 255, 255, 255, 255, 255, 255, 255], 0 + 8⟩⟩⟩ ∧
    toSigned 64 18446744073709551614 = -2 :=
  ⟨(uint64_property_signed (decoders {} 1) (encoders 1) exU64Tag 18446744073709551614
      (by decide) rfl (by decide) ⟨[254, 255, 255, 255, 255, 255, 255, 255], 0⟩ [] [] (by rfl) rfl
      UWriter.new UWriter.new_clean).1, by decide⟩

/-! ## Format arguments of type 0 -/

set_option maxRecDepth 8000 in
/-- C26 at a failing input. The reader builds the argument as
`{ Type: this.int8(val.Type) || val.Type }`, so a type byte 0 leaves `Type` undefined and the
branch for type 0 never runs: at any type byte 0 `FFormatArgumentValue` returns an argument
without `Value` whose `Type` is `undefined`, one byte on, not nine. The eight bytes behind the
type byte of `exArgZeroWire` hold the integer 5, and the writer does emit the nine bytes for
the argument of type 0 with value 5; for the argument that the reader returned it emits the
one byte `00`. -/
theorem format_argument_type_zero_not_read (d : Decoders) (pre post : List Nat) :
    UReader.FFormatArgumentValue d ⟨pre ++ [0] ++ post, pre.length⟩ =
      ⟨.ok (mkObj [("Type", .undefined)]), ⟨pre ++ [0] ++ post, pre.length + 1⟩⟩ ∧
    UReader.FFormatArgumentValue (decoders {} 1) ⟨exArgZeroWire, 0⟩ =
      ⟨.ok (mkObj [("Type", .undefined)]), ⟨exArgZeroWire, 1⟩⟩ ∧
    UReader.int64 ⟨exArgZeroWire, 1⟩ = ⟨.ok 5, ⟨exArgZeroWire, 9⟩⟩ ∧
    encodeArgument 1 (mkObj [("Type", .num 0), ("Value", .bigint 5)]) = some exArgZeroWire ∧
    encodeArgument 1 (mkObj [("Type", .undefined)]) = some [0] := by
  refine ⟨?_, by rfl, by rfl, by decide!, by decide!⟩
  have h := Reads.r_int8 0 (by constructor <;> decide) ⟨pre ++ [0] ++ post, pre.length⟩ pre post
    rfl rfl
  unfold UReader.FFormatArgumentValue
  rw [M.bind_apply, h]
  rfl

/-! ## The size-1 branch of a ByteProperty in the writer -/

set_option maxRecDepth 16000 in
/-- C27 at a failing input. The property list `exByte1Wire` decodes to one ByteProperty with an
empty enum name, declared size 1 and value 7 (the reader took the size-1 branch). The writer's
`FPropertyTag` stores 0 in `tag.Size` before the value is encoded, so its ByteProperty dispatch
does not take the size-1 branch: it reaches `raw` with the number 7 and throws a `TypeError`;
`UWriter.FPropertyList` does not succeed on the decoded list. With the size as decoded the
value encode does emit the one byte 7. -/
theorem byte_size_one_not_rewritten :
    UReader.FPropertyList (decoders {} 3) false ⟨exByte1Wire, 0⟩ =
      ⟨.ok exByte1List, ⟨exByte1Wire, 46⟩⟩ ∧
    (UWriter.FPropertyTag ⟨exByte1Tag, UWriter.new⟩).st.tag.f.Size = some (.int 0) ∧
    (UWriter.writeTagAndValue (encoders 3) [(js "B", .num 7)] ⟨exByte1Tag, UWriter.new⟩).out =
      .error .typeError ∧
    (UWriter.FPropertyList (encoders 3) exByte1List false UWriter.new).out =
      .error .typeError ∧
    reencodeList 3 exByte1Wire false = none ∧
    encodeValue 1 exByte1Tag (.num 7) = some [7] := by
  refine ⟨by rfl, by rfl, by rfl, by rfl, by decide!, by decide!⟩

/-! ## Re-encoding a decoded string -/

set_option maxRecDepth 8000 in
/-- C29 (as stated) fails: the 12-byte encoding of the text `<empty>` decodes to the very
string that stands for the one-null-byte string, and `UWriter.fstring` writes that string as
`01 00 00 00 00`. -/
theorem fstring_reencode_counterexample :
    exEmptyTextWire = [8, 0, 0, 0, 60, 101, 109, 112, 116, 121, 62, 0] ∧
    UReader.fstring ⟨exEmptyTextWire, 0⟩ = ⟨.ok EMPTY_STR_AS_NULL_CHAR, ⟨exEmptyTextWire, 12⟩⟩ ∧
    (UWriter.fstring (.str EMPTY_STR_AS_NULL_CHAR) UWriter.new).out = .ok () ∧
    UWriter.emitted UWriter.new (UWriter.fstring (.str EMPTY_STR_AS_NULL_CHAR) UWriter.new).st =
      [1, 0, 0, 0, 0] :=
  ⟨by decide, by rfl, by rfl, by rfl⟩

/-- C29 (amended). For every well-formed single-byte fixed-string encoding `e` (a little-endian
int32 `n ≥ 0` followed, when `n > 0`, by `n - 1` ASCII content bytes and one `00` byte) whose
content is not the 7-character text `<empty>`: `UReader.fstring` decodes a string from `e`,
its cursor then behind `e`, and `UWriter.fstring` of that string appends exactly `e`. -/
theorem fstring_reencodes (n : Nat) (content : List Nat) (hn : n < 2 ^ 31)
    (hlen : content.length = n - 1) (hascii : ∀ c ∈ content, c < 128)
    (hne : content ≠ EMPTY_STR_AS_NULL_CHAR) (pre post : List Nat) (w : UWriter)
    (hc : w.clean) :
    ∃ v w', UReader.fstring
          ⟨pre ++ (leBytes 4 n ++ if 0 < n then content ++ [0] else []) ++ post, pre.length⟩ =
        ⟨.ok v, ⟨pre ++ (leBytes 4 n ++ if 0 < n then content ++ [0] else []) ++ post,
          pre.length + (leBytes 4 n ++ if 0 < n then content ++ [0] else []).length⟩⟩ ∧
      UWriter.fstring (.str v) w = ⟨.ok (), w'⟩ ∧
      w.Appended (leBytes 4 n ++ if 0 < n then content ++ [0] else []) w' := by
  have key : ∃ v, asciiStr v ∧
      strWire v = leBytes 4 n ++ if 0 < n then content ++ [0] else [] := by
    by_cases h0 : n = 0
    · subst h0
      refine ⟨[], ⟨by simp, by decide⟩, ?_⟩
      rw [if_neg (by decide)]
      rfl
    · rw [if_pos (by omega)]
      by_cases h1 : n = 1
      · subst h1
        have hc0 : content = [] := List.length_eq_zero.mp hlen
        subst hc0
        exact ⟨EMPTY_STR_AS_NULL_CHAR, ⟨by decide, by decide⟩, by decide⟩
      · refine ⟨content, ⟨hascii, by omega⟩, ?_⟩
        have hcn : content ≠ [] := by
          intro h
          rw [h] at hlen
          simp only [List.length_nil] at hlen
          omega
        unfold strWire
        rw [if_neg hcn, if_neg hne, hlen, show n - 1 + 1 = n by omega, List.append_assoc]
  obtain ⟨v, hv, hw⟩ := key
  rw [← hw]
  obtain ⟨w', e, a⟩ := Wrote.w_fstring v hv w hc
  exact ⟨v, w', Reads.r_fstring v hv ⟨pre ++ strWire v ++ post, pre.length⟩ pre post rfl rfl,
    e, a⟩

theorem fstring_reencodes_witness :
    ∃ v w', UReader.fstring ⟨[] ++ (leBytes 4 2 ++ if 0 < 2 then [65] ++ [0] else []) ++ [],
          ([] : List Nat).length⟩ =
        ⟨.ok v, ⟨[] ++ (leBytes 4 2 ++ if 0 < 2 then [65] ++ [0] else []) ++ [],
          ([] : List Nat).length + (leBytes 4 2 ++ if 0 < 2 then [65] ++ [0] else []).length⟩⟩ ∧
      UWriter.fstring (.str v) UWriter.new = ⟨.ok (), w'⟩ ∧
      UWriter.new.Appended (leBytes 4 2 ++ if 0 < 2 then [65] ++ [0] else []) w' :=
  fstring_reencodes 2 [65] (by decide) (by decide) (by decide) (by decide) [] [] UWriter.new
    UWriter.new_clean

/-! ## The cursor after a value decode -/

set_option maxRecDepth 16000 in
/-- C25 (as stated) fails: the 31 bytes `exBackWire` are a tag of an unknown type with the
declared size -31. The tag decode leaves the cursor at 31, and the value decode (`raw` of a
negative size, which passes the size check) returns normally with the cursor at 0, the first
byte of the tag just consumed; the property-list decode then reads that tag again and again
(here until the decoders run out of fuel). -/
theorem value_decode_backwards_counterexample :
    UReader.FPropertyTag ⟨exBackWire, 0⟩ = ⟨.ok exBackTag, ⟨exBackWire, 31⟩⟩ ∧
    Decoders.FPropertyValue (decoders {} 2) exBackTag ⟨exBackWire, 31⟩ =
      ⟨.ok (.buffer [], exBackTag), ⟨exBackWire, 0⟩⟩ ∧
    (UReader.FPropertyList (decoders {} 8) false ⟨exBackWire, 0⟩).out = .error .outOfFuel := by
  refine ⟨by rfl, by rfl, by rfl⟩

/-- C25 (amended). If `UReader.FPropertyValue` returns normally, then either the tag is the
terminator and the reader is unchanged, or the declared size of the tag is an integer `N` and
the cursor afterwards is exactly `N` beyond the offset before the call. So for every tag whose
declared size is not negative the cursor afterwards is greater than or equal to the offset
before the call. -/
theorem value_decode_end (opts : Options) (fuel : Nat) (tag t' : Tag) (r r' : UReader)
    (v : JSVal)
    (h : UReader.FPropertyValue opts (decoders opts fuel) tag r = ⟨.ok (v, t'), r'⟩) :
    ((tag.f.Name = some (js "None") ∧ r' = r) ∨
      ∃ N : Int, tag.f.Size = some (.int N) ∧ r'.offset = r.offset + N) ∧
    ∀ N : Int, tag.f.Size = some (.int N) → 0 ≤ N → r.offset ≤ r'.offset := by
  have key : (tag.f.Name = some (js "None") ∧ r' = r) ∨
      ∃ N : Int, tag.f.Size = some (.int N) ∧ r'.offset = r.offset + N := by
    have hk := (decoders_keeps opts fuel).unsafeValue.holds ⟨tag, r⟩
    have hrec : ∀ s1 : TState UReader, s1.tag.f.Size = tag.f.Size →
        UReader.recover opts r.offset s1.tag s1.rd = ⟨.ok (v, t'), r'⟩ →
        ∃ N : Int, tag.f.Size = some (.int N) ∧ r'.offset = r.offset + N := by
      intro s1 hS hr
      unfold UReader.recover at hr
      by_cases hE : opts.EarlyExit = true
      · rw [if_pos hE] at hr
        split at hr <;> simp only [M.fail_apply, Res.mk.injEq, reduceCtorEq, false_and] at hr
      · rw [if_neg hE] at hr
        cases hz : s1.tag.f.Size with
        | none =>
          rw [hz] at hr
          simp only [M.fail_apply, Res.mk.injEq, reduceCtorEq, false_and] at hr
        | some z =>
          cases z with
          | int n =>
            rw [hz] at hr
            obtain ⟨_, s2, h1, h2⟩ := M.bind_ok hr
            rw [UReader.seek_cases] at h1
            split at h1
            · simp only [Res.mk.injEq, true_and] at h1
              have h3 := (M.pure_ok h2).2
              refine ⟨n, by rw [← hS, hz], ?_⟩
              rw [← h3, ← h1]
            · simp only [Res.mk.injEq, reduceCtorEq, false_and] at h1
          | nonInt =>
            rw [hz] at hr
            simp only [M.fail_apply, Res.mk.injEq, reduceCtorEq, false_and] at hr
    unfold UReader.FPropertyValue at h
    by_cases hN : tag.f.Name = some (js "None")
    · rw [if_pos hN] at h
      simp only [Res.mk.injEq] at h
      exact Or.inl ⟨hN, h.2.symm⟩
    · right
      rw [if_neg hN] at h
      dsimp only at h
      cases hu : Decoders.FPropertyValue_unsafe (decoders opts fuel) ⟨tag, r⟩ with
      | mk o s1 =>
        rw [hu] at h hk
        have hS : s1.tag.f.Size = tag.f.Size := hk.2.1
        cases o with
        | ok value =>
          dsimp only at h
          split at h
          · rename_i heq
            simp only [Res.mk.injEq] at h
            refine ⟨s1.rd.offset - r.offset, by rw [← hS, ← heq], ?_⟩
            rw [← h.2]
            ring
          · exact hrec s1 hS h
        | error e =>
          dsimp only at h
          split at h
          · exact hrec s1 hS h
          · simp only [Res.mk.injEq, reduceCtorEq, false_and] at h
  refine ⟨key, ?_⟩
  intro N hS h0
  rcases key with ⟨_, h1⟩ | ⟨M, hM, h1⟩
  · rw [h1]
  · rw [hS] at hM
    simp only [Option.some.injEq, JSNum.int.injEq] at hM
    omega

set_option maxRecDepth 16000 in
theorem value_decode_end_witness :
    ((exBackTag.f.Name = some (js "None") ∧ (⟨exBackWire, 0⟩ : UReader) = ⟨exBackWire, 31⟩) ∨
      ∃ N : Int, exBackTag.f.Size = some (.int N) ∧
        (⟨exBackWire, 0⟩ : UReader).offset = (⟨exBackWire, 31⟩ : UReader).offset + N) ∧
    ∀ N : Int, exBackTag.f.Size = some (.int N) → 0 ≤ N →
      (⟨exBackWire, 31⟩ : UReader).offset ≤ (⟨exBackWire, 0⟩ : UReader).offset :=
  value_decode_end {} 1 exBackTag exBackTag ⟨exBackWire, 31⟩ ⟨exBackWire, 0⟩ (.buffer [])
    (by rfl)

/-! ## Names at array index 0 -/

theorem UWriter.put_byteAt_before (w : UWriter) (bs : List Nat) (j : Nat) (h : j < w.offset) :
    (w.put bs).byteAt j = w.byteAt j := by
  unfold UWriter.put
  dsimp only
  rw [if_neg (by omega)]

theorem UWriter.afterCheck_keep {α : Type} (n : Nat) (f : WM α)
    (hf : ∀ w a w', w.offset + n < w.length → f w = ⟨.ok a, w'⟩ →
      w'.offset < w'.length ∧ w.offset ≤ w'.offset ∧
        ∀ j, j < w.offset → w'.byteAt j = w.byteAt j) :
    M.Returns keepRel (UWriter.checkBuf n >>= fun _ => f) := by
  constructor
  intro s a s' hr hin
  simp only [M.bind_apply, UWriter.checkBuf] at hr
  have h1 := hf (s.grow n) a s' (UWriter.grow_fits s n) hr
  have ho : (s.grow n).offset = s.offset := UWriter.grow_offset s n
  refine ⟨h1.1, by omega, fun j hj => ?_⟩
  rw [h1.2.2 j (by omega), UWriter.grow_byteAt s n j (by omega)]

theorem UWriter.writeBytes_keeps (bs : List Nat) (n : Nat) (hn : bs.length ≤ n)
    (w : UWriter) (a : Unit) (w' : UWriter) (hw : w.offset + n < w.length)
    (h : UWriter.writeBytes bs w = ⟨.ok a, w'⟩) :
    w'.offset < w'.length ∧ w.offset ≤ w'.offset ∧
      ∀ j, j < w.offset → w'.byteAt j = w.byteAt j := by
  unfold UWriter.writeBytes at h
  split at h
  · simp only [Res.mk.injEq, true_and] at h
    rw [← h]
    have hp : (w.put bs).offset = w.offset + bs.length := rfl
    have hpl : (w.put bs).length = w.length := rfl
    exact ⟨by omega, by omega, fun j hj => UWriter.put_byteAt_before w bs j hj⟩
  · simp only [Res.mk.injEq, reduceCtorEq, false_and] at h

theorem UWriter.writeInt_keep (bits : Nat) (signed : Bool) (val : JSVal) :
    M.Returns keepRel (UWriter.writeInt bits signed val) := by
  unfold UWriter.writeInt
  apply UWriter.afterCheck_keep
  intro w a w' hw h
  cases hn : numArg val with
  | error e =>
    rw [hn] at h
    simp only [M.fail_apply, Res.mk.injEq, reduceCtorEq, false_and] at h
  | ok n =>
    rw [hn] at h
    dsimp only at h
    by_cases hc : n < (if signed = true then -(2 : Int) ^ (bits - 1) else 0) ∨
        (if signed = true then (2 : Int) ^ (bits - 1) else 2 ^ bits) ≤ n
    · rw [if_pos hc] at h
      simp only [M.fail_apply, Res.mk.injEq, reduceCtorEq, false_and] at h
    · rw [if_neg hc] at h
      exact UWriter.writeBytes_keeps _ _ (by rw [leBytes_length]) w a w' hw h

theorem UWriter.uint8_keep (val : JSVal) : M.Returns keepRel (UWriter.uint8 val) :=
  UWriter.writeInt_keep 8 false val

theorem UWriter.int32_keep (val : JSVal) : M.Returns keepRel (UWriter.int32 val) :=
  UWriter.writeInt_keep 32 true val

theorem UWriter.uint32_keep (val : JSVal) : M.Returns keepRel (UWriter.uint32 val) :=
  UWriter.writeInt_keep 32 false val

theorem UWriter.fstring_keep (val : JSVal) : M.Returns keepRel (UWriter.fstring val) := by
  unfold UWriter.fstring
  split
  · split
    · exact M.Returns.on_bind _ (UWriter.writeInt_keep 32 true _)
        (fun _ => UWriter.writeInt_keep 8 true _)
    · split
      · apply M.Returns.on_bind _ (UWriter.writeInt_keep 32 true _)
        intro _
        apply UWriter.afterCheck_keep
        intro w a w' hw h
        simp only [Res.mk.injEq, true_and] at h
        rw [← h]
        rw [List.take_of_length_le (by rw [List.length_map]; omega)]
        simp only [UWriter.put_offset, UWriter.put_length, List.length_map]
        exact ⟨by omega, by omega, fun j hj => UWriter.put_byteAt_before w _ j hj⟩
      · exact UWriter.writeInt_keep 32 true _
  all_goals first | exact M.Returns.on_fail _ _ | exact UWriter.writeInt_keep 32 true _

theorem UWriter.fname_keep (val : JSVal) : M.Returns keepRel (UWriter.fname val) :=
  UWriter.fstring_keep val

theorem UWriter.FGuidOpt_keep (g : Option (List Int)) :
    M.Returns keepRel (UWriter.FGuidOpt g) := by
  unfold UWriter.FGuidOpt
  repeat (with_reducible first
    | apply M.Returns.on_bind | exact UWriter.uint32_keep _ | intro _
    | dsimp only)

theorem UWriter.getOffset_keep : M.Returns keepRel UWriter.getOffset := by
  constructor
  intro s a s' h
  simp only [UWriter.getOffset, Res.mk.injEq] at h
  rw [← h.2]
  exact keepRel.refl s

theorem liftR_keep {α : Type} {m : WM α} (hm : M.Returns keepRel m) :
    M.Returns keepTagRel (liftR m) := by
  constructor
  intro s a s' h
  exact hm.holds _ _ _ (liftR_ok h).2

theorem modTag_keep (g : TagFields → TagFields) : M.Returns keepTagRel (modTag g) := by
  constructor
  intro s a s' h
  show keepRel.rel s.rd s'.rd
  rw [(modTag_ok h).2]
  exact keepRel.refl _

theorem UWriter.tagExtras_keep : M.Returns keepTagRel UWriter.tagExtras := by
  unfold UWriter.tagExtras
  repeat (with_reducible first
    | apply M.Returns.on_bind | exact M.Returns.on_pure _ _ | exact M.Returns.on_getTag _
    | exact modTag_keep _ | apply liftR_keep | exact UWriter.fname_keep _
    | exact UWriter.FGuidOpt_keep _ | exact UWriter.getOffset_keep
    | exact UWriter.uint8_keep _ | split | intro _ | dsimp only)

/-- The writer's `FPropertyTag` on a tag named `n`, from a clean state: it first writes the
name `writtenName n` with `fname`, and what follows keeps the bytes written. -/
theorem UWriter.FPropertyTag_name_bytes (tag t' : Tag) (w w' : UWriter) (n : JSString)
    (hn : tag.f.Name = some n) (hc : w.clean)
    (h : UWriter.FPropertyTag ⟨tag, w⟩ = ⟨.ok (), ⟨t', w'⟩⟩) :
    ∀ i, i < (WriteOp.fstring (UWriter.writtenName n)).bytes.length →
      w'.byteAt (w.offset + i) = (WriteOp.fstring (UWriter.writtenName n)).bytes.getD i 0 := by
  unfold UWriter.FPropertyTag at h
  rw [getTag_bind, UWriter.getOffset_bind, modTag_bind] at h
  simp only [hn] at h
  obtain ⟨_, s4, h4, h⟩ := M.bind_ok h
  have e4 := (liftR_ok h4).2
  have hv := WriteOp.valid_of_ok (.fstring (UWriter.writtenName n)) _ _ e4
  obtain ⟨w4, e4', st⟩ := (WriteOp.fstring (UWriter.writtenName n)).stores hv w
  have hw4 : s4.rd = w4 := by
    have := e4.symm.trans e4'
    simp only [Res.mk.injEq, true_and] at this
    exact this
  have ap := st.appended hc
  rw [← hw4] at ap
  have hk : keepTagRel.rel s4 ⟨t', w'⟩ := by
    refine M.Returns.holds ?_ _ _ _ h
    repeat (with_reducible first
      | apply M.Returns.on_bind | exact M.Returns.on_pure _ _ | exact M.Returns.on_getTag _
      | exact modTag_keep _ | apply liftR_keep | exact UWriter.fname_keep _
      | exact UWriter.FGuidOpt_keep _ | exact UWriter.getOffset_keep
      | exact UWriter.tagExtras_keep
      | exact UWriter.uint8_keep _ | exact UWriter.int32_keep _
      | split | intro _ | dsimp only)
  have hk' := hk ap.clean.1
  intro i hi
  exact (hk'.2.2 _ (by rw [ap.offset]; exact Nat.add_lt_add_left hi _)).trans (ap.bytes i hi)

/-- C30 at a failing input: the tag of `exSlotWire` has the wire name `Slot[2]` and array index
0. The reader keeps the name, as the claim says. The writer, whose static-array test matches
every name that ends in a bracketed number whatever the array index, passes `Slot` to `fname`:
encoding the decoded list gives `exSlotStripped`, the list with the name `Slot`, and not the
bytes that were read. -/
theorem name_at_index_zero_stripped :
    tagNames ((UReader.FPropertyList (decoders {} 3) false ⟨exSlotWire, 0⟩).out.toOption.getD
      .null) = [some (js "Slot[2]")] ∧
    UWriter.writtenName (js "Slot[2]") = js "Slot" ∧
    reencodeList 3 exSlotWire false = some exSlotStripped ∧
    exSlotStripped ≠ exSlotWire := by
  decide!

/-! ## The name-keyed value mapping -/

theorem objGet_objSet_same (es : List (JSString × JSVal)) (k : JSString) (v : JSVal) :
    objGet (objSet es k v) k = some v := by
  induction es with
  | nil => simp [objSet, objGet]
  | cons e es ih =>
    obtain ⟨k', v'⟩ := e
    by_cases hk : k' = k
    · simp only [objSet, if_pos hk, objGet]
    · simp only [objSet, if_neg hk, objGet]
      exact ih

theorem objGet_objSet_ne (es : List (JSString × JSVal)) (k key : JSString) (v : JSVal)
    (h : k ≠ key) : objGet (objSet es k v) key = objGet es key := by
  induction es with
  | nil => simp [objSet, objGet, h]
  | cons e es ih =>
    obtain ⟨k', v'⟩ := e
    by_cases hk : k' = k
    · subst hk
      simp only [objSet, if_true, objGet, if_neg h]
    · simp only [objSet, if_neg hk, objGet]
      rw [ih]

/-- The statements of the loop body behind the tag decode, when they return: the value decode
returned a value and a tag object, and unless the key is `__proto__` the tag object has been
added to the tag array and the value stored under the name. -/
theorem pushAndDecode_ok (d : Decoders) (result result1 : List (JSString × JSVal)) (tag : Tag)
    (r1 r2 : UReader) (h : pushAndDecode d result tag r1 = ⟨.ok result1, r2⟩) :
    ∃ ts v t', objGet result PropertiesKey = some (.props ts) ∧
      d.FPropertyValue tag r1 = ⟨.ok (v, t'), r2⟩ ∧
      (stepName (t', v) ≠ js "__proto__" →
        result1 = objSet (objSet result PropertiesKey (.props (ts ++ [t'])))
          (stepName (t', v)) v) := by
  unfold pushAndDecode at h
  cases hq : objGet result PropertiesKey with
  | none =>
    rw [hq] at h
    simp only [M.fail_apply, Res.mk.injEq, reduceCtorEq, false_and] at h
  | some x =>
    rw [hq] at h
    cases x with
    | props ts =>
      dsimp only at h
      obtain ⟨vt, r2', h1, h2⟩ := M.bind_ok h
      obtain ⟨v, t'⟩ := vt
      dsimp only at h2
      unfold assignProp at h2
      by_cases hp : t'.f.Name.getD [] = js "__proto__"
      · rw [if_pos hp] at h2
        have hr : r2' = r2 := by
          split at h2 <;> first
            | exact (M.pure_ok h2).2
            | simp only [M.fail_apply, Res.mk.injEq, reduceCtorEq, false_and] at h2
        rw [hr] at h1
        exact ⟨ts, v, t', rfl, h1, fun hne => absurd hp hne⟩
      · rw [if_neg hp] at h2
        obtain ⟨e1, e2⟩ := M.pure_ok h2
        rw [e2] at h1
        exact ⟨ts, v, t', rfl, h1, fun _ => e1.symm⟩
    | _ => simp only [M.fail_apply, Res.mk.injEq, reduceCtorEq, false_and] at h

/-- Every returning run of the property-list loop is a `ListRun`; when the stored names are
pairwise distinct and none is the key of the tag array or `__proto__`, the result holds the
tag objects in wire order and each value under the name of its tag. -/
theorem listLoopBody_run (opts : Options) (wx : Bool) (k : Nat) :
    ∀ (result : List (JSString × JSVal)) (r r' : UReader) (v : JSVal),
      listLoopBody (decoders opts k) wx result r = ⟨.ok v, r'⟩ →
      ∃ steps, ListRun opts wx k r steps r' ∧
        ((∀ s ∈ steps, stepName s ≠ PropertiesKey ∧ stepName s ≠ js "__proto__") →
          (steps.map stepName).Nodup →
          ∀ ts0, objGet result PropertiesKey = some (.props ts0) →
          ∃ fs, v = .object fs ∧
            objGet fs PropertiesKey = some (.props (ts0 ++ steps.map Prod.fst)) ∧
            (∀ s ∈ steps, objGet fs (stepName s) = some s.2) ∧
            ∀ key, key ≠ PropertiesKey → key ∉ steps.map stepName →
              objGet fs key = objGet result key) := by
  induction k with
  | zero =>
    intro result r r' v h
    unfold listLoopBody at h
    obtain ⟨tag, r1, h1, h⟩ := M.bind_ok h
    by_cases hN : tag.f.Name = some (js "None")
    · rw [if_pos hN] at h
      refine ⟨[], ListRun.done 0 r r1 r' tag h1 hN ?_, ?_⟩
      · cases wx with
        | true =>
          simp only [if_true] at h ⊢
          obtain ⟨x, r1', h2, h3⟩ := M.bind_ok h
          rw [(M.pure_ok h3).2] at h2
          exact ⟨x, h2⟩
        | false =>
          simp only [Bool.false_eq_true, if_false] at h ⊢
          exact (M.pure_ok h).2.symm
      · intro _ _ ts0 hts
        have hv : v = .object result := by
          cases wx with
          | true =>
            simp only [if_true] at h
            obtain ⟨x, r1', h2, h3⟩ := M.bind_ok h
            exact (M.pure_ok h3).1.symm
          | false =>
            simp only [Bool.false_eq_true, if_false] at h
            exact (M.pure_ok h).1.symm
        refine ⟨result, hv, ?_, ?_, ?_⟩
        · rw [hts, List.map_nil, List.append_nil]
        · intro s hs
          exact absurd hs (List.not_mem_nil _)
        · intro key _ _
          rfl
    · rw [if_neg hN] at h
      obtain ⟨result1, r2, h2, h3⟩ := M.bind_ok h
      simp only [decoders, M.fail_apply, Res.mk.injEq, reduceCtorEq, false_and] at h3
  | succ k ih =>
    intro result r r' v h
    unfold listLoopBody at h
    obtain ⟨tag, r1, h1, h⟩ := M.bind_ok h
    by_cases hN : tag.f.Name = some (js "None")
    · rw [if_pos hN] at h
      refine ⟨[], ListRun.done (k + 1) r r1 r' tag h1 hN ?_, ?_⟩
      · cases wx with
        | true =>
          simp only [if_true] at h ⊢
          obtain ⟨x, r1', h2, h3⟩ := M.bind_ok h
          rw [(M.pure_ok h3).2] at h2
          exact ⟨x, h2⟩
        | false =>
          simp only [Bool.false_eq_true, if_false] at h ⊢
          exact (M.pure_ok h).2.symm
      · intro _ _ ts0 hts
        have hv : v = .object result := by
          cases wx with
          | true =>
            simp only [if_true] at h
            obtain ⟨x, r1', h2, h3⟩ := M.bind_ok h
            exact (M.pure_ok h3).1.symm
          | false =>
            simp only [Bool.false_eq_true, if_false] at h
            exact (M.pure_ok h).1.symm
        refine ⟨result, hv, ?_, ?_, ?_⟩
        · rw [hts, List.map_nil, List.append_nil]
        · intro s hs
          exact absurd hs (List.not_mem_nil _)
        · intro key _ _
          rfl
    · rw [if_neg hN] at h
      obtain ⟨result1, r2, h2, h3⟩ := M.bind_ok h
      obtain ⟨ts, v1, t', hq, hval, hres⟩ := pushAndDecode_ok _ result result1 tag r1 r2 h2
      obtain ⟨steps, hrun, hQ⟩ := ih result1 r2 r' v h3
      refine ⟨(t', v1) :: steps, ListRun.step k r r1 r2 r' tag t' v1 steps h1 hN hval hrun, ?_⟩
      intro hgood hnd ts0 hts
      have hg1 := hgood (t', v1) (List.mem_cons_self _ _)
      rw [List.map_cons, List.nodup_cons] at hnd
      rw [hq] at hts
      have hts' : ts = ts0 := by
        simp only [Option.some.injEq, JSVal.props.injEq] at hts
        exact hts
      subst hts'
      have hr1 := hres hg1.2
      have hpk : objGet result1 PropertiesKey = some (.props (ts ++ [t'])) := by
        rw [hr1, objGet_objSet_ne _ _ _ _ hg1.1, objGet_objSet_same]
      obtain ⟨fs, hv, hfp, hfs, hfo⟩ :=
        hQ (fun s hs => hgood s (List.mem_cons_of_mem _ hs)) hnd.2 (ts ++ [t']) hpk
      refine ⟨fs, hv, ?_, ?_, ?_⟩
      · rw [hfp, List.map_cons, List.append_assoc]
        rfl
      · intro s hs
        rcases List.mem_cons.mp hs with hs | hs
        · rw [hs, hfo _ hg1.1 hnd.1, hr1, objGet_objSet_same]
        · exact hfs s hs
      · intro key hk hkn
        rw [List.map_cons, List.mem_cons, not_or] at hkn
        rw [hfo key hk hkn.2, hr1, objGet_objSet_ne _ _ _ _ (Ne.symm hkn.1),
          objGet_objSet_ne _ _ _ _ (Ne.symm hk)]

theorem ListRun.deterministic {opts : Options} {wx : Bool} {k : Nat} {r ra : UReader}
    {s1 : List (Tag × JSVal)} (h1 : ListRun opts wx k r s1 ra) :
    ∀ {s2 : List (Tag × JSVal)} {rb : UReader}, ListRun opts wx k r s2 rb → s1 = s2 := by
  induction h1 with
  | done fuel r r1 r' tag ht hn _ =>
    intro s2 rb h2
    cases h2 with
    | done _ _ r1b _ tagb htb hnb _ => rfl
    | step _ _ r1b r2b _ tagb tb vb stepsb htb hnb _ _ =>
      rw [ht] at htb
      simp only [Res.mk.injEq, Except.ok.injEq] at htb
      rw [htb.1] at hn
      exact absurd hn hnb
  | step fuel r r1 r2 r' tag t' v steps ht hn hv _ ih =>
    intro s2 rb h2
    cases h2 with
    | done _ _ r1b _ tagb htb hnb _ =>
      rw [ht] at htb
      simp only [Res.mk.injEq, Except.ok.injEq] at htb
      rw [htb.1] at hn
      exact absurd hnb hn
    | step _ _ r1b r2b _ tagb tb vb stepsb htb hnb hvb hrb =>
      rw [ht] at htb
      simp only [Res.mk.injEq, Except.ok.injEq] at htb
      rw [← htb.1, ← htb.2, hv] at hvb
      simp only [Res.mk.injEq, Except.ok.injEq, Prod.mk.injEq] at hvb
      rw [← hvb.2] at hrb
      rw [ih hrb, hvb.1.1, hvb.1.2]

set_option maxRecDepth 16000 in
/-- C28 (as stated) fails. Two properties named `Foo` with array index 0 and the values 10 and
11 (`exDupWire`) decode to a tag sequence of two tags and a mapping with the one entry
`Foo → 11`: the value 10 decoded for the first tag is gone, and the writer emits 11 twice. A
property named `__props__` (`exPropsKeyWire`) replaces the tag sequence by its value 7, and
the writer throws on the result. The value of a property named `__proto__` (`exProtoWire`) is
not stored at all. -/
theorem list_entries_by_name_counterexample :
    Decoders.FPropertyValue (decoders {} 2) exIntTagAt0 ⟨exDupWire, 33⟩ =
      ⟨.ok (.num 10, exIntTagAt0), ⟨exDupWire, 37⟩⟩ ∧
    UReader.FPropertyList (decoders {} 4) false ⟨exDupWire, 0⟩ =
      ⟨.ok (.object [(PropertiesKey, .props [exIntTagAt0, exDupTag1]), (js "Foo", .num 11)]),
        ⟨exDupWire, 83⟩⟩ ∧
    reencodeList 4 exDupWire false =
      some (exFooProp 0 11 ++ exFooProp 0 11 ++ wireStr "None") ∧
    UReader.FPropertyList (decoders {} 3) false ⟨exPropsKeyWire, 0⟩ =
      ⟨.ok (.object [(PropertiesKey, .num 7)]), ⟨exPropsKeyWire, 52⟩⟩ ∧
    reencodeList 3 exPropsKeyWire false = none ∧
    UReader.FPropertyList (decoders {} 3) false ⟨exProtoWire, 0⟩ =
      ⟨.ok (.object [(PropertiesKey, .props [exProtoTag])]), ⟨exProtoWire, 52⟩⟩ ∧
    objGet [(PropertiesKey, .props [exProtoTag])] (js "__proto__") = none := by
  refine ⟨by rfl, by rfl, by decide!, by rfl, by decide!, by rfl, by rfl⟩

/-- C28 (amended). For every property list decoded by `UReader.FPropertyList` whose stored
names are pairwise distinct and none of which is `__props__` or `__proto__`: the result is an
object whose tag sequence lists the tag objects in wire order, and for every tag in it the
value mapping's entry under the tag's name is the value that was decoded for that tag, which
is the value that the writer's lookup by tag name finds. -/
theorem list_entries_by_name (opts : Options) (wx : Bool) (fuel : Nat) (r r' : UReader)
    (v : JSVal) (steps : List (Tag × JSVal))
    (h : UReader.FPropertyList (decoders opts fuel) wx r = ⟨.ok v, r'⟩)
    (hrun : ListRun opts wx fuel r steps r')
    (hgood : ∀ s ∈ steps, stepName s ≠ PropertiesKey ∧ stepName s ≠ js "__proto__")
    (hnd : (steps.map stepName).Nodup) :
    ∃ fs, v = .object fs ∧ objGet fs PropertiesKey = some (.props (steps.map Prod.fst)) ∧
      ∀ s ∈ steps, objGet fs (stepName s) = some s.2 ∧
        ∀ st : TState UWriter, propValue fs (some (stepName s)) st = ⟨.ok s.2, st⟩ := by
  obtain ⟨steps0, hrun0, hQ⟩ :=
    listLoopBody_run opts wx fuel [(PropertiesKey, .props [])] r r' v h
  have hs : steps0 = steps := hrun0.deterministic hrun
  subst hs
  obtain ⟨fs, hv, hp, hfs, _⟩ := hQ hgood hnd [] (objGet_head _ _ _)
  refine ⟨fs, hv, by rw [hp, List.nil_append], fun s hs => ⟨hfs s hs, fun st => ?_⟩⟩
  unfold propValue
  simp only [Option.getD_some, hfs s hs, M.pure_apply]

set_option maxRecDepth 16000 in
theorem list_entries_by_name_witness :
    ∃ fs, (.object [(PropertiesKey, .props [exIntTagAt0, exFooTag1, exFooTag2]),
          (js "Foo", .num 10), (js "Foo[1]", .num 11), (js "Foo[2]", .num 12)] : JSVal) =
        .object fs ∧
      objGet fs PropertiesKey = some (.props [exIntTagAt0, exFooTag1, exFooTag2]) ∧
      objGet fs (js "Foo[1]") = some (.num 11) := by
  obtain ⟨fs, h1, h2, h3⟩ := list_entries_by_name {} false 4 ⟨exFooWire, 0⟩ ⟨exFooWire, 120⟩
    (.object [(PropertiesKey, .props [exIntTagAt0, exFooTag1, exFooTag2]),
      (js "Foo", .num 10), (js "Foo[1]", .num 11), (js "Foo[2]", .num 12)])
    [(exIntTagAt0, .num 10), (exFooTag1, .num 11), (exFooTag2, .num 12)] (by rfl)
    (ListRun.step 3 ⟨exFooWire, 0⟩ ⟨exFooWire, 33⟩ ⟨exFooWire, 37⟩ _ exIntTagAt0 exIntTagAt0
      (.num 10) _ (by rfl) (by decide) (by rfl)
      (ListRun.step 2 ⟨exFooWire, 37⟩ ⟨exFooWire, 70⟩ ⟨exFooWire, 74⟩ _ exFooTag1 exFooTag1
        (.num 11) _ (by rfl) (by decide) (by rfl)
        (ListRun.step 1 ⟨exFooWire, 74⟩ ⟨exFooWire, 107⟩ ⟨exFooWire, 111⟩ _ exFooTag2
          exFooTag2 (.num 12) _ (by rfl) (by decide) (by rfl)
          (ListRun.done 1 ⟨exFooWire, 111⟩ ⟨exFooWire, 120⟩ ⟨exFooWire, 120⟩
            (Tag.ofFields { Name := some (js "None"), tag_offset := some 111 })
            (by rfl) (by rfl) rfl))))
    (by decide) (by decide)
  exact ⟨fs, h1, h2, (h3 (exFooTag1, .num 11) (by simp)).1⟩

/-! ## Arrays of a fixed-size element type -/

/-- A counted loop of a value decode on the element tag, over the wire forms of the elements
one after the other. -/
theorem onInner_loop {α : Type} (T it : Tag) (m : TM JSVal) (wire : α → List Nat)
    (val : α → JSVal) (xs : List α) (hI : T.InnerTag = some it)
    (hm : ∀ x ∈ xs, ∀ (r : UReader) (pre post : List Nat), r.buffer = pre ++ wire x ++ post →
      r.offset = pre.length →
      m ⟨it, r⟩ = ⟨.ok (val x), ⟨it, { r with offset := r.offset + (wire x).length }⟩⟩)
    (r : UReader) (pre post : List Nat) (hb : r.buffer = pre ++ xs.flatMap wire ++ post)
    (ho : r.offset = pre.length) :
    loopM (onInner m) xs.length ⟨T, r⟩ =
      ⟨xs.map val, none, ⟨T, { r with offset := r.offset + (xs.flatMap wire).length }⟩⟩ := by
  induction xs generalizing r pre with
  | nil => simp [TQ2.loopM]
  | cons x xs ih =>
    have hx := hm x (List.mem_cons_self _ _) r pre (xs.flatMap wire ++ post)
      (by rw [hb]; simp only [List.flatMap_cons, List.append_assoc]) ho
    have e1 : onInner m ⟨T, r⟩ =
        ⟨.ok (val x), ⟨T, { r with offset := r.offset + (wire x).length }⟩⟩ := by
      unfold onInner
      simp only [hI, hx, Tag.setInner_self T it hI]
    have hr := ih (fun y hy => hm y (List.mem_cons_of_mem _ hy))
      { r with offset := r.offset + (wire x).length } (pre ++ wire x)
      (by rw [hb]; simp only [List.flatMap_cons, List.append_assoc])
      (by show r.offset + (wire x).length = ((pre ++ wire x).length : Nat)
          rw [List.length_append, ho]
          rfl)
    simp only [List.length_cons, TQ2.loopM, e1, hr, List.map_cons, List.flatMap_cons,
      List.length_append, Nat.cast_add, add_assoc]

theorem UReader.common_array (d : Decoders) (f : TagFields)
    (hT : f.Typ = some (js "ArrayProperty")) (hN : f.Name ≠ some (js "None")) :
    UReader.FPropertyValue_common d f = none := by
  unfold UReader.FPropertyValue_common
  rw [if_neg hN, hT]
  repeat rw [if_neg (by decide)]

theorem UReader.unsafe_array (d : Decoders) (tag : Tag) (r : UReader)
    (hT : tag.f.Typ = some (js "ArrayProperty")) (hN : tag.f.Name ≠ some (js "None")) :
    UReader.FPropertyValue_unsafe d ⟨tag, r⟩ = UReader.arrayValue d ⟨tag, r⟩ := by
  unfold UReader.FPropertyValue_unsafe
  simp only [M.bind_apply, getTag, UReader.common_array d tag.f hT hN, hT]
  repeat rw [if_neg (by decide)]
  rw [if_pos trivial]

theorem UWriter.common_array_none (e : Encoders) (f : TagFields) (val : JSVal)
    (hT : f.Typ = some (js "ArrayProperty")) (hN : f.Name ≠ some (js "None")) :
    UWriter.FPropertyValue_common e f val = none := by
  unfold UWriter.FPropertyValue_common
  rw [if_neg hN, hT]
  repeat rw [if_neg (by decide)]

theorem UWriter.common_byte_none (e : Encoders) (f : TagFields) (val : JSVal)
    (hT : f.Typ = some (js "ByteProperty")) (hN : f.Name ≠ some (js "None")) :
    UWriter.FPropertyValue_common e f val = none := by
  unfold UWriter.FPropertyValue_common
  rw [if_neg hN, hT]
  repeat rw [if_neg (by decide)]

theorem fitsSigned_count (n : Nat) (h : n < 2 ^ 31) : fitsSigned 4 (n : Int) := by
  constructor
  · show -(2 : Int) ^ (8 * 4 - 1) ≤ _
    norm_num
    omega
  · show (_ : Int) < 2 ^ (8 * 4 - 1)
    norm_num
    omega

/-- The array branch of the value decode for an inner type of fixed size, over the count and
the wire forms of the elements: the element tag is synthesized and stored in the tag object,
and the elements are decoded on it. -/
theorem UReader.arrayValue_fixed {α : Type} (opts : Options) (k : Nat) (tag : Tag)
    (ity ety : JSString) (esz : JSNum) (wire : α → List Nat) (val : α → JSVal) (xs : List α)
    (hI : tag.f.InnerType = some ity) (hns : ity ≠ js "StructProperty")
    (hfix : isFixedType ity = true)
    (hety : (if ity = js "BoolProperty" then js "ByteProperty" else ity) = ety)
    (hdiv : (sizeMinus tag.f.Size 4).divInt (xs.length : Int) = esz)
    (hlen : xs.length < 2 ^ 31)
    (helem : ∀ x ∈ xs, ∀ (r : UReader) (pre post : List Nat),
      r.buffer = pre ++ wire x ++ post → r.offset = pre.length →
      Decoders.FPropertyValue_unsafe (decoders opts (k + 1))
          ⟨Tag.ofFields { Typ := some ety, Size := some esz }, r⟩ =
        ⟨.ok (val x), ⟨Tag.ofFields { Typ := some ety, Size := some esz },
          { r with offset := r.offset + (wire x).length }⟩⟩)
    (r : UReader) (pre post : List Nat)
    (hb : r.buffer = pre ++ (intWire 4 xs.length ++ xs.flatMap wire) ++ post)
    (ho : r.offset = pre.length) :
    UReader.arrayValue (decoders opts (k + 1)) ⟨tag, r⟩ =
      ⟨.ok (.arr (xs.map val)),
        ⟨tag.setInner (Tag.ofFields { Typ := some ety, Size := some esz }),
          { r with offset := r.offset + (intWire 4 xs.length ++ xs.flatMap wire).length }⟩⟩ := by
  have r1 := Reads.r_int32 (xs.length : Int) (fitsSigned_count _ hlen) r pre
    (xs.flatMap wire ++ post) (by rw [hb]; simp only [List.append_assoc]) ho
  have hloop := onInner_loop (tag.setInner (Tag.ofFields { Typ := some ety, Size := some esz }))
    (Tag.ofFields { Typ := some ety, Size := some esz })
    (Decoders.FPropertyValue_unsafe (decoders opts (k + 1))) wire val xs rfl helem
    { r with offset := r.offset + (intWire 4 (xs.length : Int)).length }
    (pre ++ intWire 4 xs.length) post (by rw [hb]; simp only [List.append_assoc])
    (by show r.offset + (intWire 4 (xs.length : Int)).length =
          ((pre ++ intWire 4 xs.length).length : Nat)
        rw [List.length_append, ho]
        rfl)
  unfold UReader.arrayValue
  rw [getTag_bind, M.bind_apply, liftR_eq r1]
  dsimp only
  unfold arrayLength
  rw [if_neg (by omega)]
  simp only [M.bind_apply, M.pure_apply, setInnerTag, Int.toNat_ofNat, hI, Option.some.injEq,
    hns, if_false, hfix, if_true, hdiv]
  by_cases hB : ity = js "BoolProperty"
  · rw [if_pos hB] at hety
    subst hety
    simp only [if_pos hB]
    unfold TQ2.repeatM
    conv =>
      lhs
      pattern (TQ2.loopM _ _ _)
      arg 3
      change (⟨tag.setInner (Tag.ofFields { Typ := some (js "ByteProperty"), Size := some esz }),
        { r with offset := r.offset + (intWire 4 (xs.length : Int)).length }⟩ : TState UReader)
    rw [hloop]
    simp only [JSVal.arr, List.length_append, Nat.cast_add, add_assoc]
  · rw [if_neg hB] at hety
    subst hety
    simp only [if_neg hB]
    unfold TQ2.repeatM
    conv =>
      lhs
      pattern (TQ2.loopM _ _ _)
      arg 3
      change (⟨tag.setInner (Tag.ofFields { Typ := some ity, Size := some esz }),
        { r with offset := r.offset + (intWire 4 (xs.length : Int)).length }⟩ : TState UReader)
    rw [hloop]
    simp only [JSVal.arr, List.length_append, Nat.cast_add, add_assoc]

/-- The value decode on a tag of scalar type, at the wire form of a value of that type. -/
theorem UReader.unsafe_scalar (d : Decoders) (t : Tag) (sc : ScalarData) (hv : sc.valid)
    (hT : t.f.Typ = some sc.typeName) (hN : t.f.Name ≠ some (js "None"))
    (r : UReader) (pre post : List Nat) (hb : r.buffer = pre ++ sc.wire ++ post)
    (ho : r.offset = pre.length) :
    UReader.FPropertyValue_unsafe d ⟨t, r⟩ =
      ⟨.ok sc.value, ⟨t, { r with offset := r.offset + sc.wire.length }⟩⟩ := by
  have hr := sc.reads hv r pre post hb ho
  unfold UReader.FPropertyValue_unsafe
  rw [getTag_bind]
  dsimp only
  rw [ScalarData.common_reader d t.f sc hT hN]
  exact liftR_eq hr

/-- The writer's value encode on an element tag of type ByteProperty without enum name and
with size 1. -/
theorem UWriter.elemValue_byte (e : Encoders) (t : Tag) (b : Nat) (hb : b < 2 ^ 8)
    (hT : t.f.Typ = some (js "ByteProperty")) (hN : t.f.Name ≠ some (js "None"))
    (hE : truthyStr t.f.EnumName = false) (hS : t.f.Size = some (.int 1)) (w : UWriter)
    (hc : w.clean) :
    ∃ w', UWriter.FPropertyValue e (.num b) ⟨t, w⟩ = ⟨.ok (), ⟨t, w'⟩⟩ ∧
      w.Appended [b] w' := by
  obtain ⟨w', e1, a⟩ := Wrote.w_uint8 b hb w hc
  have hl : leBytes 1 b = [b] := by
    show [b % 256] = [b]
    rw [Nat.mod_eq_of_lt (by norm_num at hb; exact hb)]
  rw [hl] at a
  refine ⟨w', ?_, a⟩
  unfold UWriter.FPropertyValue
  simp only [M.bind_apply, getTag, UWriter.common_byte_none e t.f _ hT hN, hT]
  rw [if_neg (by decide), if_pos trivial]
  unfold UWriter.byteValue
  simp only [hE, hS, Bool.false_eq_true, if_false, if_true]
  exact liftR_eq e1

/-- The writer's value encode of an array on a tag whose inner type is not StructProperty:
the count, then the elements encoded on the element tag. -/
theorem UWriter.arrayEncode_fixed {α : Type} (k : Nat) (T it : Tag) (wire : α → List Nat)
    (val : α → JSVal) (xs : List α) (hT : T.f.Typ = some (js "ArrayProperty"))
    (hN : T.f.Name ≠ some (js "None")) (hIn : T.InnerTag = some it)
    (hI : T.f.InnerType ≠ some (js "StructProperty")) (hlen : xs.length < 2 ^ 31)
    (helem : ∀ x ∈ xs, ∀ w : UWriter, w.clean →
      ∃ w', Encoders.FPropertyValue (encoders (k + 1)) (val x) ⟨it, w⟩ = ⟨.ok (), ⟨it, w'⟩⟩ ∧
        w.Appended (wire x) w')
    (w : UWriter) (hc : w.clean) :
    ∃ w', UWriter.FPropertyValue (encoders (k + 1)) (.arr (xs.map val)) ⟨T, w⟩ =
        ⟨.ok (), ⟨T, w'⟩⟩ ∧
      w.Appended (intWire 4 xs.length ++ xs.flatMap wire) w' := by
  obtain ⟨w1, e1, a1⟩ := liftR_wrote (Wrote.w_int32 (xs.length : Int) (fitsSigned_count _ hlen))
    T w hc
  have key : ∀ body : JSVal → WTM Unit,
      (∀ x ∈ xs, ∀ w : UWriter, w.clean →
        ∃ w', body (val x) ⟨T, w⟩ = ⟨.ok (), ⟨T, w'⟩⟩ ∧ w.Appended (wire x) w') →
      ∃ w', (do
          liftR (UWriter.int32 (.num (((xs.map val).length + 0 : Nat) : Int)))
          (pure () : WTM Unit)
          TQ2.forEachM body (xs.map val ++ List.replicate 0 .undefined)
          (pure () : WTM Unit) : WTM Unit) ⟨T, w⟩ = ⟨.ok (), ⟨T, w'⟩⟩ ∧
        w.Appended (intWire 4 xs.length ++ xs.flatMap wire) w' := by
    intro body hbody
    obtain ⟨w3, e3, a3⟩ := forEachM_appended T body wire val xs hbody w1 a1.clean
    refine ⟨w3, ?_, a1.trans a3⟩
    simp only [M.bind_apply, List.length_map, Nat.add_zero, e1, M.pure_apply,
      List.replicate_zero, List.append_nil, e3]
  unfold UWriter.FPropertyValue
  simp only [M.bind_apply, getTag, UWriter.common_array_none _ _ _ hT hN, hT]
  repeat rw [if_neg (by decide)]
  rw [if_pos trivial]
  unfold UWriter.arrayValue
  rw [getTag_bind]
  simp only [JSVal.arr, hI, if_false]
  refine key _ ?_
  intro x hx w hc
  obtain ⟨w', e, a⟩ := helem x hx w hc
  refine ⟨w', ?_, a⟩
  unfold onInner
  simp only [hIn, e, Tag.setInner_self T it hIn]

/-- The element size `(size - 4) / count` that the reader synthesizes for a declared size
`4 + c * count`: `c`, and not a number for an empty array. -/
theorem divInt_elem (c : Int) (n : Nat) (s : Int) (hs : s = 4 + c * n) :
    (sizeMinus (some (.int s)) 4).divInt (n : Int) = if n = 0 then .nonInt else .int c := by
  subst hs
  have e : (4 + c * (n : Int) - 4) = c * n := by ring
  show (if (n : Int) ≠ 0 ∧ (4 + c * (n : Int) - 4) % (n : Int) = 0 then
    JSNum.int ((4 + c * (n : Int) - 4) / (n : Int)) else JSNum.nonInt) = _
  rw [e]
  by_cases h0 : n = 0
  · subst h0
    simp
  · have hn : (n : Int) ≠ 0 := by exact_mod_cast h0
    rw [if_neg h0, if_pos ⟨hn, Int.mul_emod_left c n⟩, Int.mul_ediv_cancel c hn]

/-- The integrity check of `FPropertyValue` passes when the value decode has advanced the
cursor by the declared size. -/
theorem UReader.FPropertyValue_passes (opts : Options) (d : Decoders) (tag t' : Tag)
    (r r' : UReader) (v : JSVal) (hN : tag.f.Name ≠ some (js "None"))
    (hu : d.FPropertyValue_unsafe ⟨tag, r⟩ = ⟨.ok v, ⟨t', r'⟩⟩)
    (hS : t'.f.Size = some (.int (r'.offset - r.offset))) :
    UReader.FPropertyValue opts d tag r = ⟨.ok (v, t'), r'⟩ := by
  unfold UReader.FPropertyValue
  rw [if_neg hN]
  dsimp only
  rw [hu]
  dsimp only
  rw [if_pos hS.symm]

/-- C23. For every list of n ≥ 0 signed 32-bit integers, an ArrayProperty tag with inner type
IntProperty and declared size 4 + 4n over the bytes (little-endian count n, then the n
elements) decodes to exactly those integers in order, the cursor 4 + 4n on (also for n = 0,
where the synthesized element size is not a number), and the writer's value encode of the
decoded array with the decoded tag emits exactly those bytes. Likewise an ArrayProperty with
inner type BoolProperty and declared size 4 + n decodes to its n single bytes (and is written
back as those bytes). -/
theorem array_fixed_round_trip (opts : Options) (k : Nat) (tag : Tag) (a : ArrayData)
    (hv : a.valid) (hT : tag.f.Typ = some (js "ArrayProperty"))
    (hN : tag.f.Name ≠ some (js "None")) (hI : tag.f.InnerType = some a.innerType)
    (hS : tag.f.Size = some (.int a.size)) (r : UReader) (pre post : List Nat)
    (hb : r.buffer = pre ++ a.wire ++ post) (ho : r.offset = pre.length)
    (w : UWriter) (hc : w.clean) :
    UReader.FPropertyValue opts (decoders opts (k + 2)) tag r =
      ⟨.ok (a.value, tag.setInner a.innerTag), { r with offset := r.offset + a.size }⟩ ∧
    (a.wire.length : Int) = a.size ∧
    ∃ w', UWriter.FPropertyValue (encoders (k + 1)) a.value ⟨tag.setInner a.innerTag, w⟩ =
        ⟨.ok (), ⟨tag.setInner a.innerTag, w'⟩⟩ ∧ w.Appended a.wire w' := by
  cases a with
  | ints xs =>
    have hl : ((ArrayData.ints xs).wire.length : Int) = (ArrayData.ints xs).size := by
      show ((intWire 4 (xs.length : Int) ++ xs.flatMap (intWire 4)).length : Int) =
        4 + 4 * (xs.length : Int)
      rw [List.length_append, List.length_flatMap]
      have : (List.map (fun x => (intWire 4 x).length) xs) = List.map (fun _ => 4) xs :=
        List.map_congr_left (fun x _ => leBytes_length _ _)
      rw [show (List.map (List.length ∘ intWire 4) xs) = List.map (fun _ => 4) xs from this]
      simp [intWire, leBytes_length]
      ring
    have hu := UReader.arrayValue_fixed opts k tag (js "IntProperty") (js "IntProperty")
      (if xs.length = 0 then .nonInt else .int 4) (intWire 4) JSVal.num xs hI (by decide)
      (by decide) (by decide) (by rw [hS]; exact divInt_elem 4 xs.length _ rfl) hv.2
      (fun x hx r pre post hb ho =>
        UReader.unsafe_scalar (decoders opts k) (ArrayData.ints xs).innerTag (.int x)
          (hv.1 x hx) rfl (fun h => Option.noConfusion h) r pre post hb ho)
      r pre post hb ho
    have hl' : ((intWire 4 (xs.length : Int) ++ xs.flatMap (intWire 4)).length : Int) =
        (ArrayData.ints xs).size := hl
    refine ⟨?_, hl, ?_⟩
    · refine UReader.FPropertyValue_passes opts _ tag _ r _ _ hN ?_ ?_
      · show UReader.FPropertyValue_unsafe (decoders opts (k + 1)) ⟨tag, r⟩ = _
        rw [UReader.unsafe_array _ _ _ hT hN, hu, hl']
        rfl
      · show tag.f.Size = _
        rw [hS]
        simp
    · exact UWriter.arrayEncode_fixed k (tag.setInner (ArrayData.ints xs).innerTag)
        (ArrayData.ints xs).innerTag (intWire 4) JSVal.num xs hT hN rfl
        (by
          show tag.f.InnerType ≠ _
          rw [hI]
          show some (js "IntProperty") ≠ some (js "StructProperty")
          decide) hv.2
        (fun x hx w hc =>
          UWriter.elemValue_scalar k (ArrayData.ints xs).innerTag (.int x) (hv.1 x hx) rfl
            (fun h => Option.noConfusion h) w hc)
        w hc
  | bools bs =>
    have hfm : bs.flatMap (fun b => [b]) = bs := List.flatMap_singleton' bs
    have hl : ((ArrayData.bools bs).wire.length : Int) = (ArrayData.bools bs).size := by
      show ((intWire 4 (bs.length : Int) ++ bs).length : Int) = 4 + (bs.length : Int)
      rw [List.length_append]
      simp [intWire, leBytes_length]
    have hsz : ∀ x ∈ bs, (ArrayData.bools bs).innerTag.f.Size = some (.int 1) := by
      intro x hx
      have hpos := List.length_pos_of_mem hx
      show some (if bs.length = 0 then JSNum.nonInt else JSNum.int 1) = _
      rw [if_neg (by omega)]
    have hu := UReader.arrayValue_fixed opts k tag (js "BoolProperty") (js "ByteProperty")
      (if bs.length = 0 then .nonInt else .int 1) (fun b => [b])
      (fun (b : Nat) => JSVal.num (b : Int)) bs hI
      (by decide) (by decide) (by decide)
      (by rw [hS]; exact divInt_elem 1 bs.length _ (by rw [one_mul]; rfl)) hv.2
      (fun x hx r pre post hb ho =>
        UReader.unsafe_byte_size_one (decoders opts k) (ArrayData.bools bs).innerTag r pre post
          x hb ho rfl (fun h => Option.noConfusion h) rfl (hsz x hx))
      r pre post (by rw [hfm]; exact hb) ho
    rw [hfm] at hu
    have hl' : ((intWire 4 (bs.length : Int) ++ bs).length : Int) =
        (ArrayData.bools bs).size := hl
    refine ⟨?_, hl, ?_⟩
    · refine UReader.FPropertyValue_passes opts _ tag _ r _ _ hN ?_ ?_
      · show UReader.FPropertyValue_unsafe (decoders opts (k + 1)) ⟨tag, r⟩ = _
        rw [UReader.unsafe_array _ _ _ hT hN, hu, hl']
        rfl
      · show tag.f.Size = _
        rw [hS]
        simp
    · have hw := UWriter.arrayEncode_fixed k (tag.setInner (ArrayData.bools bs).innerTag)
        (ArrayData.bools bs).innerTag (fun b => [b]) (fun (b : Nat) => JSVal.num (b : Int)) bs
        hT hN rfl
        (by
          show tag.f.InnerType ≠ _
          rw [hI]
          show some (js "BoolProperty") ≠ some (js "StructProperty")
          decide) hv.2
        (fun x hx w hc =>
          UWriter.elemValue_byte (encoders k) (ArrayData.bools bs).innerTag x (hv.1 x hx) rfl
            (fun h => Option.noConfusion h) rfl (hsz x hx) w hc)
        w hc
      rw [hfm] at hw
      exact hw

set_option maxRecDepth 8000 in
theorem array_fixed_round_trip_witness :
    (UReader.FPropertyValue {} (decoders {} (0 + 2)) exIntArrayTag
        ⟨[] ++ (ArrayData.ints [7, -2]).wire ++ [], 0⟩ =
      ⟨.ok (.arr [.num 7, .num (-2)], exIntArrayTag.setInner (ArrayData.ints [7, -2]).innerTag),
        ⟨[] ++ (ArrayData.ints [7, -2]).wire ++ [], 0 + 12⟩⟩ ∧
      (ArrayData.ints [7, -2]).wire = [2, 0, 0, 0, 7, 0, 0, 0, 254, 255, 255, 255]) ∧
    (UReader.FPropertyValue {} (decoders {} (0 + 2)) exEmptyArrayTag
        ⟨[] ++ (ArrayData.ints []).wire ++ [], 0⟩ =
      ⟨.ok (.arr [], exEmptyArrayTag.setInner (ArrayData.ints []).innerTag),
        ⟨[] ++ (ArrayData.ints []).wire ++ [], 0 + 4⟩⟩ ∧
      (ArrayData.ints []).wire = [0, 0, 0, 0]) ∧
    (UReader.FPropertyValue {} (decoders {} (0 + 2)) exBoolArrayTag
        ⟨[] ++ (ArrayData.bools [1, 0, 1]).wire ++ [], 0⟩ =
      ⟨.ok (.arr [.num 1, .num 0, .num 1],
          exBoolArrayTag.setInner (ArrayData.bools [1, 0, 1]).innerTag),
        ⟨[] ++ (ArrayData.bools [1, 0, 1]).wire ++ [], 0 + 7⟩⟩ ∧
      (ArrayData.bools [1, 0, 1]).wire = [3, 0, 0, 0, 1, 0, 1]) :=
  ⟨⟨(array_fixed_round_trip {} 0 exIntArrayTag (.ints [7, -2])
      ⟨by
        intro x hx
        simp only [List.mem_cons, List.mem_singleton, List.not_mem_nil, or_false] at hx
        rcases hx with rfl | rfl <;> constructor <;> decide, by decide⟩ rfl (by decide) rfl rfl
      ⟨[] ++ (ArrayData.ints [7, -2]).wire ++ [], 0⟩ [] [] rfl rfl UWriter.new
      UWriter.new_clean).1, by decide⟩,
   ⟨(array_fixed_round_trip {} 0 exEmptyArrayTag (.ints [])
      ⟨fun x hx => absurd hx (List.not_mem_nil x), by decide⟩ rfl (by decide) rfl rfl
      ⟨[] ++ (ArrayData.ints []).wire ++ [], 0⟩ [] [] rfl rfl UWriter.new
      UWriter.new_clean).1, by decide⟩,
   ⟨(array_fixed_round_trip {} 0 exBoolArrayTag (.bools [1, 0, 1])
      ⟨by decide, by decide⟩ rfl (by decide) rfl rfl
      ⟨[] ++ (ArrayData.bools [1, 0, 1]).wire ++ [], 0⟩ [] [] rfl rfl UWriter.new
      UWriter.new_clean).1, by decide⟩⟩

/-! ## The value of a BoolProperty -/

theorem UReader.common_bool (d : Decoders) (f : TagFields)
    (hT : f.Typ = some (js "BoolProperty")) (hN : f.Name ≠ some (js "None")) :
    UReader.FPropertyValue_common d f = none := by
  unfold UReader.FPropertyValue_common
  rw [if_neg hN, hT]
  repeat rw [if_neg (by decide)]

/-- The value decode on a BoolProperty tag: the byte captured in the tag, nothing read. -/
theorem UReader.unsafe_bool (d : Decoders) (tag : Tag) (r : UReader) (b : Int)
    (hT : tag.f.Typ = some (js "BoolProperty")) (hN : tag.f.Name ≠ some (js "None"))
    (hB : tag.f.BoolVal = some b) :
    UReader.FPropertyValue_unsafe d ⟨tag, r⟩ = ⟨.ok (.num b), ⟨tag, r⟩⟩ := by
  unfold UReader.FPropertyValue_unsafe
  simp only [M.bind_apply, getTag, UReader.common_bool d tag.f hT hN, hT, if_true, hB,
    M.pure_apply]

theorem UWriter.common_bool_none (e : Encoders) (f : TagFields) (val : JSVal)
    (hT : f.Typ = some (js "BoolProperty")) (hN : f.Name ≠ some (js "None")) :
    UWriter.FPropertyValue_common e f val = none := by
  unfold UWriter.FPropertyValue_common
  rw [if_neg hN, hT]
  repeat rw [if_neg (by decide)]

theorem leBytes_one (v : Nat) (h : v < 2 ^ 8) : leBytes 1 v = [v] := by
  show [v % 256] = [v]
  rw [Nat.mod_eq_of_lt (by norm_num at h; exact h)]

/-- The value encode on a BoolProperty tag whose recorded bool offset lies in the written
part: the byte there is replaced, nothing else changes. -/
theorem UWriter.value_bool (e : Encoders) (tag : Tag) (w : UWriter) (bo v : Nat)
    (hT : tag.f.Typ = some (js "BoolProperty")) (hN : tag.f.Name ≠ some (js "None"))
    (hbo : tag.f.bool_offset = some (bo : Int)) (h1 : bo < w.offset)
    (h2 : w.offset < w.length) (hv : v < 2 ^ 8) :
    ∃ w', UWriter.FPropertyValue e (.num v) ⟨tag, w⟩ = ⟨.ok (), ⟨tag, w'⟩⟩ ∧
      w'.offset = w.offset ∧ w'.length = w.length ∧ w'.byteAt bo = v ∧
      ∀ j, j ≠ bo → w'.byteAt j = w.byteAt j := by
  have hseek1 : UWriter.seek (bo : Int) w = ⟨.ok (), { w with offset := bo }⟩ := by
    unfold UWriter.seek
    rw [if_neg (by omega), Int.toNat_ofNat]
  have hint : UWriter.uint8 (.num (v : Int)) { w with offset := bo } =
      ⟨.ok (), ({ w with offset := bo } : UWriter).put [v]⟩ := by
    rw [show UWriter.uint8 (.num (v : Int)) = UWriter.writeInt 8 false (.num (v : Int)) from rfl,
      UWriter.writeInt_num 8 false _ _ (by simp)
        (by simp only [Bool.false_eq_true, if_false]; exact_mod_cast hv),
      UWriter.grow_of_fits _ _ (by show bo + 8 / 8 < w.length; omega),
      toUnsigned_of_nat 8 _ hv]
    show _ = (⟨.ok (), ({ w with offset := bo } : UWriter).put [v]⟩ : Res UWriter Unit)
    rw [show (8 / 8) = 1 from rfl, leBytes_one v hv]
  have hseek2 : UWriter.seek ((w.offset : Nat) : Int)
      (({ w with offset := bo } : UWriter).put [v]) =
      ⟨.ok (), { ({ w with offset := bo } : UWriter).put [v] with offset := w.offset }⟩ := by
    unfold UWriter.seek
    rw [if_neg (by rw [UWriter.put_length]; show ¬ (_ ∨ ((w.length : Nat) : Int) ≤ _); omega),
      Int.toNat_ofNat]
  have hgo : UWriter.goBack (bo : Int) (fun _ => UWriter.uint8 (.num (v : Int))) w =
      ⟨.ok (), { ({ w with offset := bo } : UWriter).put [v] with offset := w.offset }⟩ := by
    unfold UWriter.goBack
    simp only [M.bind_apply, hseek1, hint, hseek2]
  refine ⟨{ ({ w with offset := bo } : UWriter).put [v] with offset := w.offset }, ?_, rfl, rfl,
    ?_, ?_⟩
  · unfold UWriter.FPropertyValue
    simp only [M.bind_apply, getTag, UWriter.common_bool_none e tag.f _ hT hN, hT, if_true, hbo]
    unfold liftR
    rw [hgo]
  · exact UWriter.put_byteAt_in ({ w with offset := bo } : UWriter) [v] 0 (Nat.zero_lt_one)
  · intro j hj
    exact UWriter.put_byteAt_out ({ w with offset := bo } : UWriter) [v] j
      (by show j < bo ∨ bo + 1 ≤ j; omega)

theorem UReader.tagExtras_bool (f : TagFields) :
    UReader.tagExtras (js "BoolProperty") f = (do
      let bo ← getOffset
      let bv ← UReader.uint8
      pure { f with bool_offset := some bo, BoolVal := some bv }) := by
  unfold UReader.tagExtras
  rw [if_neg (by decide), if_pos rfl]

/-- The reader's `FPropertyTag` at the wire form of a BoolProperty tag. -/
theorem Reads.r_FPropertyTag_bool (n : JSString) (i : Int) (v : Nat) (h1 : asciiStr n)
    (h2 : n ≠ js "None") (h4 : fitsSigned 4 i) (hv : v < 2 ^ 8) :
    Reads UReader.FPropertyTag (boolWire n i v) (fun o => boolTag n i v o) := by
  unfold UReader.FPropertyTag
  apply Reads.r_congr
  · apply Reads.r_of_bind Reads.r_getOffset
    intro o
    apply Reads.r_of_bind (Reads.r_fname n h1)
    intro _
    dsimp only
    rw [if_neg h2]
    apply Reads.r_of_bind (Reads.r_fname (js "BoolProperty") (by constructor <;> decide))
    intro _
    apply Reads.r_of_bind Reads.r_getOffset
    intro so
    apply Reads.r_of_bind (Reads.r_int32 0 (by constructor <;> decide))
    intro _
    apply Reads.r_of_bind (Reads.r_int32 i h4)
    intro _
    dsimp only
    rw [UReader.tagExtras_bool]
    apply Reads.r_of_bind
    · apply Reads.r_of_bind Reads.r_getOffset
      intro bo
      apply Reads.r_of_bind (Reads.r_uint8 v hv)
      intro _
      exact Reads.r_of_pure _
    intro _
    apply Reads.r_of_bind (Reads.r_uint8 0 (by decide))
    intro _
    dsimp only
    rw [if_neg (by decide)]
    apply Reads.r_of_bind (Reads.r_of_pure _)
    intro _
    apply Reads.r_of_bind Reads.r_getOffset
    intro _
    exact Reads.r_of_pure _
  · simp only [boolWire, List.nil_append, List.append_nil, List.append_assoc,
      leBytes_one v hv]
    rfl
  · intro o
    unfold boolTag
    simp only [List.length_append, List.length_nil, List.length_cons, leBytes_length, intWire,
      Nat.cast_add, Nat.cast_zero, add_zero, Nat.cast_ofNat, Nat.cast_one, zero_add]
    have e : (strWire (js "BoolProperty")).length = 17 := by decide
    rw [e, Nat.cast_ofNat,
      show o + ((strWire n).length : Int) + 17 + 4 + 4 = o + (strWire n).length + 25 by ring,
      show o + ((strWire n).length : Int) + 25 + 1 + 1 = o + (strWire n).length + 27 by ring]

/-- The type-conditional part of the writer's `FPropertyTag` on a BoolProperty tag: the cursor
is recorded as the bool offset and the byte stored in the tag record is written. -/
theorem UWriter.boolExtras_written (s : TState UWriter) (b0 : Nat)
    (hT : s.tag.f.Typ = some (js "BoolProperty")) (hB : s.tag.f.BoolVal = some (b0 : Int)) :
    UWriter.tagExtras s =
      liftR (UWriter.uint8 (.num (b0 : Int)))
        ⟨s.tag.setF { s.tag.f with bool_offset := some (s.rd.offset : Int) }, s.rd⟩ := by
  unfold UWriter.tagExtras
  rw [getTag_bind]
  dsimp only
  rw [if_neg (by rw [hT]; decide), if_pos hT, UWriter.getOffset_bind, modTag_bind, hB]
  rfl

/-- The writer's `FPropertyTag` on the tag record of a BoolProperty: it appends the tag with
the byte stored in the record and records where that byte lies. -/
theorem UWriter.FPropertyTag_bool (n : JSString) (i : Int) (b0 : Nat) (tag : Tag) (w : UWriter)
    (hc : w.clean) (h1 : asciiStr n) (h2 : n ≠ js "None") (h3 : matchArraySuffix n = none)
    (h4 : fitsSigned 4 i) (hb0 : b0 < 2 ^ 8)
    (hN : tag.f.Name = some (if 0 < i then n ++ (js "[" ++ intToJS i ++ js "]") else n))
    (hT : tag.f.Typ = some (js "BoolProperty")) (hI : tag.f.ArrayIndex = some i)
    (hB : tag.f.BoolVal = some (b0 : Int)) (hH : tag.f.HasPropertyGuid = some 0) :
    ∃ s1, UWriter.FPropertyTag ⟨tag, w⟩ = ⟨.ok (), s1⟩ ∧
      w.Appended (boolWire n i b0) s1.rd ∧ s1.tag.f.Name = tag.f.Name ∧
      s1.tag.f.Typ = some (js "BoolProperty") ∧
      s1.tag.f.bool_offset = some ((w.offset + (strWire n).length + 25 : Nat) : Int) := by
  have hfull : (if 0 < i then n ++ (js "[" ++ intToJS i ++ js "]") else n) =
      (⟨n, i, .int 0⟩ : PropData).fullName := rfl
  have hne : (⟨n, i, .int 0⟩ : PropData).fullName ≠ js "None" :=
    PropData.fullName_ne_none ⟨n, i, .int 0⟩ h2
  have hwn : UWriter.writtenName (⟨n, i, .int 0⟩ : PropData).fullName = n :=
    PropData.writtenName_eq ⟨n, i, .int 0⟩ h3
  rw [hfull] at hN
  obtain ⟨w1, e1, a1⟩ := Wrote.w_fname n h1 w hc
  obtain ⟨w2, e2, a2⟩ := Wrote.w_fname (js "BoolProperty") (by constructor <;> decide) w1
    a1.clean
  obtain ⟨w3, e3, a3⟩ := Wrote.w_int32 0 (by constructor <;> decide) w2 a2.clean
  obtain ⟨w4, e4, a4⟩ := Wrote.w_int32 i h4 w3 a3.clean
  obtain ⟨w5, e5, a5⟩ := Wrote.w_uint8 b0 hb0 w4 a4.clean
  rw [leBytes_one b0 hb0] at a5
  obtain ⟨w6, e6, a6⟩ := Wrote.w_uint8 0 (by decide) w5 a5.clean
  rw [Nat.cast_zero] at e6
  have o4 : w4.offset = w.offset + (strWire n).length + 25 := by
    rw [a4.offset, a3.offset, a2.offset, a1.offset]
    have e : (strWire (js "BoolProperty")).length = 17 := by decide
    rw [e]
    simp only [intWire, leBytes_length]
  refine ⟨⟨tag.setF
    { tag.f with
      tag_offset := some (w.offset : Int), size_offset := some (w2.offset : Int),
      Size := some (.int 0), bool_offset := some (w4.offset : Int), HasPropertyGuid := some 0,
      data_offset := some (w6.offset : Int) }, w6⟩, ?_, ?_, rfl, hT, ?_⟩
  · unfold UWriter.FPropertyTag
    rw [getTag_bind, UWriter.getOffset_bind, modTag_bind]
    simp only [hN]
    rw [hwn, M.bind_apply, liftR_mk _ _ e1]
    dsimp only
    rw [if_neg hne, getTag_bind]
    simp only [Tag.f_setF, hT, optStr]
    rw [M.bind_apply, liftR_mk _ _ e2]
    dsimp only
    rw [UWriter.getOffset_bind, M.bind_apply, liftR_mk _ _ e3]
    dsimp only
    simp only [hI, optNum]
    rw [M.bind_apply, liftR_mk _ _ e4]
    dsimp only
    rw [modTag_bind, M.bind_apply, UWriter.boolExtras_written _ b0]
    rotate_left
    · rfl
    · exact hB
    dsimp only
    rw [liftR_mk _ _ e5]
    dsimp only
    rw [getTag_bind]
    simp only [Tag.f_setF, hH, optNum]
    rw [M.bind_apply, liftR_mk _ _ e6]
    dsimp only
    simp only [Option.getD_some, ne_eq, not_true_eq_false, if_false, M.bind_apply, M.pure_apply]
    rfl
  · have h := UWriter.Appended.trans (UWriter.Appended.trans (UWriter.Appended.trans a1 a2)
      (UWriter.Appended.trans a3 a4)) (UWriter.Appended.trans a5 a6)
    simpa only [boolWire, leBytes_one 0 (by decide), List.append_assoc] using h
  · show some (w4.offset : Int) = _
    rw [o4]

theorem boolWire_length (n : JSString) (i : Int) (v : Nat) :
    (boolWire n i v).length = (strWire n).length + 27 := by
  have e : (strWire (js "BoolProperty")).length = 17 := by decide
  simp only [boolWire, List.length_append, e, intWire, leBytes_length, List.length_cons,
    List.length_nil]

/-- Tag and value of a BoolProperty written one after the other: the value byte replaces the
byte of the tag record, and the bytes appended are the wire form with the value written. -/
theorem UWriter.writeBool (e : Encoders) (n : JSString) (i : Int) (b0 v : Nat) (tag : Tag)
    (w : UWriter) (hc : w.clean) (h1 : asciiStr n) (h2 : n ≠ js "None")
    (h3 : matchArraySuffix n = none) (h4 : fitsSigned 4 i) (hb0 : b0 < 2 ^ 8) (hv : v < 2 ^ 8)
    (hN : tag.f.Name = some (if 0 < i then n ++ (js "[" ++ intToJS i ++ js "]") else n))
    (hT : tag.f.Typ = some (js "BoolProperty")) (hI : tag.f.ArrayIndex = some i)
    (hB : tag.f.BoolVal = some (b0 : Int)) (hH : tag.f.HasPropertyGuid = some 0) :
    ∃ s1 w2, UWriter.FPropertyTag ⟨tag, w⟩ = ⟨.ok (), s1⟩ ∧
      UWriter.FPropertyValue e (.num v) s1 = ⟨.ok (), ⟨s1.tag, w2⟩⟩ ∧
      w2.offset = s1.rd.offset ∧ w.Appended (boolWire n i v) w2 := by
  obtain ⟨s1, e1, a1, n1, t1, b1⟩ :=
    UWriter.FPropertyTag_bool n i b0 tag w hc h1 h2 h3 h4 hb0 hN hT hI hB hH
  have hne : s1.tag.f.Name ≠ some (js "None") := by
    rw [n1, hN]
    intro h
    exact PropData.fullName_ne_none ⟨n, i, .int 0⟩ h2 (Option.some.inj h)
  have hl0 := boolWire_length n i b0
  have hlv := boolWire_length n i v
  have o1 : s1.rd.offset = w.offset + (strWire n).length + 27 := by
    rw [a1.offset, hl0]
    omega
  obtain ⟨w2, e2, f1, f2, f3, f4⟩ := UWriter.value_bool e s1.tag s1.rd
    (w.offset + (strWire n).length + 25) v t1 hne b1 (by omega) a1.clean.1 hv
  have hA : (strWire n ++ strWire (js "BoolProperty") ++ intWire 4 0 ++ intWire 4 i).length =
      (strWire n).length + 25 := by
    have e : (strWire (js "BoolProperty")).length = 17 := by decide
    simp only [List.length_append, e, intWire, leBytes_length]
  refine ⟨s1, w2, e1, e2, f1, ?_, ⟨?_, ?_⟩, ?_, ?_⟩
  · rw [f1, o1, hlv]
    omega
  · rw [f1, f2]
    exact a1.clean.1
  · intro j hj
    rw [f1] at hj
    rw [f4 j (by omega)]
    exact a1.clean.2 j hj
  · intro j hj
    rw [f4 j (by omega)]
    exact a1.before j hj
  · intro k hk
    rw [hlv] at hk
    by_cases hkb : k = (strWire n).length + 25
    · subst hkb
      rw [show w.offset + ((strWire n).length + 25) = w.offset + (strWire n).length + 25 by omega,
        f3]
      unfold boolWire
      rw [getD_append_mid _ [v] [0] _ (by rw [hA]) (by rw [hA]; simp)]
      rw [hA, Nat.sub_self]
      rfl
    · rw [f4 _ (by omega), a1.bytes k (by rw [hl0]; exact hk)]
      unfold boolWire
      exact getD_append_outside _ [b0] [v] [0] k rfl (by rw [hA]; simp; omega)

/-- C22. For every BoolProperty tag: the reader's value decode consumes no byte and returns the
byte captured in the tag; the writer's value encode (of a byte value, on a tag whose recorded
bool offset lies in the written part) stores the value in the one byte at the bool offset,
changes no other byte and leaves the cursor and the buffer length as they were. Hence, when the
writer writes the tag record (which holds the byte `b0`) and then the value `v`, the bytes
appended are the wire form of the tag with the value byte `v`, and decoding them gives a tag
that holds `v` and the value `v`, whatever `b0` was. -/
theorem bool_value_in_tag :
    (∀ (d : Decoders) (tag : Tag) (r : UReader) (b : Int),
      tag.f.Typ = some (js "BoolProperty") → tag.f.Name ≠ some (js "None") →
      tag.f.BoolVal = some b →
      UReader.FPropertyValue_unsafe d ⟨tag, r⟩ = ⟨.ok (.num b), ⟨tag, r⟩⟩) ∧
    (∀ (e : Encoders) (tag : Tag) (w : UWriter) (bo v : Nat),
      tag.f.Typ = some (js "BoolProperty") → tag.f.Name ≠ some (js "None") →
      tag.f.bool_offset = some (bo : Int) → bo < w.offset → w.offset < w.length → v < 2 ^ 8 →
      ∃ w', UWriter.FPropertyValue e (.num v) ⟨tag, w⟩ = ⟨.ok (), ⟨tag, w'⟩⟩ ∧
        w'.offset = w.offset ∧ w'.length = w.length ∧ w'.byteAt bo = v ∧
        ∀ j, j ≠ bo → w'.byteAt j = w.byteAt j) ∧
    (∀ (opts : Options) (k : Nat) (e : Encoders) (n : JSString) (i : Int) (b0 v : Nat)
      (tag : Tag) (w : UWriter),
      w.clean → asciiStr n → n ≠ js "None" → matchArraySuffix n = none → fitsSigned 4 i →
      b0 < 2 ^ 8 → v < 2 ^ 8 →
      tag.f.Name = some (if 0 < i then n ++ (js "[" ++ intToJS i ++ js "]") else n) →
      tag.f.Typ = some (js "BoolProperty") → tag.f.ArrayIndex = some i →
      tag.f.BoolVal = some (b0 : Int) → tag.f.HasPropertyGuid = some 0 →
      ∃ s1 w2, UWriter.FPropertyTag ⟨tag, w⟩ = ⟨.ok (), s1⟩ ∧
        UWriter.FPropertyValue e (.num v) s1 = ⟨.ok (), ⟨s1.tag, w2⟩⟩ ∧
        w2.offset = s1.rd.offset ∧ w.Appended (boolWire n i v) w2 ∧
        ∀ (r : UReader) (pre post : List Nat), r.buffer = pre ++ boolWire n i v ++ post →
          r.offset = pre.length →
          UReader.FPropertyTag r = ⟨.ok (boolTag n i v r.offset),
            { r with offset := r.offset + (boolWire n i v).length }⟩ ∧
          (boolTag n i v r.offset).f.BoolVal = some (v : Int) ∧
          UReader.FPropertyValue opts (decoders opts (k + 1)) (boolTag n i v r.offset)
              { r with offset := r.offset + (boolWire n i v).length } =
            ⟨.ok (.num v, boolTag n i v r.offset),
              { r with offset := r.offset + (boolWire n i v).length }⟩) := by
  refine ⟨fun d tag r b hT hN hB => UReader.unsafe_bool d tag r b hT hN hB,
    fun e tag w bo v hT hN hbo h1 h2 hv => UWriter.value_bool e tag w bo v hT hN hbo h1 h2 hv,
    ?_⟩
  intro opts k e n i b0 v tag w hc h1 h2 h3 h4 hb0 hv hN hT hI hB hH
  obtain ⟨s1, w2, e1, e2, f1, a⟩ :=
    UWriter.writeBool e n i b0 v tag w hc h1 h2 h3 h4 hb0 hv hN hT hI hB hH
  refine ⟨s1, w2, e1, e2, f1, a, ?_⟩
  intro r pre post hb ho
  have hne : (boolTag n i v r.offset).f.Name ≠ some (js "None") := by
    intro h
    exact PropData.fullName_ne_none ⟨n, i, .int 0⟩ h2 (Option.some.inj h)
  refine ⟨Reads.r_FPropertyTag_bool n i v h1 h2 h4 hv r pre post hb ho, rfl, ?_⟩
  refine UReader.FPropertyValue_passes opts _ _ _ _ _ _ hne ?_ ?_
  · exact UReader.unsafe_bool (decoders opts k) _ _ (v : Int) rfl hne rfl
  · show some (JSNum.int 0) = _
    rw [sub_self]

set_option maxRecDepth 8000 in
theorem bool_value_in_tag_witness :
    UReader.FPropertyValue_unsafe (decoders {} 1) ⟨boolTag (js "Flag") 0 1 0, ⟨[], 0⟩⟩ =
      ⟨.ok (.num 1), ⟨boolTag (js "Flag") 0 1 0, ⟨[], 0⟩⟩⟩ ∧
    ∃ s1 w2, UWriter.FPropertyTag ⟨exBoolTag, UWriter.new⟩ = ⟨.ok (), s1⟩ ∧
      UWriter.FPropertyValue (encoders 1) (.num 1) s1 = ⟨.ok (), ⟨s1.tag, w2⟩⟩ ∧
      w2.offset = s1.rd.offset ∧ UWriter.new.Appended (boolWire (js "Flag") 0 1) w2 ∧
      UReader.FPropertyTag ⟨boolWire (js "Flag") 0 1, 0⟩ =
        ⟨.ok (boolTag (js "Flag") 0 1 0), ⟨boolWire (js "Flag") 0 1, 36⟩⟩ ∧
      UReader.FPropertyValue {} (decoders {} 1) (boolTag (js "Flag") 0 1 0)
          ⟨boolWire (js "Flag") 0 1, 36⟩ =
        ⟨.ok (.num 1, boolTag (js "Flag") 0 1 0), ⟨boolWire (js "Flag") 0 1, 36⟩⟩ := by
  refine ⟨bool_value_in_tag.1 _ _ _ 1 rfl (by decide) rfl, ?_⟩
  obtain ⟨s1, w2, e1, e2, f1, a, hr⟩ := bool_value_in_tag.2.2 {} 0 (encoders 1) (js "Flag") 0 0 1
    exBoolTag UWriter.new UWriter.new_clean (by constructor <;> decide) (by decide) (by decide)
    (by constructor <;> decide) (by decide) (by decide) rfl rfl rfl rfl rfl
  obtain ⟨r1, _, r3⟩ := hr ⟨boolWire (js "Flag") 0 1, 0⟩ [] [] (by simp) rfl
  exact ⟨s1, w2, e1, e2, f1, a, r1, r3⟩

/-! ## Static array names: the decoded tag can be written -/

theorem leNat_lt (bs : List Nat) (h : ∀ x ∈ bs, x < 256) : leNat bs < 256 ^ bs.length := by
  induction bs with
  | nil => simp [leNat]
  | cons x xs ih =>
    have hx := h x (List.mem_cons_self _ _)
    have hxs := ih (fun y hy => h y (List.mem_cons_of_mem _ hy))
    simp only [leNat, List.length_cons, pow_succ]
    omega

theorem sliceNat_mem (b : List Nat) (s n x : Nat) (h : x ∈ sliceNat b s n) : x ∈ b :=
  List.mem_of_mem_drop (List.mem_of_mem_take h)

theorem sliceNat_length_le (b : List Nat) (s n : Nat) : (sliceNat b s n).length ≤ n := by
  unfold sliceNat
  exact List.length_take_le _ _

theorem sliceNat_length_le_buffer (b : List Nat) (s n : Nat) :
    (sliceNat b s n).length ≤ b.length := by
  unfold sliceNat
  exact Nat.le_trans (List.length_take_le' _ _) (by rw [List.length_drop]; omega)

theorem readLE_lt (n : Nat) (o : Int) (r r' : UReader) (v : Nat)
    (hb : ∀ x ∈ r.buffer, x < 256) (h : readLE n o r = ⟨.ok v, r'⟩) :
    v < 256 ^ n ∧ r' = r := by
  unfold readLE at h
  split at h
  · simp only [Res.mk.injEq, Except.ok.injEq] at h
    rw [← h.1, ← h.2]
    refine ⟨?_, rfl⟩
    have := leNat_lt (sliceNat r.buffer o.toNat n) (fun x hx => hb x (sliceNat_mem _ _ _ _ hx))
    exact lt_of_lt_of_le this (Nat.pow_le_pow_right (by decide) (sliceNat_length_le _ _ _))
  · simp only [Res.mk.injEq, reduceCtorEq, false_and] at h

theorem readFixed_ok {α : Type} (n : Nat) (g : Nat → RM α) (r r' : UReader) (a : α)
    (hb : ∀ x ∈ r.buffer, x < 256)
    (h : (do advance n; let o ← getOffset; let v ← readLE n (o - n); g v : RM α) r =
      ⟨.ok a, r'⟩) :
    ∃ v r1, v < 256 ^ n ∧ r1.buffer = r.buffer ∧ g v r1 = ⟨.ok a, r'⟩ := by
  obtain ⟨_, r1, h1, h⟩ := M.bind_ok h
  obtain ⟨o, r2, h2, h⟩ := M.bind_ok h
  obtain ⟨v, r3, h3, h⟩ := M.bind_ok h
  have e1 : r1.buffer = r.buffer := by
    have := (advance_buf n).holds r
    rw [h1] at this
    exact this
  have e2 : r1 = r2 := by
    simp only [getOffset, Res.mk.injEq] at h2
    exact h2.2
  have e3 := readLE_lt n _ r2 r3 v (by rw [← e2, e1]; exact hb) h3
  exact ⟨v, r3, e3.1, by rw [e3.2, ← e2, e1], h⟩

theorem UReader.int32_fits (r r' : UReader) (v : Int) (hb : ∀ x ∈ r.buffer, x < 256)
    (h : UReader.int32 r = ⟨.ok v, r'⟩) : fitsSigned 4 v ∧ r'.buffer = r.buffer := by
  obtain ⟨x, r1, h2, h3, h⟩ := readFixed_ok 4 _ r r' v hb h
  obtain ⟨h4, h5⟩ := M.pure_ok h
  subst h5
  refine ⟨?_, h3⟩
  rw [← h4]
  unfold toSigned fitsSigned
  norm_num at h2 ⊢
  split <;> constructor <;> omega

theorem UReader.uint8_lt (r r' : UReader) (v : Int) (hb : ∀ x ∈ r.buffer, x < 256)
    (h : UReader.uint8 r = ⟨.ok v, r'⟩) :
    (∃ b : Nat, v = (b : Int) ∧ b < 2 ^ 8) ∧ r'.buffer = r.buffer := by
  obtain ⟨x, r1, h2, h3, h⟩ := readFixed_ok 1 _ r r' v hb h
  obtain ⟨h4, h5⟩ := M.pure_ok h
  subst h5
  exact ⟨⟨x, h4.symm, by norm_num at h2 ⊢; exact h2⟩, h3⟩

theorem UReader.uint32_lt (r r' : UReader) (v : Int) (hb : ∀ x ∈ r.buffer, x < 256)
    (h : UReader.uint32 r = ⟨.ok v, r'⟩) :
    (∃ b : Nat, v = (b : Int) ∧ b < 2 ^ 32) ∧ r'.buffer = r.buffer := by
  obtain ⟨x, r1, h2, h3, h⟩ := readFixed_ok 4 _ r r' v hb h
  obtain ⟨h4, h5⟩ := M.pure_ok h
  subst h5
  exact ⟨⟨x, h4.symm, by norm_num at h2 ⊢; exact h2⟩, h3⟩

theorem UReader.FGuid_field (r r' : UReader) (g : List Int) (hb : ∀ x ∈ r.buffer, x < 256)
    (h : UReader.FGuid r = ⟨.ok g, r'⟩) : guidField (some g) ∧ r'.buffer = r.buffer := by
  unfold UReader.FGuid at h
  obtain ⟨a, r1, h1, h⟩ := M.bind_ok h
  obtain ⟨⟨a', ha, ha'⟩, e1⟩ := UReader.uint32_lt r r1 a hb h1
  obtain ⟨b, r2, h2, h⟩ := M.bind_ok h
  obtain ⟨⟨b', hb1, hb'⟩, e2⟩ := UReader.uint32_lt r1 r2 b (by rw [e1]; exact hb) h2
  obtain ⟨c, r3, h3, h⟩ := M.bind_ok h
  obtain ⟨⟨c', hc, hc'⟩, e3⟩ := UReader.uint32_lt r2 r3 c (by rw [e2, e1]; exact hb) h3
  obtain ⟨d, r4, h4, h⟩ := M.bind_ok h
  obtain ⟨⟨d', hd, hd'⟩, e4⟩ := UReader.uint32_lt r3 r4 d (by rw [e3, e2, e1]; exact hb) h4
  obtain ⟨h5, h6⟩ := M.pure_ok h
  subst h6
  refine ⟨⟨a', b', c', d', ?_, ha', hb', hc', hd'⟩, by rw [e4, e3, e2, e1]⟩
  rw [← h5, ha, hb1, hc, hd]

theorem utf16leDecode_length : ∀ bs : List Nat, (utf16leDecode bs).length ≤ bs.length
  | [] => by simp [utf16leDecode]
  | [_] => by simp [utf16leDecode]
  | _ :: _ :: rest => by
    have := utf16leDecode_length rest
    simp only [utf16leDecode, List.length_cons]
    omega

theorem utf8Lead_length (byte : Nat) :
    (utf8Lead byte).1.length + (if (utf8Lead byte).2.isSome then 1 else 0) ≤ 1 := by
  unfold utf8Lead
  split
  · simp
  · split
    · simp
    · split
      · simp
      · split <;> simp

theorem utf16Units_length (cp : Nat) : (utf16Units cp).length ≤ 2 := by
  unfold utf16Units
  split <;> simp

theorem utf8Step_length (st : Option Utf8State) (byte : Nat) :
    (utf8Step st byte).1.length + (if (utf8Step st byte).2.isSome then 1 else 0) ≤
      1 + (if st.isSome then 1 else 0) := by
  cases st with
  | none =>
    have := utf8Lead_length byte
    simpa [utf8Step] using this
  | some s =>
    have hl := utf8Lead_length byte
    have hu := utf16Units_length (s.cp * 64 + byte % 64)
    simp only [utf8Step, Option.isSome_some, if_true]
    split
    · split
      · simp only [Option.isSome_none, Bool.false_eq_true, if_false]
        omega
      · simp
    · simp only [List.length_cons]
      omega

theorem utf8Go_length (bs : List Nat) : ∀ st : Option Utf8State,
    (utf8Go st bs).length ≤ bs.length + (if st.isSome then 1 else 0) := by
  induction bs with
  | nil =>
    intro st
    cases st <;> simp [utf8Go]
  | cons x xs ih =>
    intro st
    have h1 := utf8Step_length st x
    have h2 := ih (utf8Step st x).2
    rw [utf8Go, List.length_append, List.length_cons]
    omega

theorem utf8Decode_length (bs : List Nat) : (utf8Decode bs).length ≤ bs.length := by
  have := utf8Go_length bs none
  simpa [utf8Decode] using this

theorem toStringRange_length (b : List Nat) (s e : Int) :
    (toStringRange b s e).length ≤ b.length := by
  unfold toStringRange
  dsimp only
  split_ifs <;> first | exact Nat.zero_le _ | exact sliceNat_length_le_buffer _ _ _

theorem UReader.fstring_short (r r' : UReader) (s : JSString) (hb : ∀ x ∈ r.buffer, x < 256)
    (hl : r.buffer.length + 1 < 2 ^ 31) (h : UReader.fstring r = ⟨.ok s, r'⟩) :
    s.length + 1 < 2 ^ 31 ∧ r'.buffer = r.buffer := by
  have hbuf : r'.buffer = r.buffer := by
    have := UReader.fstring_buf.holds r
    rw [h] at this
    exact this
  refine ⟨?_, hbuf⟩
  unfold UReader.fstring at h
  obtain ⟨size, r1, h1, h⟩ := M.bind_ok h
  have e1 := (UReader.int32_fits r r1 size hb h1).2
  split at h
  · obtain ⟨_, r2, h2, h⟩ := M.bind_ok h
    split at h
    · rw [← (M.pure_ok h).1]
      decide
    · obtain ⟨o, r3, h3, h⟩ := M.bind_ok h
      simp only [Res.mk.injEq, Except.ok.injEq] at h
      rw [← h.1]
      have e3 : r3.buffer = r.buffer := by rw [h.2]; exact hbuf
      have h4 := utf8Decode_length (toStringRange r3.buffer (o - size) (o - 1))
      have h5 := toStringRange_length r3.buffer (o - size) (o - 1)
      have h6 : r3.buffer.length = r.buffer.length := by rw [e3]
      omega
  · obtain ⟨_, r2, h2, h⟩ := M.bind_ok h
    obtain ⟨o, r3, h3, h⟩ := M.bind_ok h
    simp only [Res.mk.injEq, Except.ok.injEq] at h
    rw [← h.1]
    have e3 : r3.buffer = r.buffer := by rw [h.2]; exact hbuf
    have h4 := utf16leDecode_length (toStringRange r3.buffer (o - size * (-2)) (o - 2))
    have h5 := toStringRange_length r3.buffer (o - size * (-2)) (o - 2)
    have h6 : r3.buffer.length = r.buffer.length := by rw [e3]
    omega

theorem UReader.tagExtras_writable (ty : JSString) (f f2 : TagFields) (r r2 : UReader)
    (hb : ∀ x ∈ r.buffer, x < 256) (hl : r.buffer.length + 1 < 2 ^ 31) (hT : f.Typ = some ty)
    (h : UReader.tagExtras ty f r = ⟨.ok f2, r2⟩) :
    f2.extrasWritable ∧ f2.Typ = f.Typ ∧ r2.buffer = r.buffer := by
  have hne : ∀ x : JSString, ty ≠ x → f.Typ ≠ some x := by
    intro x hx hc
    rw [hT] at hc
    exact hx (Option.some.inj hc)
  unfold UReader.tagExtras at h
  unfold TagFields.extrasWritable
  split at h
  next h1 =>
    obtain ⟨sn, r1, hs, h⟩ := M.bind_ok h
    obtain ⟨g, r1', hg, h⟩ := M.bind_ok h
    obtain ⟨e, e'⟩ := M.pure_ok h
    subst e
    subst e'
    have s1 := UReader.fstring_short r r1 sn hb hl hs
    have g1 := UReader.FGuid_field r1 _ g (by rw [s1.2]; exact hb) hg
    refine ⟨?_, rfl, by rw [g1.2, s1.2]⟩
    rw [if_pos (show f.Typ = _ by rw [hT, h1])]
    exact ⟨⟨sn, rfl, s1.1⟩, g1.1⟩
  next h1 =>
    split at h
    next h2 =>
      obtain ⟨bo, r1, hs, h⟩ := M.bind_ok h
      obtain ⟨bv, r1', hg, h⟩ := M.bind_ok h
      obtain ⟨e, e'⟩ := M.pure_ok h
      subst e
      subst e'
      have e1 : r1 = r := by
        simp only [getOffset, Res.mk.injEq] at hs
        exact hs.2.symm
      subst e1
      have g1 := UReader.uint8_lt r1 _ bv hb hg
      refine ⟨?_, rfl, g1.2⟩
      rw [if_neg (show ¬ f.Typ = _ from hne _ h1), if_pos (show f.Typ = _ by rw [hT, h2])]
      obtain ⟨b, hb1, hb2⟩ := g1.1
      exact ⟨b, by rw [← hb1], hb2⟩
    next h2 =>
      split at h
      next h3 =>
        obtain ⟨en, r1, hs, h⟩ := M.bind_ok h
        obtain ⟨e, e'⟩ := M.pure_ok h
        subst e
        subst e'
        have s1 := UReader.fstring_short r r1 en hb hl hs
        refine ⟨?_, rfl, s1.2⟩
        rw [if_neg (show ¬ f.Typ = _ from hne _ h1), if_neg (show ¬ f.Typ = _ from hne _ h2),
          if_pos (show f.Typ = _ ∨ f.Typ = _ by
            rw [hT]; rcases h3 with h3 | h3 <;> rw [h3] <;> simp)]
        exact ⟨en, rfl, s1.1⟩
      next h3 =>
        have h3a : ¬ (f.Typ = some (js "ByteProperty") ∨ f.Typ = some (js "EnumProperty")) := by
          intro hc
          rcases hc with hc | hc
          · exact hne _ (fun e => h3 (Or.inl e)) hc
          · exact hne _ (fun e => h3 (Or.inr e)) hc
        split at h
        next h4 =>
          obtain ⟨it, r1, hs, h⟩ := M.bind_ok h
          obtain ⟨e, e'⟩ := M.pure_ok h
          subst e
          subst e'
          have s1 := UReader.fstring_short r r1 it hb hl hs
          refine ⟨?_, rfl, s1.2⟩
          rw [if_neg (show ¬ f.Typ = _ from hne _ h1), if_neg (show ¬ f.Typ = _ from hne _ h2),
            if_neg h3a,
            if_pos (show f.Typ = _ ∨ f.Typ = _ by
              rw [hT]; rcases h4 with h4 | h4 <;> rw [h4] <;> simp)]
          exact ⟨it, rfl, s1.1⟩
        next h4 =>
          have h4a : ¬ (f.Typ = some (js "ArrayProperty") ∨
              f.Typ = some (js "SetProperty")) := by
            intro hc
            rcases hc with hc | hc
            · exact hne _ (fun e => h4 (Or.inl e)) hc
            · exact hne _ (fun e => h4 (Or.inr e)) hc
          split at h
          next h5 =>
            obtain ⟨it, r1, hs, h⟩ := M.bind_ok h
            obtain ⟨vt, r1', hg, h⟩ := M.bind_ok h
            obtain ⟨e, e'⟩ := M.pure_ok h
            subst e
            subst e'
            have s1 := UReader.fstring_short r r1 it hb hl hs
            have s2 := UReader.fstring_short r1 _ vt (by rw [s1.2]; exact hb)
              (by rw [s1.2]; exact hl) hg
            refine ⟨?_, rfl, by rw [s2.2, s1.2]⟩
            rw [if_neg (show ¬ f.Typ = _ from hne _ h1),
              if_neg (show ¬ f.Typ = _ from hne _ h2), if_neg h3a, if_neg h4a,
              if_pos (show f.Typ = _ by rw [hT, h5])]
            exact ⟨⟨it, rfl, s1.1⟩, ⟨vt, rfl, s2.1⟩⟩
          next h5 =>
            obtain ⟨e, e'⟩ := M.pure_ok h
            subst e
            subst e'
            refine ⟨?_, rfl, rfl⟩
            rw [if_neg (hne _ h1), if_neg (hne _ h2), if_neg h3a, if_neg h4a,
              if_neg (hne _ h5)]
            trivial

theorem UReader.FPropertyTag_writable (r r' : UReader) (tag : Tag) (i : Int)
    (hb : ∀ x ∈ r.buffer, x < 256) (hl : r.buffer.length + 1 < 2 ^ 31)
    (h : UReader.FPropertyTag r = ⟨.ok tag, r'⟩) (hi : tag.f.ArrayIndex = some i) :
    tag.f.writable := by
  unfold UReader.FPropertyTag at h
  obtain ⟨_, r0, h0, h⟩ := M.bind_ok h
  have e0 : r0 = r := by
    simp only [getOffset, Res.mk.injEq] at h0
    exact h0.2.symm
  rw [e0] at h
  obtain ⟨n, r1, h1, h⟩ := M.bind_ok h
  have s1 := UReader.fstring_short r r1 n hb hl h1
  split at h
  · rw [← (M.pure_ok h).1] at hi
    simp [Tag.ofFields, Tag.f] at hi
  · obtain ⟨ty, r2, h2, h⟩ := M.bind_ok h
    have s2 := UReader.fstring_short r1 r2 ty (by rw [s1.2]; exact hb)
      (by rw [s1.2]; exact hl) h2
    have b2 : r2.buffer = r.buffer := by rw [s2.2, s1.2]
    obtain ⟨so, r3, h3, h⟩ := M.bind_ok h
    have e3 : r3 = r2 := by
      simp only [getOffset, Res.mk.injEq] at h3
      exact h3.2.symm
    rw [e3] at h
    obtain ⟨size, r4, h4, h⟩ := M.bind_ok h
    have s4 := UReader.int32_fits r2 r4 size (by rw [b2]; exact hb) h4
    have b4 : r4.buffer = r.buffer := by rw [s4.2, b2]
    obtain ⟨idx, r5, h5, h⟩ := M.bind_ok h
    have s5 := UReader.int32_fits r4 r5 idx (by rw [b4]; exact hb) h5
    have b5 : r5.buffer = r.buffer := by rw [s5.2, b4]
    obtain ⟨f2, r6, hx, h⟩ := M.bind_ok h
    have s6 := UReader.tagExtras_writable ty _ f2 r5 r6 (by rw [b5]; exact hb)
      (by rw [b5]; exact hl) rfl hx
    have k6 := UReader.tagExtras_keeps _ _ _ _ _ hx
    have b6 : r6.buffer = r.buffer := by rw [s6.2.2, b5]
    obtain ⟨hpg, r7, h7, h⟩ := M.bind_ok h
    have s7 := UReader.uint8_lt r6 r7 hpg (by rw [b6]; exact hb) h7
    have b7 : r7.buffer = r.buffer := by rw [s7.2, b6]
    obtain ⟨f4, r8, h8, h⟩ := M.bind_ok h
    obtain ⟨_, r9, _, h⟩ := M.bind_ok h
    obtain ⟨p, hp1, hp2⟩ := s7.1
    have hf4 : f4.extrasWritable ∧ f4.Typ = some ty ∧ f4.ArrayIndex = some idx ∧
        f4.HasPropertyGuid = some (p : Int) ∧ (p ≠ 0 → guidField f4.PropertyGuid) := by
      split at h8
      next hz =>
        obtain ⟨g, r8', hg, h8⟩ := M.bind_ok h8
        have sg := UReader.FGuid_field r7 r8' g (by rw [b7]; exact hb) hg
        rw [← (M.pure_ok h8).1]
        exact ⟨s6.1, s6.2.1, k6.2, by rw [← hp1], fun _ => sg.1⟩
      next hz =>
        rw [← (M.pure_ok h8).1]
        refine ⟨s6.1, s6.2.1, k6.2, by rw [← hp1], fun hc => ?_⟩
        exfalso
        apply hz
        rw [hp1]
        exact_mod_cast hc
    rw [← (M.pure_ok h).1]
    exact ⟨⟨ty, hf4.2.1, s2.1⟩, ⟨idx, hf4.2.2.1, s5.1⟩, ⟨p, hf4.2.2.2.1, hp2, hf4.2.2.2.2⟩, hf4.1⟩

theorem M.runsTo_bind {σ α β : Type} {m : M σ α} {f : α → M σ β} {s : σ} {Q1 Q : σ → Prop}
    (h1 : M.runsTo m s Q1) (h2 : ∀ a s', Q1 s' → M.runsTo (f a) s' Q) :
    M.runsTo (m >>= f) s Q := by
  obtain ⟨a, s1, e1, q1⟩ := h1
  obtain ⟨b, s2, e2, q2⟩ := h2 a s1 q1
  refine ⟨b, s2, ?_, q2⟩
  rw [M.bind_apply, e1]
  exact e2

theorem M.runsTo_pure {σ α : Type} (a : α) (s : σ) (Q : σ → Prop) (h : Q s) :
    M.runsTo (pure a : M σ α) s Q := ⟨a, s, rfl, h⟩

theorem M.runsTo_getTag {ρ α : Type} (f : Tag → M (TState ρ) α) (s : TState ρ)
    (Q : TState ρ → Prop) (h : M.runsTo (f s.tag) s Q) : M.runsTo (getTag >>= f) s Q := h

theorem M.runsTo_modTag {ρ α : Type} (g : TagFields → TagFields) (f : Unit → M (TState ρ) α)
    (s : TState ρ) (Q : TState ρ → Prop)
    (h : M.runsTo (f ()) ⟨s.tag.setF (g s.tag.f), s.rd⟩ Q) : M.runsTo (modTag g >>= f) s Q := h

theorem M.runsTo_getOffset {α : Type} (f : Nat → WTM α) (s : TState UWriter)
    (Q : TState UWriter → Prop) (h : M.runsTo (f s.rd.offset) s Q) :
    M.runsTo (liftR UWriter.getOffset >>= f) s Q := h

theorem M.runsTo_liftR {α : Type} (m : WM α) (s : TState UWriter) (P : Tag → Prop)
    (hm : ∃ a w', m s.rd = ⟨.ok a, w'⟩) (hP : P s.tag) :
    M.runsTo (liftR m) s (fun s' => P s'.tag) := by
  obtain ⟨a, w', e⟩ := hm
  exact ⟨a, ⟨s.tag, w'⟩, liftR_eq e, hP⟩

theorem WriteOp.returns (op : WriteOp) (hv : op.valid) (w : UWriter) :
    ∃ (a : Unit) (w' : UWriter), op.run w = ⟨.ok a, w'⟩ := by
  obtain ⟨w', e, _⟩ := op.stores hv w
  exact ⟨(), w', e⟩

theorem UWriter.fname_returns (o : Option JSString) (h : shortStr o) (w : UWriter) :
    ∃ (a : Unit) (w' : UWriter), UWriter.fname (optStr o) w = ⟨.ok a, w'⟩ := by
  obtain ⟨s, rfl, hs⟩ := h
  exact WriteOp.returns (.fstring s) hs w

theorem UWriter.FGuidOpt_returns (g : Option (List Int)) (hg : guidField g) (w : UWriter) :
    ∃ (a : Unit) (w' : UWriter), UWriter.FGuidOpt g w = ⟨.ok a, w'⟩ := by
  obtain ⟨a, b, c, d, rfl, ha, hb, hc, hd⟩ := hg
  obtain ⟨_, w1, e1⟩ := WriteOp.returns (.uint32 a) ha w
  obtain ⟨_, w2, e2⟩ := WriteOp.returns (.uint32 b) hb w1
  obtain ⟨_, w3, e3⟩ := WriteOp.returns (.uint32 c) hc w2
  obtain ⟨_, w4, e4⟩ := WriteOp.returns (.uint32 d) hd w3
  refine ⟨(), w4, ?_⟩
  unfold UWriter.FGuidOpt
  simp only [WriteOp.run] at e1 e2 e3 e4
  simp only [Option.getD_some, List.getElem?_cons_zero, List.getElem?_cons_succ, optNum,
    M.bind_apply, e1, e2, e3, e4]

theorem UWriter.tagExtras_returns (s : TState UWriter) (P : Tag → Prop)
    (hP : ∀ bo, P (s.tag.setF { s.tag.f with bool_offset := bo })) (hP0 : P s.tag)
    (h : s.tag.f.extrasWritable) :
    M.runsTo UWriter.tagExtras s (fun s' => P s'.tag) := by
  unfold TagFields.extrasWritable at h
  unfold UWriter.tagExtras
  apply M.runsTo_getTag
  dsimp only
  by_cases h1 : s.tag.f.Typ = some (js "StructProperty")
  · rw [if_pos h1] at h ⊢
    apply M.runsTo_bind (M.runsTo_liftR _ s P (UWriter.fname_returns _ h.1 _) hP0)
    intro _ s1 h1
    exact M.runsTo_liftR _ s1 P (UWriter.FGuidOpt_returns _ h.2 _) h1
  · rw [if_neg h1] at h ⊢
    by_cases h2 : s.tag.f.Typ = some (js "BoolProperty")
    · rw [if_pos h2] at h ⊢
      obtain ⟨b, hb, hb2⟩ := h
      apply M.runsTo_getOffset
      apply M.runsTo_modTag
      refine M.runsTo_liftR _ _ P ?_ (hP _)
      rw [hb]
      exact WriteOp.returns (.uint8 b) hb2 _
    · rw [if_neg h2] at h ⊢
      by_cases h3 : s.tag.f.Typ = some (js "ByteProperty") ∨
          s.tag.f.Typ = some (js "EnumProperty")
      · rw [if_pos h3] at h ⊢
        exact M.runsTo_liftR _ s P (UWriter.fname_returns _ h _) hP0
      · rw [if_neg h3] at h ⊢
        by_cases h4 : s.tag.f.Typ = some (js "ArrayProperty") ∨
            s.tag.f.Typ = some (js "SetProperty")
        · rw [if_pos h4] at h ⊢
          exact M.runsTo_liftR _ s P (UWriter.fname_returns _ h _) hP0
        · rw [if_neg h4] at h ⊢
          by_cases h5 : s.tag.f.Typ = some (js "MapProperty")
          · rw [if_pos h5] at h ⊢
            apply M.runsTo_bind (M.runsTo_liftR _ s P (UWriter.fname_returns _ h.1 _) hP0)
            intro _ s1 h1
            exact M.runsTo_liftR _ s1 P (UWriter.fname_returns _ h.2 _) h1
          · rw [if_neg h5]
            exact M.runsTo_pure _ _ _ hP0

theorem UWriter.FPropertyTag_returns (tag : Tag) (w : UWriter) (name : JSString)
    (hN : tag.f.Name = some name) (hl : (UWriter.writtenName name).length + 1 < 2 ^ 31)
    (hw : tag.f.writable) :
    ∃ s', UWriter.FPropertyTag ⟨tag, w⟩ = ⟨.ok (), s'⟩ := by
  have key : M.runsTo UWriter.FPropertyTag ⟨tag, w⟩ (fun _ => True) := by
    unfold UWriter.FPropertyTag
    apply M.runsTo_getTag
    apply M.runsTo_getOffset
    apply M.runsTo_modTag
    simp only [hN]
    apply M.runsTo_bind (M.runsTo_liftR _ _ (fun t => t.f.writable)
      (WriteOp.returns (.fstring _) hl _) hw)
    intro _ s1 p1
    by_cases hn : name = js "None"
    · rw [if_pos hn]
      exact M.runsTo_pure _ _ _ trivial
    · rw [if_neg hn]
      apply M.runsTo_getTag
      obtain ⟨hT, ⟨i, hI, hIf⟩, ⟨p, hH, hp, hG⟩, hX⟩ := id p1
      apply M.runsTo_bind (M.runsTo_liftR _ _ (fun t => t.f.writable)
        (UWriter.fname_returns _ hT _) p1)
      intro _ s2 p2
      apply M.runsTo_getOffset
      apply M.runsTo_bind (M.runsTo_liftR _ _ (fun t => t.f.writable)
        (WriteOp.returns (.int32 0) (by constructor <;> decide) _) p2)
      intro _ s3 p3
      rw [hI]
      apply M.runsTo_bind (M.runsTo_liftR _ _ (fun t => t.f.writable)
        (WriteOp.returns (.int32 i) hIf _) p3)
      intro _ s4 p4
      apply M.runsTo_modTag
      refine M.runsTo_bind (?_ : M.runsTo _ _ (fun s => s.tag.f.writable)) ?_
      · apply UWriter.tagExtras_returns _ (fun t => t.f.writable)
        · intro bo
          exact p4
        · exact p4
        · exact p4.2.2.2
      · intro _ s5 p5
        apply M.runsTo_getTag
        obtain ⟨_, _, ⟨q, hQ, hq, hG5⟩, _⟩ := id p5
        rw [hQ]
        apply M.runsTo_bind (M.runsTo_liftR _ _ (fun t => t.f.writable)
          (WriteOp.returns (.uint8 q) hq _) p5)
        intro _ s6 p6
        simp only [Option.getD_some]
        by_cases hz : (q : Int) ≠ 0
        · rw [if_pos hz]
          apply M.runsTo_bind (M.runsTo_liftR _ _ (fun t => t.f.writable)
            (UWriter.FGuidOpt_returns _ (hG5 (by exact_mod_cast hz)) _) p6)
          intro _ s7 p7
          apply M.runsTo_getOffset
          exact ⟨(), _, rfl, trivial⟩
        · rw [if_neg hz]
          apply M.runsTo_bind (M.runsTo_pure _ _ (fun _ => True) trivial)
          intro _ s7 p7
          apply M.runsTo_getOffset
          exact ⟨(), _, rfl, trivial⟩
  obtain ⟨_, s', e, _⟩ := key
  exact ⟨s', e⟩

/-- The writer's `FPropertyTag` on a tag named `n`, from a clean state: the bytes that `fname`
writes for `writtenName n` lie at the old cursor, in front of the new one. -/
theorem UWriter.FPropertyTag_name_emitted (tag t' : Tag) (w w' : UWriter) (n : JSString)
    (hn : tag.f.Name = some n) (hc : w.clean)
    (h : UWriter.FPropertyTag ⟨tag, w⟩ = ⟨.ok (), ⟨t', w'⟩⟩) :
    w.offset + (WriteOp.fstring (UWriter.writtenName n)).bytes.length ≤ w'.offset ∧
    ∀ i, i < (WriteOp.fstring (UWriter.writtenName n)).bytes.length →
      w'.byteAt (w.offset + i) = (WriteOp.fstring (UWriter.writtenName n)).bytes.getD i 0 := by
  refine ⟨?_, UWriter.FPropertyTag_name_bytes tag t' w w' n hn hc h⟩
  unfold UWriter.FPropertyTag at h
  rw [getTag_bind, UWriter.getOffset_bind, modTag_bind] at h
  simp only [hn] at h
  obtain ⟨_, s4, h4, h⟩ := M.bind_ok h
  have e4 := (liftR_ok h4).2
  have hv := WriteOp.valid_of_ok (.fstring (UWriter.writtenName n)) _ _ e4
  obtain ⟨w4, e4', st⟩ := (WriteOp.fstring (UWriter.writtenName n)).stores hv w
  have hw4 : s4.rd = w4 := by
    have := e4.symm.trans e4'
    simp only [Res.mk.injEq, true_and] at this
    exact this
  have ap := st.appended hc
  rw [← hw4] at ap
  have hk : keepTagRel.rel s4 ⟨t', w'⟩ := by
    refine M.Returns.holds ?_ _ _ _ h
    repeat (with_reducible first
      | apply M.Returns.on_bind | exact M.Returns.on_pure _ _ | exact M.Returns.on_getTag _
      | exact modTag_keep _ | apply liftR_keep | exact UWriter.fname_keep _
      | exact UWriter.FGuidOpt_keep _ | exact UWriter.getOffset_keep
      | exact UWriter.tagExtras_keep
      | exact UWriter.uint8_keep _ | exact UWriter.int32_keep _
      | split | intro _ | dsimp only)
  have hk' := hk ap.clean.1
  have := hk'.2.1
  rw [ap.offset] at this
  exact this

/-- C3. A tag whose wire name is `n` (a name that does not end in a bracketed number) and whose
array index is `i`: the reader's `FPropertyTag` yields the name `n` when `i` is not positive and
`n` followed by `[i]` when `i > 0`; the name that the writer's `FPropertyTag` passes to `fname`
for the decoded name is `n` again, and the tag keeps the decoded (suffixed) name. When the
reader's buffer holds bytes and is shorter than `2^31 - 1`, the writer's `FPropertyTag` on the
decoded tag, from a state with only zero bytes at and beyond the cursor, returns, and it has
put the bytes that `fstring` writes for `n` (length, characters, terminator) at the old cursor,
in front of the new one. The three consecutive tags `Foo` with array indices 0, 1, 2 of
`exFooWire` decode to `Foo`, `Foo[1]`, `Foo[2]` and the decoded list is encoded to `exFooWire`
again, where all three carry the name `Foo`. -/
theorem static_array_suffix (r r1 r' : UReader) (tag : Tag) (n : JSString) (i : Int)
    (hn : UReader.fname r = ⟨.ok n, r1⟩) (hbase : matchArraySuffix n = none)
    (h : UReader.FPropertyTag r = ⟨.ok tag, r'⟩) (hi : tag.f.ArrayIndex = some i) :
    tag.f.Name = some (if 0 < i then n ++ (js "[" ++ intToJS i ++ js "]") else n) ∧
    UWriter.writtenName (if 0 < i then n ++ (js "[" ++ intToJS i ++ js "]") else n) = n ∧
    (∀ (w w' : UWriter) (t' : Tag), UWriter.FPropertyTag ⟨tag, w⟩ = ⟨.ok (), ⟨t', w'⟩⟩ →
      t'.f.Name = tag.f.Name) ∧
    ((∀ x ∈ r.buffer, x < 256) → r.buffer.length + 1 < 2 ^ 31 → ∀ w : UWriter, w.clean →
      ∃ (t' : Tag) (w' : UWriter), UWriter.FPropertyTag ⟨tag, w⟩ = ⟨.ok (), ⟨t', w'⟩⟩ ∧
        t'.f.Name = tag.f.Name ∧
        w.offset + (WriteOp.fstring n).bytes.length ≤ w'.offset ∧
        ∀ k, k < (WriteOp.fstring n).bytes.length →
          w'.byteAt (w.offset + k) = (WriteOp.fstring n).bytes.getD k 0) ∧
    (tagNames ((UReader.FPropertyList (decoders {} 4) false ⟨exFooWire, 0⟩).out.toOption.getD
      .null) = [some (js "Foo"), some (js "Foo[1]"), some (js "Foo[2]")] ∧
      reencodeList 4 exFooWire false = some exFooWire) := by
  have hname := UReader.FPropertyTag_decoded_name r r1 r' tag n i hn h hi
  have hwn : UWriter.writtenName
      (if 0 < i then n ++ (js "[" ++ intToJS i ++ js "]") else n) = n := by
    by_cases hp : 0 < i
    · rw [if_pos hp]; exact UWriter.writtenName_suffix n i hp
    · rw [if_neg hp, UWriter.writtenName, hbase]
  refine ⟨hname, hwn, ?_, ?_, static_array_foo_example⟩
  · intro w w' t' hw
    exact UWriter.FPropertyTag_keeps_name tag t' w w' () hw
  · intro hb hl w hc
    have hs := (UReader.fstring_short r r1 n hb hl hn).1
    obtain ⟨⟨t', w'⟩, e⟩ := UWriter.FPropertyTag_returns tag w _ hname (by rw [hwn]; exact hs)
      (UReader.FPropertyTag_writable r r' tag i hb hl h hi)
    have := UWriter.FPropertyTag_name_emitted tag t' w w' _ hname hc e
    rw [hwn] at this
    exact ⟨t', w', e, UWriter.FPropertyTag_keeps_name tag t' w w' () e, this⟩

set_option maxRecDepth 8000 in
/-- C3 at the second of three consecutive tags named `Foo` (array index 1): it decodes to
`Foo[1]`, and the writer, started on the decoded tag in a fresh state, returns and has written
the name `Foo`. -/
theorem static_array_suffix_witness :
    exFooTag1.f.Name = some (js "Foo[1]") ∧ UWriter.writtenName (js "Foo[1]") = js "Foo" ∧
    ∃ (t' : Tag) (w' : UWriter),
      UWriter.FPropertyTag ⟨exFooTag1, UWriter.new⟩ = ⟨.ok (), ⟨t', w'⟩⟩ ∧
      t'.f.Name = exFooTag1.f.Name ∧
      UWriter.new.offset + (WriteOp.fstring (js "Foo")).bytes.length ≤ w'.offset ∧
      ∀ k, k < (WriteOp.fstring (js "Foo")).bytes.length →
        w'.byteAt (UWriter.new.offset + k) = (WriteOp.fstring (js "Foo")).bytes.getD k 0 :=
  have h := static_array_suffix ⟨exFooWire, 37⟩ ⟨exFooWire, 45⟩ ⟨exFooWire, 70⟩ exFooTag1
    (js "Foo") 1 (by rfl) (by decide) (by rfl) (by rfl)
  ⟨h.1, h.2.1, h.2.2.2.1 (by decide) (by decide) UWriter.new ⟨by decide, fun _ _ => rfl⟩⟩

/-! ## The round trip of a list of properties that round-trip on their own -/

theorem entryFields_cons (e : Entry) (es : List Entry) (acc : List (JSString × JSVal)) :
    entryFields (e :: es) acc = entryFields es (objSet acc e.name e.value) := rfl

theorem Reads.r_entryLoop (opts : Options) (wx : Bool) (es : List Entry) :
    ∀ (n : Nat) (ts : List Tag) (acc : List (JSString × JSVal)), es.length ≤ n →
    (∀ e ∈ es, es.length + e.readFuel ≤ n + 1) → (∀ e ∈ es, e.roundTrips opts) →
    Reads (listLoopBody (decoders opts n) wx ((PropertiesKey, .props ts) :: acc))
      (es.flatMap Entry.wire ++ (strWire (js "None") ++ (if wx then [0, 0, 0, 0] else [])))
      (fun o => .object ((PropertiesKey, .props (ts ++ entryTags es o)) ::
        entryFields es acc)) := by
  induction es with
  | nil =>
    intro n ts acc _ _ _
    unfold listLoopBody
    cases wx
    · apply Reads.r_congr
      · apply Reads.r_of_bind Reads.r_FPropertyTag_none
        intro o
        simp only [Tag.ofFields, Tag.f, if_true, Bool.false_eq_true, if_false]
        exact Reads.r_of_pure _
      · simp
      · intro o
        simp [entryTags, entryFields]
    · apply Reads.r_congr
      · apply Reads.r_of_bind Reads.r_FPropertyTag_none
        intro o
        simp only [Tag.ofFields, Tag.f, if_true]
        exact Reads.r_of_bind (Reads.r_int32 0 (by constructor <;> decide))
          (fun _ => Reads.r_of_pure _)
      · simp only [List.flatMap_nil, List.nil_append, List.append_nil, if_true]
        rfl
      · intro o
        simp [entryTags, entryFields]
  | cons e es ih =>
    intro n ts acc hn hf hv
    obtain ⟨m, rfl⟩ : ∃ m, n = m + 1 := ⟨n - 1, by simp only [List.length_cons] at hn; omega⟩
    have he := hv e (List.mem_cons_self _ _)
    have hfe := hf e (List.mem_cons_self _ _)
    simp only [List.length_cons] at hn hfe
    intro r pre post hb ho
    obtain ⟨t0, r1, e1, hN, e2⟩ := he.reads (m + 1) (by omega) r pre
      (es.flatMap Entry.wire ++ (strWire (js "None") ++ (if wx then [0, 0, 0, 0] else [])) ++
        post)
      (by rw [hb]; simp only [List.flatMap_cons, List.append_assoc]) ho
    have ih' := ih m (ts ++ [e.tag r.offset]) (objSet acc e.name e.value) (by omega)
      (fun q hq => by
        have := hf q (List.mem_cons_of_mem _ hq)
        simp only [List.length_cons] at this
        omega)
      (fun q hq => hv q (List.mem_cons_of_mem _ hq))
      { r with offset := r.offset + e.wire.length } (pre ++ e.wire) post
      (by rw [hb]; simp only [List.flatMap_cons, List.append_assoc])
      (by simp only [List.length_append, Nat.cast_add, ho])
    have hp : pushAndDecode (decoders opts (m + 1)) ((PropertiesKey, .props ts) :: acc) t0 r1 =
        ⟨.ok ((PropertiesKey, .props (ts ++ [e.tag r.offset])) :: objSet acc e.name e.value),
          { r with offset := r.offset + e.wire.length }⟩ := by
      unfold pushAndDecode
      rw [objGet_head]
      dsimp only
      rw [M.bind_apply, e2]
      dsimp only
      rw [he.named, Option.getD_some, objSet_head]
      unfold assignProp
      rw [if_neg he.ordinary.2.2, objSet_cons_ne _ _ _ _ _ (Ne.symm he.ordinary.2.1)]
      rfl
    unfold listLoopBody
    rw [M.bind_apply, e1]
    dsimp only
    rw [if_neg hN, M.bind_apply, hp]
    dsimp only
    show listLoopBody (decoders opts m) wx _ _ = _
    rw [ih']
    simp only [entryTags, entryFields_cons, List.append_assoc, List.singleton_append,
      List.flatMap_cons, List.length_append, Nat.cast_add, add_assoc]

theorem Reads.r_entryFile (opts : Options) (h : HeaderData) (es : List Entry) (n : Nat)
    (hn : es.length ≤ n) (hf : ∀ e ∈ es, es.length + e.readFuel ≤ n + 1) (hh : h.valid)
    (hv : ∀ e ∈ es, e.roundTrips opts) :
    Reads (UReader.File_Data_Player (decoders opts n)) (entryFileWire h es)
      (fun o => mkObj [("Header", h.value), ("Data", entryListValue es (o + h.wire.length))]) := by
  unfold UReader.File_Data_Player UReader.FPropertyList
  apply Reads.r_congr
  · apply Reads.r_of_bind (Reads.r_FSaveGameHeader h hh)
    intro _
    apply Reads.r_of_bind (Reads.r_entryLoop opts true es n [] [] hn hf hv)
    intro _
    exact Reads.r_of_pure _
  · simp only [entryFileWire, entryListWire, List.append_nil, if_true, List.append_assoc]
  · intro o
    simp only [entryListValue, List.nil_append]

theorem Wrote.w_entries (opts : Options) (m : Nat) (fs : List (JSString × JSVal))
    (es : List Entry) (hv : ∀ e ∈ es, e.roundTrips opts) (hw : ∀ e ∈ es, e.writeFuel ≤ m)
    (hfs : ∀ e ∈ es, objGet fs e.name = some e.value) (o : Int) :
    Wrote (TQ2.forEachM (UWriter.writeProperty (encoders m) fs) (entryTags es o))
      (es.flatMap Entry.wire) := by
  induction es generalizing o with
  | nil => exact Wrote.w_of_pure
  | cons e es ih =>
    exact Wrote.w_of_bind
      ((hv e (List.mem_cons_self _ _)).writes m fs o (hw e (List.mem_cons_self _ _))
        (hfs e (List.mem_cons_self _ _)))
      (ih (fun q hq => hv q (List.mem_cons_of_mem _ hq))
        (fun q hq => hw q (List.mem_cons_of_mem _ hq))
        (fun q hq => hfs q (List.mem_cons_of_mem _ hq)) _)

theorem Wrote.w_entryList (opts : Options) (m : Nat) (es : List Entry)
    (hv : ∀ e ∈ es, e.roundTrips opts) (hw : ∀ e ∈ es, e.writeFuel ≤ m)
    (hfind : ∀ e ∈ es, objGet (entryFields es []) e.name = some e.value) (o : Int) :
    Wrote (UWriter.FPropertyList (encoders m) (entryListValue es o) true)
      (entryListWire es) := by
  unfold UWriter.FPropertyList entryListValue entryListWire
  simp only [objGet_head, if_true]
  refine Wrote.w_congr (Wrote.w_of_bind (Wrote.w_entries opts m _ es hv hw ?_ o)
    (Wrote.w_of_bind Wrote.w_terminator (Wrote.w_int32 0 (by constructor <;> decide)))) ?_
  · intro e he
    rw [objGet, if_neg (Ne.symm (hv e he).ordinary.2.1)]
    exact hfind e he
  · rw [List.append_assoc]
    rfl

theorem Wrote.w_entryFile (opts : Options) (m : Nat) (h : HeaderData) (es : List Entry)
    (hh : h.valid) (hv : ∀ e ∈ es, e.roundTrips opts) (hw : ∀ e ∈ es, e.writeFuel ≤ m)
    (hfind : ∀ e ∈ es, objGet (entryFields es []) e.name = some e.value) :
    Wrote (UWriter.File_Data_Player (encoders m) (entryFileValue h es)) (entryFileWire h es) :=
  Wrote.w_of_bind (Wrote.w_FSaveGameHeader h hh) (Wrote.w_entryList opts m es hv hw hfind _)

theorem PropData.roundTrips (opts : Options) (p : PropData) (hv : p.valid) :
    p.toEntry.roundTrips opts := by
  have hN : p.fullName ≠ js "None" := p.fullName_ne_none hv.2.1
  refine ⟨fun _ => rfl, ⟨hN, hv.2.2.2.2.2.2.1, hv.2.2.2.2.2.2.2⟩, ?_, ?_⟩
  · intro n hn r pre post hb ho
    obtain ⟨k, rfl⟩ : ∃ k, n = k + 2 := ⟨n - 2, by
      have : 2 ≤ n := hn
      omega⟩
    have hb1 : r.buffer = pre ++ (p.headWire ++ intWire 4 p.val.wire.length ++ p.midWire) ++
        (p.val.wire ++ post) := by
      rw [hb]
      simp only [PropData.toEntry, PropData.wire, List.append_assoc]
    have h1 := Reads.r_FPropertyTag p hv r pre (p.val.wire ++ post) hb1 ho
    refine ⟨_, _, h1, ?_, ?_⟩
    · show some p.fullName ≠ some (js "None")
      intro hc
      exact hN (Option.some.inj hc)
    · have h2 := Reads.r_FPropertyValue opts k p hv r.offset
        { r with offset := r.offset +
          ((p.headWire ++ intWire 4 p.val.wire.length ++ p.midWire).length : Nat) }
        (pre ++ (p.headWire ++ intWire 4 p.val.wire.length ++ p.midWire)) post
        (by rw [hb1]; simp only [List.append_assoc])
        (by simp only [List.length_append, Nat.cast_add, ho])
      rw [h2]
      simp only [PropData.toEntry, PropData.wire, List.length_append, Nat.cast_add, add_assoc]
  · intro m fs o hm hfs
    obtain ⟨k, rfl⟩ : ∃ k, m = k + 1 := ⟨m - 1, by
      have : 1 ≤ m := hm
      omega⟩
    exact Wrote.w_writeProperty k fs p hv (p.tag o) rfl rfl rfl rfl hfs

/-- The writer's `FPropertyTag` on the tag record of a BoolProperty, with the positions that it
records for the size field and for the start of the value. -/
theorem UWriter.FPropertyTag_bool_offsets (n : JSString) (i : Int) (b0 : Nat) (tag : Tag)
    (w : UWriter) (hc : w.clean) (h1 : asciiStr n) (h2 : n ≠ js "None")
    (h3 : matchArraySuffix n = none) (h4 : fitsSigned 4 i) (hb0 : b0 < 2 ^ 8)
    (hN : tag.f.Name = some (if 0 < i then n ++ (js "[" ++ intToJS i ++ js "]") else n))
    (hT : tag.f.Typ = some (js "BoolProperty")) (hI : tag.f.ArrayIndex = some i)
    (hB : tag.f.BoolVal = some (b0 : Int)) (hH : tag.f.HasPropertyGuid = some 0) :
    ∃ s1, UWriter.FPropertyTag ⟨tag, w⟩ = ⟨.ok (), s1⟩ ∧
      w.Appended (boolWire n i b0) s1.rd ∧ s1.tag.f.Name = tag.f.Name ∧
      s1.tag.f.Typ = some (js "BoolProperty") ∧
      s1.tag.f.bool_offset = some ((w.offset + (strWire n).length + 25 : Nat) : Int) ∧
      s1.tag.f.size_offset = some ((w.offset + (strWire n).length + 17 : Nat) : Int) ∧
      s1.tag.f.data_offset = some (s1.rd.offset : Int) := by
  have hfull : (if 0 < i then n ++ (js "[" ++ intToJS i ++ js "]") else n) =
      (⟨n, i, .int 0⟩ : PropData).fullName := rfl
  have hne : (⟨n, i, .int 0⟩ : PropData).fullName ≠ js "None" :=
    PropData.fullName_ne_none ⟨n, i, .int 0⟩ h2
  have hwn : UWriter.writtenName (⟨n, i, .int 0⟩ : PropData).fullName = n :=
    PropData.writtenName_eq ⟨n, i, .int 0⟩ h3
  rw [hfull] at hN
  obtain ⟨w1, e1, a1⟩ := Wrote.w_fname n h1 w hc
  obtain ⟨w2, e2, a2⟩ := Wrote.w_fname (js "BoolProperty") (by constructor <;> decide) w1
    a1.clean
  obtain ⟨w3, e3, a3⟩ := Wrote.w_int32 0 (by constructor <;> decide) w2 a2.clean
  obtain ⟨w4, e4, a4⟩ := Wrote.w_int32 i h4 w3 a3.clean
  obtain ⟨w5, e5, a5⟩ := Wrote.w_uint8 b0 hb0 w4 a4.clean
  rw [leBytes_one b0 hb0] at a5
  obtain ⟨w6, e6, a6⟩ := Wrote.w_uint8 0 (by decide) w5 a5.clean
  rw [Nat.cast_zero] at e6
  have hB17 : (strWire (js "BoolProperty")).length = 17 := by decide
  have o2 : w2.offset = w.offset + (strWire n).length + 17 := by
    rw [a2.offset, a1.offset, hB17]
  have o4 : w4.offset = w.offset + (strWire n).length + 25 := by
    rw [a4.offset, a3.offset, o2]
    simp only [intWire, leBytes_length]
  refine ⟨⟨tag.setF
    { tag.f with
      tag_offset := some (w.offset : Int), size_offset := some (w2.offset : Int),
      Size := some (.int 0), bool_offset := some (w4.offset : Int), HasPropertyGuid := some 0,
      data_offset := some (w6.offset : Int) }, w6⟩, ?_, ?_, rfl, hT, ?_, ?_, rfl⟩
  · unfold UWriter.FPropertyTag
    rw [getTag_bind, UWriter.getOffset_bind, modTag_bind]
    simp only [hN]
    rw [hwn, M.bind_apply, liftR_mk _ _ e1]
    dsimp only
    rw [if_neg hne, getTag_bind]
    simp only [Tag.f_setF, hT, optStr]
    rw [M.bind_apply, liftR_mk _ _ e2]
    dsimp only
    rw [UWriter.getOffset_bind, M.bind_apply, liftR_mk _ _ e3]
    dsimp only
    simp only [hI, optNum]
    rw [M.bind_apply, liftR_mk _ _ e4]
    dsimp only
    rw [modTag_bind, M.bind_apply, UWriter.boolExtras_written _ b0]
    rotate_left
    · rfl
    · exact hB
    dsimp only
    rw [liftR_mk _ _ e5]
    dsimp only
    rw [getTag_bind]
    simp only [Tag.f_setF, hH, optNum]
    rw [M.bind_apply, liftR_mk _ _ e6]
    dsimp only
    simp only [Option.getD_some, ne_eq, not_true_eq_false, if_false, M.bind_apply, M.pure_apply]
    rfl
  · have h := UWriter.Appended.trans (UWriter.Appended.trans (UWriter.Appended.trans a1 a2)
      (UWriter.Appended.trans a3 a4)) (UWriter.Appended.trans a5 a6)
    simpa only [boolWire, leBytes_one 0 (by decide), List.append_assoc] using h
  · show some (w4.offset : Int) = _
    rw [o4]
  · show some (w2.offset : Int) = _
    rw [o2]

theorem boolEntry_roundTrips (opts : Options) (n : JSString) (i : Int) (v : Nat)
    (h1 : asciiStr n) (h2 : n ≠ js "None") (h3 : matchArraySuffix n = none)
    (h4 : fitsSigned 4 i) (hv : v < 2 ^ 8) (h5 : (boolEntry n i v).name ≠ PropertiesKey)
    (h6 : (boolEntry n i v).name ≠ js "__proto__") : (boolEntry n i v).roundTrips opts := by
  have hN : (boolEntry n i v).name ≠ js "None" := PropData.fullName_ne_none ⟨n, i, .int 0⟩ h2
  have hne : ∀ o, (boolTag n i v o).f.Name ≠ some (js "None") := by
    intro o h
    exact hN (Option.some.inj h)
  refine ⟨fun _ => rfl, ⟨hN, h5, h6⟩, ?_, ?_⟩
  · intro k' hk r pre post hb ho
    obtain ⟨k, rfl⟩ : ∃ k, k' = k + 2 := ⟨k' - 2, by
      have : 2 ≤ k' := hk
      omega⟩
    refine ⟨_, _, Reads.r_FPropertyTag_bool n i v h1 h2 h4 hv r pre post hb ho, hne _, ?_⟩
    show UReader.FPropertyValue opts (decoders opts (k + 1)) _ _ = _
    refine UReader.FPropertyValue_passes opts _ _ _ _ _ _ (hne _) ?_ ?_
    · exact UReader.unsafe_bool (decoders opts k) _ _ (v : Int) rfl (hne _) rfl
    · show some (JSNum.int 0) =
        some (JSNum.int (r.offset + ((boolWire n i v).length : Int) -
          (r.offset + ((boolWire n i v).length : Int))))
      rw [sub_self]
  · intro m fs o hm hfs w hc
    obtain ⟨k, rfl⟩ : ∃ k, m = k + 1 := ⟨m - 1, by
      have : 1 ≤ m := hm
      omega⟩
    obtain ⟨s1, w2, e1, e2, f1, a⟩ := UWriter.writeBool (encoders k) n i v v (boolTag n i v o) w
      hc h1 h2 h3 h4 hv hv rfl rfl rfl rfl rfl
    obtain ⟨s1', e1', a1, n1, _, _, so1, d1⟩ := UWriter.FPropertyTag_bool_offsets n i v
      (boolTag n i v o) w hc h1 h2 h3 h4 hv rfl rfl rfl rfl rfl
    have hs : s1' = s1 := by
      have := e1'.symm.trans e1
      simp only [Res.mk.injEq, true_and] at this
      exact this
    rw [hs] at a1 n1 so1 d1
    have hl := boolWire_length n i v
    have o1 : s1.rd.offset = w.offset + (strWire n).length + 27 := by
      rw [a1.offset, hl]
      omega
    obtain ⟨w3, e3, g1, g2, g3, g4⟩ := UWriter.patchSize_spec ⟨s1.tag, w2⟩
      (w.offset + (strWire n).length + 17) s1.rd.offset so1 d1 (by omega)
      (by show _ ≤ w2.offset; omega) (by show w2.offset < w2.length; exact a.clean.1)
      (by show w2.offset - s1.rd.offset < 2 ^ 31; rw [f1, Nat.sub_self]; decide)
    have hwtv : UWriter.writeTagAndValue (encoders (k + 1)) fs ⟨boolTag n i v o, w⟩ =
        ⟨.ok (), ⟨s1.tag, w2⟩⟩ := by
      unfold UWriter.writeTagAndValue
      rw [M.bind_apply, e1]
      dsimp only
      rw [getTag_bind, n1]
      unfold propValue
      have hname : (boolTag n i v o).f.Name = some (boolEntry n i v).name := rfl
      simp only [hname, Option.getD_some, hfs, M.bind_apply, M.pure_apply]
      exact e2
    have hb : (UWriter.writeTagAndValue (encoders (k + 1)) fs >>= fun _ => UWriter.patchSize)
        ⟨boolTag n i v o, w⟩ = ⟨.ok (), ⟨s1.tag, w3⟩⟩ := by
      rw [M.bind_apply, hwtv]
      exact e3
    refine ⟨w3, congrArg (fun r => (⟨r.out, r.st.rd⟩ : Res UWriter Unit)) hb, ?_⟩
    have hB17 : (strWire (js "BoolProperty")).length = 17 := by decide
    have hw : boolWire n i v = (strWire n ++ strWire (js "BoolProperty")) ++ leBytes 4 0 ++
        (intWire 4 i ++ [v] ++ [0]) := by
      unfold boolWire
      simp only [List.append_assoc]
      rfl
    have hz : w2.offset - s1.rd.offset = 0 := by rw [f1, Nat.sub_self]
    refine ⟨?_, ⟨?_, ?_⟩, ?_, ?_⟩
    · rw [g1]
      exact a.offset
    · rw [g1, g2]
      exact a.clean.1
    · intro j hj
      rw [g1] at hj
      have hj' : w2.offset ≤ j := hj
      rw [g4 j (Or.inr (by omega))]
      exact a.clean.2 j hj
    · intro j hj
      rw [g4 j (Or.inl (by omega))]
      exact a.before j hj
    · intro x hx
      have hx' : x < (strWire n).length + 27 := by
        have : x < (boolWire n i v).length := hx
        rw [hl] at this
        exact this
      by_cases hin : (strWire n).length + 17 ≤ x ∧ x < (strWire n).length + 21
      · have e : w.offset + x = w.offset + (strWire n).length + 17 +
            (x - ((strWire n).length + 17)) := by omega
        show w3.byteAt (w.offset + x) = (boolWire n i v).getD x 0
        rw [e, g3 _ (by omega), hw, getD_append_mid _ _ _ x
          (by rw [List.length_append, hB17]; exact hin.1)
          (by rw [List.length_append, hB17, leBytes_length]; exact hin.2)]
        show (leBytes 4 (w2.offset - s1.rd.offset)).getD _ 0 = _
        rw [hz, List.length_append, hB17]
      · rw [g4 _ (by omega)]
        exact a.bytes x hx

/-! ## The round trip of a save file -/

set_option maxRecDepth 16000 in
/-- C1 (as stated) fails, in four ways. Each of these files decodes without fault up to the end
of the buffer, and the writer, run on the decoded tree, returns other bytes. (1) `exFileExtra`
has the bytes `01 02 03 04` behind the terminator of the top-level list; the writer ends the
file with `00 00 00 00`. (2) `exFileSlot` holds a property that does not round-trip on its own,
an IntProperty with wire name `Slot[2]` at array index 0; the writer names it `Slot`. (3)
`exFileDup` holds two properties named `Foo` with the values 10 and 11; the decoded mapping has
one entry `Foo`, and the writer emits the value 11 twice. (4) `exFileBranch` has a header string
that is not ASCII, the bytes `C3 A9`; the writer emits the one byte `E9`. -/
theorem file_round_trip_counterexample :
    (∃ v, decodeFile {} 1 exFileExtra = ⟨.ok v, ⟨exFileExtra, exFileExtra.length⟩⟩ ∧
      encodeFile 1 v = some (exHeader.wire ++ strWire (js "None") ++ [0, 0, 0, 0]) ∧
      encodeFile 1 v ≠ some exFileExtra) ∧
    (reencodeFile 3 exFileSlot = some (exHeader.wire ++ exSlotStripped ++ [0, 0, 0, 0]) ∧
      exHeader.wire ++ exSlotStripped ++ [0, 0, 0, 0] ≠ exFileSlot) ∧
    (reencodeFile 3 exFileDup =
        some (exHeader.wire ++ (exFooProp 0 11 ++ exFooProp 0 11 ++ wireStr "None") ++
          [0, 0, 0, 0]) ∧
      exHeader.wire ++ (exFooProp 0 11 ++ exFooProp 0 11 ++ wireStr "None") ++ [0, 0, 0, 0] ≠
        exFileDup) ∧
    (reencodeFile 1 exFileBranch =
        some (List.replicate 26 0 ++ [2, 0, 0, 0, 233, 0] ++ List.replicate 12 0 ++
          strWire (js "None") ++ [0, 0, 0, 0]) ∧
      List.replicate 26 0 ++ [2, 0, 0, 0, 233, 0] ++ List.replicate 12 0 ++
        strWire (js "None") ++ [0, 0, 0, 0] ≠ exFileBranch) :=
  ⟨⟨fileValue exHeader [], by rfl, by decide!, by decide!⟩, ⟨by decide!, by decide!⟩,
    ⟨by decide!, by decide!⟩, ⟨by decide!, by decide!⟩⟩

/-- C1 (amended). For every buffer that consists of the canonical encoding of a save-game
header (numbers in range, ASCII strings), a top-level list of properties each of which
round-trips on its own (the reader decodes it from its bytes and the writer encodes the decoded
tag and value to these bytes, wherever they stand; its name is none of `None`, `__props__`,
`__proto__`), such that the entry of the decoded mapping under the name of each property is the
value decoded for that property (as it is when the names are pairwise distinct), the `None`
terminator and four zero bytes: with enough fuel the reader's top-level entry point returns the
tree of the file with the cursor at the end of the buffer, and the writer's entry point on
that tree yields the buffer again. The scalar properties of `PropData` and the BoolProperty are
such properties (`PropData.roundTrips`, `boolEntry_roundTrips`). -/
theorem file_round_trip (opts : Options) (h : HeaderData) (es : List Entry) (n m : Nat)
    (hn : es.length ≤ n) (hrf : ∀ e ∈ es, es.length + e.readFuel ≤ n + 1)
    (hwf : ∀ e ∈ es, e.writeFuel ≤ m) (hh : h.valid) (hv : ∀ e ∈ es, e.roundTrips opts)
    (hfind : ∀ e ∈ es, objGet (entryFields es []) e.name = some e.value) :
    decodeFile opts n (entryFileWire h es) =
      ⟨.ok (entryFileValue h es), ⟨entryFileWire h es, (entryFileWire h es).length⟩⟩ ∧
    encodeFile m (entryFileValue h es) = some (entryFileWire h es) := by
  constructor
  · have hr := Reads.r_entryFile opts h es n hn hrf hh hv ⟨entryFileWire h es, 0⟩ [] []
      (by simp only [List.nil_append, List.append_nil]) rfl
    unfold decodeFile
    rw [hr]
    simp only [List.length_nil, Nat.cast_zero, zero_add, entryFileValue]
  · obtain ⟨w, e, a⟩ := Wrote.w_entryFile opts m h es hh hv hwf hfind UWriter.new
      ⟨by decide, fun _ _ => rfl⟩
    unfold encodeFile
    rw [e]
    show some w.getBuffer = _
    rw [UWriter.getBuffer_appended _ w a]

/-- C1 (amended) at a file with the header `exHeader`, the IntProperty `Foo` and the
BoolProperty `Flag`. -/
theorem file_round_trip_witness :
    decodeFile {} 3 (entryFileWire exHeader [exFooData.toEntry, exFlagEntry]) =
      ⟨.ok (entryFileValue exHeader [exFooData.toEntry, exFlagEntry]),
        ⟨entryFileWire exHeader [exFooData.toEntry, exFlagEntry],
          (entryFileWire exHeader [exFooData.toEntry, exFlagEntry]).length⟩⟩ ∧
    encodeFile 1 (entryFileValue exHeader [exFooData.toEntry, exFlagEntry]) =
      some (entryFileWire exHeader [exFooData.toEntry, exFlagEntry]) :=
  file_round_trip {} exHeader [exFooData.toEntry, exFlagEntry] 3 1 (by decide)
    (by
      intro e he
      simp only [List.mem_cons, List.mem_singleton, List.not_mem_nil, or_false] at he
      rcases he with rfl | rfl <;> decide)
    (by
      intro e he
      simp only [List.mem_cons, List.mem_singleton, List.not_mem_nil, or_false] at he
      rcases he with rfl | rfl <;> decide)
    (by simp [HeaderData.valid, exHeader, fitsSigned, asciiStr])
    (by
      intro e he
      simp only [List.mem_cons, List.mem_singleton, List.not_mem_nil, or_false] at he
      rcases he with rfl | rfl
      · exact PropData.roundTrips {} exFooData
          ⟨⟨by decide, by decide⟩, by decide, by decide, ⟨by decide, by decide⟩,
            ⟨by decide, by decide⟩, by decide, by decide, by decide⟩
      · exact boolEntry_roundTrips {} (js "Flag") 0 1 ⟨by decide, by decide⟩ (by decide)
          (by decide) ⟨by decide, by decide⟩ (by decide) (by decide) (by decide))
    (by
      intro e he
      simp only [List.mem_cons, List.mem_singleton, List.not_mem_nil, or_false] at he
      rcases he with rfl | rfl <;> rfl)

end TQ2
